import Mathlib

/-!
# Tetris engine: board, piece and game state machine

A shallow embedding of `Board.js`, `Piece.js` and the scoring / hold / lock
part of `Game.js`, followed by theorems about it.

Conventions of the embedding

* A grid cell is a natural number: `0` is the empty marker of
  `createEmptyGrid`, any other value is a fill tag (the colour string that
  `Board.lockPiece` writes).  Both tests the source uses on a cell, truthiness
  (`if (grid[y][x])`) and `cell !== 0`, are `cell ≠ 0` here.
* The grid is the JS array of rows, top row first.  The source indexes it only
  inside `BOARD_HEIGHT` rows of `BOARD_WIDTH` cells; the embedding reads an
  index outside the list as the empty marker and ignores a write there, and the
  theorems carry the hypothesis `WellFormed` (H rows of W cells) under which
  every index the source touches is inside the list.
* Canvas drawing, sound, particles, storage and DOM updates do not act on the
  state modelled here and are left out.
* `Date.now()` and `Piece.getRandomType()` are inputs of the functions that
  call them.
-/

namespace Tetris

/-! ## Constants (`constants.js`) -/

/-- Modelled from the spec: `constants.js` is not among the sources; the spec
fixes the playfield width W = 10 (and `Game.js` hard-codes the same 10). -/
def BOARD_WIDTH : Nat := 10

/-- Modelled from the spec: `constants.js` is not among the sources; the spec
fixes the playfield height H = 20 (and `Game.js` hard-codes the same 20). -/
def BOARD_HEIGHT : Nat := 20

/-! ## Grid model (`Board.js`) -/

/-- A grid cell: `0` is empty, anything else is a fill tag. -/
abbrev Cell := Nat

/-- One row of the playfield. -/
abbrev Row := List Cell

/-- The playfield, `grid[y][x]`, row 0 on top. -/
abbrev Grid := List Row

/-- A rotation state of a piece: a matrix of occupancy flags, `shape[y][x]`. -/
abbrev Shape := List (List Bool)

/-- The read `grid[y][x]`. -/
def Grid.cell (grid : Grid) (y x : Nat) : Cell :=
  (grid.getD y []).getD x 0

/-- The write `grid[y][x] = v` for `y ≥ 0`; a negative column only adds a
named property to the JS row array and changes no cell. -/
def Grid.setCell (grid : Grid) (y : Nat) (x : Int) (v : Cell) : Grid :=
  if x < 0 then grid else grid.set y ((grid.getD y []).set x.toNat v)

/-- The read `piece[y][x]` of a shape matrix, as a truth value. -/
def Shape.occupied (piece : Shape) (y x : Nat) : Bool :=
  (piece.getD y []).getD x false

/-- The grid has `BOARD_HEIGHT` rows of `BOARD_WIDTH` cells. -/
def WellFormed (grid : Grid) : Prop :=
  grid.length = BOARD_HEIGHT ∧ ∀ row ∈ grid, row.length = BOARD_WIDTH

instance (grid : Grid) : Decidable (WellFormed grid) := by
  unfold WellFormed; infer_instance

/-- `Board.createEmptyGrid`. -/
def Board.createEmptyGrid : Grid :=
  List.replicate BOARD_HEIGHT (List.replicate BOARD_WIDTH 0)

/-- The condition of the `if` at `Board.js` lines 108-110, for the shape cell
`(y, x)` of a piece whose origin is `(pieceX, pieceY)`. -/
def Board.collides (grid : Grid) (pieceX pieceY : Int) (y x : Nat) : Bool :=
  let newX := pieceX + x
  let newY := pieceY + y
  decide (newX < 0) || decide (newX ≥ BOARD_WIDTH) ||
    decide (newY ≥ BOARD_HEIGHT) ||
    (decide (newY ≥ 0) && decide (grid.cell newY.toNat newX.toNat ≠ 0))

/-- `Board.isValidPosition(piece, pieceX, pieceY)`: the two `for` loops return
`false` at the first occupied shape cell that collides and `true` when they run
to the end. -/
def Board.isValidPosition (grid : Grid) (piece : Shape) (pieceX pieceY : Int) : Bool :=
  (List.range piece.length).all fun y =>
    (List.range (piece.getD y []).length).all fun x =>
      !(piece.occupied y x && Board.collides grid pieceX pieceY y x)

/-- `Board.lockPiece(piece, pieceX, pieceY, color)`: the two `for` loops write
`color` at every occupied shape cell whose board row is not negative. -/
def Board.lockPiece (grid : Grid) (piece : Shape) (pieceX pieceY : Int) (color : Cell) : Grid :=
  (List.range piece.length).foldl (fun g y =>
    (List.range (piece.getD y []).length).foldl (fun g x =>
      if piece.occupied y x then
        let boardY := pieceY + y
        let boardX := pieceX + x
        if boardY ≥ 0 then g.setCell boardY.toNat boardX color else g
      else g) g) grid

/-- The row test `row.every(cell => cell !== 0)`. -/
def isFullRow (row : Row) : Bool :=
  row.all fun cell => decide (cell ≠ 0)

/-- The row `Array(BOARD_WIDTH).fill(0)`. -/
def emptyRow : Row := List.replicate BOARD_WIDTH 0

/-- Number of full rows of a grid. -/
def countFull (grid : Grid) : Nat := grid.countP isFullRow

/-- The rows of a grid that are not full, in their order. -/
def nonFullRows (grid : Grid) : Grid := grid.filter fun row => !isFullRow row

/-- The loop of `Board.clearFullLines` from index `y` downwards, with
`linesCleared` rows removed so far.  A full row is spliced out and an empty row
is unshifted; the `y++` in the body undoes the `y--` of the loop header, so the
same index is examined again.  An index outside the array (a grid with fewer
than `BOARD_HEIGHT` rows, where the JS throws) ends the loop.  The recursion is
well founded: a removal lowers the number of full rows, any other step lowers
`y`. -/
def Board.clearFullLinesLoop (y : Int) (grid : Grid) (linesCleared : Nat) : Nat × Grid :=
  if _hy : y ≥ 0 then
    match hrow : grid[y.toNat]? with
    | none => (linesCleared, grid)
    | some row =>
      if hfull : isFullRow row = true then
        Board.clearFullLinesLoop (y + 1 - 1) (emptyRow :: grid.eraseIdx y.toNat)
          (linesCleared + 1)
      else
        Board.clearFullLinesLoop (y - 1) grid linesCleared
  else (linesCleared, grid)
termination_by (countFull grid, (y + 1).toNat)
decreasing_by
  · apply Prod.Lex.left
    have key : ∀ (g : Grid) (i : Nat), g[i]? = some row →
        countFull (g.eraseIdx i) + 1 = countFull g := by
      intro g
      induction g with
      | nil => intro i hi; simp at hi
      | cons r rest ih =>
        intro i hi
        cases i with
        | zero =>
          simp only [List.getElem?_cons_zero, Option.some.injEq] at hi
          subst hi
          simp [countFull, List.countP_cons, hfull]
        | succ j =>
          simp only [List.getElem?_cons_succ] at hi
          have h := ih j hi
          simp only [countFull, List.eraseIdx_cons_succ, List.countP_cons] at h ⊢
          omega
    have h := key grid y.toNat hrow
    have hempty : isFullRow emptyRow = false := by decide
    have h0 : countFull (emptyRow :: grid.eraseIdx y.toNat) =
        countFull (grid.eraseIdx y.toNat) := by
      simp [countFull, List.countP_cons, hempty]
    omega
  · apply Prod.Lex.right
    omega

/-- `Board.clearFullLines()`: returns the number of removed rows together with
the grid it leaves. -/
def Board.clearFullLines (grid : Grid) : Nat × Grid :=
  Board.clearFullLinesLoop ((BOARD_HEIGHT : Int) - 1) grid 0

/-- `Board.isGameOver()`: some cell of row 0 or row 1 is not empty. -/
def Board.isGameOver (grid : Grid) : Bool :=
  (grid.getD 0 []).any (fun cell => decide (cell ≠ 0)) ||
    (grid.getD 1 []).any (fun cell => decide (cell ≠ 0))

/-- `Board.reset()`. -/
def Board.reset : Grid := Board.createEmptyGrid

/-! ## Pieces (`Piece.js`) -/

/-- The seven tetromino kinds, the keys of `TETROMINOS`. -/
inductive PieceType where
  | I | O | T | S | Z | J | L
  deriving DecidableEq, Repr

/-- The tables of `constants.js` whose contents neither the sources nor the
spec give; every function that reads one takes them as a parameter. -/
structure Constants where
  /-- The table `TETROMINOS[type]`: the rotation states of a kind. -/
  TETROMINOS : PieceType → List Shape
  /-- The table `COLORS[type]`: the fill tag of a kind. -/
  COLORS : PieceType → Cell
  /-- The table `LEVEL_SPEEDS`: drop interval in ms of level 1, 2, ... -/
  LEVEL_SPEEDS : List Nat
  /-- The constant `POINTS.SOFT_DROP`. -/
  POINTS_SOFT_DROP : Nat
  /-- The constant `POINTS.HARD_DROP`. -/
  POINTS_HARD_DROP : Nat

/-- Modelled from the spec: `constants.js` is not among the sources; the spec
gives the scoring table 0, 100, 300, 500, 800 for 0..4 lines
(`POINTS.SINGLE`). -/
def POINTS_SINGLE : Nat := 100

/-- Modelled from the spec: second entry of the spec's scoring table
(`POINTS.DOUBLE`; `constants.js` is not among the sources). -/
def POINTS_DOUBLE : Nat := 300

/-- Modelled from the spec: third entry of the spec's scoring table
(`POINTS.TRIPLE`; `constants.js` is not among the sources). -/
def POINTS_TRIPLE : Nat := 500

/-- Modelled from the spec: fourth entry of the spec's scoring table
(`POINTS.TETRIS`; `constants.js` is not among the sources). -/
def POINTS_TETRIS : Nat := 800

/-- The fields of a `Piece` object. -/
structure Piece where
  type : PieceType
  color : Cell
  shapes : List Shape
  rotation : Nat
  x : Int
  y : Int
  deriving DecidableEq, Repr

/-- `Piece.getCurrentShape()`: `this.shapes[this.rotation]`. -/
def Piece.getCurrentShape (p : Piece) : Shape :=
  p.shapes.getD p.rotation []

/-- The width `shape[0].length` of a shape matrix. -/
def Shape.width (shape : Shape) : Nat :=
  (shape.getD 0 []).length

/-- The constructor `new Piece(type)`: rotation 0, horizontally centred,
`y = 0`. -/
def Piece.create (K : Constants) (type : PieceType) : Piece :=
  { type := type
    color := K.COLORS type
    shapes := K.TETROMINOS type
    rotation := 0
    x := ((BOARD_WIDTH : Int) - (((K.TETROMINOS type).getD 0 []).width : Int)) / 2
    y := 0 }

/-- `Piece.move(dx, dy)`. -/
def Piece.move (p : Piece) (dx dy : Int) : Piece :=
  { p with x := p.x + dx, y := p.y + dy }

/-! ## Game state (`Game.js`) -/

/-- The three values of `gameState`. -/
inductive GameState where
  | playing | paused | gameover
  deriving DecidableEq, Repr

/-- The entries of the AI move queue (`{ type: ... }`). -/
inductive AIMove where
  | left | right | rotate | drop | hold
  deriving DecidableEq, Repr

/-- The object `bestMove` / `currentPlan` of the AI. -/
structure AIPlan where
  rotation : Nat
  x : Int
  y : Int
  score : ℚ
  deriving DecidableEq

/-- The object `weights` of the AI; the JS decimals are taken as exact
rationals. -/
structure Weights where
  height : ℚ
  holes : ℚ
  bumpiness : ℚ
  lines : ℚ
  wells : ℚ
  blockades : ℚ
  heightDifference : ℚ
  centerHeight : ℚ
  edgeTouch : ℚ
  floorTouch : ℚ
  tSpinPotential : ℚ
  perfectClear : ℚ
  deriving DecidableEq

/-- The weights that the constructor of `TetrisAI` sets. -/
def TetrisAI.initialWeights : Weights :=
  { height := -0.510066
    holes := -0.35663
    bumpiness := -0.184483
    lines := 0.760666
    wells := -0.35663
    blockades := -0.5
    heightDifference := -0.2
    centerHeight := -0.1
    edgeTouch := 0.05
    floorTouch := 0.1
    tSpinPotential := 0.3
    perfectClear := 10.0 }

/-- The fields of `TetrisAI`; the default values are those of its
constructor. -/
structure AIState where
  enabled : Bool
  currentPlan : Option AIPlan
  moveQueue : List AIMove
  isExecuting : Bool
  moveDelay : Int := 50
  lastMoveTime : Int := 0
  lastThinkTime : Int := 0
  thinkDelay : Int := 100
  weights : Weights := TetrisAI.initialWeights
  thinkingDepth : Nat := 2
  deriving DecidableEq

/-- `TetrisAI.disable()`. -/
def TetrisAI.disable (ai : AIState) : AIState :=
  { ai with enabled := false, currentPlan := none, moveQueue := [], isExecuting := false }

/-- The fields of `Game` that the state machine reads and writes; `grid` is
`this.board.grid`, `lastTime` is the frame time kept by `gameLoop`. -/
structure Game where
  grid : Grid
  currentPiece : Piece
  nextPieces : List Piece
  holdPiece : Option Piece
  canHold : Bool
  score : Nat
  lines : Nat
  level : Nat
  dropCounter : ℚ
  dropInterval : Nat
  combo : Nat
  lastClearTime : Int
  pieceCount : Nat
  actionCount : Nat
  gameState : GameState
  ai : AIState
  lastTime : ℚ := 0
  deriving DecidableEq

/-- `Game.gameOver()`: a no-op when the phase is already `gameover`; otherwise
the phase becomes `gameover` and an enabled AI is disabled. -/
def Game.gameOver (s : Game) : Game :=
  if s.gameState = GameState.gameover then s
  else
    { s with
      gameState := GameState.gameover
      ai := if s.ai.enabled then TetrisAI.disable s.ai else s.ai }

/-- `Game.movePiece(dx, dy)`: the new state and the returned flag. -/
def Game.movePiece (s : Game) (dx dy : Int) : Game × Bool :=
  let moved := s.currentPiece.move dx dy
  if !Board.isValidPosition s.grid moved.getCurrentShape moved.x moved.y then
    ({ s with currentPiece := moved.move (-dx) (-dy) }, false)
  else
    ({ s with currentPiece := moved }, true)

/-- `Game.isTSpin()`: the 3-of-4 corner test on the current piece. -/
def Game.isTSpin (s : Game) : Bool :=
  if s.currentPiece.type ≠ PieceType.T then false
  else
    let corners : List (Int × Int) := [(0, 0), (2, 0), (0, 2), (2, 2)]
    let filledCorners : Nat := corners.foldl (fun n d =>
      let x := s.currentPiece.x + d.1
      let y := s.currentPiece.y + d.2
      if x < 0 ∨ x ≥ 10 ∨ y ≥ 20 ∨ (y ≥ 0 ∧ s.grid.cell y.toNat x.toNat ≠ 0) then n + 1
      else n) 0
    decide (filledCorners ≥ 3)

/-- The array `points` of `Game.updateScore`. -/
def pointsTable : List Nat :=
  [0, POINTS_SINGLE, POINTS_DOUBLE, POINTS_TRIPLE, POINTS_TETRIS]

/-- The value of `basePoints` when `Game.updateScore` reaches the line
`this.score += Math.floor(basePoints)`.  The JS numbers involved are integers
and halves of integers, which doubles hold exactly (below 2^53), so the
arithmetic is that of the rationals.  `points[linesCleared]` is read inside the
table (`linesCleared ≤ 4`); beyond it the JS reads `undefined` and the score
becomes `NaN`, where this definition reads 0. -/
def Game.basePoints (s : Game) (linesCleared : Nat) (wasTSpin : Bool) : ℚ :=
  let basePoints : ℚ := (pointsTable.getD linesCleared 0 : ℚ) * (s.level : ℚ)
  let basePoints : ℚ := if wasTSpin then basePoints * 2 else basePoints
  if s.combo > 0 then basePoints * (1 + (s.combo : ℚ) * 0.5) else basePoints

/-- `Game.updateScore(linesCleared, wasTSpin)`. -/
def Game.updateScore (K : Constants) (s : Game) (linesCleared : Nat) (wasTSpin : Bool) : Game :=
  let lines := s.lines + linesCleared
  let score := s.score + ⌊Game.basePoints s linesCleared wasTSpin⌋₊
  let newLevel := lines / 10 + 1
  if newLevel ≠ s.level ∧ newLevel < K.LEVEL_SPEEDS.length then
    { s with
      lines := lines
      score := score
      level := newLevel
      dropInterval := K.LEVEL_SPEEDS.getD (newLevel - 1) 0 }
  else
    { s with lines := lines, score := score }

/-- `Game.updateCombo(linesCleared)`, with the value `now` of `Date.now()`. -/
def Game.updateCombo (s : Game) (now : Int) : Game :=
  if now - s.lastClearTime < 3000 then
    { s with combo := s.combo + 1, lastClearTime := now }
  else
    { s with combo := 0, lastClearTime := now }

/-- Lines 394-401 of `Game.lockPiece`: clear the full rows of the grid, then
either score the clear and update the combo (in this order, with the value
`now` of `Date.now()`), or reset the combo when nothing was cleared.  The
T-spin test runs on the grid that `clearFullLines` has left. -/
def Game.clearAndScore (K : Constants) (now : Int) (s : Game) : Game :=
  let cleared := Board.clearFullLines s.grid
  let linesCleared := cleared.1
  let afterClear : Game := { s with grid := cleared.2 }
  if linesCleared > 0 then
    let wasTSpin := Game.isTSpin afterClear
    Game.updateCombo (Game.updateScore K afterClear linesCleared wasTSpin) now
  else
    { afterClear with combo := 0 }

/-- Lines 403-410 of `Game.lockPiece`: dequeue the next piece, push a new piece
of the kind `newType` drawn by `Piece.getRandomType()`, and end the game when
the dequeued piece does not fit.  `none` is the `TypeError` of the source when
the queue is empty. -/
def Game.spawnNext (K : Constants) (newType : PieceType) (s : Game) : Option Game :=
  match s.nextPieces with
  | [] => none
  | p :: rest =>
    let next : Game :=
      { s with currentPiece := p, nextPieces := rest ++ [Piece.create K newType] }
    if !Board.isValidPosition next.grid next.currentPiece.getCurrentShape
        next.currentPiece.x next.currentPiece.y then
      some (Game.gameOver next)
    else some next

/-- The grid after line 355-360 of `Game.lockPiece`: the current piece
committed to the grid. -/
def Game.lockedGrid (s : Game) : Grid :=
  Board.lockPiece s.grid s.currentPiece.getCurrentShape s.currentPiece.x s.currentPiece.y
    s.currentPiece.color

/-- `Game.lockPiece()`: game over when the origin row is negative; commit the
piece; game over when a buffer row (0 or 1) is occupied (the inline test of
lines 363-364 is the expression of `Board.isGameOver`); count the piece and
re-enable hold; then `clearAndScore` and `spawnNext`. -/
def Game.lockPiece (K : Constants) (now : Int) (newType : PieceType) (s : Game) : Option Game :=
  if s.currentPiece.y < 0 then some (Game.gameOver s)
  else
    let locked : Game := { s with grid := Game.lockedGrid s }
    if Board.isGameOver locked.grid then some (Game.gameOver locked)
    else
      let counted : Game := { locked with pieceCount := locked.pieceCount + 1, canHold := true }
      Game.spawnNext K newType (Game.clearAndScore K now counted)

/-- `Game.holdCurrentPiece()`, with the kind `newType` drawn by
`Piece.getRandomType()` when the queue is refilled.  `none` is the `TypeError`
of the source when nothing is held and the queue is empty. -/
def Game.holdCurrentPiece (K : Constants) (newType : PieceType) (s : Game) : Option Game :=
  if !s.canHold then some s
  else
    let swapped : Option Game :=
      match s.holdPiece with
      | none =>
        match s.nextPieces with
        | [] => none
        | p :: rest =>
          some { s with
            holdPiece := some s.currentPiece
            currentPiece := p
            nextPieces := rest ++ [Piece.create K newType] }
      | some held =>
        some { s with currentPiece := held, holdPiece := some s.currentPiece }
    swapped.map fun t =>
      { t with
        currentPiece :=
          { t.currentPiece with
            x := ((10 : Int) - (t.currentPiece.getCurrentShape.width : Int)) / 2
            y := 0 }
        canHold := false }

/-- `n` successive calls `movePiece(dx, dy)` (key presses or gravity steps),
keeping the state each call leaves. -/
def Game.movePieceTimes (s : Game) (dx dy : Int) : Nat → Game
  | 0 => s
  | n + 1 => Game.movePieceTimes (s.movePiece dx dy).1 dx dy n

/-! ## Rotation, ghost row, hard drop and the action surface -/

/-- `Piece.rotate(direction)`: `(rotation + direction + length) % length`, the
JS remainder (sign of the dividend).  The callers pass `1` or `-1`, for which
the dividend is not negative. -/
def Piece.rotate (p : Piece) (direction : Int) : Piece :=
  { p with
    rotation :=
      (Int.tmod ((p.rotation : Int) + direction + (p.shapes.length : Int))
        (p.shapes.length : Int)).toNat }

/-- The `while` loop of `Piece.getGhostY` from the row `ghostY`.  The loop of
the source has no bound (it never ends on a shape without an occupied cell), so
the iterations are counted by `fuel`; `none` is fuel running out. -/
def Piece.getGhostYLoop (grid : Grid) (p : Piece) : Nat → Int → Option Int
  | 0, _ => none
  | fuel + 1, ghostY =>
    if Board.isValidPosition grid p.getCurrentShape p.x (ghostY + 1) then
      Piece.getGhostYLoop grid p fuel (ghostY + 1)
    else some ghostY

/-- `Piece.getGhostY(board)`. -/
def Piece.getGhostY (fuel : Nat) (grid : Grid) (p : Piece) : Option Int :=
  Piece.getGhostYLoop grid p fuel p.y

/-- `Piece.hardDrop(board)`: the piece it leaves and the returned drop
distance; `getGhostY` is called twice, as in the source. -/
def Piece.hardDrop (fuel : Nat) (grid : Grid) (p : Piece) : Option (Piece × Int) :=
  match Piece.getGhostY fuel grid p with
  | none => none
  | some ghost =>
    let dropDistance := ghost - p.y
    match Piece.getGhostY fuel grid p with
    | none => none
    | some ghost2 => some ({ p with y := ghost2 }, dropDistance)

/-- `Game.getWallKicks(pieceType, fromRotation, toRotation)`. -/
def Game.getWallKicks (pieceType : PieceType) (_fromRotation _toRotation : Nat) :
    List (Int × Int) :=
  if pieceType = PieceType.I then [(0, 0), (-2, 0), (1, 0), (-2, -1), (1, 2)]
  else [(0, 0), (-1, 0), (1, 0), (0, -1), (-1, -1), (1, -1)]

/-- The `for` loop of `Game.rotatePiece` over the kick offsets: each offset is
added to the piece, the loop returns `true` at the first valid position, and
otherwise subtracts the offset again.  The result is the piece as the loop
leaves it and whether it returned `true`. -/
def Game.kickLoop (grid : Grid) : Piece → List (Int × Int) → Piece × Bool
  | piece, [] => (piece, false)
  | piece, (dx, dy) :: kicks =>
    let moved : Piece := { piece with x := piece.x + dx, y := piece.y + dy }
    if Board.isValidPosition grid moved.getCurrentShape moved.x moved.y then (moved, true)
    else Game.kickLoop grid { moved with x := moved.x - dx, y := moved.y - dy } kicks

/-- `Game.rotatePiece(direction)`: the new state and the returned flag. -/
def Game.rotatePiece (s : Game) (direction : Int) : Game × Bool :=
  let originalRotation := s.currentPiece.rotation
  let rotated := s.currentPiece.rotate direction
  let kicks := Game.getWallKicks rotated.type originalRotation rotated.rotation
  let looped := Game.kickLoop s.grid rotated kicks
  if looped.2 then ({ s with currentPiece := looped.1 }, true)
  else ({ s with currentPiece := { looped.1 with rotation := originalRotation } }, false)

/-- What one call reads from outside the program: the iteration budget of the
ghost-row loop, the value of `Date.now()` and the kind drawn by
`Piece.getRandomType()`. -/
structure Env where
  fuel : Nat
  now : Int
  newType : PieceType

/-- `Game.hardDrop()`: drop the piece to its ghost row, add the hard-drop
points, lock.  `none` when the ghost loop runs out of fuel or `lockPiece` has
no result. -/
def Game.hardDrop (K : Constants) (env : Env) (s : Game) : Option Game :=
  match Piece.hardDrop env.fuel s.grid s.currentPiece with
  | none => none
  | some (piece, dropDistance) =>
    Game.lockPiece K env.now env.newType
      { s with
        currentPiece := piece
        score := s.score + dropDistance.toNat * K.POINTS_HARD_DROP }

/-- The keys that `Game.handleKeyPress` distinguishes; `other` is any other
key. -/
inductive Key where
  | ArrowLeft | ArrowRight | ArrowDown | ArrowUp | x | X | z | Z | space | c | C | other
  deriving DecidableEq, Repr

/-- `Game.handleKeyPress(key)`. -/
def Game.handleKeyPress (K : Constants) (env : Env) (key : Key) (s : Game) : Option Game :=
  let s : Game := if !s.ai.enabled then { s with actionCount := s.actionCount + 1 } else s
  match key with
  | Key.ArrowLeft => some (s.movePiece (-1) 0).1
  | Key.ArrowRight => some (s.movePiece 1 0).1
  | Key.ArrowDown =>
    let moved := s.movePiece 0 1
    if moved.2 then some { moved.1 with score := moved.1.score + K.POINTS_SOFT_DROP }
    else some moved.1
  | Key.ArrowUp => some (s.rotatePiece 1).1
  | Key.x => some (s.rotatePiece 1).1
  | Key.X => some (s.rotatePiece 1).1
  | Key.z => some (s.rotatePiece (-1)).1
  | Key.Z => some (s.rotatePiece (-1)).1
  | Key.space => Game.hardDrop K env s
  | Key.c => Game.holdCurrentPiece K env.newType s
  | Key.C => Game.holdCurrentPiece K env.newType s
  | Key.other => some s

/-- The part of `TetrisAI.planNextMove()` that runs at once: `isExecuting`
becomes true.  The planning itself is in a `setTimeout` callback, which runs
after the current call has returned. -/
def TetrisAI.planNextMove (ai : AIState) : AIState :=
  if ai.isExecuting then ai else { ai with isExecuting := true }

/-- `TetrisAI.executeNextMove()`: take the first queued move and send it
through `Game.handleKeyPress`. -/
def TetrisAI.executeNextMove (K : Constants) (env : Env) (s : Game) : Option Game :=
  match s.ai.moveQueue with
  | [] => some { s with ai := { s.ai with isExecuting := false } }
  | move :: rest =>
    let s : Game := { s with ai := { s.ai with moveQueue := rest } }
    match move with
    | AIMove.left => Game.handleKeyPress K env Key.ArrowLeft s
    | AIMove.right => Game.handleKeyPress K env Key.ArrowRight s
    | AIMove.rotate => Game.handleKeyPress K env Key.ArrowUp s
    | AIMove.drop =>
      (Game.handleKeyPress K env Key.space s).map fun t =>
        { t with ai := { t.ai with isExecuting := false } }
    | AIMove.hold =>
      (Game.handleKeyPress K env Key.c s).map fun t =>
        { t with ai := { t.ai with isExecuting := false } }

/-- What one frame reads from outside the program: `Date.now()` in
`TetrisAI.update`, the readings of the action the AI dispatches, and the
readings of the lock that gravity may cause. -/
structure TickEnv where
  aiNow : Int
  aiEnv : Env
  dropEnv : Env

/-- `TetrisAI.update()`. -/
def TetrisAI.update (K : Constants) (env : TickEnv) (s : Game) : Option Game :=
  if !s.ai.enabled || decide (s.gameState ≠ GameState.playing) then some s
  else
    let now := env.aiNow
    let s : Game :=
      if !s.ai.isExecuting && decide (now - s.ai.lastThinkTime ≥ s.ai.thinkDelay) then
        { s with ai := { TetrisAI.planNextMove s.ai with lastThinkTime := now } }
      else s
    if decide (s.ai.moveQueue.length > 0) && decide (now - s.ai.lastMoveTime ≥ s.ai.moveDelay) then
      (TetrisAI.executeNextMove K env.aiEnv s).map fun t =>
        { t with ai := { t.ai with lastMoveTime := now } }
    else some s

/-- `Game.update(deltaTime)`. -/
def Game.update (K : Constants) (env : TickEnv) (deltaTime : ℚ) (s : Game) : Option Game :=
  if s.gameState ≠ GameState.playing then some s
  else
    match (if s.ai.enabled then TetrisAI.update K env s else some s) with
    | none => none
    | some s =>
      let s : Game := { s with dropCounter := s.dropCounter + deltaTime }
      if s.dropCounter > (s.dropInterval : ℚ) then
        let moved := s.movePiece 0 1
        if !moved.2 then
          (Game.lockPiece K env.dropEnv.now env.dropEnv.newType moved.1).map fun t =>
            { t with dropCounter := 0 }
        else some { moved.1 with dropCounter := 0 }
      else some s

/-- `Game.gameLoop(time)`: one frame.  Rendering does not act on the state and
`requestAnimationFrame` only schedules the next frame. -/
def Game.gameLoop (K : Constants) (env : TickEnv) (time : ℚ) (s : Game) : Option Game :=
  if s.gameState = GameState.gameover then some s
  else
    let deltaTime := time - s.lastTime
    Game.update K env deltaTime { s with lastTime := time }

/-- `Game.togglePause()`, with the value `perfNow` of `performance.now()`;
resuming runs `gameLoop()` (time 0) before it returns. -/
def Game.togglePause (K : Constants) (env : TickEnv) (perfNow : ℚ) (s : Game) : Option Game :=
  if s.gameState = GameState.playing then some { s with gameState := GameState.paused }
  else if s.gameState = GameState.paused then
    Game.gameLoop K env 0 { s with gameState := GameState.playing, lastTime := perfNow }
  else some s

/-- The fields that `Game.restart()` assigns, before it calls `gameLoop()`:
`t0` is the kind drawn for the current piece, `t1 t2 t3` those of the queue,
`perfNow` the value of `performance.now()`. -/
def Game.restartFields (K : Constants) (t0 t1 t2 t3 : PieceType) (perfNow : ℚ) (s : Game) :
    Game :=
  { s with
    grid := Board.reset
    currentPiece := Piece.create K t0
    nextPieces := [Piece.create K t1, Piece.create K t2, Piece.create K t3]
    holdPiece := none
    canHold := true
    score := 0
    lines := 0
    level := 1
    dropCounter := 0
    dropInterval := K.LEVEL_SPEEDS.getD 0 0
    lastTime := perfNow
    combo := 0
    lastClearTime := 0
    pieceCount := 0
    actionCount := 0
    gameState := GameState.playing
    ai := if s.ai.enabled then { s.ai with moveQueue := [], isExecuting := false } else s.ai }

/-- `Game.restart()`: the assignments, then `gameLoop()` (time 0). -/
def Game.restart (K : Constants) (env : TickEnv) (t0 t1 t2 t3 : PieceType) (perfNow : ℚ)
    (s : Game) : Option Game :=
  Game.gameLoop K env 0 (Game.restartFields K t0 t1 t2 t3 perfNow s)

/-- The state that the constructor of `Game` and the first lines of `init()`
build, before `init()` calls `gameLoop()`. -/
def Game.initialFields (K : Constants) (t0 t1 t2 t3 : PieceType) : Game :=
  { grid := Board.createEmptyGrid
    currentPiece := Piece.create K t0
    nextPieces := [Piece.create K t1, Piece.create K t2, Piece.create K t3]
    holdPiece := none
    canHold := true
    score := 0
    lines := 0
    level := 1
    dropCounter := 0
    dropInterval := K.LEVEL_SPEEDS.getD 0 0
    lastTime := 0
    combo := 0
    lastClearTime := 0
    pieceCount := 0
    actionCount := 0
    gameState := GameState.playing
    ai := { enabled := false, currentPlan := none, moveQueue := [], isExecuting := false } }

/-- `new Game()`: the constructor, `init()` and its call of `gameLoop()`. -/
def Game.init (K : Constants) (env : TickEnv) (t0 t1 t2 t3 : PieceType) : Option Game :=
  Game.gameLoop K env 0 (Game.initialFields K t0 t1 t2 t3)

/-! ## Numbers of the language (IEEE 754 binary64)

A JS number that is finite is a rational; it is modelled by its value.  The
result of an arithmetic operation is the exact result rounded to the nearest
binary64 number, the one with the even significand when two are equally near.
Overflow is not modelled: the definitions give what JS gives as long as no
result reaches `2 ^ 1024` in magnitude. -/

/-- The loop of `Float64.log2`: halve `n` until it is below 2, at most `fuel`
times. -/
def Float64.bitLengthLoop : Nat → Nat → Nat
  | 0, _ => 0
  | fuel + 1, n => if n < 2 then 0 else Float64.bitLengthLoop fuel (n / 2) + 1

/-- The position of the leading bit of `n ≥ 1`: the `k` with
`2 ^ k ≤ n < 2 ^ (k + 1)`. -/
def Float64.log2 (n : Nat) : Nat := Float64.bitLengthLoop n n

/-- The power `2 ^ k` for an integer `k`. -/
def Float64.pow2 (k : Int) : ℚ :=
  if 0 ≤ k then ((2 ^ k.toNat : Nat) : ℚ) else 1 / ((2 ^ (-k).toNat : Nat) : ℚ)

/-- The binary exponent of a non-zero number: the `e` with
`2 ^ e ≤ |q| < 2 ^ (e + 1)`. -/
def Float64.exponent (q : ℚ) : Int :=
  let a : Int := (Float64.log2 q.num.natAbs : Int) - (Float64.log2 q.den : Int)
  if Float64.pow2 a ≤ |q| then a else a - 1

/-- The integer nearest to `x`; the even one when two are equally near. -/
def Float64.roundHalfEven (x : ℚ) : Int :=
  let f := ⌊x⌋
  let r := x - (f : ℚ)
  if r < 1 / 2 then f
  else if 1 / 2 < r then f + 1
  else if f % 2 = 0 then f
  else f + 1

/-- The binary64 number nearest to `q` (round to nearest, ties to even): with
`e` the binary exponent of `q`, the multiple of `2 ^ (e - 52)` nearest to `q`
(53 significant bits), and the multiple of `2 ^ (-1074)` below the normal
range. -/
def Float64.round (q : ℚ) : ℚ :=
  if q = 0 then 0
  else
    let k := max (Float64.exponent q - 52) (-1074)
    (Float64.roundHalfEven (q / Float64.pow2 k) : ℚ) * Float64.pow2 k

/-- The sum `a + b` of two JS numbers. -/
def Float64.add (a b : ℚ) : ℚ := Float64.round (a + b)

/-- The product `a * b` of two JS numbers. -/
def Float64.mul (a b : ℚ) : ℚ := Float64.round (a * b)

/-- The quotient `a / b` of two JS numbers, `b` not zero. -/
def Float64.div (a b : ℚ) : ℚ := Float64.round (a / b)

/-! ## Placement search (`TetrisAI.js`)

The search reads the grid, the piece and the queue it is given and works on
copies (`cloneGrid`, `clonePiece`); as the embedding passes values, the copies
are the values themselves.  Scores are JS numbers: every product and every sum
is rounded to binary64, in the order in which the source computes them.  The
weights are kept as the decimals of the source text; the number that JS holds
for a decimal is its rounding, which is taken where a weight is read
(`TetrisAI.setDifficulty` scales a weight as a decimal; the product that JS
holds can differ from the rounding of that decimal in the last bit).  The
features are integers and halves of integers, which binary64 holds exactly. -/

/-- `TetrisAI.canPlace(shape, x, y, grid)`. -/
def TetrisAI.canPlace (shape : Shape) (x y : Int) (grid : Grid) : Bool :=
  (List.range shape.length).all fun py =>
    (List.range (shape.getD py []).length).all fun px =>
      if !shape.occupied py px then true
      else
        let boardX := x + px
        let boardY := y + py
        if boardX < 0 ∨ boardX ≥ BOARD_WIDTH ∨ boardY ≥ BOARD_HEIGHT then false
        else if boardY ≥ 0 ∧ grid.cell boardY.toNat boardX.toNat ≠ 0 then false
        else true

/-- The `while (y < BOARD_HEIGHT)` loop of `TetrisAI.findLandingY` from the row
`y`, with `remaining = BOARD_HEIGHT - y` iterations left; `none` is the `null`
returned when the loop ends. -/
def TetrisAI.findLandingYLoop (shape : Shape) (x : Int) (grid : Grid) : Nat → Nat → Option Nat
  | 0, _ => none
  | remaining + 1, y =>
    if !TetrisAI.canPlace shape x ((y : Int) + 1) grid then some y
    else TetrisAI.findLandingYLoop shape x grid remaining (y + 1)

/-- `TetrisAI.findLandingY(piece, board)`. -/
def TetrisAI.findLandingY (piece : Piece) (grid : Grid) : Option Nat :=
  TetrisAI.findLandingYLoop piece.getCurrentShape piece.x grid BOARD_HEIGHT 0

/-- `TetrisAI.isValidPlacement(piece, board)`. -/
def TetrisAI.isValidPlacement (piece : Piece) (grid : Grid) : Bool :=
  TetrisAI.canPlace piece.getCurrentShape piece.x piece.y grid

/-- `TetrisAI.placePiece(grid, piece)`: writes the colour at the occupied cells
that lie inside the grid. -/
def TetrisAI.placePiece (grid : Grid) (piece : Piece) : Grid :=
  (List.range piece.getCurrentShape.length).foldl (fun g y =>
    (List.range (piece.getCurrentShape.getD y []).length).foldl (fun g x =>
      if piece.getCurrentShape.occupied y x then
        let boardY := piece.y + y
        let boardX := piece.x + x
        if boardY ≥ 0 ∧ boardY < BOARD_HEIGHT ∧ boardX ≥ 0 ∧ boardX < BOARD_WIDTH then
          g.setCell boardY.toNat boardX piece.color
        else g
      else g) g) grid

/-- The loop of `TetrisAI.clearLines`, the copy of the loop of
`Board.clearFullLines` in the AI. -/
def TetrisAI.clearLinesLoop (y : Int) (grid : Grid) (linesCleared : Nat) : Nat × Grid :=
  if _hy : y ≥ 0 then
    match hrow : grid[y.toNat]? with
    | none => (linesCleared, grid)
    | some row =>
      if hfull : isFullRow row = true then
        TetrisAI.clearLinesLoop (y + 1 - 1) (emptyRow :: grid.eraseIdx y.toNat)
          (linesCleared + 1)
      else
        TetrisAI.clearLinesLoop (y - 1) grid linesCleared
  else (linesCleared, grid)
termination_by (countFull grid, (y + 1).toNat)
decreasing_by
  · apply Prod.Lex.left
    have key : ∀ (g : Grid) (i : Nat), g[i]? = some row →
        countFull (g.eraseIdx i) + 1 = countFull g := by
      intro g
      induction g with
      | nil => intro i hi; simp at hi
      | cons r rest ih =>
        intro i hi
        cases i with
        | zero =>
          simp only [List.getElem?_cons_zero, Option.some.injEq] at hi
          subst hi
          simp [countFull, List.countP_cons, hfull]
        | succ j =>
          simp only [List.getElem?_cons_succ] at hi
          have h := ih j hi
          simp only [countFull, List.eraseIdx_cons_succ, List.countP_cons] at h ⊢
          omega
    have h := key grid y.toNat hrow
    have hempty : isFullRow emptyRow = false := by decide
    have h0 : countFull (emptyRow :: grid.eraseIdx y.toNat) =
        countFull (grid.eraseIdx y.toNat) := by
      simp [countFull, List.countP_cons, hempty]
    omega
  · apply Prod.Lex.right
    omega

/-- `TetrisAI.clearLines(grid)`: the number of removed rows and the grid it
leaves. -/
def TetrisAI.clearLines (grid : Grid) : Nat × Grid :=
  TetrisAI.clearLinesLoop ((BOARD_HEIGHT : Int) - 1) grid 0

/-- `TetrisAI.getColumnHeights(grid)`: for each column, `BOARD_HEIGHT - y` at
the first filled row `y`, or 0. -/
def TetrisAI.getColumnHeights (grid : Grid) : List Nat :=
  (List.range BOARD_WIDTH).map fun x =>
    match (List.range BOARD_HEIGHT).find? (fun y => decide (grid.cell y x ≠ 0)) with
    | some y => BOARD_HEIGHT - y
    | none => 0

/-- `TetrisAI.getMaxHeight(grid)`: `BOARD_HEIGHT - y` at the first row `y` that
holds a filled cell, or 0. -/
def TetrisAI.getMaxHeight (grid : Grid) : Nat :=
  match (List.range BOARD_HEIGHT).find? (fun y =>
      (List.range BOARD_WIDTH).any fun x => decide (grid.cell y x ≠ 0)) with
  | some y => BOARD_HEIGHT - y
  | none => 0

/-- `TetrisAI.countHoles(grid)`: per column, scanning downwards, the empty
cells met after a filled one. -/
def TetrisAI.countHoles (grid : Grid) : Nat :=
  (List.range BOARD_WIDTH).foldl (fun holes x =>
    ((List.range BOARD_HEIGHT).foldl (fun (st : Bool × Nat) y =>
      if grid.cell y x ≠ 0 then (true, st.2)
      else if st.1 then (st.1, st.2 + 1)
      else st) (false, holes)).2) 0

/-- `TetrisAI.calculateBumpiness(heights)`. -/
def TetrisAI.calculateBumpiness (heights : List Nat) : Nat :=
  (List.range (heights.length - 1)).foldl (fun bumpiness i =>
    bumpiness + ((heights.getD i 0 : Int) - (heights.getD (i + 1) 0 : Int)).natAbs) 0

/-- `TetrisAI.countWells(grid)`. -/
def TetrisAI.countWells (grid : Grid) : Nat :=
  let heights := TetrisAI.getColumnHeights grid
  (List.range BOARD_WIDTH).foldl (fun wells x =>
    let left := if x = 0 then BOARD_HEIGHT else heights.getD (x - 1) 0
    let right := if x = BOARD_WIDTH - 1 then BOARD_HEIGHT else heights.getD (x + 1) 0
    let center := heights.getD x 0
    if center < left ∧ center < right then wells + (min left right - center) else wells) 0

/-- `TetrisAI.countBlockades(grid)`: per column, scanning upwards from the
bottom row. -/
def TetrisAI.countBlockades (grid : Grid) : Nat :=
  (List.range BOARD_WIDTH).foldl (fun blockades x =>
    ((List.range BOARD_HEIGHT).reverse.foldl (fun (st : Bool × Nat) y =>
      if grid.cell y x = 0 ∧ y < BOARD_HEIGHT - 1 ∧ grid.cell (y + 1) x ≠ 0 then (true, st.2)
      else if grid.cell y x ≠ 0 ∧ st.1 = true then (st.1, st.2 + 1)
      else st) (false, blockades)).2) 0

/-- `TetrisAI.countEdgeTouching(grid)`. -/
def TetrisAI.countEdgeTouching (grid : Grid) : Nat :=
  (List.range BOARD_HEIGHT).foldl (fun count y =>
    let count := if grid.cell y 0 ≠ 0 then count + 1 else count
    if grid.cell y (BOARD_WIDTH - 1) ≠ 0 then count + 1 else count) 0

/-- `TetrisAI.countFloorTouching(grid)`. -/
def TetrisAI.countFloorTouching (grid : Grid) : Nat :=
  (List.range BOARD_WIDTH).foldl (fun count x =>
    if grid.cell (BOARD_HEIGHT - 1) x ≠ 0 then count + 1 else count) 0

/-- `TetrisAI.isPerfectClear(grid)`. -/
def TetrisAI.isPerfectClear (grid : Grid) : Bool :=
  (List.range BOARD_HEIGHT).all fun y =>
    (List.range BOARD_WIDTH).all fun x => decide (grid.cell y x = 0)

/-- The object that `TetrisAI.calculateMetrics` returns. -/
structure Metrics where
  aggregateHeight : Nat
  holes : Nat
  bumpiness : Nat
  wells : Nat
  blockades : Nat
  heightDifference : Nat
  centerHeight : ℚ
  edgeTouch : Nat
  floorTouch : Nat

/-- `TetrisAI.calculateMetrics(grid)`.  `heights` has `BOARD_WIDTH` entries, so
`Math.max(...heights)` and `Math.min(...heights)` are taken over a non-empty
list of naturals. -/
def TetrisAI.calculateMetrics (grid : Grid) : Metrics :=
  let heights := TetrisAI.getColumnHeights grid
  { aggregateHeight := heights.foldl (fun a b => a + b) 0
    holes := TetrisAI.countHoles grid
    bumpiness := TetrisAI.calculateBumpiness heights
    wells := TetrisAI.countWells grid
    blockades := TetrisAI.countBlockades grid
    heightDifference := heights.foldl max 0 - heights.foldl min (heights.headD 0)
    centerHeight := ((heights.getD 4 0 : ℚ) + (heights.getD 5 0 : ℚ)) / 2
    edgeTouch := TetrisAI.countEdgeTouching grid
    floorTouch := TetrisAI.countFloorTouching grid }

/-- `TetrisAI.quickEvaluateNextPiece(grid, nextPiece)`. -/
def TetrisAI.quickEvaluateNextPiece (grid : Grid) (nextPiece : Piece) : ℚ :=
  let heights := TetrisAI.getColumnHeights grid
  let avgHeight : ℚ :=
    Float64.div ((heights.foldl (fun a b => a + b) 0 : Nat) : ℚ) (heights.length : ℚ)
  if nextPiece.type = PieceType.I ∧ avgHeight > 10 then 5
  else if nextPiece.type = PieceType.O ∧ avgHeight < 5 then -2
  else 0

/-- `TetrisAI.evaluatePlacement(piece, board, nextPieces)`: every `score += w * m`
is a product rounded to binary64 added to the score, the sum rounded again. -/
def TetrisAI.evaluatePlacement (ai : AIState) (piece : Piece) (grid : Grid)
    (nextPieces : List Piece) : ℚ :=
  let placed := TetrisAI.placePiece grid piece
  let cleared := TetrisAI.clearLines placed
  let linesCleared := cleared.1
  let tempGrid := cleared.2
  let metrics := TetrisAI.calculateMetrics tempGrid
  let weights := ai.weights
  let score : ℚ := 0
  let score := Float64.add score
    (Float64.mul (Float64.round weights.height) (metrics.aggregateHeight : ℚ))
  let score := Float64.add score (Float64.mul (Float64.round weights.holes) (metrics.holes : ℚ))
  let score := Float64.add score
    (Float64.mul (Float64.round weights.bumpiness) (metrics.bumpiness : ℚ))
  let score := Float64.add score (Float64.mul (Float64.round weights.lines) (linesCleared : ℚ))
  let score := Float64.add score (Float64.mul (Float64.round weights.wells) (metrics.wells : ℚ))
  let score := Float64.add score
    (Float64.mul (Float64.round weights.blockades) (metrics.blockades : ℚ))
  let score := Float64.add score
    (Float64.mul (Float64.round weights.heightDifference) (metrics.heightDifference : ℚ))
  let score := Float64.add score
    (Float64.mul (Float64.round weights.centerHeight) metrics.centerHeight)
  let score := Float64.add score
    (Float64.mul (Float64.round weights.edgeTouch) (metrics.edgeTouch : ℚ))
  let score := Float64.add score
    (Float64.mul (Float64.round weights.floorTouch) (metrics.floorTouch : ℚ))
  let score :=
    if TetrisAI.isPerfectClear tempGrid then
      Float64.add score (Float64.round weights.perfectClear)
    else score
  match nextPieces with
  | [] => score
  | nextPiece :: _ =>
    if ai.thinkingDepth > 1 then
      Float64.add score
        (Float64.mul (TetrisAI.quickEvaluateNextPiece tempGrid nextPiece) (Float64.round 0.2))
    else score

/-- The variables `bestScore`, `bestMove` and `evaluations` of
`TetrisAI.findBestPlacement`; `bestScore = none` is `-Infinity`. -/
structure SearchState where
  bestScore : Option ℚ
  bestMove : Option AIPlan
  evaluations : Nat

/-- The body of the inner loop of `TetrisAI.findBestPlacement` after the
`break` test, for the rotation state `rotation` and the column `x`. -/
def TetrisAI.tryPlacement (ai : AIState) (piece : Piece) (grid : Grid)
    (nextPieces : List Piece) (rotation : Nat) (x : Int) (st : SearchState) : SearchState :=
  let testPiece : Piece := { piece with rotation := rotation, x := x, y := 0 }
  match TetrisAI.findLandingY testPiece grid with
  | none => st
  | some landingY =>
    let testPiece : Piece := { testPiece with y := (landingY : Int) }
    if !TetrisAI.isValidPlacement testPiece grid then st
    else
      let score := TetrisAI.evaluatePlacement ai testPiece grid nextPieces
      let evaluations := st.evaluations + 1
      let better : Bool :=
        match st.bestScore with
        | none => true
        | some best => decide (score > best)
      if better then
        { bestScore := some score
          bestMove := some { rotation := rotation, x := x, y := (landingY : Int), score := score }
          evaluations := evaluations }
      else { st with evaluations := evaluations }

/-- The inner loop of `TetrisAI.findBestPlacement` over the columns still to
try, with its `break` once `maxEvaluations = 200` placements are evaluated. -/
def TetrisAI.columnLoop (ai : AIState) (piece : Piece) (grid : Grid)
    (nextPieces : List Piece) (rotation : Nat) : List Int → SearchState → SearchState
  | [], st => st
  | x :: xs, st =>
    if st.evaluations ≥ 200 then st
    else
      TetrisAI.columnLoop ai piece grid nextPieces rotation xs
        (TetrisAI.tryPlacement ai piece grid nextPieces rotation x st)

/-- The columns `x = -2, ..., BOARD_WIDTH + 1` of the inner loop. -/
def TetrisAI.searchColumns : List Int :=
  (List.range (BOARD_WIDTH + 4)).map fun i => (i : Int) - 2

/-- `TetrisAI.findBestPlacement(piece, board, nextPieces)`; `none` is
`null`. -/
def TetrisAI.findBestPlacement (ai : AIState) (piece : Piece) (grid : Grid)
    (nextPieces : List Piece) : Option AIPlan :=
  ((List.range piece.shapes.length).foldl (fun st rotation =>
    TetrisAI.columnLoop ai piece grid nextPieces rotation TetrisAI.searchColumns st)
    { bestScore := none, bestMove := none, evaluations := 0 }).bestMove

/-! ## A concrete game

A stack of `k` rows at the bottom of the grid, each filled except for its two
leftmost cells, and square pieces: a square dropped into the two free columns
completes two rows. -/

/-- The 2 x 2 square. -/
def squareShape : Shape := [[true, true], [true, true]]

/-- A square piece as `new Piece('O')` builds it: four equal rotation states,
centred at `x = 4`, `y = 0`; its fill tag is 2. -/
def squarePiece : Piece :=
  { type := PieceType.O
    color := 2
    shapes := [squareShape, squareShape, squareShape, squareShape]
    rotation := 0
    x := 4
    y := 0 }

/-- A row whose two leftmost cells are empty and whose other eight cells carry
the tag 1. -/
def nearlyFullRow : Row := [0, 0, 1, 1, 1, 1, 1, 1, 1, 1]

/-- The grid with `k` nearly full rows at the bottom and empty rows above. -/
def stackGrid (k : Nat) : Grid :=
  List.replicate (BOARD_HEIGHT - k) emptyRow ++ List.replicate k nearlyFullRow

/-- A playing state at level 1 with combo 0 and no clear so far: six nearly
full rows, a square resting in the two free columns on the floor, three squares
queued. -/
def comboStart : Game :=
  { grid := stackGrid 6
    currentPiece := { squarePiece with x := 0, y := 18 }
    nextPieces := [squarePiece, squarePiece, squarePiece]
    holdPiece := none
    canHold := true
    score := 0
    lines := 0
    level := 1
    dropCounter := 0
    dropInterval := 1000
    combo := 0
    lastClearTime := 0
    pieceCount := 12
    actionCount := 0
    gameState := GameState.playing
    ai := { enabled := false, currentPlan := none, moveQueue := [], isExecuting := false } }

/-- Four shifts to the left followed by eighteen one-row drops: the moves that
bring a freshly spawned square into the two free columns, down to the floor. -/
def slideIntoGap (s : Game) : Game :=
  (s.movePieceTimes (-1) 0 4).movePieceTimes 0 1 18

/-- The state the first lock leaves. -/
def afterFirstClear (K : Constants) (k1 : PieceType) : Game :=
  { comboStart with
    grid := stackGrid 4
    currentPiece := squarePiece
    nextPieces := [squarePiece, squarePiece, Piece.create K k1]
    pieceCount := 13
    lines := 2
    score := 300
    combo := 0
    lastClearTime := 100000 }

/-- The state the second lock leaves. -/
def afterSecondClear (K : Constants) (k1 k2 : PieceType) : Game :=
  { comboStart with
    grid := stackGrid 2
    currentPiece := squarePiece
    nextPieces := [squarePiece, Piece.create K k1, Piece.create K k2]
    pieceCount := 14
    lines := 4
    score := 600
    combo := 1
    lastClearTime := 101000 }

/-- The state the third lock leaves. -/
def afterThirdClear (K : Constants) (k1 k2 k3 : PieceType) : Game :=
  { comboStart with
    grid := stackGrid 0
    currentPiece := squarePiece
    nextPieces := [Piece.create K k1, Piece.create K k2, Piece.create K k3]
    pieceCount := 15
    lines := 6
    score := 1050
    combo := 0
    lastClearTime := 106000 }

/-! ## Sample tables

`constants.js` is not among the sources.  The tables below are a sample of what
it may hold (the usual seven tetrominoes, each with its four quarter turns);
they are used only to state theorems at a concrete input. -/

/-- A quarter turn of a shape matrix to the right. -/
def Shape.quarterTurn (shape : Shape) : Shape :=
  (List.range shape.width).map fun i =>
    (List.range shape.length).map fun j => shape.occupied (shape.length - 1 - j) i

/-- The four rotation states generated by a base matrix. -/
def rotationStates (base : Shape) : List Shape :=
  [base, base.quarterTurn, base.quarterTurn.quarterTurn,
    base.quarterTurn.quarterTurn.quarterTurn]

/-- A sample `TETROMINOS` table. -/
def sampleTetrominos : PieceType → List Shape
  | PieceType.I => rotationStates
      [[false, false, false, false], [true, true, true, true],
        [false, false, false, false], [false, false, false, false]]
  | PieceType.O => rotationStates [[true, true], [true, true]]
  | PieceType.T => rotationStates
      [[false, true, false], [true, true, true], [false, false, false]]
  | PieceType.S => rotationStates
      [[false, true, true], [true, true, false], [false, false, false]]
  | PieceType.Z => rotationStates
      [[true, true, false], [false, true, true], [false, false, false]]
  | PieceType.J => rotationStates
      [[true, false, false], [true, true, true], [false, false, false]]
  | PieceType.L => rotationStates
      [[false, false, true], [true, true, true], [false, false, false]]

/-- Sample constants: the sample shapes, fill tags 1..7, ten drop intervals,
one point per soft-drop row and two per hard-drop row. -/
def sampleConstants : Constants :=
  { TETROMINOS := sampleTetrominos
    COLORS := fun t =>
      match t with
      | PieceType.I => 1
      | PieceType.O => 2
      | PieceType.T => 3
      | PieceType.S => 4
      | PieceType.Z => 5
      | PieceType.J => 6
      | PieceType.L => 7
    LEVEL_SPEEDS := [1000, 900, 800, 700, 600, 500, 400, 300, 200, 100]
    POINTS_SOFT_DROP := 1
    POINTS_HARD_DROP := 2 }

/-- The grid of `comboStart` once its square is committed: rows 18 and 19 are
full. -/
def twoFullRowsGrid : Grid := Board.lockPiece (stackGrid 6) squareShape 0 18 2

/-! ## Notions used to state the properties of the action surface and the search -/

/-- A cell that counts as blocked in the T-spin test: its column is outside
`[0, 10)`, or its row is `≥ 20`, or its row is `≥ 0` and the grid cell there is
not empty. -/
def blockedCorner (grid : Grid) (x y : Int) : Bool :=
  decide (x < 0 ∨ x ≥ 10 ∨ y ≥ 20 ∨ (y ≥ 0 ∧ grid.cell y.toNat x.toNat ≠ 0))

/-- What every operation other than pause and restart keeps: the length of the
queue, and the phase unless it moves to `gameover`. -/
def Game.Step (s t : Game) : Prop :=
  t.nextPieces.length = s.nextPieces.length ∧
    (t.gameState = s.gameState ∨ t.gameState = GameState.gameover)

/-- A sequence of key presses, each with the readings it makes, sent one after
the other through `Game.handleKeyPress`. -/
def Game.handleKeys (K : Constants) : List (Env × Key) → Game → Option Game
  | [], s => some s
  | (env, key) :: rest, s =>
    match Game.handleKeyPress K env key s with
    | none => none
    | some t => Game.handleKeys K rest t

/-- The states that a run of the program passes through: built by
`Game.init` or `Game.restart`, then any sequence of key presses, frames and
pause toggles; between two of these the AI object may be replaced (enabling,
disabling, a difficulty change or the end of planning write its fields
only). -/
inductive Reachable (K : Constants) : Game → Prop where
  | init (env : TickEnv) (t0 t1 t2 t3 : PieceType) (s : Game) :
      Game.init K env t0 t1 t2 t3 = some s → Reachable K s
  | restart (env : TickEnv) (t0 t1 t2 t3 : PieceType) (perfNow : ℚ) (s t : Game) :
      Game.restart K env t0 t1 t2 t3 perfNow s = some t → Reachable K t
  | key (env : Env) (key : Key) (s t : Game) :
      Reachable K s → Game.handleKeyPress K env key s = some t → Reachable K t
  | tick (env : TickEnv) (time : ℚ) (s t : Game) :
      Reachable K s → Game.gameLoop K env time s = some t → Reachable K t
  | pause (env : TickEnv) (perfNow : ℚ) (s t : Game) :
      Reachable K s → Game.togglePause K env perfNow s = some t → Reachable K t
  | ai (s : Game) (ai : AIState) : Reachable K s → Reachable K { s with ai := ai }

/-- A paused game: 18 nearly full rows, so that only the two buffer rows are
free under the square at its spawn position, and an enabled AI with a hard drop
queued. -/
def pausedBeforeDrop : Game :=
  { grid := stackGrid 18
    currentPiece := squarePiece
    nextPieces := [squarePiece, squarePiece, squarePiece]
    holdPiece := none
    canHold := true
    score := 0
    lines := 0
    level := 1
    dropCounter := 0
    dropInterval := 1000
    combo := 0
    lastClearTime := 0
    pieceCount := 36
    actionCount := 0
    gameState := GameState.paused
    ai := { enabled := true, currentPlan := none, moveQueue := [AIMove.drop], isExecuting := true } }

/-- The readings of one frame: `Date.now()` is 1000 and the kind drawn is T. -/
def resumeEnv : TickEnv :=
  { aiNow := 1000
    aiEnv := { fuel := 21, now := 1000, newType := PieceType.T }
    dropEnv := { fuel := 21, now := 1000, newType := PieceType.T } }

/-- The state `pausedBeforeDrop` as `Game.togglePause` and `Game.gameLoop` hand
it to `Game.update`. -/
def resumedBeforeDrop : Game :=
  { pausedBeforeDrop with gameState := GameState.playing, lastTime := 0 }

/-- The state that `new Game()` leaves with the sample tables when the four
kinds drawn are T, O, I and L. -/
def freshGame : Game :=
  { Game.initialFields sampleConstants PieceType.T PieceType.O PieceType.I PieceType.L with
    dropCounter := 0 + (0 - 0) }

/-- A T piece of the sample tables in free space: the state of `comboStart`
with an empty grid and the T piece at row 5. -/
def rotateStart : Game :=
  { comboStart with
    grid := Board.createEmptyGrid
    currentPiece := { Piece.create sampleConstants PieceType.T with y := 5 } }

/-- An enabled AI with the initial weights and nothing planned. -/
def sampleAI : AIState :=
  { enabled := true, currentPlan := none, moveQueue := [], isExecuting := false }

/-- The placement that the pair `(rotation, x)` stands for in
`TetrisAI.findBestPlacement`: the landing row found for the piece in that
rotation state and column, when there is one and the piece is placeable
there, with the score of the placement; `none` when the pair is skipped. -/
def TetrisAI.candidate (ai : AIState) (piece : Piece) (grid : Grid) (nextPieces : List Piece)
    (rx : Nat × Int) : Option AIPlan :=
  let testPiece : Piece := { piece with rotation := rx.1, x := rx.2, y := 0 }
  match TetrisAI.findLandingY testPiece grid with
  | none => none
  | some landingY =>
    let testPiece : Piece := { testPiece with y := (landingY : Int) }
    if TetrisAI.isValidPlacement testPiece grid then
      some { rotation := rx.1, x := rx.2, y := (landingY : Int),
             score := TetrisAI.evaluatePlacement ai testPiece grid nextPieces }
    else none

/-- The pairs `(rotation, x)` in the order in which the two loops of
`TetrisAI.findBestPlacement` visit them. -/
def TetrisAI.searchPairs (piece : Piece) : List (Nat × Int) :=
  (List.range piece.shapes.length).flatMap fun rotation =>
    TetrisAI.searchColumns.map fun x => (rotation, x)

/-- What the search has found after the pairs `pre`: nothing when none of them
has a candidate, else the first candidate of maximal score. -/
def TetrisAI.BestOf (cand : Nat × Int → Option AIPlan) (pre : List (Nat × Int))
    (best : Option AIPlan) : Prop :=
  match best with
  | none => ∀ q ∈ pre, cand q = none
  | some m =>
    ∃ l1 rx l2, pre = l1 ++ rx :: l2 ∧ cand rx = some m ∧
      (∀ q ∈ l1, ∀ c, cand q = some c → c.score < m.score) ∧
      (∀ q ∈ l2, ∀ c, cand q = some c → c.score ≤ m.score)

/-- The loop invariant of the search after the pairs `pre`. -/
def TetrisAI.SearchInv (cand : Nat × Int → Option AIPlan) (pre : List (Nat × Int))
    (st : SearchState) : Prop :=
  st.evaluations ≤ pre.length ∧ st.bestScore = st.bestMove.map AIPlan.score ∧
    TetrisAI.BestOf cand pre st.bestMove

/-! ## Move sequence and difficulty profiles (`TetrisAI.js`) -/

/-- The queue that `TetrisAI.generateMoveSequence` builds from the rotation and
column of the current piece and of the plan: `min(rotationDiff, 3)` rotations
(none when that is negative), then `min(|xDiff|, 15)` shifts towards the target
column, then the drop. -/
def TetrisAI.moveSequence (currentRotation targetRotation currentX targetX : Int) :
    List AIMove :=
  let rotationDiff := targetRotation - currentRotation
  let rotationDiff := if rotationDiff < 0 then rotationDiff + 4 else rotationDiff
  let rotations := List.replicate (min rotationDiff 3).toNat AIMove.rotate
  let xDiff := targetX - currentX
  let maxMoves : Int := 15
  let shifts :=
    if xDiff > 0 then List.replicate (min xDiff maxMoves).toNat AIMove.right
    else if xDiff < 0 then List.replicate (min (abs xDiff) maxMoves).toNat AIMove.left
    else []
  rotations ++ shifts ++ [AIMove.drop]

/-- `TetrisAI.generateMoveSequence(bestMove)`: the queue is replaced by the
sequence for the current piece of the game and the plan. -/
def TetrisAI.generateMoveSequence (s : Game) (bestMove : AIPlan) : Game :=
  let moveQueue := TetrisAI.moveSequence (s.currentPiece.rotation : Int)
    (bestMove.rotation : Int) s.currentPiece.x bestMove.x
  { s with ai := { s.ai with moveQueue := moveQueue } }

/-- The argument of `TetrisAI.setDifficulty`; `other` is any string that is
none of the four names. -/
inductive Difficulty where
  | easy | medium | hard | impossible | other
  deriving DecidableEq, Repr

/-- The weights that `setDifficulty('impossible')` assigns. -/
def TetrisAI.impossibleWeights : Weights :=
  { height := -0.510066
    holes := -0.35663
    bumpiness := -0.184483
    lines := 0.960666
    wells := -0.35663
    blockades := -0.5
    heightDifference := -0.2
    centerHeight := -0.1
    edgeTouch := 0.05
    floorTouch := 0.1
    tSpinPotential := 0.5
    perfectClear := 15.0 }

/-- `TetrisAI.setDifficulty(level)`. -/
def TetrisAI.setDifficulty (level : Difficulty) (ai : AIState) : AIState :=
  match level with
  | Difficulty.easy =>
    { ai with
      moveDelay := 150
      thinkDelay := 200
      thinkingDepth := 0
      weights := { ai.weights with lines := ai.weights.lines * 0.8 } }
  | Difficulty.medium => { ai with moveDelay := 100, thinkDelay := 150, thinkingDepth := 1 }
  | Difficulty.hard => { ai with moveDelay := 50, thinkDelay := 100, thinkingDepth := 1 }
  | Difficulty.impossible =>
    { ai with
      moveDelay := 30
      thinkDelay := 50
      thinkingDepth := 2
      weights := TetrisAI.impossibleWeights }
  | Difficulty.other => ai

/-! ## Planning (`TetrisAI.js`) -/

/-- `TetrisAI.enable()`. -/
def TetrisAI.enable (ai : AIState) : AIState :=
  { ai with enabled := true }

/-- `TetrisAI.hasTSpinOpportunity()`: some cell `(y, x)` with `y < H - 2` and
`1 ≤ x < W - 1` is empty between two filled cells and above a filled cell whose
two neighbours are empty. -/
def TetrisAI.hasTSpinOpportunity (grid : Grid) : Bool :=
  (List.range (BOARD_HEIGHT - 2)).any fun y =>
    ((List.range (BOARD_WIDTH - 1)).drop 1).any fun x =>
      decide (grid.cell y x = 0) && decide (grid.cell y (x - 1) ≠ 0) &&
        decide (grid.cell y (x + 1) ≠ 0) && decide (grid.cell (y + 1) x ≠ 0) &&
        decide (grid.cell (y + 1) (x - 1) = 0) && decide (grid.cell (y + 1) (x + 1) = 0)

/-- `TetrisAI.evaluatePiece(piece)`, on the grid of the game. -/
def TetrisAI.evaluatePiece (grid : Grid) (piece : Piece) : Int :=
  let boardHeight := TetrisAI.getMaxHeight grid
  if piece.type = PieceType.I then (if boardHeight > 12 then 5 else 0)
  else if piece.type = PieceType.O then -1
  else if piece.type = PieceType.T then (if TetrisAI.hasTSpinOpportunity grid then 3 else 1)
  else 0

/-- `TetrisAI.shouldUseHold()`. -/
def TetrisAI.shouldUseHold (s : Game) : Bool :=
  if !s.canHold then false
  else
    let currentScore := TetrisAI.evaluatePiece s.grid s.currentPiece
    match s.holdPiece with
    | some held =>
      let holdScore := TetrisAI.evaluatePiece s.grid held
      decide (holdScore > currentScore + 2)
    | none =>
      match s.nextPieces with
      | next :: _ =>
        let nextScore := TetrisAI.evaluatePiece s.grid next
        decide (currentScore < -2) && decide (nextScore > currentScore)
      | [] => false

/-- The callback that `TetrisAI.planNextMove` hands to `setTimeout`; it runs
between two frames, on the state the game has then. -/
def TetrisAI.planNextMoveCallback (s : Game) : Game :=
  if TetrisAI.shouldUseHold s && s.canHold then
    { s with ai := { s.ai with moveQueue := s.ai.moveQueue ++ [AIMove.hold] } }
  else
    match TetrisAI.findBestPlacement s.ai s.currentPiece s.grid s.nextPieces with
    | some bestMove => TetrisAI.generateMoveSequence s bestMove
    | none => { s with ai := { s.ai with isExecuting := false } }

/-! ## States used to exhibit the search, the metrics and the reset -/

/-- The grid that the S piece of the sample tables leaves when it is placed
flat on the floor of the empty grid at `x = 0`: the cell `(19, 2)` under its
right end is a hole in the bottom row. -/
def floorHoleGrid : Grid :=
  List.replicate 18 emptyRow ++
    [[0, 4, 4, 0, 0, 0, 0, 0, 0, 0], [4, 4, 0, 0, 0, 0, 0, 0, 0, 0]]

/-- A grid in which the T piece at `(0, 17)` completes row 18: the corners
`(2, 17)`, `(0, 19)` and `(2, 19)` of its box are filled, the cells `(0, 16)`
and `(2, 16)` above are empty. -/
def tSpinGrid : Grid :=
  List.replicate 17 emptyRow ++
    [[0, 0, 1, 0, 0, 0, 0, 0, 0, 0],
     [0, 0, 0, 1, 1, 1, 1, 1, 1, 1],
     [1, 0, 1, 1, 1, 1, 1, 1, 1, 1]]

/-- The state `comboStart` with the grid `tSpinGrid` and the T piece of the
sample tables resting at `(0, 17)`. -/
def tSpinState : Game :=
  { comboStart with
    grid := tSpinGrid
    currentPiece := { Piece.create sampleConstants PieceType.T with x := 0, y := 17 } }

/-- The spec's notion of a hole: an empty cell with a filled cell somewhere
above it in its column. -/
def isHole (grid : Grid) (y x : Nat) : Bool :=
  decide (grid.cell y x = 0) && (List.range y).any fun above => decide (grid.cell above x ≠ 0)

/-- The spec's notion of the blockade count: the filled cells that have at
least one hole below them in their column. -/
def blockadesBySpec (grid : Grid) : Nat :=
  ((List.range BOARD_WIDTH).map fun x =>
    (List.range BOARD_HEIGHT).countP fun y =>
      decide (grid.cell y x ≠ 0) &&
        (List.range BOARD_HEIGHT).any fun below => decide (y < below) && isHole grid below x).sum

/-- The state after the AI of `freshGame` has been switched on with the
profile `hard` (the click handler calls `enable` and `setDifficulty`). -/
def aiSwitchedOn : Game :=
  { freshGame with
    ai := TetrisAI.setDifficulty Difficulty.hard (TetrisAI.enable freshGame.ai) }

/-- The state after the AI of a state has been switched off. -/
def Game.aiSwitchedOff (s : Game) : Game :=
  { s with ai := TetrisAI.disable s.ai }

/-- The state one frame after `aiSwitchedOn` (frame time 16, `Date.now()` =
1000): the AI has started to plan, the callback has not run yet. -/
def thinkingGame : Game :=
  { aiSwitchedOn with
    lastTime := 16
    dropCounter := 16
    ai := { aiSwitchedOn.ai with isExecuting := true, lastThinkTime := 1000 } }

/-- The state after the AI of `thinkingGame` has been switched off and the
planning callback has then run. -/
def staleQueueGame : Game :=
  TetrisAI.planNextMoveCallback (Game.aiSwitchedOff thinkingGame)

/-- The I piece as `new Piece('I')` builds it from the sample tables. -/
def iPiece : Piece := Piece.create sampleConstants PieceType.I

/-- The grid that a plan leaves: the piece committed in the rotation state and
at the position of the plan, full rows removed (the grid on which
`TetrisAI.evaluatePlacement` computes the features). -/
def TetrisAI.resultGrid (piece : Piece) (grid : Grid) (m : AIPlan) : Grid :=
  (TetrisAI.clearLines
    (TetrisAI.placePiece grid { piece with rotation := m.rotation, x := m.x, y := m.y })).2

/-- The last step of `TetrisAI.evaluatePlacement`, the one that reads the
queue: `score += nextPieceScore * 0.2` for the first queued piece when the
search depth is above 1, and the score as it is otherwise. -/
def TetrisAI.lookahead (ai : AIState) (tempGrid : Grid) (nextPieces : List Piece)
    (score : ℚ) : ℚ :=
  match nextPieces with
  | [] => score
  | nextPiece :: _ =>
    if ai.thinkingDepth > 1 then
      Float64.add score
        (Float64.mul (TetrisAI.quickEvaluateNextPiece tempGrid nextPiece) (Float64.round 0.2))
    else score

/-- Whether every placement of the I piece in the rotation state `rotation` on
the empty grid that the search accepts leaves column heights that sum to 4. -/
def iPlacementsHeightFour (rotation : Nat) : Bool :=
  TetrisAI.searchColumns.all fun x =>
    match TetrisAI.findLandingY { iPiece with rotation := rotation, x := x, y := 0 }
        Board.createEmptyGrid with
    | none => true
    | some landingY =>
      !TetrisAI.isValidPlacement
          { iPiece with rotation := rotation, x := x, y := (landingY : Int) }
          Board.createEmptyGrid ||
        decide ((TetrisAI.getColumnHeights (TetrisAI.clearLines
          (TetrisAI.placePiece Board.createEmptyGrid
            { iPiece with rotation := rotation, x := x, y := (landingY : Int) })).2).foldl
              (fun a b => a + b) 0 = 4)

/-- The plan `m` with its score replaced by `g score`. -/
def AIPlan.mapScore (g : ℚ → ℚ) (m : AIPlan) : AIPlan :=
  { m with score := g m.score }

/-- The value of `TetrisAI.lookahead` at search depth 2 on a grid whose column
heights sum to 4: the average height 0.4 is below 5 and not above 10, so only a
queued O piece counts. -/
def lookaheadAtHeightFour (nextPieces : List Piece) (score : ℚ) : ℚ :=
  match nextPieces with
  | [] => score
  | nextPiece :: _ =>
    Float64.add score
      (Float64.mul (if nextPiece.type = PieceType.O then -2 else 0) (Float64.round 0.2))

/-! ## The score in exact arithmetic, and a board on which it ties -/

/-- The score of a placement as the spec words it, in exact arithmetic: the
sum of the weighted features of the grid left by the placement, the weight of
the lines times the number of cleared lines, the weight `perfectClear` when
that grid is all empty, and `0.2 * quickEvaluateNextPiece` for the first
queued piece when the search depth is above 1 (the average height of
`quickEvaluateNextPiece` being the exact quotient). -/
def TetrisAI.scoreBySpec (ai : AIState) (piece : Piece) (grid : Grid)
    (nextPieces : List Piece) : ℚ :=
  let tempGrid := (TetrisAI.clearLines (TetrisAI.placePiece grid piece)).2
  let linesCleared := (TetrisAI.clearLines (TetrisAI.placePiece grid piece)).1
  let metrics := TetrisAI.calculateMetrics tempGrid
  let avgHeight : ℚ := (metrics.aggregateHeight : ℚ) / (BOARD_WIDTH : ℚ)
  ai.weights.height * (metrics.aggregateHeight : ℚ) +
    ai.weights.holes * (metrics.holes : ℚ) +
    ai.weights.bumpiness * (metrics.bumpiness : ℚ) +
    ai.weights.wells * (metrics.wells : ℚ) +
    ai.weights.blockades * (metrics.blockades : ℚ) +
    ai.weights.heightDifference * (metrics.heightDifference : ℚ) +
    ai.weights.centerHeight * metrics.centerHeight +
    ai.weights.edgeTouch * (metrics.edgeTouch : ℚ) +
    ai.weights.floorTouch * (metrics.floorTouch : ℚ) +
    ai.weights.lines * (linesCleared : ℚ) +
    (if TetrisAI.isPerfectClear tempGrid then ai.weights.perfectClear else 0) +
    (match nextPieces with
      | [] => 0
      | nextPiece :: _ =>
        if ai.thinkingDepth > 1 then
          0.2 * (if nextPiece.type = PieceType.I ∧ avgHeight > 10 then 5
            else if nextPiece.type = PieceType.O ∧ avgHeight < 5 then -2
            else 0)
        else 0)

/-- The weights of the AI object, in the order of the source. -/
def Weights.toList (w : Weights) : List ℚ :=
  [w.height, w.holes, w.bumpiness, w.lines, w.wells, w.blockades, w.heightDifference,
    w.centerHeight, w.edgeTouch, w.floorTouch, w.tSpinPotential, w.perfectClear]

/-- No weight exceeds `2 ^ 200` in magnitude.  The features are at most 200,
so no product and no partial sum of `TetrisAI.evaluatePlacement` comes near
`2 ^ 1024`: the score is computed without overflow. -/
def Weights.InRange (w : Weights) : Prop :=
  ∀ x ∈ w.toList, |x| ≤ ((2 ^ 200 : Nat) : ℚ)

instance (w : Weights) : Decidable w.InRange := by
  unfold Weights.InRange; infer_instance

/-- The O piece as `new Piece('O')` builds it from the sample tables. -/
def oPiece : Piece := Piece.create sampleConstants PieceType.O

/-- The board that the AI reaches by its own play when the first three pieces
are L, Z and L (default weights, sample tables): the first L lies on the floor
at the right wall, the Z stands on it, the second L lies on the floor at the
left wall. -/
def tieGrid : Grid :=
  List.replicate 16 emptyRow ++
    [[0, 0, 0, 0, 0, 0, 0, 0, 0, 5],
      [0, 0, 0, 0, 0, 0, 0, 0, 5, 5],
      [0, 0, 7, 0, 0, 0, 0, 0, 5, 7],
      [7, 7, 7, 0, 0, 0, 0, 7, 7, 7]]

/-! ## The search on a heap (`TetrisAI.js`)

The definitions above pass grids and pieces as values.  To follow which arrays
and objects the search writes, this section runs `TetrisAI.evaluatePlacement`
and `TetrisAI.findBestPlacement` on a heap: a row array `grid[y]`, a grid (an
array of rows) and a piece object are each an address, and every assignment of
the source is a write at an address.  Reads (`findLandingY`, `canPlace`,
`isValidPlacement`, the metrics) are the functions above on the values read. -/

/-- The heap: the row arrays, the grids (arrays of row addresses) and the piece
objects, each list indexed by address. -/
structure Heap where
  rows : List Row
  grids : List (List Nat)
  pieces : List Piece

/-- The value of the grid at address `g`: its rows, read through their
addresses. -/
def Heap.grid (h : Heap) (g : Nat) : Grid :=
  (h.grids.getD g []).map fun a => h.rows.getD a []

/-- `TetrisAI.cloneGrid(grid)`, `grid.map(row => [...row])`: a new row array
per row and a new array holding them; returns its address. -/
def Heap.cloneGrid (h : Heap) (g : Nat) : Heap × Nat :=
  let copies := h.grid g
  ({ h with
      rows := h.rows ++ copies
      grids := h.grids ++ [List.range' h.rows.length copies.length] },
    h.grids.length)

/-- `TetrisAI.clonePiece(piece)`: a new object with the fields of the piece at
address `p`; returns its address.  `none` when there is no object at `p`. -/
def Heap.clonePiece (h : Heap) (p : Nat) : Option (Heap × Nat) :=
  match h.pieces[p]? with
  | none => none
  | some piece => some ({ h with pieces := h.pieces ++ [piece] }, h.pieces.length)

/-- An assignment to fields of the piece object at address `p`. -/
def Heap.assignPiece (h : Heap) (p : Nat) (f : Piece → Piece) : Option Heap :=
  match h.pieces[p]? with
  | none => none
  | some piece => some { h with pieces := h.pieces.set p (f piece) }

/-- The assignment `grid[y][x] = v` on the grid at address `g`; `none` is the
`TypeError` when `grid[y]` is undefined. -/
def Heap.writeCell (h : Heap) (g y : Nat) (x : Int) (v : Cell) : Option Heap :=
  match (h.grids.getD g [])[y]? with
  | none => none
  | some a =>
    match h.rows[a]? with
    | none => none
    | some row =>
      some { h with rows := h.rows.set a (if x < 0 then row else row.set x.toNat v) }

/-- `TetrisAI.placePiece(grid, piece)` on the grid at address `g` and the piece
object at address `p`. -/
def Heap.placePiece (h : Heap) (g p : Nat) : Option Heap :=
  match h.pieces[p]? with
  | none => none
  | some piece =>
    (List.range piece.getCurrentShape.length).foldl (fun acc y =>
      (List.range (piece.getCurrentShape.getD y []).length).foldl (fun acc x =>
        match acc with
        | none => none
        | some h =>
          if piece.getCurrentShape.occupied y x then
            let boardY := piece.y + y
            let boardX := piece.x + x
            if boardY ≥ 0 ∧ boardY < BOARD_HEIGHT ∧ boardX ≥ 0 ∧ boardX < BOARD_WIDTH then
              h.writeCell g boardY.toNat boardX piece.color
            else some h
          else some h) acc) (some h)

/-- The heap after `grid.splice(y, 1)` and
`grid.unshift(new Array(BOARD_WIDTH).fill(0))` on the grid at address `g`. -/
def Heap.spliceUnshift (h : Heap) (g y : Nat) : Heap :=
  { h with
    rows := h.rows ++ [emptyRow]
    grids := h.grids.set g (h.rows.length :: (h.grids.getD g []).eraseIdx y) }

/-- The loop of `TetrisAI.clearLines` on the grid at address `g`, from index
`y` downwards; `none` is the `TypeError` when `grid[y]` is undefined.  The
recursion is well founded as that of `TetrisAI.clearLinesLoop`: the row put on
top is a new, empty array. -/
def Heap.clearLinesLoop (y : Int) (h : Heap) (g : Nat) (linesCleared : Nat) :
    Option (Heap × Nat) :=
  if _hy : y ≥ 0 then
    match hrow : (h.grid g)[y.toNat]? with
    | none => none
    | some row =>
      if hfull : isFullRow row = true then
        Heap.clearLinesLoop (y + 1 - 1) (h.spliceUnshift g y.toNat) g (linesCleared + 1)
      else
        Heap.clearLinesLoop (y - 1) h g linesCleared
  else some (h, linesCleared)
termination_by (countFull (h.grid g), (y + 1).toNat)
decreasing_by
  · apply Prod.Lex.left
    revert hrow
    generalize y.toNat = i
    intro hrow
    have hmap : ∀ (l : List Nat) (i : Nat),
        (l.eraseIdx i).map (fun a => h.rows.getD a []) =
          (l.map fun a => h.rows.getD a []).eraseIdx i := by
      intro l
      induction l with
      | nil => intro i; rfl
      | cons a rest ih =>
        intro i
        cases i with
        | zero => rfl
        | succ j => simp only [List.eraseIdx_cons_succ, List.map_cons, ih]
    have hg : g < h.grids.length := by
      by_contra hn
      have h0 : h.grids.getD g [] = [] := List.getD_eq_default _ _ (by omega)
      rw [Heap.grid, h0] at hrow
      simp at hrow
    have hget : (h.grids.set g (h.rows.length :: (h.grids.getD g []).eraseIdx i)).getD g [] =
        h.rows.length :: (h.grids.getD g []).eraseIdx i := by
      rw [List.getD_eq_getElem _ _ (by simpa using hg)]
      simp
    have hmono : ∀ arr : List Nat,
        List.countP isFullRow (arr.map fun a => (h.rows ++ [emptyRow]).getD a []) ≤
          List.countP isFullRow (arr.map fun a => h.rows.getD a []) := by
      intro arr
      induction arr with
      | nil => simp
      | cons a rest ih =>
        simp only [List.map_cons, List.countP_cons]
        have himp : isFullRow ((h.rows ++ [emptyRow]).getD a []) = true →
            isFullRow (h.rows.getD a []) = true := by
          intro hf
          rcases Nat.lt_trichotomy a h.rows.length with hlt | heq | hgt
          · rw [List.getD_eq_getElem _ _ (by simp; omega), List.getElem_append_left hlt] at hf
            rw [List.getD_eq_getElem _ _ hlt]
            exact hf
          · subst heq
            rw [List.getD_eq_getElem _ _ (by simp)] at hf
            simp only [List.getElem_append_right (le_refl _), Nat.sub_self,
              List.getElem_cons_zero] at hf
            have : isFullRow emptyRow = false := by decide
            rw [this] at hf
            cases hf
          · rw [List.getD_eq_default _ _ (by omega)]
            rfl
        by_cases hf : isFullRow ((h.rows ++ [emptyRow]).getD a []) = true
        · simp only [hf, himp hf, ↓reduceIte]
          omega
        · simp only [hf, Bool.false_eq_true, ↓reduceIte, add_zero]
          split_ifs <;> omega
    have key : ∀ (gr : Grid) (i : Nat), gr[i]? = some row →
        countFull (gr.eraseIdx i) + 1 = countFull gr := by
      intro gr
      induction gr with
      | nil => intro i hi; simp at hi
      | cons r rest ih =>
        intro i hi
        cases i with
        | zero =>
          simp only [List.getElem?_cons_zero, Option.some.injEq] at hi
          subst hi
          simp [countFull, List.countP_cons, hfull]
        | succ j =>
          simp only [List.getElem?_cons_succ] at hi
          have h2 := ih j hi
          simp only [countFull, List.eraseIdx_cons_succ, List.countP_cons] at h2 ⊢
          omega
    have hk := key (h.grid g) i hrow
    have hnew : isFullRow ((h.rows ++ [emptyRow]).getD h.rows.length []) = false := by
      rw [List.getD_eq_getElem _ _ (by simp)]
      simp only [List.getElem_append_right (le_refl _), Nat.sub_self, List.getElem_cons_zero]
      decide
    have hm := hmono ((h.grids.getD g []).eraseIdx i)
    have he : ((h.grids.getD g []).eraseIdx i).map (fun a => h.rows.getD a []) =
        (h.grid g).eraseIdx i := by
      unfold Heap.grid
      exact hmap _ _
    rw [he] at hm
    unfold Heap.spliceUnshift
    simp only [Heap.grid, hget, List.map_cons, countFull, List.countP_cons, hnew,
      Bool.false_eq_true, ↓reduceIte, add_zero]
    simp only [countFull, Heap.grid] at hk hm
    omega
  · apply Prod.Lex.right
    omega

/-- `TetrisAI.clearLines(grid)` on the grid at address `g`. -/
def Heap.clearLines (h : Heap) (g : Nat) : Option (Heap × Nat) :=
  Heap.clearLinesLoop ((BOARD_HEIGHT : Int) - 1) h g 0

/-- Lines 239-267 of `TetrisAI.evaluatePlacement`: the score computed from the
number of cleared lines, the grid `tempGrid` left by the placement and the
queue. -/
def TetrisAI.placementScore (ai : AIState) (linesCleared : Nat) (tempGrid : Grid)
    (nextPieces : List Piece) : ℚ :=
  let metrics := TetrisAI.calculateMetrics tempGrid
  let weights := ai.weights
  let score : ℚ := 0
  let score := Float64.add score
    (Float64.mul (Float64.round weights.height) (metrics.aggregateHeight : ℚ))
  let score := Float64.add score (Float64.mul (Float64.round weights.holes) (metrics.holes : ℚ))
  let score := Float64.add score
    (Float64.mul (Float64.round weights.bumpiness) (metrics.bumpiness : ℚ))
  let score := Float64.add score (Float64.mul (Float64.round weights.lines) (linesCleared : ℚ))
  let score := Float64.add score (Float64.mul (Float64.round weights.wells) (metrics.wells : ℚ))
  let score := Float64.add score
    (Float64.mul (Float64.round weights.blockades) (metrics.blockades : ℚ))
  let score := Float64.add score
    (Float64.mul (Float64.round weights.heightDifference) (metrics.heightDifference : ℚ))
  let score := Float64.add score
    (Float64.mul (Float64.round weights.centerHeight) metrics.centerHeight)
  let score := Float64.add score
    (Float64.mul (Float64.round weights.edgeTouch) (metrics.edgeTouch : ℚ))
  let score := Float64.add score
    (Float64.mul (Float64.round weights.floorTouch) (metrics.floorTouch : ℚ))
  let score :=
    if TetrisAI.isPerfectClear tempGrid then
      Float64.add score (Float64.round weights.perfectClear)
    else score
  match nextPieces with
  | [] => score
  | nextPiece :: _ =>
    if ai.thinkingDepth > 1 then
      Float64.add score
        (Float64.mul (TetrisAI.quickEvaluateNextPiece tempGrid nextPiece) (Float64.round 0.2))
    else score

/-- `TetrisAI.evaluatePlacement(piece, board, nextPieces)` on the heap: `piece`
and `board` are the addresses of the piece object and of `board.grid`.  The
grid is cloned, and `placePiece` and `clearLines` get the address of the
clone. -/
def Heap.evaluatePlacement (ai : AIState) (h : Heap) (piece board : Nat)
    (nextPieces : List Piece) : Option (Heap × ℚ) :=
  let cloned := h.cloneGrid board
  let tempGrid := cloned.2
  match cloned.1.placePiece tempGrid piece with
  | none => none
  | some h =>
    match h.clearLines tempGrid with
    | none => none
    | some (h, linesCleared) =>
      some (h, TetrisAI.placementScore ai linesCleared (h.grid tempGrid) nextPieces)

/-- The body of the inner loop of `TetrisAI.findBestPlacement` on the heap, as
`TetrisAI.tryPlacement`: the piece is cloned, and the assignments to
`testPiece` write to the clone. -/
def Heap.tryPlacement (ai : AIState) (h : Heap) (piece board : Nat) (nextPieces : List Piece)
    (rotation : Nat) (x : Int) (st : SearchState) : Option (Heap × SearchState) :=
  match h.clonePiece piece with
  | none => none
  | some (h, testPiece) =>
    match h.assignPiece testPiece fun p => { p with rotation := rotation, x := x, y := 0 } with
    | none => none
    | some h =>
      match h.pieces[testPiece]? with
      | none => none
      | some test =>
        match TetrisAI.findLandingY test (h.grid board) with
        | none => some (h, st)
        | some landingY =>
          match h.assignPiece testPiece fun p => { p with y := (landingY : Int) } with
          | none => none
          | some h =>
            match h.pieces[testPiece]? with
            | none => none
            | some test =>
              if !TetrisAI.isValidPlacement test (h.grid board) then some (h, st)
              else
                match Heap.evaluatePlacement ai h testPiece board nextPieces with
                | none => none
                | some (h, score) =>
                  let evaluations := st.evaluations + 1
                  let better : Bool :=
                    match st.bestScore with
                    | none => true
                    | some best => decide (score > best)
                  if better then
                    some (h,
                      { bestScore := some score
                        bestMove := some
                          { rotation := rotation, x := x, y := (landingY : Int), score := score }
                        evaluations := evaluations })
                  else some (h, { st with evaluations := evaluations })

/-- The inner loop of `TetrisAI.findBestPlacement` on the heap, as
`TetrisAI.columnLoop`. -/
def Heap.columnLoop (ai : AIState) (piece board : Nat) (nextPieces : List Piece)
    (rotation : Nat) : List Int → Heap → SearchState → Option (Heap × SearchState)
  | [], h, st => some (h, st)
  | x :: xs, h, st =>
    if st.evaluations ≥ 200 then some (h, st)
    else
      match Heap.tryPlacement ai h piece board nextPieces rotation x st with
      | none => none
      | some (h, st) => Heap.columnLoop ai piece board nextPieces rotation xs h st

/-- The outer loop of `TetrisAI.findBestPlacement` on the heap, over the
rotation states still to try. -/
def Heap.rotationLoop (ai : AIState) (piece board : Nat) (nextPieces : List Piece) :
    List Nat → Heap → SearchState → Option (Heap × SearchState)
  | [], h, st => some (h, st)
  | rotation :: rs, h, st =>
    match Heap.columnLoop ai piece board nextPieces rotation TetrisAI.searchColumns h st with
    | none => none
    | some (h, st) => Heap.rotationLoop ai piece board nextPieces rs h st

/-- `TetrisAI.findBestPlacement(piece, board, nextPieces)` on the heap: the
heap it leaves and the move it returns. -/
def Heap.findBestPlacement (ai : AIState) (h : Heap) (piece board : Nat)
    (nextPieces : List Piece) : Option (Heap × Option AIPlan) :=
  match h.pieces[piece]? with
  | none => none
  | some p =>
    match Heap.rotationLoop ai piece board nextPieces (List.range p.shapes.length) h
        { bestScore := none, bestMove := none, evaluations := 0 } with
    | none => none
    | some (h, st) => some (h, st.bestMove)

/-- The heap `h2` extends `h`: every array and object of `h` is in `h2` at its
address with its contents; `h2` may hold more. -/
def Heap.Ext (h h2 : Heap) : Prop :=
  h.rows <+: h2.rows ∧ h.grids <+: h2.grids ∧ h.pieces <+: h2.pieces

/-- The grid at address `g` and its rows are on the heap. -/
def Heap.ValidGrid (h : Heap) (g : Nat) : Prop :=
  g < h.grids.length ∧ ∀ a ∈ h.grids.getD g [], a < h.rows.length

/-- The grid at address `t` was made after `h0`: `h` extends `h0`, and the
grid at `t` and its rows, which are distinct arrays, are not in `h0`. -/
def Heap.Temp (h0 h : Heap) (t : Nat) : Prop :=
  Heap.Ext h0 h ∧ h0.grids.length ≤ t ∧ t < h.grids.length ∧ (h.grids.getD t []).Nodup ∧
    ∀ a ∈ h.grids.getD t [], h0.rows.length ≤ a ∧ a < h.rows.length

/-- A heap that holds the empty grid at grid address 0 (its rows at the row
addresses 0..19) and the I piece of the sample tables at piece address 0. -/
def sampleHeap : Heap :=
  { rows := Board.createEmptyGrid
    grids := [List.range BOARD_HEIGHT]
    pieces := [iPiece] }

/-! ## Running the action queue (`TetrisAI.js`) -/

/-- The first `n` entries of the action queue dispatched one after the other
by `TetrisAI.executeNextMove` (nothing else runs in between); `none` when one
of the calls has no result. -/
def TetrisAI.executeMoves (K : Constants) (env : Env) : Nat → Game → Option Game
  | 0, s => some s
  | n + 1, s =>
    match TetrisAI.executeNextMove K env s with
    | none => none
    | some t => TetrisAI.executeMoves K env n t

/-- Whether the action at the head of the queue succeeds in the state `s` in
the sense used for the move sequence: a `rotate` is accepted with the first
kick offset `(0, 0)` (the piece in its next rotation state is valid where it
stands), a shift is accepted by `Game.movePiece`.  Other actions count as
succeeding. -/
def TetrisAI.headMoveSucceeds (s : Game) : Bool :=
  match s.ai.moveQueue with
  | AIMove.rotate :: _ =>
    let rotated := s.currentPiece.rotate 1
    Board.isValidPosition s.grid rotated.getCurrentShape rotated.x rotated.y
  | AIMove.left :: _ => (s.movePiece (-1) 0).2
  | AIMove.right :: _ => (s.movePiece 1 0).2
  | _ => true

/-- Whether each of the first `n` queued actions succeeds, in the state in
which `TetrisAI.executeNextMove` dispatches it. -/
def TetrisAI.movesSucceed (K : Constants) (env : Env) : Nat → Game → Bool
  | 0, _ => true
  | n + 1, s =>
    TetrisAI.headMoveSucceeds s &&
      match TetrisAI.executeNextMove K env s with
      | none => false
      | some t => TetrisAI.movesSucceed K env n t

/-- A plan for the T piece of `rotateStart`: rotation state 3 in column 0. -/
def samplePlan : AIPlan := { rotation := 3, x := 0, y := 17, score := 0 }

/-! ## High scores (`Storage.js`) -/

/-- An entry of the array `highScores`; `date` stands for the ISO string of the
moment the entry was made. -/
structure HighScore where
  score : Nat
  lines : Nat
  level : Nat
  time : Nat
  date : Nat
  rank : Nat
  deriving DecidableEq, Repr

/-- One insertion of the stable sort by descending score: the entry goes
before the first entry whose score is not above its own.  The flag that comes
with an entry tells whether it is the object `newScore`. -/
def Storage.insertByScore (e : HighScore × Bool) :
    List (HighScore × Bool) → List (HighScore × Bool)
  | [] => [e]
  | b :: l => if b.1.score ≤ e.1.score then e :: b :: l else b :: Storage.insertByScore e l

/-- The call `highScores.sort((a, b) => b.score - a.score)`.  The sort of the
language is stable, so it returns the one arrangement by descending score in
which entries of equal score keep their order; it is computed here by
insertion, last entry first. -/
def Storage.sortByScore : List (HighScore × Bool) → List (HighScore × Bool)
  | [] => []
  | e :: l => Storage.insertByScore e (Storage.sortByScore l)

/-- The value of `newScore.rank` after the `forEach` over the entries kept:
the rank written to the object `newScore` when it is among them, else the rank
it was built with. -/
def Storage.rankOfNew (newScore : HighScore) (ranked : List (HighScore × Bool)) : Nat :=
  match ranked.find? (fun e => e.2) with
  | some e => e.1.rank
  | none => newScore.rank

/-- `Storage.addHighScore(score, lines, level, time)` on the stored array
`highScores`, with the value `date` of `new Date()`: the returned value (`none`
is `null`) and the array that is stored.  The object `newScore` is told apart
from the stored entries by a flag; its field `rank` keeps the initial 0 unless
the `forEach` reaches it among the ten entries kept. -/
def Storage.addHighScore (highScores : List HighScore) (score lines level time date : Nat) :
    Option Nat × List HighScore :=
  let newScore : HighScore :=
    { score := score, lines := lines, level := level, time := time, date := date, rank := 0 }
  let pushed := highScores.map (fun e => (e, false)) ++ [(newScore, true)]
  let sorted := Storage.sortByScore pushed
  let kept := sorted.take 10
  let ranked : List (HighScore × Bool) :=
    kept.enum.map fun ie => ({ ie.2.1 with rank := ie.1 + 1 }, ie.2.2)
  let newRank : Nat := Storage.rankOfNew newScore ranked
  let returned : Option Nat := if newRank ≤ 10 then some newRank else none
  (returned, ranked.map fun e => e.1)

/-- Ten stored entries with the scores 1000, 900, ..., 100 and the ranks
1, ..., 10. -/
def fullTable : List HighScore :=
  (List.range 10).map fun i =>
    { score := 1000 - 100 * i, lines := 0, level := 1, time := 60, date := i, rank := i + 1 }

/-! ## The loop of the line clear, one pass at a time -/

/-- The variables of the `for` loop of `Board.clearFullLines` and of
`TetrisAI.clearLines`. -/
structure LoopState where
  y : Int
  grid : Grid
  linesCleared : Nat

/-- One pass through the `for` loop of `Board.clearFullLines` on a playfield
of width `W`: `none` when the test `y >= 0` fails and the loop ends, else the
variables after the body and the `y--` of the loop header.  A full row is
spliced out, `Array(W).fill(0)` is unshifted and `y++` undoes the `y--`.  An
index outside the array (where the JS throws) ends the loop. -/
def Board.clearFullLinesStep (W : Nat) (st : LoopState) : Option LoopState :=
  if st.y ≥ 0 then
    match st.grid[st.y.toNat]? with
    | none => none
    | some row =>
      if isFullRow row then
        some
          { y := st.y + 1 - 1
            grid := List.replicate W 0 :: st.grid.eraseIdx st.y.toNat
            linesCleared := st.linesCleared + 1 }
      else some { st with y := st.y - 1 }
  else none

/-- One pass through the `for` loop of `TetrisAI.clearLines`, the copy of the
loop of `Board.clearFullLines`. -/
def TetrisAI.clearLinesStep (W : Nat) (st : LoopState) : Option LoopState :=
  if st.y ≥ 0 then
    match st.grid[st.y.toNat]? with
    | none => none
    | some row =>
      if isFullRow row then
        some
          { y := st.y + 1 - 1
            grid := List.replicate W 0 :: st.grid.eraseIdx st.y.toNat
            linesCleared := st.linesCleared + 1 }
      else some { st with y := st.y - 1 }
  else none

/-- A loop run for at most `fuel + 1` tests of its condition: the variables
with which it ends, or `none` when it has not ended by then. -/
def runLoop (step : LoopState → Option LoopState) : Nat → LoopState → Option LoopState
  | 0, st =>
    match step st with
    | none => some st
    | some _ => none
  | fuel + 1, st =>
    match step st with
    | none => some st
    | some st2 => runLoop step fuel st2

/-- The measure that every pass of the loop lowers: the rows still to visit
plus the full rows of the grid. -/
def LoopState.measure (st : LoopState) : Nat :=
  (st.y + 1).toNat + countFull st.grid

/-! ## Counting cells -/

/-- The number of non-empty cells of a grid. -/
def Grid.filledCells (grid : Grid) : Nat :=
  (grid.map fun row => row.countP fun cell => decide (cell ≠ 0)).sum

/-! ## Notions used to state the invariants of a run -/

/-- A step that leaves the grid, the queue, the line count, the level and the
drop interval as they are, does not lower the score and does not leave the
phase `gameover`. -/
def Game.Frame (s t : Game) : Prop :=
  t.grid = s.grid ∧ t.nextPieces = s.nextPieces ∧ t.lines = s.lines ∧ t.level = s.level ∧
    t.dropInterval = s.dropInterval ∧ s.score ≤ t.score ∧
    (s.gameState = GameState.gameover → t.gameState = GameState.gameover)

/-- A relation between a state and a later state that holds across every step
of the kind `Game.Frame`, across `Game.lockPiece` and across
`Game.holdCurrentPiece`, and is transitive. -/
structure Game.Respects (K : Constants) (Q : Game → Game → Prop) : Prop where
  trans : ∀ s t u, Q s t → Q t u → Q s u
  frame : ∀ s t, Game.Frame s t → Q s t
  lock : ∀ now newType s t, Game.lockPiece K now newType s = some t → Q s t
  hold : ∀ newType s t, Game.holdCurrentPiece K newType s = some t → Q s t

/-- The buffer rows of the grid are empty unless the game is over, on a grid
of `BOARD_HEIGHT` rows of `BOARD_WIDTH` cells. -/
def Game.BufferInv (s : Game) : Prop :=
  WellFormed s.grid ∧ (s.gameState ≠ GameState.gameover → Board.isGameOver s.grid = false)

/-- The level is between 1 and `floor(lines / 10) + 1`, and the drop interval
is the entry `level - 1` of the speed table. -/
def Game.LevelInv (K : Constants) (s : Game) : Prop :=
  1 ≤ s.level ∧ s.level ≤ s.lines / 10 + 1 ∧ K.LEVEL_SPEEDS[s.level - 1]? = some s.dropInterval

/-- Every piece of the queue is as `new Piece(type)` builds it. -/
def Game.QueueFresh (K : Constants) (s : Game) : Prop :=
  ∀ p ∈ s.nextPieces, ∃ type, p = Piece.create K type

/-- One of the four ways a run moves on without a restart: a key press, a
frame, a pause toggle, or a write to the AI object. -/
def Game.Next (K : Constants) (s t : Game) : Prop :=
  (∃ env key, Game.handleKeyPress K env key s = some t) ∨
    (∃ env time, Game.gameLoop K env time s = some t) ∨
    (∃ env perfNow, Game.togglePause K env perfNow s = some t) ∨
    (∃ ai, t = { s with ai := ai })

/-- The test `board.isValidPosition(currentPiece.getCurrentShape(),
currentPiece.x, currentPiece.y)` on the state. -/
def Game.pieceValid (s : Game) : Bool :=
  Board.isValidPosition s.grid s.currentPiece.getCurrentShape s.currentPiece.x s.currentPiece.y

/-- The seven kinds. -/
def allPieceTypes : List PieceType :=
  [PieceType.I, PieceType.O, PieceType.T, PieceType.S, PieceType.Z, PieceType.J, PieceType.L]

/-- Every kind's rotation-0 shape has its occupied cells in the matrix rows 0
and 1 and, with the origin at the spawn column, in the columns
`0 .. BOARD_WIDTH - 1`. -/
def Constants.spawnFits (K : Constants) : Bool :=
  allPieceTypes.all fun type =>
    let piece := Piece.create K type
    (List.range piece.getCurrentShape.length).all fun r =>
      (List.range (piece.getCurrentShape.getD r []).length).all fun c =>
        !piece.getCurrentShape.occupied r c ||
          (decide (r < 2) && decide (0 ≤ piece.x + c) && decide (piece.x + (c : Int) < BOARD_WIDTH))

/-- The state `freshGame` after two soft drops: the T piece is at row 2. -/
def loweredGame : Game :=
  { freshGame with
    currentPiece := { freshGame.currentPiece with y := 2 }
    score := 2
    actionCount := 2 }

/-- A playing state on 18 nearly full rows (only the two buffer rows are
empty): the square is at its spawn position and the piece held is the I piece
in its rotation state 1, upright. -/
def holdSwapGame : Game :=
  { resumedBeforeDrop with holdPiece := some { iPiece with rotation := 1 } }

/-! ## Theorems: grid model -/

theorem Shape.occupied_lt {piece : Shape} {r c : Nat} (h : piece.occupied r c = true) :
    r < piece.length ∧ c < (piece.getD r []).length := by
  unfold Shape.occupied at h
  constructor
  · by_contra hr
    have h0 : piece.getD r [] = [] := List.getD_eq_default _ _ (by omega)
    rw [h0] at h
    simp at h
  · by_contra hc
    have h0 : (piece.getD r []).getD c false = false := List.getD_eq_default _ _ (by omega)
    rw [h0] at h
    simp at h

theorem Board.isValidPosition_eq_true (grid : Grid) (piece : Shape) (x y : Int) :
    Board.isValidPosition grid piece x y = true ↔
      ∀ r c : Nat, piece.occupied r c = true → Board.collides grid x y r c = false := by
  unfold Board.isValidPosition
  simp only [List.all_eq_true, List.mem_range, Bool.not_eq_true', Bool.and_eq_false_imp]
  constructor
  · intro h r c hocc
    obtain ⟨hr, hc⟩ := Shape.occupied_lt hocc
    exact h r hr c hc hocc
  · intro h r _ c _ hocc
    exact h r c hocc

theorem Board.collides_eq_false (grid : Grid) (x y : Int) (r c : Nat) :
    Board.collides grid x y r c = false ↔
      (0 ≤ x + c ∧ x + c < BOARD_WIDTH ∧ y + r < BOARD_HEIGHT ∧
        (y + r < 0 ∨ grid.cell (y + r).toNat (x + c).toNat = 0)) := by
  unfold Board.collides
  simp only [Bool.or_eq_false_iff, Bool.and_eq_false_imp, decide_eq_false_iff_not,
    decide_eq_true_eq, not_lt, ge_iff_le, not_le, ne_eq, not_not]
  constructor
  · rintro ⟨⟨⟨h1, h2⟩, h3⟩, h4⟩
    refine ⟨h1, h2, h3, ?_⟩
    by_cases h : 0 ≤ y + r
    · exact Or.inr (h4 h)
    · exact Or.inl (by omega)
  · rintro ⟨h1, h2, h3, h4⟩
    refine ⟨⟨⟨h1, h2⟩, h3⟩, ?_⟩
    intro h
    rcases h4 with h4 | h4
    · omega
    · exact h4

/-- C1: on a grid of `BOARD_HEIGHT` rows of `BOARD_WIDTH` cells,
`Board.isValidPosition(shape, x, y)` is true iff every occupied shape cell
`(r, c)` has its column `x + c` in `[0, W)`, its row `y + r` below `H`, and is
either above the grid (`y + r < 0`) or on an empty grid cell; it is false iff
some occupied cell is outside the columns, at a row `≥ H`, or on a non-empty
grid cell at a row `≥ 0`. -/
theorem isValidPosition_spec (grid : Grid) (_hg : WellFormed grid) (piece : Shape) (x y : Int) :
    (Board.isValidPosition grid piece x y = true ↔
      ∀ r c : Nat, piece.occupied r c = true →
        (0 ≤ x + c ∧ x + c < BOARD_WIDTH) ∧ y + r < BOARD_HEIGHT ∧
          (y + r < 0 ∨ grid.cell (y + r).toNat (x + c).toNat = 0)) ∧
    (Board.isValidPosition grid piece x y = false ↔
      ∃ r c : Nat, piece.occupied r c = true ∧
        ((x + c < 0 ∨ x + c ≥ BOARD_WIDTH) ∨ y + r ≥ BOARD_HEIGHT ∨
          (y + r ≥ 0 ∧ grid.cell (y + r).toNat (x + c).toNat ≠ 0))) := by
  have key := Board.isValidPosition_eq_true grid piece x y
  constructor
  · rw [key]
    constructor
    · intro h r c hocc
      have := (Board.collides_eq_false grid x y r c).1 (h r c hocc)
      tauto
    · intro h r c hocc
      have := h r c hocc
      exact (Board.collides_eq_false grid x y r c).2 (by tauto)
  · rw [← Bool.not_eq_true, key]
    push_neg
    constructor
    · rintro ⟨r, c, hocc, hcol⟩
      refine ⟨r, c, hocc, ?_⟩
      by_contra hn
      push_neg at hn
      apply hcol
      apply (Board.collides_eq_false grid x y r c).2
      obtain ⟨⟨h1, h2⟩, h3, h4⟩ := hn
      refine ⟨by omega, by omega, by omega, ?_⟩
      by_cases h : y + r ≥ 0
      · exact Or.inr (h4 h)
      · exact Or.inl (by omega)
    · rintro ⟨r, c, hocc, hbad⟩
      refine ⟨r, c, hocc, ?_⟩
      intro hcol
      have := (Board.collides_eq_false grid x y r c).1 hcol
      obtain ⟨h1, h2, h3, h4⟩ := this
      rcases hbad with (hb | hb) | hb | ⟨hb1, hb2⟩
      · omega
      · omega
      · omega
      · rcases h4 with h4 | h4
        · omega
        · exact hb2 h4

set_option maxRecDepth 100000 in
theorem isValidPosition_spec_witness :
    WellFormed (stackGrid 6) ∧
    ((Board.isValidPosition (stackGrid 6) squareShape 0 18 = true ↔
      ∀ r c : Nat, squareShape.occupied r c = true →
        (0 ≤ (0 : Int) + c ∧ (0 : Int) + c < BOARD_WIDTH) ∧ (18 : Int) + r < BOARD_HEIGHT ∧
          ((18 : Int) + r < 0 ∨
            (stackGrid 6).cell ((18 : Int) + r).toNat ((0 : Int) + c).toNat = 0)) ∧
    (Board.isValidPosition (stackGrid 6) squareShape 0 18 = false ↔
      ∃ r c : Nat, squareShape.occupied r c = true ∧
        (((0 : Int) + c < 0 ∨ (0 : Int) + c ≥ BOARD_WIDTH) ∨ (18 : Int) + r ≥ BOARD_HEIGHT ∨
          ((18 : Int) + r ≥ 0 ∧
            (stackGrid 6).cell ((18 : Int) + r).toNat ((0 : Int) + c).toNat ≠ 0)))) :=
  ⟨by decide, isValidPosition_spec (stackGrid 6) (by decide) squareShape 0 18⟩

theorem emptyRow_not_full : isFullRow emptyRow = false := by decide

theorem take_succ_of_getElem? {α : Type} (l : List α) (i : Nat) (a : α) (h : l[i]? = some a) :
    l.take (i + 1) = l.take i ++ [a] ∧ l.drop i = a :: l.drop (i + 1) := by
  obtain ⟨hi, ha⟩ := List.getElem?_eq_some.1 h
  constructor
  · rw [List.take_succ, h]; rfl
  · rw [List.drop_eq_getElem_cons hi, ha]

theorem take_drop_eraseIdx {α : Type} (l : List α) (i : Nat) (hi : i < l.length) :
    (l.eraseIdx i).take i = l.take i ∧ (l.eraseIdx i).drop i = l.drop (i + 1) := by
  rw [List.eraseIdx_eq_take_drop_succ]
  have hlen : (l.take i).length = i := by simp; omega
  constructor
  · rw [List.take_append_of_le_length (by omega), List.take_of_length_le (by omega)]
  · rw [List.drop_append_of_le_length (by omega), List.drop_of_length_le (by omega)]
    simp

theorem clearFullLinesLoop_eq (y : Int) (grid : Grid) (linesCleared : Nat)
    (hy : (y + 1).toNat ≤ grid.length) :
    Board.clearFullLinesLoop y grid linesCleared =
      (linesCleared + countFull (grid.take (y + 1).toNat),
        List.replicate (countFull (grid.take (y + 1).toNat)) emptyRow ++
          nonFullRows (grid.take (y + 1).toNat) ++ grid.drop (y + 1).toNat) := by
  induction y, grid, linesCleared using Board.clearFullLinesLoop.induct with
  | case1 y grid n hy0 hnone =>
    exfalso
    have : y.toNat < grid.length := by omega
    rw [List.getElem?_eq_none_iff] at hnone
    omega
  | case2 y grid n hy0 row hrow hfull ih =>
    have hi : y.toNat < grid.length := (List.getElem?_eq_some.1 hrow).1
    have e1 : (y + 1).toNat = y.toNat + 1 := by omega
    have e2 : (y + 1 - 1 + 1).toNat = y.toNat + 1 := by omega
    obtain ⟨ht, hd⟩ := take_succ_of_getElem? grid y.toNat row hrow
    obtain ⟨ht2, hd2⟩ := take_drop_eraseIdx grid y.toNat hi
    have hlen : (emptyRow :: grid.eraseIdx y.toNat).length = grid.length := by
      rw [List.length_cons, List.length_eraseIdx, if_pos hi]; omega
    rw [Board.clearFullLinesLoop]
    simp only [hy0, ↓reduceDIte]
    split
    · rename_i hnone; rw [hrow] at hnone; cases hnone
    · rename_i row2 hrow2
      rw [hrow] at hrow2
      cases hrow2
      simp only [hfull, ↓reduceDIte]
      rw [ih (by rw [hlen, e2]; omega), e1, e2, ht]
      simp only [List.take_succ_cons, List.drop_succ_cons, ht2, hd2, countFull, nonFullRows,
        List.countP_cons, List.countP_append, List.filter_append, List.filter_cons,
        emptyRow_not_full, hfull, List.countP_nil, List.filter_nil]
      simp only [Bool.false_eq_true, ↓reduceIte, Nat.add_zero, Nat.zero_add, Bool.not_false,
        Bool.not_true, List.append_nil, Prod.mk.injEq]
      constructor
      · omega
      · rw [List.replicate_succ', List.append_assoc, List.append_assoc, List.append_assoc]
        rfl
  | case3 y grid n hy0 row hrow hfull ih =>
    have hi : y.toNat < grid.length := (List.getElem?_eq_some.1 hrow).1
    have e1 : (y + 1).toNat = y.toNat + 1 := by omega
    have e2 : (y - 1 + 1).toNat = y.toNat := by omega
    obtain ⟨ht, hd⟩ := take_succ_of_getElem? grid y.toNat row hrow
    have hfull2 : isFullRow row = false := by simpa using hfull
    rw [Board.clearFullLinesLoop]
    simp only [hy0, ↓reduceDIte]
    split
    · rename_i hnone; rw [hrow] at hnone; cases hnone
    · rename_i row2 hrow2
      rw [hrow] at hrow2
      cases hrow2
      simp only [hfull, ↓reduceDIte]
      rw [ih (by rw [e2]; omega), e1, e2, ht, hd]
      simp [countFull, nonFullRows, List.countP_append, List.filter_append, hfull2]
  | case4 y grid n hy0 =>
    rw [Board.clearFullLinesLoop]
    have : (y + 1).toNat = 0 := by omega
    simp [hy0, this, countFull, nonFullRows]

theorem wellFormed_emptyRow_append (k : Nat) (g : Grid) (hg : ∀ row ∈ g, row.length = BOARD_WIDTH) :
    ∀ row ∈ List.replicate k emptyRow ++ nonFullRows g, row.length = BOARD_WIDTH := by
  intro row hrow
  rcases List.mem_append.1 hrow with h | h
  · rw [List.eq_of_mem_replicate h]; rfl
  · exact hg row (List.mem_of_mem_filter h)

theorem countFull_add_nonFull (g : Grid) : countFull g + (nonFullRows g).length = g.length := by
  unfold countFull nonFullRows
  rw [List.length_eq_countP_add_countP isFullRow g, ← List.countP_eq_length_filter]
  congr 2
  funext row
  cases isFullRow row <;> rfl

theorem clearFullLines_eq (g : Grid) (hg : g.length = BOARD_HEIGHT) :
    Board.clearFullLines g =
      (countFull g, List.replicate (countFull g) emptyRow ++ nonFullRows g) := by
  have h1 : ((BOARD_HEIGHT : Int) - 1 + 1).toNat = g.length := by rw [hg]; simp
  unfold Board.clearFullLines
  rw [clearFullLinesLoop_eq _ _ _ (by rw [h1]), h1]
  simp

/-- C2: on a grid of `BOARD_HEIGHT` rows of `BOARD_WIDTH` cells,
`Board.clearFullLines` returns the number `k` of full rows and leaves `k` empty
rows followed by the rows that were not full, in their order; the grid it
leaves again has `BOARD_HEIGHT` rows of `BOARD_WIDTH` cells and no full row. -/
theorem clearFullLines_spec (g : Grid) (hg : WellFormed g) :
    Board.clearFullLines g =
      (countFull g, List.replicate (countFull g) emptyRow ++ nonFullRows g) ∧
    WellFormed (Board.clearFullLines g).2 ∧
    countFull (Board.clearFullLines g).2 = 0 := by
  have heq := clearFullLines_eq g hg.1
  refine ⟨heq, ?_, ?_⟩
  · rw [heq]
    refine ⟨?_, wellFormed_emptyRow_append _ g hg.2⟩
    simp only [List.length_append, List.length_replicate]
    rw [countFull_add_nonFull, hg.1]
  · rw [heq]
    simp only [countFull, List.countP_eq_zero]
    intro row hrow
    rcases List.mem_append.1 hrow with h | h
    · rw [List.eq_of_mem_replicate h, emptyRow_not_full]; simp
    · have := (List.mem_filter.1 h).2
      simpa using this

set_option maxRecDepth 100000 in
theorem clearFullLines_spec_witness :
    WellFormed twoFullRowsGrid ∧
    (Board.clearFullLines twoFullRowsGrid =
      (countFull twoFullRowsGrid,
        List.replicate (countFull twoFullRowsGrid) emptyRow ++ nonFullRows twoFullRowsGrid) ∧
    WellFormed (Board.clearFullLines twoFullRowsGrid).2 ∧
    countFull (Board.clearFullLines twoFullRowsGrid).2 = 0) :=
  ⟨by decide, clearFullLines_spec twoFullRowsGrid (by decide)⟩

/-- C3: on a grid without a full row `Board.clearFullLines` returns 0 and leaves
the grid as it was. -/
theorem clearFullLines_no_full (g : Grid) (hg : WellFormed g)
    (hno : ∀ row ∈ g, isFullRow row = false) :
    Board.clearFullLines g = (0, g) := by
  have hk : countFull g = 0 := by
    simp only [countFull, List.countP_eq_zero]
    intro row hrow
    simp [hno row hrow]
  have hf : nonFullRows g = g := by
    unfold nonFullRows
    rw [List.filter_eq_self]
    intro row hrow
    simp [hno row hrow]
  rw [clearFullLines_eq g hg.1, hk, hf]
  rfl

set_option maxRecDepth 100000 in
theorem clearFullLines_no_full_witness :
    WellFormed (stackGrid 6) ∧ (∀ row ∈ stackGrid 6, isFullRow row = false) ∧
    Board.clearFullLines (stackGrid 6) = (0, stackGrid 6) :=
  ⟨by decide, by decide, clearFullLines_no_full (stackGrid 6) (by decide) (by decide)⟩

theorem setCell_wellFormed (g : Grid) (hg : WellFormed g) (y : Nat) (x : Int) (v : Cell) :
    WellFormed (g.setCell y x v) := by
  unfold Grid.setCell
  split
  · exact hg
  · refine ⟨by rw [List.length_set]; exact hg.1, ?_⟩
    intro row hrow
    rcases List.mem_or_eq_of_mem_set hrow with h | h
    · exact hg.2 row h
    · by_cases hy : y < g.length
      · rw [h, List.length_set]
        apply hg.2
        rw [List.getD_eq_getElem _ _ hy]
        exact List.getElem_mem hy
      · rw [List.set_eq_of_length_le (by omega)] at hrow
        exact hg.2 row hrow

theorem cell_setCell (g : Grid) (y : Nat) (x : Int) (v : Cell) (i j : Nat)
    (hi : i < g.length) (hj : j < (g.getD i []).length) :
    (0 ≤ x ∧ i = y ∧ (j : Int) = x → (g.setCell y x v).cell i j = v) ∧
    (¬(0 ≤ x ∧ i = y ∧ (j : Int) = x) → (g.setCell y x v).cell i j = g.cell i j) := by
  unfold Grid.setCell Grid.cell
  simp only [List.getD_eq_getElem?_getD] at hj ⊢
  constructor
  · rintro ⟨hx, rfl, hjx⟩
    have hx2 : x.toNat = j := by omega
    rw [if_neg (by omega), hx2]
    simp only [List.getElem?_set, if_pos hi, ↓reduceIte, Option.getD_some, if_pos hj]
  · intro hne
    split
    · rfl
    · rename_i hx
      by_cases hiy : i = y
      · subst hiy
        have hjx : x.toNat ≠ j := by
          intro h; apply hne; exact ⟨by omega, rfl, by omega⟩
        simp only [List.getElem?_set, if_pos hi, ↓reduceIte, Option.getD_some, if_neg hjx]
      · simp only [List.getElem?_set, if_neg (Ne.symm hiy)]

theorem foldl_write {α : Type} (f : Grid → α → Grid) (hit : α → Prop) (v : Cell) (i j : Nat)
    (hf : ∀ g a, WellFormed g → WellFormed (f g a) ∧
      (hit a → (f g a).cell i j = v) ∧ (¬hit a → (f g a).cell i j = g.cell i j))
    (l : List α) (g : Grid) (hg : WellFormed g) :
    WellFormed (l.foldl f g) ∧
      ((∃ a ∈ l, hit a) → (l.foldl f g).cell i j = v) ∧
      ((¬∃ a ∈ l, hit a) → (l.foldl f g).cell i j = g.cell i j) := by
  induction l using List.reverseRecOn with
  | nil => exact ⟨hg, by simp, by simp⟩
  | append_singleton l a ih =>
    obtain ⟨hwf, h1, h2⟩ := ih
    obtain ⟨hwf2, h3, h4⟩ := hf (l.foldl f g) a hwf
    rw [List.foldl_append, List.foldl_cons, List.foldl_nil]
    refine ⟨hwf2, ?_, ?_⟩
    · rintro ⟨b, hb, hhit⟩
      by_cases ha : hit a
      · exact h3 ha
      · rw [h4 ha]
        apply h1
        rcases List.mem_append.1 hb with hb | hb
        · exact ⟨b, hb, hhit⟩
        · rw [List.mem_singleton] at hb
          subst hb
          exact absurd hhit ha
    · intro hno
      have ha : ¬hit a := fun h => hno ⟨a, by simp, h⟩
      rw [h4 ha]
      apply h2
      rintro ⟨b, hb, hhit⟩
      exact hno ⟨b, List.mem_append_left _ hb, hhit⟩

theorem foldl_invariant {α : Type} (f : Grid → α → Grid) (P : Grid → Prop)
    (hf : ∀ g a, P g → P (f g a)) (l : List α) (g : Grid) (hg : P g) : P (l.foldl f g) := by
  induction l generalizing g with
  | nil => exact hg
  | cons a l ih => exact ih (f g a) (hf g a hg)

theorem foldl_fixed {α : Type} (f : Grid → α → Grid) (l : List α) (g : Grid)
    (hf : ∀ a ∈ l, f g a = g) : l.foldl f g = g := by
  induction l with
  | nil => rfl
  | cons a l ih =>
    rw [List.foldl_cons, hf a (by simp)]
    exact ih fun b hb => hf b (by simp [hb])

/-- C4: when every occupied shape cell lies in the columns `[0, W)` and in a row
below `H`, `Board.lockPiece(shape, x, y, tag)` leaves a grid of the same
dimensions in which a cell `(i, j)` holds `tag` if some occupied shape cell
`(r, c)` has `y + r = i` and `x + c = j` (so `y + r ≥ 0`) and holds its old value
otherwise; when every occupied cell has `y + r < 0` the grid is unchanged. -/
theorem lockPiece_frame (grid : Grid) (hg : WellFormed grid) (piece : Shape) (x y : Int)
    (tag : Cell)
    (_hin : ∀ r c : Nat, piece.occupied r c = true →
      0 ≤ x + c ∧ x + c < BOARD_WIDTH ∧ y + r < BOARD_HEIGHT) :
    WellFormed (Board.lockPiece grid piece x y tag) ∧
    (∀ i j : Nat, i < BOARD_HEIGHT → j < BOARD_WIDTH →
      ((∃ r c : Nat, piece.occupied r c = true ∧ y + r = i ∧ x + c = j) →
        (Board.lockPiece grid piece x y tag).cell i j = tag) ∧
      ((¬∃ r c : Nat, piece.occupied r c = true ∧ y + r = i ∧ x + c = j) →
        (Board.lockPiece grid piece x y tag).cell i j = grid.cell i j)) ∧
    ((∀ r c : Nat, piece.occupied r c = true → y + r < 0) →
      Board.lockPiece grid piece x y tag = grid) := by
  have inner : ∀ (i j : Nat), i < BOARD_HEIGHT → j < BOARD_WIDTH → ∀ (r : Nat) (g : Grid) (c : Nat),
      WellFormed g →
      WellFormed (if piece.occupied r c = true then
          (if y + r ≥ 0 then g.setCell (y + r).toNat (x + c) tag else g) else g) ∧
      ((piece.occupied r c = true ∧ y + r = i ∧ x + c = j) →
        (if piece.occupied r c = true then
          (if y + r ≥ 0 then g.setCell (y + r).toNat (x + c) tag else g) else g).cell i j = tag) ∧
      (¬(piece.occupied r c = true ∧ y + r = i ∧ x + c = j) →
        (if piece.occupied r c = true then
          (if y + r ≥ 0 then g.setCell (y + r).toNat (x + c) tag else g) else g).cell i j
          = g.cell i j) := by
    intro i j hi hj r g c hwf
    have hi2 : i < g.length := by rw [hwf.1]; exact hi
    have hj2 : j < (g.getD i []).length := by
      rw [List.getD_eq_getElem _ _ hi2, hwf.2 _ (List.getElem_mem hi2)]; exact hj
    obtain ⟨hset, hkeep⟩ := cell_setCell g (y + r).toNat (x + c) tag i j hi2 hj2
    refine ⟨?_, ?_, ?_⟩
    · split
      · split
        · exact setCell_wellFormed g hwf _ _ _
        · exact hwf
      · exact hwf
    · rintro ⟨hocc, hy, hx⟩
      rw [if_pos hocc, if_pos (by omega)]
      exact hset ⟨by omega, by omega, by omega⟩
    · intro hne
      split
      · rename_i hocc
        split
        · apply hkeep
          rintro ⟨h1, h2, h3⟩
          exact hne ⟨hocc, by omega, by omega⟩
        · rfl
      · rfl
  have innerFold : ∀ (i j : Nat), i < BOARD_HEIGHT → j < BOARD_WIDTH → ∀ (g : Grid) (r : Nat),
      WellFormed g →
      WellFormed ((List.range (piece.getD r []).length).foldl (fun (g : Grid) (c : Nat) =>
        if piece.occupied r c = true then
          (if y + r ≥ 0 then g.setCell (y + r).toNat (x + c) tag else g) else g) g) ∧
      ((∃ c : Nat, piece.occupied r c = true ∧ y + r = i ∧ x + c = j) →
        ((List.range (piece.getD r []).length).foldl (fun (g : Grid) (c : Nat) =>
          if piece.occupied r c = true then
            (if y + r ≥ 0 then g.setCell (y + r).toNat (x + c) tag else g) else g) g).cell i j
          = tag) ∧
      ((¬∃ c : Nat, piece.occupied r c = true ∧ y + r = i ∧ x + c = j) →
        ((List.range (piece.getD r []).length).foldl (fun (g : Grid) (c : Nat) =>
          if piece.occupied r c = true then
            (if y + r ≥ 0 then g.setCell (y + r).toNat (x + c) tag else g) else g) g).cell i j
          = g.cell i j) := by
    intro i j hi hj g r hwf
    obtain ⟨h1, h2, h3⟩ := foldl_write (fun (g : Grid) (c : Nat) =>
        if piece.occupied r c = true then
          (if y + r ≥ 0 then g.setCell (y + r).toNat (x + c) tag else g) else g)
      (fun c => piece.occupied r c = true ∧ y + r = i ∧ x + c = j) tag i j
      (fun g c hwf => inner i j hi hj r g c hwf)
      (List.range (piece.getD r []).length) g hwf
    refine ⟨h1, ?_, ?_⟩
    · rintro ⟨c, hocc, hy, hx⟩
      exact h2 ⟨c, List.mem_range.2 (Shape.occupied_lt hocc).2, hocc, hy, hx⟩
    · intro hno
      apply h3
      rintro ⟨c, _, hc⟩
      exact hno ⟨c, hc⟩
  refine ⟨?_, ?_, ?_⟩
  · unfold Board.lockPiece
    exact foldl_invariant _ WellFormed
      (fun g r hwf => (innerFold 0 0 (by decide) (by decide) g r hwf).1) _ grid hg
  · intro i j hi hj
    unfold Board.lockPiece
    obtain ⟨_, h2, h3⟩ := foldl_write _
      (fun r => ∃ c : Nat, piece.occupied r c = true ∧ y + r = i ∧ x + c = j) tag i j
      (fun g r hwf => innerFold i j hi hj g r hwf) (List.range piece.length) grid hg
    constructor
    · rintro ⟨r, c, hocc, hy, hx⟩
      exact h2 ⟨r, List.mem_range.2 (Shape.occupied_lt hocc).1, c, hocc, hy, hx⟩
    · intro hno
      apply h3
      rintro ⟨r, _, c, hc⟩
      exact hno ⟨r, c, hc⟩
  · intro habove
    unfold Board.lockPiece
    apply foldl_fixed
    intro r _
    apply foldl_fixed
    intro c _
    split
    · rename_i hocc
      have := habove r c hocc
      rw [if_neg (by omega)]
    · rfl

theorem squareShape_cells (r c : Nat) (h : squareShape.occupied r c = true) : r < 2 ∧ c < 2 := by
  have h2 := Shape.occupied_lt h
  have hr : r < 2 := h2.1
  refine ⟨hr, ?_⟩
  have hc := h2.2
  interval_cases r <;> exact hc

set_option maxRecDepth 100000 in
theorem lockPiece_frame_witness :
    WellFormed (stackGrid 6) ∧
    (∀ r c : Nat, squareShape.occupied r c = true →
      0 ≤ (0 : Int) + c ∧ (0 : Int) + c < BOARD_WIDTH ∧ (18 : Int) + r < BOARD_HEIGHT) ∧
    (WellFormed (Board.lockPiece (stackGrid 6) squareShape 0 18 2) ∧
    (∀ i j : Nat, i < BOARD_HEIGHT → j < BOARD_WIDTH →
      ((∃ r c : Nat, squareShape.occupied r c = true ∧ (18 : Int) + r = i ∧ (0 : Int) + c = j) →
        (Board.lockPiece (stackGrid 6) squareShape 0 18 2).cell i j = 2) ∧
      ((¬∃ r c : Nat, squareShape.occupied r c = true ∧ (18 : Int) + r = i ∧ (0 : Int) + c = j) →
        (Board.lockPiece (stackGrid 6) squareShape 0 18 2).cell i j = (stackGrid 6).cell i j)) ∧
    ((∀ r c : Nat, squareShape.occupied r c = true → (18 : Int) + r < 0) →
      Board.lockPiece (stackGrid 6) squareShape 0 18 2 = stackGrid 6)) :=
  have hin : ∀ r c : Nat, squareShape.occupied r c = true →
      0 ≤ (0 : Int) + c ∧ (0 : Int) + c < BOARD_WIDTH ∧ (18 : Int) + r < BOARD_HEIGHT := by
    intro r c h
    obtain ⟨hr, hc⟩ := squareShape_cells r c h
    simp only [BOARD_WIDTH, BOARD_HEIGHT]
    omega
  ⟨by decide, hin, lockPiece_frame (stackGrid 6) (by decide) squareShape 0 18 2 hin⟩

/-! ## Theorems: scoring, combo, level, hold -/

theorem floor_half_steps (p c : Nat) :
    ⌊(p : ℚ) * (1 + (c : ℚ) * 0.5)⌋₊ = p * (2 + c) / 2 := by
  have h : (p : ℚ) * (1 + (c : ℚ) * 0.5) = ((p * (2 + c) : ℕ) : ℚ) / ((2 : ℕ) : ℚ) := by
    push_cast
    norm_num
    ring
  rw [h, Nat.floor_div_eq_div]

theorem basePoints_floor (s : Game) (n : Nat) (wasTSpin : Bool) :
    ⌊Game.basePoints s n wasTSpin⌋₊ =
      pointsTable.getD n 0 * s.level * (if wasTSpin then 2 else 1) *
        (if s.combo > 0 then 2 + s.combo else 2) / 2 := by
  unfold Game.basePoints
  cases wasTSpin <;> by_cases hc : s.combo > 0
  · simp only [Bool.false_eq_true, ↓reduceIte, hc, Nat.mul_one]
    have := floor_half_steps (pointsTable.getD n 0 * s.level) s.combo
    push_cast at this ⊢
    exact this
  · simp only [Bool.false_eq_true, ↓reduceIte, hc, Nat.mul_one]
    rw [Nat.mul_div_cancel _ (by decide : 0 < 2)]
    have : ((pointsTable.getD n 0 : ℕ) : ℚ) * (s.level : ℚ) =
        ((pointsTable.getD n 0 * s.level : ℕ) : ℚ) := by push_cast; rfl
    rw [this, Nat.floor_natCast]
  · simp only [↓reduceIte, hc]
    have := floor_half_steps (pointsTable.getD n 0 * s.level * 2) s.combo
    push_cast at this ⊢
    exact this
  · simp only [↓reduceIte, hc]
    rw [Nat.mul_div_cancel _ (by decide : 0 < 2)]
    have : ((pointsTable.getD n 0 : ℕ) : ℚ) * (s.level : ℚ) * 2 =
        ((pointsTable.getD n 0 * s.level * 2 : ℕ) : ℚ) := by push_cast; rfl
    rw [this, Nat.floor_natCast]

theorem updateScore_score_eq (K : Constants) (s : Game) (n : Nat) (wasTSpin : Bool) :
    (Game.updateScore K s n wasTSpin).score = s.score + ⌊Game.basePoints s n wasTSpin⌋₊ := by
  unfold Game.updateScore
  simp only
  split <;> rfl

/-- C5: for `n` in 1..4 cleared lines, at level `L ≥ 1` and combo counter `c`
held when the call is made, `Game.updateScore(n, wasTSpin)` adds
`floor(table[n] * L * (2 if wasTSpin else 1) * (1 + 0.5 * c if c > 0 else 1))` to
the score, with `table = [0, 100, 300, 500, 800]` and `L` the level before the
clear is counted; at level 1 with `n = 4`, no T-spin and combo 0 it adds 800. -/
theorem updateScore_points (K : Constants) (s : Game) (n : Nat) (wasTSpin : Bool)
    (_hn : 1 ≤ n ∧ n ≤ 4) (_hL : 1 ≤ s.level) :
    (Game.updateScore K s n wasTSpin).score =
      s.score + ⌊(([0, 100, 300, 500, 800] : List Nat).getD n 0 : ℚ) * (s.level : ℚ) *
        (if wasTSpin then 2 else 1) *
        (if s.combo > 0 then 1 + 0.5 * (s.combo : ℚ) else 1)⌋₊ ∧
    (s.level = 1 → n = 4 → wasTSpin = false → s.combo = 0 →
      (Game.updateScore K s n wasTSpin).score = s.score + 800) := by
  rw [updateScore_score_eq]
  constructor
  · congr 2
    unfold Game.basePoints pointsTable POINTS_SINGLE POINTS_DOUBLE POINTS_TRIPLE POINTS_TETRIS
    cases wasTSpin <;> by_cases hc : s.combo > 0 <;>
      simp only [hc, ↓reduceIte, Bool.false_eq_true] <;> ring
  · intro h1 h4 ht hc
    rw [basePoints_floor, h1, h4, ht, hc]
    rfl

theorem updateScore_points_witness :
    (1 ≤ 4 ∧ 4 ≤ 4) ∧ 1 ≤ comboStart.level ∧
    ((Game.updateScore sampleConstants comboStart 4 false).score =
      comboStart.score + ⌊(([0, 100, 300, 500, 800] : List Nat).getD 4 0 : ℚ) *
        (comboStart.level : ℚ) * (if false then 2 else 1) *
        (if comboStart.combo > 0 then 1 + 0.5 * (comboStart.combo : ℚ) else 1)⌋₊ ∧
    (comboStart.level = 1 → 4 = 4 → false = false → comboStart.combo = 0 →
      (Game.updateScore sampleConstants comboStart 4 false).score = comboStart.score + 800)) :=
  ⟨by decide, by decide,
    updateScore_points sampleConstants comboStart 4 false (by decide) (by decide)⟩

theorem gameOver_gameState (s : Game) : (Game.gameOver s).gameState = GameState.gameover := by
  unfold Game.gameOver
  split
  · assumption
  · rfl

theorem updateScore_combo (K : Constants) (s : Game) (n : Nat) (b : Bool) :
    (Game.updateScore K s n b).combo = s.combo ∧
      (Game.updateScore K s n b).lastClearTime = s.lastClearTime := by
  unfold Game.updateScore
  simp only
  split <;> exact ⟨rfl, rfl⟩

theorem updateCombo_fields (s : Game) (now : Int) :
    (Game.updateCombo s now).combo = (if now - s.lastClearTime < 3000 then s.combo + 1 else 0) ∧
      (Game.updateCombo s now).lastClearTime = now := by
  unfold Game.updateCombo
  split <;> exact ⟨rfl, rfl⟩


theorem gameOver_fields (s : Game) :
    (Game.gameOver s).combo = s.combo ∧ (Game.gameOver s).lastClearTime = s.lastClearTime ∧
    (Game.gameOver s).score = s.score ∧ (Game.gameOver s).lines = s.lines ∧
    (Game.gameOver s).level = s.level ∧ (Game.gameOver s).grid = s.grid ∧
    (Game.gameOver s).currentPiece = s.currentPiece ∧
    (Game.gameOver s).nextPieces = s.nextPieces ∧ (Game.gameOver s).canHold = s.canHold := by
  unfold Game.gameOver
  split <;> simp

theorem clearAndScore_nextPieces (K : Constants) (now : Int) (s : Game) :
    (Game.clearAndScore K now s).nextPieces = s.nextPieces := by
  unfold Game.clearAndScore Game.updateCombo Game.updateScore
  simp only
  split_ifs <;> rfl

theorem clearAndScore_combo (K : Constants) (now : Int) (s : Game) :
    (0 < (Board.clearFullLines s.grid).1 →
      (Game.clearAndScore K now s).combo =
          (if now - s.lastClearTime < 3000 then s.combo + 1 else 0) ∧
        (Game.clearAndScore K now s).lastClearTime = now) ∧
    ((Board.clearFullLines s.grid).1 = 0 →
      (Game.clearAndScore K now s).combo = 0 ∧
        (Game.clearAndScore K now s).lastClearTime = s.lastClearTime) := by
  unfold Game.clearAndScore
  simp only
  constructor
  · intro hpos
    rw [if_pos hpos]
    have h1 := updateCombo_fields (Game.updateScore K { s with grid := (Board.clearFullLines s.grid).2 }
      (Board.clearFullLines s.grid).1
      (Game.isTSpin { s with grid := (Board.clearFullLines s.grid).2 })) now
    have h2 := updateScore_combo K { s with grid := (Board.clearFullLines s.grid).2 }
      (Board.clearFullLines s.grid).1
      (Game.isTSpin { s with grid := (Board.clearFullLines s.grid).2 })
    rw [h2.1, h2.2] at h1
    exact h1
  · intro hzero
    rw [if_neg (by omega)]
    exact ⟨rfl, rfl⟩

theorem spawnNext_cons (K : Constants) (newType : PieceType) (s : Game) (p : Piece)
    (rest : List Piece) (hq : s.nextPieces = p :: rest) :
    ∃ s1, Game.spawnNext K newType s = some s1 ∧ s1.combo = s.combo ∧
      s1.lastClearTime = s.lastClearTime ∧ s1.score = s.score ∧ s1.lines = s.lines ∧
      s1.level = s.level ∧ s1.grid = s.grid ∧ s1.currentPiece = p ∧
      s1.nextPieces = rest ++ [Piece.create K newType] ∧ s1.canHold = s.canHold := by
  unfold Game.spawnNext
  rw [hq]
  simp only
  split
  · refine ⟨_, rfl, ?_⟩
    obtain ⟨h1, h2, h3, h4, h5, h6, h7, h8, h9⟩ := gameOver_fields
      { s with currentPiece := p, nextPieces := rest ++ [Piece.create K newType] }
    exact ⟨h1, h2, h3, h4, h5, h6, h7, h8, h9⟩
  · exact ⟨_, rfl, rfl, rfl, rfl, rfl, rfl, rfl, rfl, rfl, rfl⟩

/-- C8: a lock at clock time `now` returns a state; when that state is not
`gameover`, then if the lock cleared at least one line the combo is `combo + 1`
when `now - lastClearTime < 3000` and 0 otherwise and `lastClearTime` is `now`,
and if it cleared no line the combo is 0 and `lastClearTime` is unchanged. -/
theorem lockPiece_combo (K : Constants) (now : Int) (newType : PieceType) (s : Game)
    (hq : s.nextPieces ≠ []) :
    ∃ s1, Game.lockPiece K now newType s = some s1 ∧
      (s1.gameState ≠ GameState.gameover →
        (0 < (Board.clearFullLines (Game.lockedGrid s)).1 →
          s1.combo = (if now - s.lastClearTime < 3000 then s.combo + 1 else 0) ∧
            s1.lastClearTime = now) ∧
        ((Board.clearFullLines (Game.lockedGrid s)).1 = 0 →
          s1.combo = 0 ∧ s1.lastClearTime = s.lastClearTime)) := by
  unfold Game.lockPiece
  by_cases hy : s.currentPiece.y < 0
  · rw [if_pos hy]
    exact ⟨_, rfl, fun h => absurd (gameOver_gameState s) h⟩
  · rw [if_neg hy]
    simp only
    split
    · exact ⟨_, rfl, fun h => absurd (gameOver_gameState _) h⟩
    · obtain ⟨p, rest, hpr⟩ := List.exists_cons_of_ne_nil hq
      obtain ⟨s1, hs1, hc, ht, _⟩ := spawnNext_cons K newType
        (Game.clearAndScore K now
          { s with grid := Game.lockedGrid s, pieceCount := s.pieceCount + 1, canHold := true })
        p rest (by rw [clearAndScore_nextPieces]; exact hpr)
      refine ⟨s1, hs1, fun _ => ?_⟩
      rw [hc, ht]
      exact clearAndScore_combo K now
        { s with grid := Game.lockedGrid s, pieceCount := s.pieceCount + 1, canHold := true }

theorem lockPiece_combo_witness :
    comboStart.nextPieces ≠ [] ∧
    ∃ s1, Game.lockPiece sampleConstants 100000 PieceType.T comboStart = some s1 ∧
      (s1.gameState ≠ GameState.gameover →
        (0 < (Board.clearFullLines (Game.lockedGrid comboStart)).1 →
          s1.combo = (if (100000 : Int) - comboStart.lastClearTime < 3000
            then comboStart.combo + 1 else 0) ∧
            s1.lastClearTime = 100000) ∧
        ((Board.clearFullLines (Game.lockedGrid comboStart)).1 = 0 →
          s1.combo = 0 ∧ s1.lastClearTime = comboStart.lastClearTime)) :=
  ⟨by decide, lockPiece_combo sampleConstants 100000 PieceType.T comboStart (by decide)⟩

theorem updateScore_level_skip (K : Constants) (s : Game) (n : Nat) (b : Bool)
    (h : ¬((s.lines + n) / 10 + 1 ≠ s.level ∧ (s.lines + n) / 10 + 1 < K.LEVEL_SPEEDS.length)) :
    (Game.updateScore K s n b).level = s.level ∧
      (Game.updateScore K s n b).dropInterval = s.dropInterval := by
  unfold Game.updateScore
  simp only
  rw [if_neg h]
  exact ⟨rfl, rfl⟩

theorem updateScore_level_apply (K : Constants) (s : Game) (n : Nat) (b : Bool)
    (h : (s.lines + n) / 10 + 1 ≠ s.level ∧ (s.lines + n) / 10 + 1 < K.LEVEL_SPEEDS.length) :
    (Game.updateScore K s n b).level = (s.lines + n) / 10 + 1 ∧
      K.LEVEL_SPEEDS[(s.lines + n) / 10 + 1 - 1]? =
        some (Game.updateScore K s n b).dropInterval := by
  unfold Game.updateScore
  simp only
  rw [if_pos h]
  refine ⟨rfl, ?_⟩
  simp only [List.getD_eq_getElem?_getD]
  rw [List.getElem?_eq_getElem (by omega)]
  rfl

/-- C10: with a non-empty queue, `Game.holdCurrentPiece` returns a state, and a
second call on that state (no lock in between) returns it unchanged: held
piece, current piece, queue, `canHold` and every other field are the same. -/
theorem hold_twice_noop (K : Constants) (newType newType2 : PieceType) (s : Game)
    (hq : s.nextPieces ≠ []) :
    ∃ s1, Game.holdCurrentPiece K newType s = some s1 ∧
      Game.holdCurrentPiece K newType2 s1 = some s1 := by
  obtain ⟨p, rest, hpr⟩ := List.exists_cons_of_ne_nil hq
  by_cases hc : s.canHold = true
  · cases hh : s.holdPiece with
    | none =>
      refine ⟨_, by simp only [Game.holdCurrentPiece, hc, hh, hpr, Bool.not_true,
        Bool.false_eq_true, ↓reduceIte, Option.map_some']; rfl, ?_⟩
      simp [Game.holdCurrentPiece]
    | some held =>
      refine ⟨_, by simp only [Game.holdCurrentPiece, hc, hh, Bool.not_true,
        Bool.false_eq_true, ↓reduceIte, Option.map_some']; rfl, ?_⟩
      simp [Game.holdCurrentPiece]
  · have hc2 : s.canHold = false := by simpa using hc
    refine ⟨s, ?_, ?_⟩ <;> simp [Game.holdCurrentPiece, hc2]

theorem hold_twice_noop_witness :
    comboStart.nextPieces ≠ [] ∧
    ∃ s1, Game.holdCurrentPiece sampleConstants PieceType.T comboStart = some s1 ∧
      Game.holdCurrentPiece sampleConstants PieceType.L s1 = some s1 :=
  ⟨by decide, hold_twice_noop sampleConstants PieceType.T PieceType.L comboStart (by decide)⟩

theorem movePiece_valid (s : Game) (dx dy : Int)
    (h : Board.isValidPosition s.grid s.currentPiece.getCurrentShape (s.currentPiece.x + dx)
      (s.currentPiece.y + dy) = true) :
    s.movePiece dx dy = ({ s with currentPiece := s.currentPiece.move dx dy }, true) := by
  unfold Game.movePiece
  have h2 : Board.isValidPosition s.grid (s.currentPiece.move dx dy).getCurrentShape
      (s.currentPiece.move dx dy).x (s.currentPiece.move dx dy).y = true := h
  simp only [h2, Bool.not_true, Bool.false_eq_true, ↓reduceIte]

theorem movePieceTimes_valid_aux (dx dy : Int) (n : Nat) (s : Game)
    (h : ∀ k < n, Board.isValidPosition s.grid s.currentPiece.getCurrentShape
      (s.currentPiece.x + (k + 1 : Nat) * dx) (s.currentPiece.y + (k + 1 : Nat) * dy) = true) :
    s.movePieceTimes dx dy n =
      { s with currentPiece :=
        { s.currentPiece with
          x := s.currentPiece.x + (n : Nat) * dx, y := s.currentPiece.y + (n : Nat) * dy } } := by
  induction n generalizing s with
  | zero => simp [Game.movePieceTimes]
  | succ n ih =>
    have h0 := h 0 (by omega)
    simp only [Nat.zero_add, Nat.cast_one, one_mul] at h0
    rw [Game.movePieceTimes, movePiece_valid s dx dy h0]
    rw [ih]
    · simp only [Piece.move, Nat.cast_add, Nat.cast_one]
      congr 2
      · ring
      · ring
    · intro k hk
      have hk2 := h (k + 1) (by omega)
      simp only [Piece.move, Piece.getCurrentShape] at hk2 ⊢
      rw [← hk2]
      congr 1
      · push_cast; ring
      · push_cast; ring

theorem movePieceTimes_valid (dx dy : Int) (n : Nat) (s : Game) (g : Grid) (c c2 : Piece)
    (hg : s.grid = g) (hc : s.currentPiece = c)
    (h : ∀ k < n, Board.isValidPosition g c.getCurrentShape (c.x + (k + 1 : Nat) * dx)
      (c.y + (k + 1 : Nat) * dy) = true)
    (hc2 : { c with x := c.x + (n : Nat) * dx, y := c.y + (n : Nat) * dy } = c2) :
    s.movePieceTimes dx dy n = { s with currentPiece := c2 } := by
  subst hg hc hc2
  exact movePieceTimes_valid_aux dx dy n s h

theorem isTSpin_of_not_T (s : Game) (h : s.currentPiece.type ≠ PieceType.T) :
    Game.isTSpin s = false := by
  unfold Game.isTSpin
  rw [if_pos h]

theorem lockPiece_clearing (K : Constants) (now : Int) (newType : PieceType) (s : Game)
    (g cleared : Grid) (c p : Piece) (rest : List Piece) (n : Nat)
    (hg : s.grid = g) (hc : s.currentPiece = c) (hq : s.nextPieces = p :: rest)
    (hy : 0 ≤ c.y) (hnoT : c.type ≠ PieceType.T)
    (hover : Board.isGameOver (Board.lockPiece g c.getCurrentShape c.x c.y c.color) = false)
    (hlen : (Board.lockPiece g c.getCurrentShape c.x c.y c.color).length = BOARD_HEIGHT)
    (hn : countFull (Board.lockPiece g c.getCurrentShape c.x c.y c.color) = n) (hpos : 0 < n)
    (hcl : List.replicate n emptyRow ++
      nonFullRows (Board.lockPiece g c.getCurrentShape c.x c.y c.color) = cleared)
    (hspawn : Board.isValidPosition cleared p.getCurrentShape p.x p.y = true)
    (hlvl : (s.lines + n) / 10 + 1 = s.level) :
    Game.lockPiece K now newType s = some
      { s with
        grid := cleared
        currentPiece := p
        nextPieces := rest ++ [Piece.create K newType]
        canHold := true
        pieceCount := s.pieceCount + 1
        lines := s.lines + n
        score := s.score +
          pointsTable.getD n 0 * s.level * (if s.combo > 0 then 2 + s.combo else 2) / 2
        combo := if now - s.lastClearTime < 3000 then s.combo + 1 else 0
        lastClearTime := now } := by
  subst hg hc
  have hclear : Board.clearFullLines (Game.lockedGrid s) = (n, cleared) := by
    unfold Game.lockedGrid
    rw [clearFullLines_eq _ hlen, hn, hcl]
  have hfloor := basePoints_floor
    { s with grid := cleared, pieceCount := s.pieceCount + 1, canHold := true } n false
  simp only [Bool.false_eq_true, ↓reduceIte, Nat.mul_one] at hfloor
  unfold Game.lockPiece
  rw [if_neg (by omega)]
  simp only
  have hover2 : Board.isGameOver (Game.lockedGrid s) = false := hover
  rw [hover2]
  simp only [Bool.false_eq_true, ↓reduceIte]
  unfold Game.clearAndScore
  simp only [hclear, hpos, ↓reduceIte, gt_iff_lt]
  rw [isTSpin_of_not_T { s with grid := cleared, pieceCount := s.pieceCount + 1, canHold := true }
    hnoT]
  unfold Game.updateScore
  simp only [hlvl, ne_eq, not_true_eq_false, false_and, ↓reduceIte, hfloor]
  unfold Game.spawnNext
  by_cases hwin : now - s.lastClearTime < 3000
  · simp only [Game.updateCombo, hwin, ↓reduceIte, hq, hspawn, Bool.not_true, Bool.false_eq_true]
  · simp only [Game.updateCombo, hwin, ↓reduceIte, hq, hspawn, Bool.not_true, Bool.false_eq_true]

set_option maxRecDepth 100000 in
theorem first_lock (K : Constants) (k1 : PieceType) :
    Game.lockPiece K 100000 k1 comboStart = some (afterFirstClear K k1) := by
  rw [lockPiece_clearing K 100000 k1 comboStart (stackGrid 6) (stackGrid 4)
    { squarePiece with x := 0, y := 18 } squarePiece [squarePiece, squarePiece] 2
    rfl rfl rfl (by decide) (by decide) (by decide) (by decide) (by decide) (by decide)
    (by decide) (by decide) (by decide)]
  rfl

set_option maxRecDepth 100000 in
theorem first_slide (K : Constants) (k1 : PieceType) :
    slideIntoGap (afterFirstClear K k1) =
      { afterFirstClear K k1 with currentPiece := { squarePiece with x := 0, y := 18 } } := by
  unfold slideIntoGap
  rw [movePieceTimes_valid (-1) 0 4 (afterFirstClear K k1) (stackGrid 4) squarePiece
    { squarePiece with x := 0, y := 0 } rfl rfl (by decide) (by decide)]
  rw [movePieceTimes_valid 0 1 18 _ (stackGrid 4) { squarePiece with x := 0, y := 0 }
    { squarePiece with x := 0, y := 18 } rfl rfl (by decide) (by decide)]

set_option maxRecDepth 100000 in
theorem second_lock (K : Constants) (k1 k2 : PieceType) :
    Game.lockPiece K 101000 k2 (slideIntoGap (afterFirstClear K k1)) =
      some (afterSecondClear K k1 k2) := by
  rw [first_slide]
  rw [lockPiece_clearing K 101000 k2 _ (stackGrid 4) (stackGrid 2)
    { squarePiece with x := 0, y := 18 } squarePiece [squarePiece, Piece.create K k1] 2
    rfl rfl rfl (by decide) (by decide) (by decide) (by decide) (by decide) (by decide)
    (by decide) (by decide) (by show ((2 : Nat) + 2) / 10 + 1 = 1; decide)]
  simp only [afterSecondClear, afterFirstClear, comboStart, pointsTable, POINTS_DOUBLE]
  rfl

set_option maxRecDepth 100000 in
theorem second_slide (K : Constants) (k1 k2 : PieceType) :
    slideIntoGap (afterSecondClear K k1 k2) =
      { afterSecondClear K k1 k2 with currentPiece := { squarePiece with x := 0, y := 18 } } := by
  unfold slideIntoGap
  rw [movePieceTimes_valid (-1) 0 4 (afterSecondClear K k1 k2) (stackGrid 2) squarePiece
    { squarePiece with x := 0, y := 0 } rfl rfl (by decide) (by decide)]
  rw [movePieceTimes_valid 0 1 18 _ (stackGrid 2) { squarePiece with x := 0, y := 0 }
    { squarePiece with x := 0, y := 18 } rfl rfl (by decide) (by decide)]

set_option maxRecDepth 100000 in
theorem third_lock (K : Constants) (k1 k2 k3 : PieceType) :
    Game.lockPiece K 106000 k3 (slideIntoGap (afterSecondClear K k1 k2)) =
      some (afterThirdClear K k1 k2 k3) := by
  rw [second_slide]
  rw [lockPiece_clearing K 106000 k3 _ (stackGrid 2) (stackGrid 0)
    { squarePiece with x := 0, y := 18 } squarePiece [Piece.create K k1, Piece.create K k2] 2
    rfl rfl rfl (by decide) (by decide) (by decide) (by decide) (by decide) (by decide)
    (by decide) (by decide) (by show ((4 : Nat) + 2) / 10 + 1 = 1; decide)]
  simp only [afterThirdClear, afterSecondClear, comboStart, pointsTable, POINTS_DOUBLE]
  rfl

set_option maxRecDepth 100000 in
theorem lockedGrid_clears_two (s : Game) (k : Nat) (hk : k = 2 ∨ k = 4 ∨ k = 6)
    (hg : s.grid = stackGrid k)
    (hc : s.currentPiece = { squarePiece with x := 0, y := 18 }) :
    (Board.clearFullLines (Game.lockedGrid s)).1 = 2 := by
  unfold Game.lockedGrid
  rw [hg, hc]
  rcases hk with rfl | rfl | rfl
  · rw [clearFullLines_eq _ (by decide)]; decide
  · rw [clearFullLines_eq _ (by decide)]; decide
  · rw [clearFullLines_eq _ (by decide)]; decide

/-- C6: the code at a concrete input.  From `comboStart` (combo 0) a lock at
time 100000 clears two lines; the next lock, at time 101000 (1000 ms later),
again clears two lines, without T-spin, at level 1.  `Game.lockPiece` adds 300
points for this second clear, its base points, where 1.5 times the base points
would be 450: `updateScore` runs before `updateCombo`, so the second clear is
scored with the combo 0 that the first clear left. -/
theorem second_clear_scored_without_combo (K : Constants) (k1 k2 : PieceType) :
    ∃ s1 s2 : Game,
      comboStart.combo = 0 ∧
      Game.lockPiece K 100000 k1 comboStart = some s1 ∧
      (Board.clearFullLines (Game.lockedGrid comboStart)).1 = 2 ∧
      s1.combo = 0 ∧ (101000 : Int) - s1.lastClearTime < 3000 ∧
      Game.lockPiece K 101000 k2 (slideIntoGap s1) = some s2 ∧
      (Board.clearFullLines (Game.lockedGrid (slideIntoGap s1))).1 = 2 ∧
      Game.isTSpin (slideIntoGap s1) = false ∧
      (slideIntoGap s1).level = 1 ∧
      s2.gameState = GameState.playing ∧
      s2.score = (slideIntoGap s1).score + 300 ∧
      ⌊(1.5 : ℚ) * (pointsTable.getD 2 0 : ℚ) * ((slideIntoGap s1).level : ℚ)⌋₊ = 450 := by
  refine ⟨afterFirstClear K k1, afterSecondClear K k1 k2, rfl, first_lock K k1,
    lockedGrid_clears_two _ 6 (by decide) rfl rfl, rfl,
    (by show (101000 : Int) - 100000 < 3000; decide), second_lock K k1 k2,
    ?_, ?_, ?_, rfl, ?_, ?_⟩
  · rw [first_slide]; exact lockedGrid_clears_two _ 4 (by decide) rfl rfl
  · rw [first_slide]; exact isTSpin_of_not_T _ (by show PieceType.O ≠ PieceType.T; decide)
  · rw [first_slide]; rfl
  · rw [first_slide]; rfl
  · rw [first_slide]
    norm_num [pointsTable, POINTS_DOUBLE, afterFirstClear, comboStart, Nat.floor_eq_iff]

/-- C7: the code at a concrete input.  From `comboStart` two locks 1000 ms apart
(times 100000 and 101000) clear two lines each; the third lock, 5000 ms after
the second (time 106000), clears two lines, without T-spin, at level 1.
`Game.lockPiece` adds 450 points for this third clear, 1.5 times its base
points `table[2] * level = 300`: `updateScore` runs before `updateCombo`, so the
third clear is scored with the combo 1 that the second clear left, and the
combo is reset only afterwards. -/
theorem third_clear_scored_with_combo (K : Constants) (k1 k2 k3 : PieceType) :
    ∃ s1 s2 s3 : Game,
      Game.lockPiece K 100000 k1 comboStart = some s1 ∧
      (Board.clearFullLines (Game.lockedGrid comboStart)).1 = 2 ∧
      (101000 : Int) - s1.lastClearTime < 3000 ∧
      Game.lockPiece K 101000 k2 (slideIntoGap s1) = some s2 ∧
      (Board.clearFullLines (Game.lockedGrid (slideIntoGap s1))).1 = 2 ∧
      (106000 : Int) - s2.lastClearTime ≥ 3000 ∧
      Game.lockPiece K 106000 k3 (slideIntoGap s2) = some s3 ∧
      (Board.clearFullLines (Game.lockedGrid (slideIntoGap s2))).1 = 2 ∧
      Game.isTSpin (slideIntoGap s2) = false ∧
      (slideIntoGap s2).level = 1 ∧
      s3.gameState = GameState.playing ∧
      s3.score = (slideIntoGap s2).score + 450 ∧
      pointsTable.getD 2 0 * (slideIntoGap s2).level = 300 := by
  refine ⟨afterFirstClear K k1, afterSecondClear K k1 k2, afterThirdClear K k1 k2 k3,
    first_lock K k1, lockedGrid_clears_two _ 6 (by decide) rfl rfl,
    (by show (101000 : Int) - 100000 < 3000; decide), second_lock K k1 k2, ?_,
    (by show (106000 : Int) - 101000 ≥ 3000; decide),
    third_lock K k1 k2 k3, ?_, ?_, ?_, rfl, ?_, ?_⟩
  · rw [first_slide]; exact lockedGrid_clears_two _ 4 (by decide) rfl rfl
  · rw [second_slide]; exact lockedGrid_clears_two _ 2 (by decide) rfl rfl
  · rw [second_slide]; exact isTSpin_of_not_T _ (by show PieceType.O ≠ PieceType.T; decide)
  · rw [second_slide]; rfl
  · rw [second_slide]; rfl
  · rw [second_slide]; rfl

/-- C9: the code at a concrete input.  With a speed table of two entries
`[1000, 800]`, at level 1 with 9 lines, `Game.updateScore(1, _)` brings the
total to 10 lines, so `newLevel = 2`, which has the entry
`LEVEL_SPEEDS[2 - 1] = 800`; the code leaves level 1 and drop interval 1000,
because its guard is `newLevel < LEVEL_SPEEDS.length`. -/
theorem updateScore_skips_last_speed (K : Constants) (s : Game) (wasTSpin : Bool) :
    (Game.updateScore { K with LEVEL_SPEEDS := [1000, 800] }
        { s with lines := 9, level := 1, dropInterval := 1000 } 1 wasTSpin).lines = 10 ∧
    (10 / 10 + 1 = 2 ∧ ([1000, 800] : List Nat)[2 - 1]? = some 800) ∧
    (Game.updateScore { K with LEVEL_SPEEDS := [1000, 800] }
        { s with lines := 9, level := 1, dropInterval := 1000 } 1 wasTSpin).level = 1 ∧
    (Game.updateScore { K with LEVEL_SPEEDS := [1000, 800] }
        { s with lines := 9, level := 1, dropInterval := 1000 } 1 wasTSpin).dropInterval = 1000 := by
  refine ⟨?_, ⟨rfl, rfl⟩, ?_⟩
  · unfold Game.updateScore
    simp
  · exact updateScore_level_skip _ _ 1 wasTSpin (by simp)

/-! ## Theorems: hold, moves and rotation -/

/-- C11: with `canHold` true, `Game.holdCurrentPiece` returns a state in which
`canHold` is false and grid, score, lines, level and combo are as before.  When
nothing is held (and the queue has a front), the held piece is the old current
piece, the current piece is the old front of the queue and the queue is the old
rest followed by one new piece; when a piece is held, current and held are
swapped and the queue is as before.  In every case the new current piece has
`y = 0` and `x = floor((10 - width of its current shape) / 2)`. -/
theorem hold_effect (K : Constants) (newType : PieceType) (s : Game) (hc : s.canHold = true) :
    (∀ p rest, s.holdPiece = none → s.nextPieces = p :: rest →
      ∃ s1, Game.holdCurrentPiece K newType s = some s1 ∧
        s1.holdPiece = some s.currentPiece ∧
        s1.currentPiece =
          { p with x := ((10 : Int) - (p.getCurrentShape.width : Int)) / 2, y := 0 } ∧
        s1.nextPieces = rest ++ [Piece.create K newType] ∧
        s1.canHold = false ∧ s1.grid = s.grid ∧ s1.score = s.score ∧ s1.lines = s.lines ∧
        s1.level = s.level ∧ s1.combo = s.combo) ∧
    (∀ held, s.holdPiece = some held →
      ∃ s1, Game.holdCurrentPiece K newType s = some s1 ∧
        s1.holdPiece = some s.currentPiece ∧
        s1.currentPiece =
          { held with x := ((10 : Int) - (held.getCurrentShape.width : Int)) / 2, y := 0 } ∧
        s1.nextPieces = s.nextPieces ∧
        s1.canHold = false ∧ s1.grid = s.grid ∧ s1.score = s.score ∧ s1.lines = s.lines ∧
        s1.level = s.level ∧ s1.combo = s.combo) ∧
    (∀ s1, Game.holdCurrentPiece K newType s = some s1 →
      s1.currentPiece.y = 0 ∧
      s1.currentPiece.x = ((10 : Int) - (s1.currentPiece.getCurrentShape.width : Int)) / 2) := by
  refine ⟨?_, ?_, ?_⟩
  · intro p rest hh hq
    refine ⟨_, by simp only [Game.holdCurrentPiece, hc, hh, hq, Bool.not_true,
      Bool.false_eq_true, ↓reduceIte, Option.map_some']; rfl, ?_⟩
    simp
  · intro held hh
    refine ⟨_, by simp only [Game.holdCurrentPiece, hc, hh, Bool.not_true,
      Bool.false_eq_true, ↓reduceIte, Option.map_some']; rfl, ?_⟩
    simp
  · intro s1 h1
    cases hh : s.holdPiece with
    | none =>
      cases hq : s.nextPieces with
      | nil => simp [Game.holdCurrentPiece, hc, hh, hq] at h1
      | cons p rest =>
        simp only [Game.holdCurrentPiece, hc, hh, hq, Bool.not_true, Bool.false_eq_true,
          ↓reduceIte, Option.map_some', Option.some.injEq] at h1
        subst h1
        exact ⟨rfl, rfl⟩
    | some held =>
      simp only [Game.holdCurrentPiece, hc, hh, Bool.not_true, Bool.false_eq_true,
        ↓reduceIte, Option.map_some', Option.some.injEq] at h1
      subst h1
      exact ⟨rfl, rfl⟩

theorem hold_effect_witness :
    comboStart.canHold = true ∧ comboStart.holdPiece = none ∧
    comboStart.nextPieces = squarePiece :: [squarePiece, squarePiece] ∧
    ∃ s1, Game.holdCurrentPiece sampleConstants PieceType.T comboStart = some s1 ∧
      s1.holdPiece = some comboStart.currentPiece ∧
      s1.currentPiece =
        { squarePiece with
          x := ((10 : Int) - (squarePiece.getCurrentShape.width : Int)) / 2, y := 0 } ∧
      s1.nextPieces = [squarePiece, squarePiece] ++ [Piece.create sampleConstants PieceType.T] ∧
      s1.canHold = false ∧ s1.grid = comboStart.grid ∧ s1.score = comboStart.score ∧
      s1.lines = comboStart.lines ∧ s1.level = comboStart.level ∧
      s1.combo = comboStart.combo :=
  ⟨rfl, rfl, rfl,
    (hold_effect sampleConstants PieceType.T comboStart rfl).1 squarePiece
      [squarePiece, squarePiece] rfl rfl⟩

/-- C13: `Game.movePiece(dx, dy)` returns true exactly when the current shape is
a valid position at `(x + dx, y + dy)`; then the piece is at `(x + dx, y + dy)`
and nothing else of the state differs (same rotation, same grid); otherwise the
state is returned as it was. -/
theorem movePiece_spec (s : Game) (dx dy : Int) :
    s.movePiece dx dy =
      if Board.isValidPosition s.grid s.currentPiece.getCurrentShape (s.currentPiece.x + dx)
          (s.currentPiece.y + dy) = true then
        ({ s with currentPiece :=
            { s.currentPiece with x := s.currentPiece.x + dx, y := s.currentPiece.y + dy } },
          true)
      else (s, false) := by
  unfold Game.movePiece
  simp only [Piece.move, Piece.getCurrentShape]
  split
  · rename_i h
    rw [if_neg (by simpa using h)]
    have hx : s.currentPiece.x + dx + -dx = s.currentPiece.x := by omega
    have hy : s.currentPiece.y + dy + -dy = s.currentPiece.y := by omega
    rw [hx, hy]
  · rename_i h
    rw [if_pos (by simpa using h)]

theorem Piece.rotate_x (p : Piece) (d : Int) : (p.rotate d).x = p.x := rfl

theorem Piece.rotate_y (p : Piece) (d : Int) : (p.rotate d).y = p.y := rfl

theorem Piece.rotate_type (p : Piece) (d : Int) : (p.rotate d).type = p.type := rfl

theorem kickLoop_spec (grid : Grid) (piece : Piece) (kicks : List (Int × Int)) :
    Game.kickLoop grid piece kicks =
      match kicks.find? (fun k =>
          Board.isValidPosition grid piece.getCurrentShape (piece.x + k.1) (piece.y + k.2)) with
      | some k => ({ piece with x := piece.x + k.1, y := piece.y + k.2 }, true)
      | none => (piece, false) := by
  induction kicks with
  | nil => simp [Game.kickLoop]
  | cons k kicks ih =>
    obtain ⟨dx, dy⟩ := k
    simp only [Game.kickLoop, Piece.getCurrentShape, List.find?_cons]
    by_cases hv : Board.isValidPosition grid (piece.shapes.getD piece.rotation []) (piece.x + dx)
        (piece.y + dy) = true
    · simp only [hv, ↓reduceIte]
    · have hv2 : Board.isValidPosition grid (piece.shapes.getD piece.rotation []) (piece.x + dx)
        (piece.y + dy) = false := by simpa using hv
      simp only [hv2, Bool.false_eq_true, ↓reduceIte]
      have hx : piece.x + dx - dx = piece.x := by omega
      have hy : piece.y + dy - dy = piece.y := by omega
      rw [hx, hy]
      exact ih

/-- C14: for a direction `+1` or `-1` and a piece with at least one rotation
state, the rotated index is `(rotation + direction + n) mod n`;
`Game.rotatePiece(direction)` takes the first offset of the kick list of the
kind at which the rotated shape is valid, ends with the rotated piece moved by
that offset and returns true, and returns the state as it was with false when
there is none; it returns true exactly when some offset of the list is valid;
and a rotation that is valid in place is accepted with `x` and `y` as before. -/
theorem rotatePiece_spec (s : Game) (direction : Int)
    (hd : direction = 1 ∨ direction = -1) (hs : s.currentPiece.shapes ≠ []) :
    ((s.currentPiece.rotate direction).rotation : Int) =
      ((s.currentPiece.rotation : Int) + direction + (s.currentPiece.shapes.length : Int)) %
        (s.currentPiece.shapes.length : Int) ∧
    s.rotatePiece direction =
      (match (Game.getWallKicks s.currentPiece.type s.currentPiece.rotation
          (s.currentPiece.rotate direction).rotation).find? (fun k =>
          Board.isValidPosition s.grid (s.currentPiece.rotate direction).getCurrentShape
            (s.currentPiece.x + k.1) (s.currentPiece.y + k.2)) with
      | some k =>
        ({ s with currentPiece :=
            { s.currentPiece.rotate direction with
              x := s.currentPiece.x + k.1, y := s.currentPiece.y + k.2 } }, true)
      | none => (s, false)) ∧
    ((s.rotatePiece direction).2 = true ↔
      ∃ k ∈ Game.getWallKicks s.currentPiece.type s.currentPiece.rotation
          (s.currentPiece.rotate direction).rotation,
        Board.isValidPosition s.grid (s.currentPiece.rotate direction).getCurrentShape
          (s.currentPiece.x + k.1) (s.currentPiece.y + k.2) = true) ∧
    (Board.isValidPosition s.grid (s.currentPiece.rotate direction).getCurrentShape
        s.currentPiece.x s.currentPiece.y = true →
      s.rotatePiece direction =
        ({ s with currentPiece := s.currentPiece.rotate direction }, true)) := by
  have hmain : s.rotatePiece direction =
      (match (Game.getWallKicks s.currentPiece.type s.currentPiece.rotation
          (s.currentPiece.rotate direction).rotation).find? (fun k =>
          Board.isValidPosition s.grid (s.currentPiece.rotate direction).getCurrentShape
            (s.currentPiece.x + k.1) (s.currentPiece.y + k.2)) with
      | some k =>
        ({ s with currentPiece :=
            { s.currentPiece.rotate direction with
              x := s.currentPiece.x + k.1, y := s.currentPiece.y + k.2 } }, true)
      | none => (s, false)) := by
    unfold Game.rotatePiece
    simp only [kickLoop_spec, Piece.rotate_x, Piece.rotate_y, Piece.rotate_type]
    generalize (Game.getWallKicks s.currentPiece.type s.currentPiece.rotation
          (s.currentPiece.rotate direction).rotation).find? (fun k =>
          Board.isValidPosition s.grid (s.currentPiece.rotate direction).getCurrentShape
            (s.currentPiece.x + k.1) (s.currentPiece.y + k.2)) = found
    cases found with
    | none => simp [Piece.rotate]
    | some k => simp
  refine ⟨?_, hmain, ?_, ?_⟩
  · have hlen : 0 < s.currentPiece.shapes.length := List.length_pos.2 hs
    have hnn : 0 ≤ (s.currentPiece.rotation : Int) + direction +
        (s.currentPiece.shapes.length : Int) := by
      rcases hd with rfl | rfl <;> omega
    simp only [Piece.rotate]
    rw [Int.tmod_eq_emod hnn (by omega)]
    rw [Int.toNat_of_nonneg (Int.emod_nonneg _ (by omega))]
  · rw [hmain]
    split
    · rename_i k hk
      simp only [true_iff]
      exact ⟨k, List.mem_of_find?_eq_some hk, by simpa using List.find?_some hk⟩
    · rename_i hk
      simp only [Bool.false_eq_true, false_iff, not_exists, not_and]
      intro k hmem
      have := List.find?_eq_none.1 hk k hmem
      simpa using this
  · intro hv
    rw [hmain]
    have h0 : (Game.getWallKicks s.currentPiece.type s.currentPiece.rotation
        (s.currentPiece.rotate direction).rotation).find? (fun k =>
          Board.isValidPosition s.grid (s.currentPiece.rotate direction).getCurrentShape
            (s.currentPiece.x + k.1) (s.currentPiece.y + k.2)) = some (0, 0) := by
      unfold Game.getWallKicks
      split <;> simp [List.find?_cons, hv]
    rw [h0]
    simp [Piece.rotate]

theorem rotatePiece_spec_witness :
    ((1 : Int) = 1 ∨ (1 : Int) = -1) ∧ rotateStart.currentPiece.shapes ≠ [] ∧
    Board.isValidPosition rotateStart.grid (rotateStart.currentPiece.rotate 1).getCurrentShape
      rotateStart.currentPiece.x rotateStart.currentPiece.y = true ∧
    rotateStart.rotatePiece 1 =
      ({ rotateStart with currentPiece := rotateStart.currentPiece.rotate 1 }, true) :=
  ⟨Or.inl rfl, by decide, by decide,
    (rotatePiece_spec rotateStart 1 (Or.inl rfl) (by decide)).2.2.2 (by decide)⟩

/-! ## Theorems: ghost row and hard drop -/

theorem valid_row_lt (grid : Grid) (shape : Shape) (x y : Int) (r c : Nat)
    (hocc : shape.occupied r c = true) (hv : Board.isValidPosition grid shape x y = true) :
    y + r < BOARD_HEIGHT := by
  have h := (Board.isValidPosition_eq_true grid shape x y).1 hv r c hocc
  exact ((Board.collides_eq_false grid x y r c).1 h).2.2.1

theorem getGhostYLoop_spec (grid : Grid) (p : Piece) (r c : Nat)
    (hocc : p.getCurrentShape.occupied r c = true) (fuel : Nat) :
    ∀ gy : Int, fuel ≥ ((BOARD_HEIGHT : Int) - gy).toNat + 1 →
      ∃ g : Int, Piece.getGhostYLoop grid p fuel gy = some g ∧ gy ≤ g ∧
        (∀ y2 : Int, gy < y2 → y2 ≤ g →
          Board.isValidPosition grid p.getCurrentShape p.x y2 = true) ∧
        Board.isValidPosition grid p.getCurrentShape p.x (g + 1) = false := by
  induction fuel with
  | zero => intro gy h; omega
  | succ n ih =>
    intro gy hfuel
    unfold Piece.getGhostYLoop
    by_cases hv : Board.isValidPosition grid p.getCurrentShape p.x (gy + 1) = true
    · rw [if_pos hv]
      have hlt := valid_row_lt grid _ _ _ r c hocc hv
      obtain ⟨g, hg, hle, hall, hstop⟩ := ih (gy + 1) (by omega)
      refine ⟨g, hg, by omega, ?_, hstop⟩
      intro y2 h1 h2
      by_cases he : y2 = gy + 1
      · rw [he]; exact hv
      · exact hall y2 (by omega) h2
    · rw [if_neg hv]
      refine ⟨gy, rfl, le_refl _, ?_, by simpa using hv⟩
      intro y2 h1 h2
      omega

/-- C15: for a piece whose current shape has an occupied cell there is a row
`g` with `y ≤ g` such that `Piece.getGhostY` returns `g` with every fuel of at
least `BOARD_HEIGHT - y + 1` (the loop ends), and `Piece.hardDrop` then sets
`y` to `g` and returns `g - y ≥ 0`; the shape is valid at every row `y2` with
`y < y2 ≤ g` and invalid at `g + 1`; when the piece is valid at `y` it is valid
at `g`; and `g` is the only row with these properties. -/
theorem getGhostY_spec (grid : Grid) (p : Piece) (r c : Nat)
    (hocc : p.getCurrentShape.occupied r c = true) :
    ∃ g : Int,
      (∀ fuel : Nat, fuel ≥ ((BOARD_HEIGHT : Int) - p.y).toNat + 1 →
        Piece.getGhostY fuel grid p = some g ∧
        Piece.hardDrop fuel grid p = some ({ p with y := g }, g - p.y)) ∧
      p.y ≤ g ∧ 0 ≤ g - p.y ∧
      (∀ y2 : Int, p.y < y2 → y2 ≤ g →
        Board.isValidPosition grid p.getCurrentShape p.x y2 = true) ∧
      Board.isValidPosition grid p.getCurrentShape p.x (g + 1) = false ∧
      (Board.isValidPosition grid p.getCurrentShape p.x p.y = true →
        Board.isValidPosition grid p.getCurrentShape p.x g = true) ∧
      (∀ g2 : Int, p.y ≤ g2 →
        (∀ y2 : Int, p.y < y2 → y2 ≤ g2 →
          Board.isValidPosition grid p.getCurrentShape p.x y2 = true) →
        Board.isValidPosition grid p.getCurrentShape p.x (g2 + 1) = false → g2 = g) := by
  obtain ⟨g, hg, hle, hall, hstop⟩ := getGhostYLoop_spec grid p r c hocc
    (((BOARD_HEIGHT : Int) - p.y).toNat + 1) p.y (le_refl _)
  have huniq : ∀ g2 : Int, p.y ≤ g2 →
      (∀ y2 : Int, p.y < y2 → y2 ≤ g2 →
        Board.isValidPosition grid p.getCurrentShape p.x y2 = true) →
      Board.isValidPosition grid p.getCurrentShape p.x (g2 + 1) = false → g2 = g := by
    intro g2 h1 h2 h3
    rcases lt_trichotomy g2 g with h | h | h
    · have := hall (g2 + 1) (by omega) (by omega)
      rw [h3] at this; cases this
    · exact h
    · have := h2 (g + 1) (by omega) (by omega)
      rw [hstop] at this; cases this
  have hfuel : ∀ fuel : Nat, fuel ≥ ((BOARD_HEIGHT : Int) - p.y).toNat + 1 →
      Piece.getGhostY fuel grid p = some g := by
    intro fuel hf
    obtain ⟨g2, hg2, hle2, hall2, hstop2⟩ := getGhostYLoop_spec grid p r c hocc fuel p.y hf
    have := huniq g2 hle2 hall2 hstop2
    rw [← this]
    exact hg2
  refine ⟨g, ?_, hle, by omega, hall, hstop, ?_, huniq⟩
  · intro fuel hf
    refine ⟨hfuel fuel hf, ?_⟩
    unfold Piece.hardDrop
    simp only [hfuel fuel hf]
  · intro hv
    by_cases he : g = p.y
    · rw [he]; exact hv
    · exact hall g (by omega) (le_refl _)

theorem getGhostY_spec_witness :
    squarePiece.getCurrentShape.occupied 0 0 = true ∧
    ∃ g : Int, Piece.getGhostY 21 (stackGrid 6) squarePiece = some g ∧
      Piece.hardDrop 21 (stackGrid 6) squarePiece =
        some ({ squarePiece with y := g }, g - squarePiece.y) ∧
      squarePiece.y ≤ g ∧
      Board.isValidPosition (stackGrid 6) squarePiece.getCurrentShape squarePiece.x (g + 1) =
        false :=
  ⟨by decide,
    (getGhostY_spec (stackGrid 6) squarePiece 0 0 (by decide)).imp fun _ h =>
      ⟨(h.1 21 (by decide)).1, (h.1 21 (by decide)).2, h.2.1, h.2.2.2.2.1⟩⟩

/-! ## Theorems: T-spin test -/

/-- C16: `Game.isTSpin` is false for a current piece whose kind is not T; for a
T piece at `(x, y)` it is true exactly when at least 3 of the cells `(x, y)`,
`(x+2, y)`, `(x, y+2)`, `(x+2, y+2)` are blocked in the sense of
`blockedCorner`. -/
theorem isTSpin_spec (s : Game) :
    (s.currentPiece.type ≠ PieceType.T → Game.isTSpin s = false) ∧
    (s.currentPiece.type = PieceType.T →
      (Game.isTSpin s = true ↔
        3 ≤ ([(s.currentPiece.x, s.currentPiece.y), (s.currentPiece.x + 2, s.currentPiece.y),
              (s.currentPiece.x, s.currentPiece.y + 2),
              (s.currentPiece.x + 2, s.currentPiece.y + 2)].countP
            fun cell => blockedCorner s.grid cell.1 cell.2))) := by
  constructor
  · intro h
    unfold Game.isTSpin
    rw [if_pos h]
  · intro h
    unfold Game.isTSpin
    rw [if_neg (by simp [h])]
    simp only [List.foldl_cons, List.foldl_nil, List.countP_cons, List.countP_nil, blockedCorner,
      add_zero, decide_eq_true_eq, ge_iff_le]
    by_cases h1 : s.currentPiece.x < 0 ∨ 10 ≤ s.currentPiece.x ∨ 20 ≤ s.currentPiece.y ∨
        (0 ≤ s.currentPiece.y ∧ s.grid.cell s.currentPiece.y.toNat s.currentPiece.x.toNat ≠ 0) <;>
    by_cases h2 : s.currentPiece.x + 2 < 0 ∨ 10 ≤ s.currentPiece.x + 2 ∨ 20 ≤ s.currentPiece.y ∨
        (0 ≤ s.currentPiece.y ∧
          s.grid.cell s.currentPiece.y.toNat (s.currentPiece.x + 2).toNat ≠ 0) <;>
    by_cases h3 : s.currentPiece.x < 0 ∨ 10 ≤ s.currentPiece.x ∨ 20 ≤ s.currentPiece.y + 2 ∨
        (0 ≤ s.currentPiece.y + 2 ∧
          s.grid.cell (s.currentPiece.y + 2).toNat s.currentPiece.x.toNat ≠ 0) <;>
    by_cases h4 : s.currentPiece.x + 2 < 0 ∨ 10 ≤ s.currentPiece.x + 2 ∨
        20 ≤ s.currentPiece.y + 2 ∨
        (0 ≤ s.currentPiece.y + 2 ∧
          s.grid.cell (s.currentPiece.y + 2).toNat (s.currentPiece.x + 2).toNat ≠ 0) <;>
    simp [h1, h2, h3, h4]

theorem isTSpin_spec_witness :
    comboStart.currentPiece.type ≠ PieceType.T ∧ Game.isTSpin comboStart = false ∧
    rotateStart.currentPiece.type = PieceType.T ∧
    (Game.isTSpin rotateStart = true ↔
      3 ≤ ([(rotateStart.currentPiece.x, rotateStart.currentPiece.y),
            (rotateStart.currentPiece.x + 2, rotateStart.currentPiece.y),
            (rotateStart.currentPiece.x, rotateStart.currentPiece.y + 2),
            (rotateStart.currentPiece.x + 2, rotateStart.currentPiece.y + 2)].countP
          fun cell => blockedCorner rotateStart.grid cell.1 cell.2)) :=
  ⟨by decide, (isTSpin_spec comboStart).1 (by decide), by decide,
    (isTSpin_spec rotateStart).2 (by decide)⟩

/-! ## Theorems: phase after a lock -/

theorem gameOver_of_playing (s : Game) (h : s.gameState ≠ GameState.gameover) :
    Game.gameOver s =
      { s with
        gameState := GameState.gameover
        ai := if s.ai.enabled then TetrisAI.disable s.ai else s.ai } := by
  unfold Game.gameOver
  rw [if_neg h]

theorem clearAndScore_gameState (K : Constants) (now : Int) (s : Game) :
    (Game.clearAndScore K now s).gameState = s.gameState := by
  unfold Game.clearAndScore Game.updateCombo Game.updateScore
  simp only
  split_ifs <;> rfl

theorem clearAndScore_grid (K : Constants) (now : Int) (s : Game) :
    (Game.clearAndScore K now s).grid = (Board.clearFullLines s.grid).2 := by
  unfold Game.clearAndScore Game.updateCombo Game.updateScore
  simp only
  split_ifs <;> rfl

theorem spawnNext_eq (K : Constants) (newType : PieceType) (s : Game) (p : Piece)
    (rest : List Piece) (hq : s.nextPieces = p :: rest) :
    Game.spawnNext K newType s =
      some (if Board.isValidPosition s.grid p.getCurrentShape p.x p.y = true then
        { s with currentPiece := p, nextPieces := rest ++ [Piece.create K newType] }
      else
        Game.gameOver
          { s with currentPiece := p, nextPieces := rest ++ [Piece.create K newType] }) := by
  unfold Game.spawnNext
  rw [hq]
  simp only
  by_cases hv : Board.isValidPosition s.grid p.getCurrentShape p.x p.y = true
  · simp [hv]
  · simp [hv]

/-- C17: from a playing state with a non-empty queue `Game.lockPiece` returns a
state whose phase is `gameover` exactly when (a) the origin row of the piece is
negative, or (b) a buffer row is occupied once the piece is committed, or (c)
neither holds and the dequeued piece is not at a valid position on the grid
left by the line clear; otherwise the phase is `playing`.  In case (a) the grid
is as before; in case (b) the grid is the committed grid with no row removed,
and score, lines, level and the queue are as before. -/
theorem lockPiece_phase (K : Constants) (now : Int) (newType : PieceType) (s : Game)
    (p : Piece) (rest : List Piece)
    (hplay : s.gameState = GameState.playing) (hq : s.nextPieces = p :: rest) :
    ∃ s1, Game.lockPiece K now newType s = some s1 ∧
      (s1.gameState = GameState.gameover ↔
        (s.currentPiece.y < 0 ∨
          (0 ≤ s.currentPiece.y ∧ Board.isGameOver (Game.lockedGrid s) = true) ∨
          (0 ≤ s.currentPiece.y ∧ Board.isGameOver (Game.lockedGrid s) = false ∧
            Board.isValidPosition (Board.clearFullLines (Game.lockedGrid s)).2
              p.getCurrentShape p.x p.y = false))) ∧
      (s1.gameState ≠ GameState.gameover → s1.gameState = GameState.playing) ∧
      (s.currentPiece.y < 0 → s1.grid = s.grid) ∧
      (0 ≤ s.currentPiece.y → Board.isGameOver (Game.lockedGrid s) = true →
        s1.grid = Game.lockedGrid s ∧ s1.score = s.score ∧ s1.lines = s.lines ∧
          s1.level = s.level ∧ s1.nextPieces = s.nextPieces) := by
  have hng : s.gameState ≠ GameState.gameover := by rw [hplay]; decide
  unfold Game.lockPiece
  by_cases hy : s.currentPiece.y < 0
  · rw [if_pos hy]
    refine ⟨_, rfl, ?_, ?_, ?_, ?_⟩
    · simp [gameOver_gameState, hy]
    · intro h; exact absurd (gameOver_gameState s) h
    · intro _; exact (gameOver_fields s).2.2.2.2.2.1
    · intro h; omega
  · rw [if_neg hy]
    simp only
    by_cases hover : Board.isGameOver (Game.lockedGrid s) = true
    · rw [if_pos hover]
      refine ⟨_, rfl, ?_, ?_, ?_, ?_⟩
      · simp only [gameOver_gameState, true_iff]
        exact Or.inr (Or.inl ⟨by omega, hover⟩)
      · intro h; exact absurd (gameOver_gameState _) h
      · intro h; exact absurd h hy
      · intro _ _
        obtain ⟨_, _, h3, h4, h5, h6, _, h8, _⟩ := gameOver_fields { s with grid := Game.lockedGrid s }
        exact ⟨h6, h3, h4, h5, h8⟩
    · rw [if_neg hover]
      have hover2 : Board.isGameOver (Game.lockedGrid s) = false := by simpa using hover
      have hq2 : ∀ t : Game, t.nextPieces = s.nextPieces →
          (Game.clearAndScore K now t).nextPieces = p :: rest := by
        intro t ht
        rw [clearAndScore_nextPieces, ht]; exact hq
      rw [spawnNext_eq K newType
        (Game.clearAndScore K now
          { s with
            grid := Game.lockedGrid s
            pieceCount := s.pieceCount + 1
            canHold := true }) p rest (hq2 _ rfl)]
      rw [clearAndScore_grid]
      by_cases hv : Board.isValidPosition (Board.clearFullLines (Game.lockedGrid s)).2
          p.getCurrentShape p.x p.y = true
      · rw [if_pos hv]
        refine ⟨_, rfl, ?_, ?_, ?_, ?_⟩
        · simp only [clearAndScore_gameState, hplay, hv, hover2]
          simp [hy]
        · intro _
          simp only [clearAndScore_gameState]; exact hplay
        · intro h; exact absurd h hy
        · intro _ h; exact absurd h hover
      · rw [if_neg hv]
        have hv2 : Board.isValidPosition (Board.clearFullLines (Game.lockedGrid s)).2
          p.getCurrentShape p.x p.y = false := by simpa using hv
        refine ⟨_, rfl, ?_, ?_, ?_, ?_⟩
        · simp only [gameOver_gameState, true_iff]
          exact Or.inr (Or.inr ⟨by omega, hover2, hv2⟩)
        · intro h; exact absurd (gameOver_gameState _) h
        · intro h; exact absurd h hy
        · intro _ h; exact absurd h hover

theorem lockPiece_phase_witness :
    comboStart.gameState = GameState.playing ∧
    comboStart.nextPieces = squarePiece :: [squarePiece, squarePiece] ∧
    ∃ s1, Game.lockPiece sampleConstants 100000 PieceType.T comboStart = some s1 ∧
      (s1.gameState = GameState.gameover ↔
        (comboStart.currentPiece.y < 0 ∨
          (0 ≤ comboStart.currentPiece.y ∧
            Board.isGameOver (Game.lockedGrid comboStart) = true) ∨
          (0 ≤ comboStart.currentPiece.y ∧
            Board.isGameOver (Game.lockedGrid comboStart) = false ∧
            Board.isValidPosition (Board.clearFullLines (Game.lockedGrid comboStart)).2
              squarePiece.getCurrentShape squarePiece.x squarePiece.y = false))) :=
  ⟨rfl, rfl,
    (lockPiece_phase sampleConstants 100000 PieceType.T comboStart squarePiece
      [squarePiece, squarePiece] rfl rfl).imp fun _ h => ⟨h.1, h.2.1⟩⟩

/-! ## Theorems: what the operations keep -/

theorem Game.Step.refl (s : Game) : Game.Step s s := ⟨rfl, Or.inl rfl⟩

theorem Game.Step.trans {s t u : Game} (h1 : Game.Step s t) (h2 : Game.Step t u) :
    Game.Step s u := by
  refine ⟨h2.1.trans h1.1, ?_⟩
  rcases h2.2 with h | h
  · rcases h1.2 with h' | h'
    · exact Or.inl (h.trans h')
    · exact Or.inr (h.trans h')
  · exact Or.inr h

theorem movePiece_frame (s : Game) (dx dy : Int) :
    (s.movePiece dx dy).1 = { s with currentPiece := (s.movePiece dx dy).1.currentPiece } := by
  unfold Game.movePiece
  simp only
  split <;> rfl

theorem rotatePiece_frame (s : Game) (direction : Int) :
    (s.rotatePiece direction).1 =
      { s with currentPiece := (s.rotatePiece direction).1.currentPiece } := by
  unfold Game.rotatePiece
  simp only
  split <;> rfl

theorem movePiece_step (s : Game) (dx dy : Int) : Game.Step s (s.movePiece dx dy).1 := by
  rw [movePiece_frame]; exact ⟨rfl, Or.inl rfl⟩

theorem rotatePiece_step (s : Game) (direction : Int) :
    Game.Step s (s.rotatePiece direction).1 := by
  rw [rotatePiece_frame]; exact ⟨rfl, Or.inl rfl⟩

theorem gameOver_step (s : Game) : Game.Step s (Game.gameOver s) :=
  ⟨by rw [(gameOver_fields s).2.2.2.2.2.2.2.1], Or.inr (gameOver_gameState s)⟩

theorem gameOver_absorb (s : Game) (h : s.gameState = GameState.gameover) :
    Game.gameOver s = s := by
  unfold Game.gameOver
  rw [if_pos h]

theorem spawnNext_step (K : Constants) (newType : PieceType) (s t : Game)
    (h : Game.spawnNext K newType s = some t) : Game.Step s t := by
  unfold Game.spawnNext at h
  cases hq : s.nextPieces with
  | nil => rw [hq] at h; cases h
  | cons p rest =>
    rw [hq] at h
    simp only at h
    split at h
    · cases h
      refine ⟨?_, Or.inr (gameOver_gameState _)⟩
      rw [(gameOver_fields _).2.2.2.2.2.2.2.1, hq]
      simp
    · cases h
      exact ⟨by simp [hq], Or.inl rfl⟩

theorem lockPiece_step (K : Constants) (now : Int) (newType : PieceType) (s t : Game)
    (h : Game.lockPiece K now newType s = some t) : Game.Step s t := by
  unfold Game.lockPiece at h
  split at h
  · cases h; exact gameOver_step s
  · simp only at h
    split at h
    · cases h
      have := gameOver_step { s with grid := Game.lockedGrid s }
      exact this
    · have h2 := spawnNext_step K newType _ t h
      refine ⟨?_, ?_⟩
      · rw [h2.1, clearAndScore_nextPieces]
      · rcases h2.2 with h3 | h3
        · rw [clearAndScore_gameState] at h3; exact Or.inl h3
        · exact Or.inr h3

theorem holdCurrentPiece_step (K : Constants) (newType : PieceType) (s t : Game)
    (h : Game.holdCurrentPiece K newType s = some t) : Game.Step s t := by
  unfold Game.holdCurrentPiece at h
  split at h
  · cases h; exact Game.Step.refl s
  · cases hh : s.holdPiece with
    | none =>
      cases hq : s.nextPieces with
      | nil => simp [hh, hq] at h
      | cons p rest =>
        simp only [hh, hq, Option.map_some', Option.some.injEq] at h
        subst h
        exact ⟨by simp [hq], Or.inl rfl⟩
    | some held =>
      simp only [hh, Option.map_some', Option.some.injEq] at h
      subst h
      exact ⟨rfl, Or.inl rfl⟩

theorem hardDrop_step (K : Constants) (env : Env) (s t : Game)
    (h : Game.hardDrop K env s = some t) : Game.Step s t := by
  unfold Game.hardDrop at h
  split at h
  · cases h
  · have h2 := lockPiece_step K env.now env.newType _ t h
    exact Game.Step.trans ⟨rfl, Or.inl rfl⟩ h2

theorem handleKeyPress_step (K : Constants) (env : Env) (key : Key) (s t : Game)
    (h : Game.handleKeyPress K env key s = some t) : Game.Step s t := by
  have hbump : Game.Step s
      (if (!s.ai.enabled) = true then { s with actionCount := s.actionCount + 1 } else s) := by
    split
    · exact ⟨rfl, Or.inl rfl⟩
    · exact Game.Step.refl s
  unfold Game.handleKeyPress at h
  simp only at h
  refine Game.Step.trans hbump ?_
  generalize (if (!s.ai.enabled) = true then
    ({ s with actionCount := s.actionCount + 1 } : Game) else s) = b at h ⊢
  cases key <;> simp only [Option.some.injEq] at h
  · subst h; exact movePiece_step _ _ _
  · subst h; exact movePiece_step _ _ _
  · split at h
    · cases h
      exact Game.Step.trans (movePiece_step _ 0 1) ⟨rfl, Or.inl rfl⟩
    · cases h; exact movePiece_step _ _ _
  · subst h; exact rotatePiece_step _ _
  · subst h; exact rotatePiece_step _ _
  · subst h; exact rotatePiece_step _ _
  · subst h; exact rotatePiece_step _ _
  · subst h; exact rotatePiece_step _ _
  · exact hardDrop_step K env _ t h
  · exact holdCurrentPiece_step K env.newType _ t h
  · exact holdCurrentPiece_step K env.newType _ t h
  · subst h; exact Game.Step.refl _

theorem setAI_step (s : Game) (ai : AIState) : Game.Step s { s with ai := ai } :=
  ⟨rfl, Or.inl rfl⟩

theorem executeNextMove_step (K : Constants) (env : Env) (s t : Game)
    (h : TetrisAI.executeNextMove K env s = some t) : Game.Step s t := by
  unfold TetrisAI.executeNextMove at h
  cases hq : s.ai.moveQueue with
  | nil =>
    rw [hq] at h
    cases h
    exact setAI_step s _
  | cons move rest =>
    rw [hq] at h
    simp only at h
    have h0 : Game.Step s { s with ai := { s.ai with moveQueue := rest } } := setAI_step s _
    cases move <;> simp only [Option.map_eq_some'] at h
    · exact Game.Step.trans h0 (handleKeyPress_step K env _ _ t h)
    · exact Game.Step.trans h0 (handleKeyPress_step K env _ _ t h)
    · exact Game.Step.trans h0 (handleKeyPress_step K env _ _ t h)
    · obtain ⟨u, hu, rfl⟩ := h
      exact Game.Step.trans h0
        (Game.Step.trans (handleKeyPress_step K env _ _ u hu) (setAI_step u _))
    · obtain ⟨u, hu, rfl⟩ := h
      exact Game.Step.trans h0
        (Game.Step.trans (handleKeyPress_step K env _ _ u hu) (setAI_step u _))

theorem aiUpdate_step (K : Constants) (env : TickEnv) (s t : Game)
    (h : TetrisAI.update K env s = some t) : Game.Step s t := by
  unfold TetrisAI.update at h
  split at h
  · cases h; exact Game.Step.refl s
  · simp only at h
    have h0 : Game.Step s
        (if (!s.ai.isExecuting && decide (env.aiNow - s.ai.lastThinkTime ≥ s.ai.thinkDelay)) = true
          then ({ s with ai := { TetrisAI.planNextMove s.ai with lastThinkTime := env.aiNow } } : Game)
          else s) := by
      split
      · exact setAI_step s _
      · exact Game.Step.refl s
    generalize (if (!s.ai.isExecuting &&
        decide (env.aiNow - s.ai.lastThinkTime ≥ s.ai.thinkDelay)) = true
      then ({ s with ai := { TetrisAI.planNextMove s.ai with lastThinkTime := env.aiNow } } : Game)
      else s) = b at h h0
    split at h
    · simp only [Option.map_eq_some'] at h
      obtain ⟨u, hu, rfl⟩ := h
      exact Game.Step.trans h0
        (Game.Step.trans (executeNextMove_step K env.aiEnv b u hu) (setAI_step u _))
    · cases h; exact h0

theorem update_step (K : Constants) (env : TickEnv) (deltaTime : ℚ) (s t : Game)
    (h : Game.update K env deltaTime s = some t) : Game.Step s t := by
  unfold Game.update at h
  split at h
  · cases h; exact Game.Step.refl s
  · have h0 : ∀ u, (if s.ai.enabled = true then TetrisAI.update K env s else some s) = some u →
        Game.Step s u := by
      intro u hu
      split at hu
      · exact aiUpdate_step K env s u hu
      · cases hu; exact Game.Step.refl s
    generalize (if s.ai.enabled = true then TetrisAI.update K env s else some s) = r at h h0
    cases r with
    | none => cases h
    | some u =>
      simp only at h
      have h1 := h0 u rfl
      have h2 : Game.Step u { u with dropCounter := u.dropCounter + deltaTime } :=
        ⟨rfl, Or.inl rfl⟩
      generalize ({ u with dropCounter := u.dropCounter + deltaTime } : Game) = v at h h2
      split at h
      · split at h
        · simp only [Option.map_eq_some'] at h
          obtain ⟨w, hw, rfl⟩ := h
          have h3 := lockPiece_step K _ _ _ w hw
          exact Game.Step.trans h1 (Game.Step.trans h2
            (Game.Step.trans (movePiece_step v 0 1) (Game.Step.trans h3 ⟨rfl, Or.inl rfl⟩)))
        · cases h
          exact Game.Step.trans h1 (Game.Step.trans h2
            (Game.Step.trans (movePiece_step v 0 1) ⟨rfl, Or.inl rfl⟩))
      · cases h
        exact Game.Step.trans h1 h2

theorem gameLoop_step (K : Constants) (env : TickEnv) (time : ℚ) (s t : Game)
    (h : Game.gameLoop K env time s = some t) : Game.Step s t := by
  unfold Game.gameLoop at h
  split at h
  · cases h; exact Game.Step.refl s
  · simp only at h
    have h2 := update_step K env _ _ t h
    exact Game.Step.trans ⟨rfl, Or.inl rfl⟩ h2

theorem togglePause_step (K : Constants) (env : TickEnv) (perfNow : ℚ) (s t : Game)
    (h : Game.togglePause K env perfNow s = some t) :
    t.nextPieces.length = s.nextPieces.length := by
  unfold Game.togglePause at h
  split at h
  · cases h; rfl
  · split at h
    · exact (gameLoop_step K env 0 _ t h).1
    · cases h; rfl

theorem step_gameover {s t : Game} (h : Game.Step s t) (hs : s.gameState = GameState.gameover) :
    t.gameState = GameState.gameover := by
  rcases h.2 with h1 | h1
  · rw [h1, hs]
  · exact h1

/-! ## Theorems: the hold flag -/

theorem clearAndScore_canHold (K : Constants) (now : Int) (s : Game) :
    (Game.clearAndScore K now s).canHold = s.canHold := by
  unfold Game.clearAndScore Game.updateCombo Game.updateScore
  simp only
  split_ifs <;> rfl

theorem handleKeyPress_quiet (K : Constants) (env : Env) (key : Key) (s : Game)
    (hk : key ≠ Key.space) (hc : s.canHold = false) :
    ∃ t, Game.handleKeyPress K env key s = some t ∧ t.canHold = false := by
  have hb : (if (!s.ai.enabled) = true then
      ({ s with actionCount := s.actionCount + 1 } : Game) else s).canHold = false := by
    split
    · exact hc
    · exact hc
  unfold Game.handleKeyPress
  simp only
  generalize (if (!s.ai.enabled) = true then
    ({ s with actionCount := s.actionCount + 1 } : Game) else s) = b at hb ⊢
  cases key
  · exact ⟨_, rfl, by rw [movePiece_frame]; exact hb⟩
  · exact ⟨_, rfl, by rw [movePiece_frame]; exact hb⟩
  · simp only
    split
    · exact ⟨_, rfl, by rw [movePiece_frame]; exact hb⟩
    · exact ⟨_, rfl, by rw [movePiece_frame]; exact hb⟩
  · exact ⟨_, rfl, by rw [rotatePiece_frame]; exact hb⟩
  · exact ⟨_, rfl, by rw [rotatePiece_frame]; exact hb⟩
  · exact ⟨_, rfl, by rw [rotatePiece_frame]; exact hb⟩
  · exact ⟨_, rfl, by rw [rotatePiece_frame]; exact hb⟩
  · exact ⟨_, rfl, by rw [rotatePiece_frame]; exact hb⟩
  · exact absurd rfl hk
  · exact ⟨b, by simp [Game.holdCurrentPiece, hb], hb⟩
  · exact ⟨b, by simp [Game.holdCurrentPiece, hb], hb⟩
  · exact ⟨b, rfl, hb⟩

/-- C12: a state returned by `Game.holdCurrentPiece` has `canHold` false; from a
state with `canHold` false every sequence of key presses other than the hard
drop (shifts, soft drops, rotations, holds) ends in a state with `canHold`
false; and a `Game.lockPiece` whose piece has a non-negative origin row and
whose committed grid has free buffer rows returns a state with `canHold`
true. -/
theorem canHold_until_lock (K : Constants) :
    (∀ (newType : PieceType) (s t : Game),
      Game.holdCurrentPiece K newType s = some t → t.canHold = false) ∧
    (∀ (presses : List (Env × Key)) (s : Game), s.canHold = false →
      (∀ e ∈ presses, e.2 ≠ Key.space) →
      ∃ t, Game.handleKeys K presses s = some t ∧ t.canHold = false) ∧
    (∀ (now : Int) (newType : PieceType) (s : Game), 0 ≤ s.currentPiece.y →
      Board.isGameOver (Game.lockedGrid s) = false → s.nextPieces ≠ [] →
      ∃ t, Game.lockPiece K now newType s = some t ∧ t.canHold = true) := by
  refine ⟨?_, ?_, ?_⟩
  · intro newType s t h
    unfold Game.holdCurrentPiece at h
    split at h
    · rename_i hc
      cases h
      simpa using hc
    · cases hh : s.holdPiece with
      | none =>
        cases hq : s.nextPieces with
        | nil => simp [hh, hq] at h
        | cons p rest =>
          simp only [hh, hq, Option.map_some', Option.some.injEq] at h
          subst h
          rfl
      | some held =>
        simp only [hh, Option.map_some', Option.some.injEq] at h
        subst h
        rfl
  · intro presses
    induction presses with
    | nil => intro s hc _; exact ⟨s, rfl, hc⟩
    | cons e rest ih =>
      intro s hc hk
      obtain ⟨env, key⟩ := e
      obtain ⟨t, ht, hct⟩ := handleKeyPress_quiet K env key s (hk (env, key) (by simp)) hc
      obtain ⟨u, hu, hcu⟩ := ih t hct (fun e he => hk e (by simp [he]))
      exact ⟨u, by simp only [Game.handleKeys, ht]; exact hu, hcu⟩
  · intro now newType s hy hover hq
    obtain ⟨p, rest, hpr⟩ := List.exists_cons_of_ne_nil hq
    unfold Game.lockPiece
    rw [if_neg (by omega)]
    simp only
    rw [if_neg (by simp [hover])]
    obtain ⟨s1, hs1, _, _, _, _, _, _, _, _, hcan⟩ := spawnNext_cons K newType
      (Game.clearAndScore K now
        { s with
          grid := Game.lockedGrid s
          pieceCount := s.pieceCount + 1
          canHold := true })
      p rest (by rw [clearAndScore_nextPieces]; exact hpr)
    refine ⟨s1, hs1, ?_⟩
    rw [hcan, clearAndScore_canHold]

theorem canHold_until_lock_witness :
    ({ comboStart with canHold := false } : Game).canHold = false ∧
    (∀ e ∈ [((⟨21, 0, PieceType.T⟩ : Env), Key.ArrowLeft), (⟨21, 0, PieceType.T⟩, Key.c)],
      e.2 ≠ Key.space) ∧
    (∃ t, Game.handleKeys sampleConstants
        [((⟨21, 0, PieceType.T⟩ : Env), Key.ArrowLeft), (⟨21, 0, PieceType.T⟩, Key.c)]
        { comboStart with canHold := false } = some t ∧ t.canHold = false) ∧
    0 ≤ comboStart.currentPiece.y ∧ Board.isGameOver (Game.lockedGrid comboStart) = false ∧
    comboStart.nextPieces ≠ [] ∧
    ∃ t, Game.lockPiece sampleConstants 100000 PieceType.T comboStart = some t ∧
      t.canHold = true :=
  ⟨rfl, by decide,
    (canHold_until_lock sampleConstants).2.1 _ { comboStart with canHold := false } rfl
      (by decide),
    by decide, by decide, by decide,
    (canHold_until_lock sampleConstants).2.2 100000 PieceType.T comboStart (by decide)
      (by decide) (by decide)⟩

/-! ## Theorems: the phase machine -/

theorem update_after_ai (K : Constants) (env : TickEnv) (deltaTime : ℚ) (s u : Game)
    (hp : s.gameState = GameState.playing) (he : s.ai.enabled = true)
    (hu : TetrisAI.update K env s = some u)
    (hd : u.dropCounter + deltaTime ≤ (u.dropInterval : ℚ)) :
    Game.update K env deltaTime s = some { u with dropCounter := u.dropCounter + deltaTime } := by
  unfold Game.update
  rw [if_neg (by rw [hp]; decide), if_pos he, hu]
  simp only
  rw [if_neg (by simpa using hd)]

theorem update_without_ai (K : Constants) (env : TickEnv) (deltaTime : ℚ) (s : Game)
    (hp : s.gameState = GameState.playing) (he : s.ai.enabled = false)
    (hd : s.dropCounter + deltaTime ≤ (s.dropInterval : ℚ)) :
    Game.update K env deltaTime s = some { s with dropCounter := s.dropCounter + deltaTime } := by
  unfold Game.update
  rw [if_neg (by rw [hp]; decide), if_neg (by simp [he])]
  simp only
  rw [if_neg (by simpa using hd)]

theorem aiUpdate_idle (K : Constants) (env : TickEnv) (s : Game) (hq : s.ai.moveQueue = []) :
    ∃ ai : AIState, TetrisAI.update K env s = some { s with ai := ai } := by
  unfold TetrisAI.update
  split
  · exact ⟨s.ai, rfl⟩
  · simp only
    split
    · rename_i hthink
      have hq2 : (TetrisAI.planNextMove s.ai).moveQueue = [] := by
        unfold TetrisAI.planNextMove
        split
        · exact hq
        · exact hq
      simp only [hq2, List.length_nil, gt_iff_lt, lt_self_iff_false, decide_False,
        Bool.false_and, Bool.false_eq_true, ↓reduceIte]
      exact ⟨_, rfl⟩
    · simp only [hq, List.length_nil, gt_iff_lt, lt_self_iff_false, decide_False,
        Bool.false_and, Bool.false_eq_true, ↓reduceIte]
      exact ⟨s.ai, rfl⟩

set_option maxRecDepth 100000 in
/-- C18, counterexample: `pausedBeforeDrop` is paused, and the state that
`Game.togglePause` returns for it is in phase `gameover`, not `playing`:
resuming runs a frame, in which the AI dispatches its queued hard drop, and the
lock fills a buffer row. -/
theorem togglePause_resume_gameover :
    pausedBeforeDrop.gameState = GameState.paused ∧
    Option.map Game.gameState (Game.togglePause sampleConstants resumeEnv 5000 pausedBeforeDrop) =
      some GameState.gameover := by
  refine ⟨rfl, ?_⟩
  have hsome : (TetrisAI.update sampleConstants resumeEnv resumedBeforeDrop).isSome = true := by
    decide
  obtain ⟨u, hu⟩ := Option.isSome_iff_exists.1 hsome
  have hg : Option.map Game.gameState (TetrisAI.update sampleConstants resumeEnv
      resumedBeforeDrop) = some GameState.gameover := by decide
  have hc : Option.map Game.dropCounter (TetrisAI.update sampleConstants resumeEnv
      resumedBeforeDrop) = some 0 := by rfl
  have hi : Option.map Game.dropInterval (TetrisAI.update sampleConstants resumeEnv
      resumedBeforeDrop) = some 1000 := by decide
  rw [hu] at hg hc hi
  simp only [Option.map_some', Option.some.injEq] at hg hc hi
  have hstart : Game.togglePause sampleConstants resumeEnv 5000 pausedBeforeDrop =
      Game.update sampleConstants resumeEnv (0 - 5000) resumedBeforeDrop := rfl
  rw [hstart, update_after_ai sampleConstants resumeEnv _ _ u rfl rfl hu
    (by rw [hc, hi]; norm_num)]
  simp [hg]

/-- C18, amended: `Game.togglePause` maps `playing` to `paused`; from `paused`
the state it returns is in phase `playing` or `gameover`, and in phase
`playing` when the AI is disabled and `dropCounter - performance.now()` is at
most `dropInterval`; it returns a `gameover` state as it is.  `Game.update`
returns the state as it is when the phase is not `playing`.  From a `gameover`
state every operation other than `Game.restart` returns a `gameover` state.
`Game.restart` returns a state in phase `playing` from every state, the clock
reading being non-negative. -/
theorem phase_machine (K : Constants) :
    (∀ (env : TickEnv) (perfNow : ℚ) (s : Game), s.gameState = GameState.playing →
      Game.togglePause K env perfNow s = some { s with gameState := GameState.paused }) ∧
    (∀ (env : TickEnv) (perfNow : ℚ) (s t : Game), s.gameState = GameState.paused →
      Game.togglePause K env perfNow s = some t →
      t.gameState = GameState.playing ∨ t.gameState = GameState.gameover) ∧
    (∀ (env : TickEnv) (perfNow : ℚ) (s : Game), s.gameState = GameState.paused →
      s.ai.enabled = false → s.dropCounter - perfNow ≤ (s.dropInterval : ℚ) →
      ∃ t, Game.togglePause K env perfNow s = some t ∧ t.gameState = GameState.playing) ∧
    (∀ (env : TickEnv) (perfNow : ℚ) (s : Game), s.gameState = GameState.gameover →
      Game.togglePause K env perfNow s = some s) ∧
    (∀ (env : TickEnv) (deltaTime : ℚ) (s : Game), s.gameState ≠ GameState.playing →
      Game.update K env deltaTime s = some s) ∧
    (∀ s : Game, s.gameState = GameState.gameover →
      (∀ (env : Env) (key : Key) (t : Game), Game.handleKeyPress K env key s = some t →
        t.gameState = GameState.gameover) ∧
      (∀ (env : Env) (t : Game), Game.hardDrop K env s = some t →
        t.gameState = GameState.gameover) ∧
      (∀ (now : Int) (newType : PieceType) (t : Game), Game.lockPiece K now newType s = some t →
        t.gameState = GameState.gameover) ∧
      (∀ (newType : PieceType) (t : Game), Game.holdCurrentPiece K newType s = some t →
        t.gameState = GameState.gameover) ∧
      (∀ dx dy : Int, (s.movePiece dx dy).1.gameState = GameState.gameover) ∧
      (∀ direction : Int, (s.rotatePiece direction).1.gameState = GameState.gameover) ∧
      (Game.gameOver s).gameState = GameState.gameover ∧
      (∀ (env : TickEnv) (t : Game), TetrisAI.update K env s = some t →
        t.gameState = GameState.gameover) ∧
      (∀ (env : Env) (t : Game), TetrisAI.executeNextMove K env s = some t →
        t.gameState = GameState.gameover) ∧
      (∀ (env : TickEnv) (deltaTime : ℚ) (t : Game), Game.update K env deltaTime s = some t →
        t.gameState = GameState.gameover) ∧
      (∀ (env : TickEnv) (time : ℚ) (t : Game), Game.gameLoop K env time s = some t →
        t.gameState = GameState.gameover) ∧
      (∀ (env : TickEnv) (perfNow : ℚ) (t : Game), Game.togglePause K env perfNow s = some t →
        t.gameState = GameState.gameover)) ∧
    (∀ (env : TickEnv) (t0 t1 t2 t3 : PieceType) (perfNow : ℚ) (s : Game), 0 ≤ perfNow →
      ∃ t, Game.restart K env t0 t1 t2 t3 perfNow s = some t ∧
        t.gameState = GameState.playing) := by
  refine ⟨?_, ?_, ?_, ?_, ?_, ?_, ?_⟩
  · intro env perfNow s hp
    unfold Game.togglePause
    rw [if_pos hp]
  · intro env perfNow s t hp h
    unfold Game.togglePause at h
    rw [if_neg (by rw [hp]; decide), if_pos hp] at h
    have := (gameLoop_step K env 0 _ t h).2
    exact this
  · intro env perfNow s hp he hd
    unfold Game.togglePause Game.gameLoop
    rw [if_neg (by rw [hp]; decide), if_pos hp]
    simp only [reduceCtorEq, ↓reduceIte]
    have h := update_without_ai K env (0 - perfNow)
      ({ s with gameState := GameState.playing, lastTime := 0 } : Game) rfl he
      (by show s.dropCounter + (0 - perfNow) ≤ (s.dropInterval : ℚ); linarith)
    exact ⟨_, h, rfl⟩
  · intro env perfNow s hg
    unfold Game.togglePause
    rw [if_neg (by rw [hg]; decide), if_neg (by rw [hg]; decide)]
  · intro env deltaTime s hn
    unfold Game.update
    rw [if_pos hn]
  · intro s hg
    refine ⟨?_, ?_, ?_, ?_, ?_, ?_, ?_, ?_, ?_, ?_, ?_, ?_⟩
    · intro env key t h; exact step_gameover (handleKeyPress_step K env key s t h) hg
    · intro env t h; exact step_gameover (hardDrop_step K env s t h) hg
    · intro now newType t h; exact step_gameover (lockPiece_step K now newType s t h) hg
    · intro newType t h; exact step_gameover (holdCurrentPiece_step K newType s t h) hg
    · intro dx dy; exact step_gameover (movePiece_step s dx dy) hg
    · intro direction; exact step_gameover (rotatePiece_step s direction) hg
    · exact gameOver_gameState s
    · intro env t h; exact step_gameover (aiUpdate_step K env s t h) hg
    · intro env t h; exact step_gameover (executeNextMove_step K env s t h) hg
    · intro env deltaTime t h; exact step_gameover (update_step K env deltaTime s t h) hg
    · intro env time t h; exact step_gameover (gameLoop_step K env time s t h) hg
    · intro env perfNow t h
      unfold Game.togglePause at h
      rw [if_neg (by rw [hg]; decide), if_neg (by rw [hg]; decide)] at h
      cases h; exact hg
  · intro env t0 t1 t2 t3 perfNow s hperf
    unfold Game.restart Game.gameLoop
    have hplay : (Game.restartFields K t0 t1 t2 t3 perfNow s).gameState = GameState.playing := rfl
    rw [if_neg (by rw [hplay]; decide)]
    simp only
    have hdrop : (0 : ℚ) + (0 - perfNow) ≤ ((K.LEVEL_SPEEDS.getD 0 0 : Nat) : ℚ) := by
      have : (0 : ℚ) ≤ ((K.LEVEL_SPEEDS.getD 0 0 : Nat) : ℚ) := Nat.cast_nonneg _
      linarith
    cases he : s.ai.enabled
    · have h := update_without_ai K env (0 - perfNow)
        ({ Game.restartFields K t0 t1 t2 t3 perfNow s with lastTime := 0 } : Game) rfl
        (by simp [Game.restartFields, he]) hdrop
      exact ⟨_, h, rfl⟩
    · have hq : ({ Game.restartFields K t0 t1 t2 t3 perfNow s with lastTime := 0 } : Game).ai.moveQueue
          = [] := by
        simp [Game.restartFields, he]
      obtain ⟨ai, hai⟩ := aiUpdate_idle K env
        ({ Game.restartFields K t0 t1 t2 t3 perfNow s with lastTime := 0 } : Game) hq
      have h := update_after_ai K env (0 - perfNow)
        ({ Game.restartFields K t0 t1 t2 t3 perfNow s with lastTime := 0 } : Game) _ rfl
        (by simp [Game.restartFields, he]) hai hdrop
      exact ⟨_, h, rfl⟩

theorem phase_machine_witness :
    comboStart.gameState = GameState.playing ∧
    Game.togglePause sampleConstants resumeEnv 0 comboStart =
      some { comboStart with gameState := GameState.paused } ∧
    (0 : ℚ) ≤ 0 ∧
    ∃ t, Game.restart sampleConstants resumeEnv PieceType.T PieceType.O PieceType.I
        PieceType.L 0 (Game.gameOver comboStart) = some t ∧
      t.gameState = GameState.playing :=
  ⟨rfl, (phase_machine sampleConstants).1 resumeEnv 0 comboStart rfl, le_refl 0,
    (phase_machine sampleConstants).2.2.2.2.2.2 resumeEnv PieceType.T PieceType.O PieceType.I
      PieceType.L 0 (Game.gameOver comboStart) (le_refl 0)⟩

/-! ## Theorems: the queue -/

theorem reachable_queue (K : Constants) (s : Game) (h : Reachable K s) :
    s.nextPieces.length = 3 := by
  induction h with
  | init env t0 t1 t2 t3 s h => exact (gameLoop_step K env 0 _ s h).1
  | restart env t0 t1 t2 t3 perfNow s t h => exact (gameLoop_step K env 0 _ t h).1
  | key env key s t _ h ih => rw [(handleKeyPress_step K env key s t h).1, ih]
  | tick env time s t _ h ih => rw [(gameLoop_step K env time s t h).1, ih]
  | pause env perfNow s t _ h ih => rw [togglePause_step K env perfNow s t h, ih]
  | ai s ai _ ih => exact ih

theorem init_fresh (env : TickEnv) :
    Game.init sampleConstants env PieceType.T PieceType.O PieceType.I PieceType.L =
      some freshGame := by
  have h := update_without_ai sampleConstants env (0 - 0)
    ({ Game.initialFields sampleConstants PieceType.T PieceType.O PieceType.I PieceType.L with
        lastTime := 0 } : Game) rfl rfl
    (by show (0 : ℚ) + (0 - 0) ≤ ((1000 : Nat) : ℚ); norm_num)
  exact h

theorem reachable_fresh : Reachable sampleConstants freshGame :=
  Reachable.init ⟨0, ⟨0, 0, PieceType.T⟩, ⟨0, 0, PieceType.T⟩⟩ _ _ _ _ _ (init_fresh _)

/-- C19: in every reachable state the queue holds exactly 3 pieces `[a, b, c]`;
`Game.lockPiece` then returns a state whose queue is `[b, c, new]` with the one
new piece at the back, unless it ends the game before dequeuing (negative
origin row or occupied buffer row), where the queue is `[a, b, c]`; and
`Game.holdCurrentPiece` returns a state whose queue is `[b, c, new]` when it
dequeues (`canHold` true and nothing held) and `[a, b, c]` otherwise. -/
theorem queue_fifo (K : Constants) (s : Game) (h : Reachable K s) :
    s.nextPieces.length = 3 ∧
    ∃ a b c : Piece, s.nextPieces = [a, b, c] ∧
      (∀ (now : Int) (newType : PieceType), ∃ t, Game.lockPiece K now newType s = some t ∧
        t.nextPieces =
          if s.currentPiece.y < 0 ∨ Board.isGameOver (Game.lockedGrid s) = true then [a, b, c]
          else [b, c, Piece.create K newType]) ∧
      (∀ newType : PieceType, ∃ t, Game.holdCurrentPiece K newType s = some t ∧
        t.nextPieces =
          if s.canHold = true ∧ s.holdPiece = none then [b, c, Piece.create K newType]
          else [a, b, c]) := by
  have hlen := reachable_queue K s h
  refine ⟨hlen, ?_⟩
  obtain ⟨a, b, c, hq⟩ : ∃ a b c : Piece, s.nextPieces = [a, b, c] := by
    match hs : s.nextPieces, hlen with
    | [a, b, c], _ => exact ⟨a, b, c, rfl⟩
  refine ⟨a, b, c, hq, ?_, ?_⟩
  · intro now newType
    unfold Game.lockPiece
    by_cases hy : s.currentPiece.y < 0
    · rw [if_pos hy, if_pos (Or.inl hy)]
      exact ⟨_, rfl, by rw [(gameOver_fields s).2.2.2.2.2.2.2.1, hq]⟩
    · rw [if_neg hy]
      simp only
      by_cases hover : Board.isGameOver (Game.lockedGrid s) = true
      · rw [if_pos hover, if_pos (Or.inr hover)]
        exact ⟨_, rfl, by rw [(gameOver_fields _).2.2.2.2.2.2.2.1]; exact hq⟩
      · rw [if_neg hover, if_neg (by tauto)]
        obtain ⟨s1, h1, hf⟩ := spawnNext_cons K newType
          (Game.clearAndScore K now
            { s with grid := Game.lockedGrid s, pieceCount := s.pieceCount + 1, canHold := true })
          a [b, c] (by rw [clearAndScore_nextPieces]; exact hq)
        exact ⟨s1, h1, hf.2.2.2.2.2.2.2.1⟩
  · intro newType
    unfold Game.holdCurrentPiece
    cases hc : s.canHold
    · simp [hq]
    · cases hh : s.holdPiece
      · simp [hq]
      · simp [hq]

theorem queue_fifo_witness :
    Reachable sampleConstants freshGame ∧ freshGame.nextPieces.length = 3 :=
  ⟨reachable_fresh, (queue_fifo sampleConstants freshGame reachable_fresh).1⟩

/-! ## Theorems: placement search -/

theorem tryPlacement_candidate (ai : AIState) (piece : Piece) (grid : Grid)
    (nextPieces : List Piece) (rotation : Nat) (x : Int) (st : SearchState) :
    TetrisAI.tryPlacement ai piece grid nextPieces rotation x st =
      match TetrisAI.candidate ai piece grid nextPieces (rotation, x) with
      | none => st
      | some c =>
        if (match st.bestScore with
            | none => true
            | some best => decide (c.score > best)) = true then
          { bestScore := some c.score, bestMove := some c, evaluations := st.evaluations + 1 }
        else { st with evaluations := st.evaluations + 1 } := by
  unfold TetrisAI.tryPlacement TetrisAI.candidate
  simp only
  cases TetrisAI.findLandingY { piece with rotation := rotation, x := x, y := 0 } grid with
  | none => rfl
  | some landingY =>
    simp only
    cases TetrisAI.isValidPlacement
      { piece with rotation := rotation, x := x, y := (landingY : Int) } grid with
    | false => rfl
    | true => rfl

theorem searchInv_step (ai : AIState) (piece : Piece) (grid : Grid) (nextPieces : List Piece)
    (pre : List (Nat × Int)) (rotation : Nat) (x : Int) (st : SearchState)
    (h : TetrisAI.SearchInv (TetrisAI.candidate ai piece grid nextPieces) pre st) :
    TetrisAI.SearchInv (TetrisAI.candidate ai piece grid nextPieces) (pre ++ [(rotation, x)])
      (TetrisAI.tryPlacement ai piece grid nextPieces rotation x st) := by
  obtain ⟨hev, hsc, hbest⟩ := h
  rw [tryPlacement_candidate]
  cases hc : TetrisAI.candidate ai piece grid nextPieces (rotation, x) with
  | none =>
    simp only
    refine ⟨by rw [List.length_append]; omega, hsc, ?_⟩
    cases hm : st.bestMove with
    | none =>
      rw [hm] at hbest
      intro q hq
      rcases List.mem_append.1 hq with hq | hq
      · exact hbest q hq
      · rw [List.mem_singleton.1 hq]; exact hc
    | some m =>
      rw [hm] at hbest
      obtain ⟨l1, rx, l2, hpre, hrx, hl1, hl2⟩ := hbest
      refine ⟨l1, rx, l2 ++ [(rotation, x)], by rw [hpre]; simp, hrx, hl1, ?_⟩
      intro q hq c hqc
      rcases List.mem_append.1 hq with hq | hq
      · exact hl2 q hq c hqc
      · rw [List.mem_singleton.1 hq, hc] at hqc; cases hqc
  | some c =>
    simp only
    cases hm : st.bestMove with
    | none =>
      rw [hm] at hbest hsc
      simp only [Option.map_none'] at hsc
      rw [hsc]
      simp only [↓reduceIte]
      refine ⟨by simp only [List.length_append, List.length_singleton]; omega, rfl, ?_⟩
      refine ⟨pre, (rotation, x), [], rfl, hc, ?_, ?_⟩
      · intro q hq c2 hqc; rw [hbest q hq] at hqc; cases hqc
      · intro q hq; cases hq
    | some m =>
      rw [hm] at hbest hsc
      simp only [Option.map_some'] at hsc
      rw [hsc]
      obtain ⟨l1, rx, l2, hpre, hrx, hl1, hl2⟩ := hbest
      by_cases hgt : c.score > m.score
      · simp only [hgt, decide_True, ↓reduceIte]
        refine ⟨by simp only [List.length_append, List.length_singleton]; omega, rfl, ?_⟩
        refine ⟨pre, (rotation, x), [], rfl, hc, ?_, ?_⟩
        · intro q hq c2 hqc
          rw [hpre] at hq
          rcases List.mem_append.1 hq with hq | hq
          · exact lt_trans (hl1 q hq c2 hqc) hgt
          · rcases List.mem_cons.1 hq with hq | hq
            · rw [hq, hrx] at hqc
              cases hqc
              exact hgt
            · exact lt_of_le_of_lt (hl2 q hq c2 hqc) hgt
        · intro q hq; cases hq
      · simp only [hgt, decide_False, Bool.false_eq_true, ↓reduceIte]
        refine ⟨by simp only [List.length_append, List.length_singleton]; omega, ?_, ?_⟩
        · rfl
        · show TetrisAI.BestOf _ _ (some m)
          refine ⟨l1, rx, l2 ++ [(rotation, x)], by rw [hpre]; simp, hrx, hl1, ?_⟩
          intro q hq c2 hqc
          rcases List.mem_append.1 hq with hq | hq
          · exact hl2 q hq c2 hqc
          · rw [List.mem_singleton.1 hq, hc] at hqc
            cases hqc
            exact not_lt.1 hgt

theorem searchInv_columns (ai : AIState) (piece : Piece) (grid : Grid)
    (nextPieces : List Piece) (rotation : Nat) (xs : List Int) :
    ∀ (pre : List (Nat × Int)) (st : SearchState),
      TetrisAI.SearchInv (TetrisAI.candidate ai piece grid nextPieces) pre st →
      pre.length + xs.length ≤ 200 →
      TetrisAI.SearchInv (TetrisAI.candidate ai piece grid nextPieces)
        (pre ++ xs.map fun x => (rotation, x))
        (TetrisAI.columnLoop ai piece grid nextPieces rotation xs st) := by
  induction xs with
  | nil => intro pre st h _; simpa [TetrisAI.columnLoop] using h
  | cons x xs ih =>
    intro pre st h hlen
    have hev : ¬ st.evaluations ≥ 200 := by
      have h1 : st.evaluations ≤ pre.length := h.1
      simp only [List.length_cons] at hlen
      omega
    unfold TetrisAI.columnLoop
    rw [if_neg hev]
    have h2 := ih (pre ++ [(rotation, x)]) _ (searchInv_step ai piece grid nextPieces pre rotation x st h)
      (by simp only [List.length_append, List.length_cons, List.length_nil] at hlen ⊢; omega)
    simpa using h2

theorem searchInv_rotations (ai : AIState) (piece : Piece) (grid : Grid)
    (nextPieces : List Piece) (rs : List Nat) :
    ∀ (pre : List (Nat × Int)) (st : SearchState),
      TetrisAI.SearchInv (TetrisAI.candidate ai piece grid nextPieces) pre st →
      pre.length + rs.length * 14 ≤ 200 →
      TetrisAI.SearchInv (TetrisAI.candidate ai piece grid nextPieces)
        (pre ++ rs.flatMap fun rotation => TetrisAI.searchColumns.map fun x => (rotation, x))
        (rs.foldl (fun st rotation =>
          TetrisAI.columnLoop ai piece grid nextPieces rotation TetrisAI.searchColumns st) st) := by
  have hcols : TetrisAI.searchColumns.length = 14 := by decide
  induction rs with
  | nil => intro pre st h _; simpa using h
  | cons r rs ih =>
    intro pre st h hlen
    simp only [List.length_cons] at hlen
    have h1 := searchInv_columns ai piece grid nextPieces r TetrisAI.searchColumns pre st h
      (by rw [hcols]; omega)
    have h2 := ih _ _ h1
      (by simp only [List.length_append, List.length_map, hcols]; omega)
    simpa [List.flatMap_cons, List.foldl_cons, List.append_assoc] using h2

theorem findBestPlacement_best (ai : AIState) (piece : Piece) (grid : Grid)
    (nextPieces : List Piece) (hs : piece.shapes.length ≤ 14) :
    TetrisAI.BestOf (TetrisAI.candidate ai piece grid nextPieces) (TetrisAI.searchPairs piece)
      (TetrisAI.findBestPlacement ai piece grid nextPieces) := by
  have h := searchInv_rotations ai piece grid nextPieces (List.range piece.shapes.length) []
    { bestScore := none, bestMove := none, evaluations := 0 }
    ⟨Nat.le_refl 0, rfl, by intro q hq; cases hq⟩
    (by simp only [List.length_nil, List.length_range]; omega)
  exact h.2.2

theorem candidate_pair (ai : AIState) (piece : Piece) (grid : Grid) (nextPieces : List Piece)
    (rx : Nat × Int) (m : AIPlan)
    (h : TetrisAI.candidate ai piece grid nextPieces rx = some m) :
    m.rotation = rx.1 ∧ m.x = rx.2 := by
  unfold TetrisAI.candidate at h
  simp only at h
  split at h
  · cases h
  · split at h
    · cases h; exact ⟨rfl, rfl⟩
    · cases h

/-- C20, amended: for a piece with four rotation states and weights of
magnitude at most `2 ^ 200`, the pairs tried are the rotations 0..3 with the
columns -2..11, rotation first;
`TetrisAI.findBestPlacement` returns `none` exactly when no pair has a
candidate (a landing row at which the piece can be placed); and a returned plan
is the candidate of a pair such that every candidate of an earlier pair scores
strictly less and every candidate of a later pair scores at most as much, the
scores being the numbers that `TetrisAI.evaluatePlacement` computes, with every
product and sum rounded to binary64, not the exact values of the weighted sums.
So the plan has the maximal computed score over all candidates and is the first
of those with that score, and the cap of 200 evaluations leaves no candidate
out. -/
theorem findBestPlacement_spec (ai : AIState) (piece : Piece) (grid : Grid)
    (nextPieces : List Piece) (hs : piece.shapes.length = 4) (_hw : ai.weights.InRange) :
    TetrisAI.searchPairs piece =
      ([0, 1, 2, 3] : List Nat).flatMap (fun rotation =>
        ([-2, -1, 0, 1, 2, 3, 4, 5, 6, 7, 8, 9, 10, 11] : List Int).map fun x =>
          (rotation, x)) ∧
    (TetrisAI.findBestPlacement ai piece grid nextPieces = none ↔
      ∀ rx ∈ TetrisAI.searchPairs piece,
        TetrisAI.candidate ai piece grid nextPieces rx = none) ∧
    (∀ m, TetrisAI.findBestPlacement ai piece grid nextPieces = some m →
      ∃ l1 rx l2, TetrisAI.searchPairs piece = l1 ++ rx :: l2 ∧
        TetrisAI.candidate ai piece grid nextPieces rx = some m ∧
        m.rotation = rx.1 ∧ m.x = rx.2 ∧
        (∀ q ∈ l1, ∀ c, TetrisAI.candidate ai piece grid nextPieces q = some c →
          c.score < m.score) ∧
        (∀ q ∈ l2, ∀ c, TetrisAI.candidate ai piece grid nextPieces q = some c →
          c.score ≤ m.score)) := by
  have hb := findBestPlacement_best ai piece grid nextPieces (by omega)
  refine ⟨?_, ?_, ?_⟩
  · unfold TetrisAI.searchPairs
    rw [hs]
    rfl
  · constructor
    · intro h
      rw [h] at hb
      exact hb
    · intro h
      cases hm : TetrisAI.findBestPlacement ai piece grid nextPieces with
      | none => rfl
      | some m =>
        rw [hm] at hb
        obtain ⟨l1, rx, l2, hp, hc, _⟩ := hb
        have hn := h rx (by rw [hp]; simp)
        rw [hn] at hc
        cases hc
  · intro m hm
    rw [hm] at hb
    obtain ⟨l1, rx, l2, hp, hc, h1, h2⟩ := hb
    have hpair := candidate_pair ai piece grid nextPieces rx m hc
    exact ⟨l1, rx, l2, hp, hc, hpair.1, hpair.2, h1, h2⟩

set_option maxRecDepth 1000000 in
theorem findBestPlacement_spec_witness :
    (Piece.create sampleConstants PieceType.T).shapes.length = 4 ∧
    sampleAI.weights.InRange ∧
    (TetrisAI.findBestPlacement sampleAI (Piece.create sampleConstants PieceType.T)
        Board.createEmptyGrid [] = none ↔
      ∀ rx ∈ TetrisAI.searchPairs (Piece.create sampleConstants PieceType.T),
        TetrisAI.candidate sampleAI (Piece.create sampleConstants PieceType.T)
          Board.createEmptyGrid [] rx = none) :=
  ⟨by decide, by decide!,
    (findBestPlacement_spec sampleAI (Piece.create sampleConstants PieceType.T)
      Board.createEmptyGrid [] (by decide) (by decide!)).2.1⟩

/-! ## Theorems: rounding to binary64 -/

theorem bitLengthLoop_spec (fuel n : Nat) (hn : 1 ≤ n) (hf : n ≤ fuel) :
    2 ^ Float64.bitLengthLoop fuel n ≤ n ∧ n < 2 ^ (Float64.bitLengthLoop fuel n + 1) := by
  induction fuel generalizing n with
  | zero => omega
  | succ fuel ih =>
    simp only [Float64.bitLengthLoop]
    split
    · simp only [pow_zero, zero_add, pow_one]
      omega
    · have h := ih (n / 2) (by omega) (by omega)
      rw [pow_succ, pow_succ]
      rw [pow_succ] at h
      omega

theorem log2_spec (n : Nat) (hn : 1 ≤ n) :
    2 ^ Float64.log2 n ≤ n ∧ n < 2 ^ (Float64.log2 n + 1) :=
  bitLengthLoop_spec n n hn (le_refl n)

theorem pow2_eq (k : Int) : Float64.pow2 k = (2 : ℚ) ^ k := by
  unfold Float64.pow2
  split
  · rename_i h
    obtain ⟨n, rfl⟩ := Int.eq_ofNat_of_zero_le h
    simp
  · rename_i h
    obtain ⟨n, hn⟩ : ∃ n : ℕ, k = -(n : ℤ) := ⟨(-k).toNat, by omega⟩
    subst hn
    simp

theorem pow2_pos (k : Int) : 0 < Float64.pow2 k := by
  rw [pow2_eq]
  exact zpow_pos (by norm_num) k

theorem exponent_spec (q : ℚ) (hq : q ≠ 0) :
    (2 : ℚ) ^ Float64.exponent q ≤ |q| ∧ |q| < (2 : ℚ) ^ (Float64.exponent q + 1) := by
  have hnum : 1 ≤ q.num.natAbs := by
    have := Rat.num_ne_zero.2 hq
    omega
  have hden : 1 ≤ q.den := q.den_pos
  obtain ⟨hx1, hx2⟩ := log2_spec q.num.natAbs hnum
  obtain ⟨hy1, hy2⟩ := log2_spec q.den hden
  have habs : |q| = (q.num.natAbs : ℚ) / (q.den : ℚ) := by
    rw [Rat.abs_def, Rat.divInt_eq_div, Int.cast_natCast, Int.cast_natCast]
  have hdpos : (0 : ℚ) < (q.den : ℚ) := by exact_mod_cast hden
  have hx1q : (2 : ℚ) ^ (Float64.log2 q.num.natAbs) ≤ (q.num.natAbs : ℚ) := by exact_mod_cast hx1
  have hx2q : (q.num.natAbs : ℚ) < (2 : ℚ) ^ (Float64.log2 q.num.natAbs + 1) := by
    exact_mod_cast hx2
  have hy1q : (2 : ℚ) ^ (Float64.log2 q.den) ≤ (q.den : ℚ) := by exact_mod_cast hy1
  have hy2q : (q.den : ℚ) < (2 : ℚ) ^ (Float64.log2 q.den + 1) := by exact_mod_cast hy2
  have h2 : (2 : ℚ) ≠ 0 := by norm_num
  have hpy : (0 : ℚ) < (2 : ℚ) ^ (Float64.log2 q.den) := pow_pos (by norm_num) _
  have hpy1 : (0 : ℚ) < (2 : ℚ) ^ (Float64.log2 q.den + 1) := pow_pos (by norm_num) _
  -- |q| < 2 ^ (a + 1)
  have hup : |q| < (2 : ℚ) ^ ((Float64.log2 q.num.natAbs : Int) - (Float64.log2 q.den : Int) + 1) := by
    rw [habs, show (Float64.log2 q.num.natAbs : Int) - (Float64.log2 q.den : Int) + 1 =
      ((Float64.log2 q.num.natAbs + 1 : ℕ) : Int) - ((Float64.log2 q.den : ℕ) : Int) by push_cast; ring,
      zpow_sub₀ h2, zpow_natCast, zpow_natCast, div_lt_div_iff₀ hdpos hpy]
    calc (q.num.natAbs : ℚ) * 2 ^ Float64.log2 q.den
        < 2 ^ (Float64.log2 q.num.natAbs + 1) * 2 ^ Float64.log2 q.den :=
          mul_lt_mul_of_pos_right hx2q hpy
      _ ≤ 2 ^ (Float64.log2 q.num.natAbs + 1) * (q.den : ℚ) :=
          mul_le_mul_of_nonneg_left hy1q (le_of_lt (pow_pos (by norm_num) _))
  -- 2 ^ (a - 1) ≤ |q|
  have hlow : (2 : ℚ) ^ ((Float64.log2 q.num.natAbs : Int) - (Float64.log2 q.den : Int) - 1) ≤ |q| := by
    rw [habs, show (Float64.log2 q.num.natAbs : Int) - (Float64.log2 q.den : Int) - 1 =
      ((Float64.log2 q.num.natAbs : ℕ) : Int) - ((Float64.log2 q.den + 1 : ℕ) : Int) by push_cast; ring,
      zpow_sub₀ h2, zpow_natCast, zpow_natCast, div_le_div_iff₀ hpy1 hdpos]
    calc (2 : ℚ) ^ Float64.log2 q.num.natAbs * (q.den : ℚ)
        ≤ (q.num.natAbs : ℚ) * (q.den : ℚ) := mul_le_mul_of_nonneg_right hx1q (le_of_lt hdpos)
      _ ≤ (q.num.natAbs : ℚ) * 2 ^ (Float64.log2 q.den + 1) :=
          mul_le_mul_of_nonneg_left (le_of_lt hy2q) (by positivity)
  unfold Float64.exponent
  simp only
  split
  · rename_i h
    rw [pow2_eq] at h
    exact ⟨h, hup⟩
  · rename_i h
    rw [pow2_eq, not_le] at h
    refine ⟨hlow, ?_⟩
    rw [sub_add_cancel]
    exact h

theorem roundHalfEven_bounds (x : ℚ) :
    ⌊x⌋ ≤ Float64.roundHalfEven x ∧ Float64.roundHalfEven x ≤ ⌊x⌋ + 1 := by
  unfold Float64.roundHalfEven
  simp only
  split_ifs <;> omega

theorem roundHalfEven_mono (x y : ℚ) (h : x ≤ y) :
    Float64.roundHalfEven x ≤ Float64.roundHalfEven y := by
  have hf : ⌊x⌋ ≤ ⌊y⌋ := Int.floor_mono h
  rcases lt_or_eq_of_le hf with hlt | heq
  · have h1 := (roundHalfEven_bounds x).2
    have h2 := (roundHalfEven_bounds y).1
    omega
  · have hr : x - (⌊x⌋ : ℚ) ≤ y - (⌊y⌋ : ℚ) := by
      rw [heq]; linarith
    unfold Float64.roundHalfEven
    simp only
    rw [heq] at hr ⊢
    split_ifs <;> first | omega | (exfalso; linarith)

theorem roundHalfEven_intCast (n : Int) : Float64.roundHalfEven (n : ℚ) = n := by
  unfold Float64.roundHalfEven
  simp

theorem roundHalfEven_neg (x : ℚ) : Float64.roundHalfEven (-x) = -Float64.roundHalfEven x := by
  by_cases hr : x = (⌊x⌋ : ℚ)
  · rw [hr, ← Int.cast_neg, roundHalfEven_intCast, roundHalfEven_intCast]
  · have h1 : (⌊x⌋ : ℚ) < x := lt_of_le_of_ne (Int.floor_le x) (Ne.symm hr)
    have h2 : x < (⌊x⌋ : ℚ) + 1 := Int.lt_floor_add_one x
    have hfl : ⌊-x⌋ = -⌊x⌋ - 1 := by
      rw [Int.floor_eq_iff]
      push_cast
      constructor <;> linarith
    unfold Float64.roundHalfEven
    simp only
    rw [hfl]
    push_cast
    split_ifs <;> first | omega | (exfalso; linarith)

theorem round_zero : Float64.round 0 = 0 := by
  unfold Float64.round
  simp

theorem exponent_neg (q : ℚ) : Float64.exponent (-q) = Float64.exponent q := by
  unfold Float64.exponent
  simp only [Rat.neg_num, Int.natAbs_neg, Rat.den_neg_eq_den, abs_neg]

theorem round_neg (q : ℚ) : Float64.round (-q) = -Float64.round q := by
  unfold Float64.round
  by_cases hq : q = 0
  · simp [hq]
  · have hq2 : -q ≠ 0 := neg_ne_zero.2 hq
    simp only [hq, hq2, ↓reduceIte, exponent_neg]
    rw [neg_div, roundHalfEven_neg]
    push_cast
    ring

theorem round_nonneg (q : ℚ) (hq : 0 ≤ q) : 0 ≤ Float64.round q := by
  unfold Float64.round
  split
  · exact le_refl 0
  · simp only
    apply mul_nonneg _ (le_of_lt (pow2_pos _))
    have h0 : Float64.roundHalfEven ((0 : Int) : ℚ) ≤
        Float64.roundHalfEven (q / Float64.pow2 (max (Float64.exponent q - 52) (-1074))) :=
      roundHalfEven_mono _ _ (by
        rw [Int.cast_zero]
        exact div_nonneg hq (le_of_lt (pow2_pos _)))
    rw [roundHalfEven_intCast] at h0
    exact_mod_cast h0

theorem round_mono_pos (x y : ℚ) (hx : 0 < x) (hxy : x ≤ y) :
    Float64.round x ≤ Float64.round y := by
  have hy : 0 < y := lt_of_lt_of_le hx hxy
  have hx0 : x ≠ 0 := ne_of_gt hx
  have hy0 : y ≠ 0 := ne_of_gt hy
  obtain ⟨ex1, ex2⟩ := exponent_spec x hx0
  obtain ⟨ey1, ey2⟩ := exponent_spec y hy0
  rw [abs_of_pos hx] at ex1 ex2
  rw [abs_of_pos hy] at ey1 ey2
  have h21 : (1 : ℚ) < 2 := by norm_num
  have hexp : Float64.exponent x ≤ Float64.exponent y := by
    have : (2 : ℚ) ^ Float64.exponent x < (2 : ℚ) ^ (Float64.exponent y + 1) :=
      lt_of_le_of_lt ex1 (lt_of_le_of_lt hxy ey2)
    have := (zpow_lt_zpow_iff_right₀ h21).1 this
    omega
  unfold Float64.round
  simp only [hx0, hy0, ↓reduceIte]
  generalize hkx : max (Float64.exponent x - 52) (-1074) = kx
  generalize hky : max (Float64.exponent y - 52) (-1074) = ky
  have hk : kx ≤ ky := by omega
  rw [pow2_eq, pow2_eq]
  have hpx : (0 : ℚ) < (2 : ℚ) ^ kx := zpow_pos (by norm_num) _
  have hpy : (0 : ℚ) < (2 : ℚ) ^ ky := zpow_pos (by norm_num) _
  have h2 : (2 : ℚ) ≠ 0 := by norm_num
  rcases eq_or_lt_of_le hk with heq | hlt
  · rw [← heq]
    apply mul_le_mul_of_nonneg_right _ (le_of_lt hpx)
    have := roundHalfEven_mono (x / 2 ^ kx) (y / 2 ^ kx) (div_le_div_of_nonneg_right hxy (le_of_lt hpx))
    exact_mod_cast this
  · -- the two numbers lie in different binades: `2 ^ e` separates the results
    have hkey : ky = Float64.exponent y - 52 := by omega
    have hex : Float64.exponent x + 1 ≤ Float64.exponent y := by omega
    have hsep : (0 : Int) ≤ Float64.exponent y - kx := by omega
    -- round x ≤ 2 ^ e
    have hxle : ((Float64.roundHalfEven (x / 2 ^ kx) : Int) : ℚ) * (2 : ℚ) ^ kx ≤
        (2 : ℚ) ^ Float64.exponent y := by
      have hxb : x / 2 ^ kx ≤ (((2 : Int) ^ (Float64.exponent y - kx).toNat : Int) : ℚ) := by
        rw [div_le_iff₀ hpx]
        push_cast
        rw [← zpow_natCast, Int.toNat_of_nonneg hsep, ← zpow_add₀ h2, sub_add_cancel]
        exact le_trans (le_of_lt ex2) (zpow_le_zpow_right₀ (le_of_lt h21) hex)
      have := roundHalfEven_mono _ _ hxb
      rw [roundHalfEven_intCast] at this
      have hq : ((Float64.roundHalfEven (x / 2 ^ kx) : Int) : ℚ) ≤
          (((2 : Int) ^ (Float64.exponent y - kx).toNat : Int) : ℚ) := by exact_mod_cast this
      calc ((Float64.roundHalfEven (x / 2 ^ kx) : Int) : ℚ) * (2 : ℚ) ^ kx
          ≤ (((2 : Int) ^ (Float64.exponent y - kx).toNat : Int) : ℚ) * (2 : ℚ) ^ kx :=
            mul_le_mul_of_nonneg_right hq (le_of_lt hpx)
        _ = (2 : ℚ) ^ Float64.exponent y := by
            push_cast
            rw [← zpow_natCast, Int.toNat_of_nonneg hsep, ← zpow_add₀ h2, sub_add_cancel]
    -- 2 ^ e ≤ round y
    have hyge : (2 : ℚ) ^ Float64.exponent y ≤
        ((Float64.roundHalfEven (y / 2 ^ ky) : Int) : ℚ) * (2 : ℚ) ^ ky := by
      have h52 : (((2 : Int) ^ 52 : Int) : ℚ) = (2 : ℚ) ^ (52 : Int) := by norm_num
      have hsum : (2 : ℚ) ^ (52 : Int) * (2 : ℚ) ^ ky = (2 : ℚ) ^ Float64.exponent y := by
        rw [← zpow_add₀ h2, hkey]
        rw [show (52 : Int) + (Float64.exponent y - 52) = Float64.exponent y by ring]
      have hyb : (((2 : Int) ^ 52 : Int) : ℚ) ≤ y / 2 ^ ky := by
        rw [le_div_iff₀ hpy, h52, hsum]
        exact ey1
      have := roundHalfEven_mono _ _ hyb
      rw [roundHalfEven_intCast] at this
      have hq : (((2 : Int) ^ 52 : Int) : ℚ) ≤ ((Float64.roundHalfEven (y / 2 ^ ky) : Int) : ℚ) := by
        exact_mod_cast this
      calc (2 : ℚ) ^ Float64.exponent y
          = (((2 : Int) ^ 52 : Int) : ℚ) * (2 : ℚ) ^ ky := by
            rw [h52, hsum]
        _ ≤ ((Float64.roundHalfEven (y / 2 ^ ky) : Int) : ℚ) * (2 : ℚ) ^ ky :=
            mul_le_mul_of_nonneg_right hq (le_of_lt hpy)
    exact le_trans hxle hyge

theorem round_mono (x y : ℚ) (hxy : x ≤ y) : Float64.round x ≤ Float64.round y := by
  rcases lt_trichotomy 0 x with hx | hx | hx
  · exact round_mono_pos x y hx hxy
  · rw [← hx, round_zero]
    exact round_nonneg y (by rw [hx]; exact hxy)
  · rcases le_or_lt 0 y with hy | hy
    · have h1 := round_nonneg (-x) (by linarith)
      rw [round_neg] at h1
      have h2 := round_nonneg y hy
      linarith
    · have h1 := round_mono_pos (-y) (-x) (by linarith) (by linarith)
      rw [round_neg, round_neg] at h1
      linarith

theorem add_mono_left (a b c : ℚ) (h : a ≤ b) : Float64.add a c ≤ Float64.add b c :=
  round_mono _ _ (by linarith)

theorem round_of_nat_div (n : Nat) :
    (Float64.round ((n : ℚ) / 10) > 10 ↔ 100 < n) ∧ (Float64.round ((n : ℚ) / 10) < 5 ↔ n < 50) := by
  have h10 : Float64.round 10 = 10 := by decide!
  have h101 : (10 : ℚ) < Float64.round (101 / 10) := by decide!
  have h5 : Float64.round 5 = 5 := by decide!
  have h49 : Float64.round (49 / 10) < 5 := by decide!
  constructor
  · constructor
    · intro h
      by_contra hn
      have hle : ((n : ℚ) / 10) ≤ 10 := by
        have : (n : ℚ) ≤ 100 := by exact_mod_cast (not_lt.1 hn)
        linarith
      have := round_mono _ _ hle
      rw [h10] at this
      exact absurd h (not_lt.2 this)
    · intro h
      have hle : (101 : ℚ) / 10 ≤ (n : ℚ) / 10 := by
        have : (101 : ℚ) ≤ (n : ℚ) := by exact_mod_cast h
        linarith
      exact lt_of_lt_of_le h101 (round_mono _ _ hle)
  · constructor
    · intro h
      by_contra hn
      have hle : (5 : ℚ) ≤ (n : ℚ) / 10 := by
        have : (50 : ℚ) ≤ (n : ℚ) := by exact_mod_cast (not_lt.1 hn)
        linarith
      have := round_mono _ _ hle
      rw [h5] at this
      exact absurd h (not_lt.2 this)
    · intro h
      have hle : (n : ℚ) / 10 ≤ (49 : ℚ) / 10 := by
        have : (n : ℚ) ≤ 49 := by exact_mod_cast (Nat.lt_succ_iff.1 h)
        linarith
      exact lt_of_le_of_lt (round_mono _ _ hle) h49

/-! ## Theorems: the score of a placement -/

theorem getColumnHeights_length (grid : Grid) :
    (TetrisAI.getColumnHeights grid).length = 10 := by
  unfold TetrisAI.getColumnHeights
  simp [BOARD_WIDTH]

theorem quickEvaluateNextPiece_eq (grid : Grid) (nextPiece : Piece) :
    TetrisAI.quickEvaluateNextPiece grid nextPiece =
      if nextPiece.type = PieceType.I ∧
          100 < (TetrisAI.getColumnHeights grid).foldl (fun a b => a + b) 0 then 5
      else if nextPiece.type = PieceType.O ∧
          (TetrisAI.getColumnHeights grid).foldl (fun a b => a + b) 0 < 50 then -2
      else 0 := by
  unfold TetrisAI.quickEvaluateNextPiece Float64.div
  simp only [getColumnHeights_length, Nat.cast_ofNat]
  have h := round_of_nat_div ((TetrisAI.getColumnHeights grid).foldl (fun a b => a + b) 0)
  simp only [h.1, h.2]

/-- C22, amended: for weights of magnitude at most `2 ^ 200`,
`TetrisAI.evaluatePlacement` returns the JS number obtained by adding to 0, from
left to right, the products weight times feature in the order height, holes,
bumpiness, lines, wells, blockades, heightDifference, centerHeight, edgeTouch,
floorTouch, every product and every sum rounded to binary64; then the weight
`perfectClear` when the grid is all empty; then `nextPieceScore * 0.2` for the
first queued piece when the search depth is above 1.  Every feature is computed
on the grid after the piece is placed and the full rows are removed, and
`nextPieceScore` is 5 for a queued I when the column heights sum to more than
100, -2 for a queued O when they sum to less than 50, else 0: the rounding of
the average height does not change these tests. -/
theorem evaluatePlacement_spec (ai : AIState) (piece : Piece) (grid : Grid)
    (nextPieces : List Piece) (_hw : ai.weights.InRange) :
    TetrisAI.evaluatePlacement ai piece grid nextPieces =
      TetrisAI.lookahead ai (TetrisAI.clearLines (TetrisAI.placePiece grid piece)).2 nextPieces
        ((fun score =>
            if TetrisAI.isPerfectClear (TetrisAI.clearLines (TetrisAI.placePiece grid piece)).2
            then Float64.add score (Float64.round ai.weights.perfectClear)
            else score)
          (List.foldl
            (fun score (t : ℚ × ℚ) => Float64.add score (Float64.mul (Float64.round t.1) t.2)) 0
            [(ai.weights.height,
                (((TetrisAI.getColumnHeights
                  (TetrisAI.clearLines (TetrisAI.placePiece grid piece)).2).sum : Nat) : ℚ)),
              (ai.weights.holes,
                (TetrisAI.countHoles (TetrisAI.clearLines (TetrisAI.placePiece grid piece)).2 : ℚ)),
              (ai.weights.bumpiness,
                (TetrisAI.calculateBumpiness (TetrisAI.getColumnHeights
                  (TetrisAI.clearLines (TetrisAI.placePiece grid piece)).2) : ℚ)),
              (ai.weights.lines,
                ((TetrisAI.clearLines (TetrisAI.placePiece grid piece)).1 : ℚ)),
              (ai.weights.wells,
                (TetrisAI.countWells (TetrisAI.clearLines (TetrisAI.placePiece grid piece)).2 : ℚ)),
              (ai.weights.blockades,
                (TetrisAI.countBlockades
                  (TetrisAI.clearLines (TetrisAI.placePiece grid piece)).2 : ℚ)),
              (ai.weights.heightDifference,
                (((TetrisAI.getColumnHeights
                    (TetrisAI.clearLines (TetrisAI.placePiece grid piece)).2).foldl max 0 -
                  (TetrisAI.getColumnHeights
                    (TetrisAI.clearLines (TetrisAI.placePiece grid piece)).2).foldl min
                      ((TetrisAI.getColumnHeights
                        (TetrisAI.clearLines (TetrisAI.placePiece grid piece)).2).headD 0) :
                  Nat) : ℚ)),
              (ai.weights.centerHeight,
                (((TetrisAI.getColumnHeights
                    (TetrisAI.clearLines (TetrisAI.placePiece grid piece)).2).getD 4 0 : ℚ) +
                  ((TetrisAI.getColumnHeights
                    (TetrisAI.clearLines (TetrisAI.placePiece grid piece)).2).getD 5 0 : ℚ)) / 2),
              (ai.weights.edgeTouch,
                (TetrisAI.countEdgeTouching
                  (TetrisAI.clearLines (TetrisAI.placePiece grid piece)).2 : ℚ)),
              (ai.weights.floorTouch,
                (TetrisAI.countFloorTouching
                  (TetrisAI.clearLines (TetrisAI.placePiece grid piece)).2 : ℚ))])) ∧
    (∀ (score : ℚ) (nextPiece : Piece) (rest : List Piece),
      TetrisAI.lookahead ai (TetrisAI.clearLines (TetrisAI.placePiece grid piece)).2
          (nextPiece :: rest) score =
        if ai.thinkingDepth > 1 then
          Float64.add score (Float64.mul
            (if nextPiece.type = PieceType.I ∧
                100 < (TetrisAI.getColumnHeights
                  (TetrisAI.clearLines (TetrisAI.placePiece grid piece)).2).sum then 5
              else if nextPiece.type = PieceType.O ∧
                (TetrisAI.getColumnHeights
                  (TetrisAI.clearLines (TetrisAI.placePiece grid piece)).2).sum < 50 then -2
              else 0)
            (Float64.round 0.2))
        else score) ∧
    (∀ score : ℚ,
      TetrisAI.lookahead ai (TetrisAI.clearLines (TetrisAI.placePiece grid piece)).2 [] score =
        score) := by
  have hsum : ∀ l : List Nat, l.foldl (fun a b => a + b) 0 = l.sum := by
    intro l
    rw [List.sum_eq_foldl]
  refine ⟨?_, ?_, fun _ => rfl⟩
  · unfold TetrisAI.evaluatePlacement TetrisAI.calculateMetrics TetrisAI.lookahead
    simp only [hsum, List.foldl_cons, List.foldl_nil]
  · intro score nextPiece rest
    unfold TetrisAI.lookahead
    simp only [quickEvaluateNextPiece_eq, hsum]

theorem evaluatePlacement_spec_witness :
    sampleAI.weights.InRange ∧
    ∀ (score : ℚ) (nextPiece : Piece) (rest : List Piece),
      TetrisAI.lookahead sampleAI
          (TetrisAI.clearLines (TetrisAI.placePiece tieGrid { oPiece with x := 3, y := 18 })).2
          (nextPiece :: rest) score =
        if sampleAI.thinkingDepth > 1 then
          Float64.add score (Float64.mul
            (if nextPiece.type = PieceType.I ∧
                100 < (TetrisAI.getColumnHeights (TetrisAI.clearLines
                  (TetrisAI.placePiece tieGrid { oPiece with x := 3, y := 18 })).2).sum then 5
              else if nextPiece.type = PieceType.O ∧
                (TetrisAI.getColumnHeights (TetrisAI.clearLines
                  (TetrisAI.placePiece tieGrid { oPiece with x := 3, y := 18 })).2).sum < 50
              then -2
              else 0)
            (Float64.round 0.2))
        else score :=
  ⟨by decide!,
    (evaluatePlacement_spec sampleAI { oPiece with x := 3, y := 18 } tieGrid []
      (by decide!)).2.1⟩

set_option maxRecDepth 1000000 in
/-- C22, counterexample: for the O piece at column 0, row 17 on the board
`tieGrid`, with the default weights and an empty queue,
`TetrisAI.evaluatePlacement` returns the number -9.302437000000001, which is
neither the exact value -9.302437 of the weighted sum nor the number that JS
holds for that value. -/
theorem evaluatePlacement_rounded :
    TetrisAI.evaluatePlacement sampleAI { oPiece with x := 0, y := 17 } tieGrid [] =
      -2618403237927345 / 281474976710656 ∧
    TetrisAI.scoreBySpec sampleAI { oPiece with x := 0, y := 17 } tieGrid [] =
      -9302437 / 1000000 ∧
    Float64.round (-9302437 / 1000000) = -5236806475854689 / 562949953421312 ∧
    TetrisAI.evaluatePlacement sampleAI { oPiece with x := 0, y := 17 } tieGrid [] ≠
      TetrisAI.scoreBySpec sampleAI { oPiece with x := 0, y := 17 } tieGrid [] := by
  have h1 : TetrisAI.evaluatePlacement sampleAI { oPiece with x := 0, y := 17 } tieGrid [] =
      -2618403237927345 / 281474976710656 := by decide!
  have h2 : TetrisAI.scoreBySpec sampleAI { oPiece with x := 0, y := 17 } tieGrid [] =
      -9302437 / 1000000 := by decide!
  refine ⟨h1, h2, by decide!, ?_⟩
  rw [h1, h2]
  norm_num

theorem evaluatePlacement_queue (ai : AIState) (piece : Piece) (grid : Grid)
    (nextPieces : List Piece) :
    TetrisAI.evaluatePlacement ai piece grid nextPieces =
      TetrisAI.lookahead ai (TetrisAI.clearLines (TetrisAI.placePiece grid piece)).2
        nextPieces (TetrisAI.evaluatePlacement ai piece grid []) := by
  unfold TetrisAI.evaluatePlacement TetrisAI.lookahead
  cases nextPieces with
  | nil => rfl
  | cons p rest => rfl

theorem evaluatePlacement_placementScore (ai : AIState) (piece : Piece) (grid : Grid)
    (nextPieces : List Piece) :
    TetrisAI.evaluatePlacement ai piece grid nextPieces =
      TetrisAI.placementScore ai (TetrisAI.clearLines (TetrisAI.placePiece grid piece)).1
        (TetrisAI.clearLines (TetrisAI.placePiece grid piece)).2 nextPieces := rfl

/-! ## Theorems: the move sequence and the difficulty profiles -/

theorem count_replicate_ne (n : Nat) (a b : AIMove) (h : a ≠ b) :
    (List.replicate n a).count b = 0 := by
  rw [List.count_replicate]
  simp [h]

/-- C25: for all integers as current and target rotation and column, the
queue of `TetrisAI.generateMoveSequence` holds at most 3 rotations, at most 15
shifts, exactly one drop, which is its last element, and no hold; the queue of
the game after the call is that sequence. -/
theorem moveSequence_bounds (currentRotation targetRotation currentX targetX : Int) :
    (TetrisAI.moveSequence currentRotation targetRotation currentX targetX).count
        AIMove.rotate ≤ 3 ∧
    (TetrisAI.moveSequence currentRotation targetRotation currentX targetX).count AIMove.left +
      (TetrisAI.moveSequence currentRotation targetRotation currentX targetX).count
        AIMove.right ≤ 15 ∧
    (TetrisAI.moveSequence currentRotation targetRotation currentX targetX).count
        AIMove.drop = 1 ∧
    (TetrisAI.moveSequence currentRotation targetRotation currentX targetX).getLast? =
      some AIMove.drop ∧
    (TetrisAI.moveSequence currentRotation targetRotation currentX targetX).count
        AIMove.hold = 0 ∧
    (∀ (s : Game) (bestMove : AIPlan),
      (TetrisAI.generateMoveSequence s bestMove).ai.moveQueue =
        TetrisAI.moveSequence (s.currentPiece.rotation : Int) (bestMove.rotation : Int)
          s.currentPiece.x bestMove.x) := by
  refine ⟨?_, ?_, ?_, ?_, ?_, fun s bestMove => rfl⟩ <;> unfold TetrisAI.moveSequence <;>
    simp only
  · split_ifs <;>
      simp only [List.count_append, List.count_replicate_self, List.count_nil,
        count_replicate_ne _ _ _ (by decide : AIMove.right ≠ AIMove.rotate),
        count_replicate_ne _ _ _ (by decide : AIMove.left ≠ AIMove.rotate),
        List.count_cons, List.count_nil, beq_iff_eq, reduceCtorEq, ite_false] <;> omega
  · split_ifs <;>
      simp only [List.count_append, List.count_replicate_self, List.count_nil,
        count_replicate_ne _ _ _ (by decide : AIMove.rotate ≠ AIMove.left),
        count_replicate_ne _ _ _ (by decide : AIMove.rotate ≠ AIMove.right),
        count_replicate_ne _ _ _ (by decide : AIMove.right ≠ AIMove.left),
        count_replicate_ne _ _ _ (by decide : AIMove.left ≠ AIMove.right),
        List.count_cons, List.count_nil, beq_iff_eq, reduceCtorEq, ite_false] <;> omega
  · split_ifs <;>
      simp only [List.count_append, List.count_nil,
        count_replicate_ne _ _ _ (by decide : AIMove.rotate ≠ AIMove.drop),
        count_replicate_ne _ _ _ (by decide : AIMove.right ≠ AIMove.drop),
        count_replicate_ne _ _ _ (by decide : AIMove.left ≠ AIMove.drop),
        List.count_cons, List.count_nil, beq_iff_eq, ite_true]
  · split_ifs <;> simp
  · split_ifs <;>
      simp only [List.count_append, List.count_nil,
        count_replicate_ne _ _ _ (by decide : AIMove.rotate ≠ AIMove.hold),
        count_replicate_ne _ _ _ (by decide : AIMove.right ≠ AIMove.hold),
        count_replicate_ne _ _ _ (by decide : AIMove.left ≠ AIMove.hold),
        List.count_cons, List.count_nil, beq_iff_eq, reduceCtorEq, ite_false]

/-- C27: `TetrisAI.setDifficulty` sets the two cadences and the search depth
to values fixed by the name, but not the weights: `easy` multiplies the current
`lines` weight by 0.8, so from the constructor's weights one call leaves
0.6085328 and two calls leave 0.48682624; `hard` leaves the weights as they
are, so it leaves 0.760666 from the constructor's weights and 0.960666 after
`impossible`. -/
theorem setDifficulty_depends_on_prior :
    (TetrisAI.setDifficulty Difficulty.easy sampleAI).weights.lines = 0.6085328 ∧
    (TetrisAI.setDifficulty Difficulty.easy
      (TetrisAI.setDifficulty Difficulty.easy sampleAI)).weights.lines = 0.48682624 ∧
    (TetrisAI.setDifficulty Difficulty.hard sampleAI).weights.lines = 0.760666 ∧
    (TetrisAI.setDifficulty Difficulty.hard
      (TetrisAI.setDifficulty Difficulty.impossible sampleAI)).weights.lines = 0.960666 ∧
    (∀ ai : AIState,
      ((TetrisAI.setDifficulty Difficulty.easy ai).moveDelay = 150 ∧
        (TetrisAI.setDifficulty Difficulty.easy ai).thinkDelay = 200 ∧
        (TetrisAI.setDifficulty Difficulty.easy ai).thinkingDepth = 0) ∧
      ((TetrisAI.setDifficulty Difficulty.medium ai).moveDelay = 100 ∧
        (TetrisAI.setDifficulty Difficulty.medium ai).thinkDelay = 150 ∧
        (TetrisAI.setDifficulty Difficulty.medium ai).thinkingDepth = 1) ∧
      ((TetrisAI.setDifficulty Difficulty.hard ai).moveDelay = 50 ∧
        (TetrisAI.setDifficulty Difficulty.hard ai).thinkDelay = 100 ∧
        (TetrisAI.setDifficulty Difficulty.hard ai).thinkingDepth = 1) ∧
      ((TetrisAI.setDifficulty Difficulty.impossible ai).moveDelay = 30 ∧
        (TetrisAI.setDifficulty Difficulty.impossible ai).thinkDelay = 50 ∧
        (TetrisAI.setDifficulty Difficulty.impossible ai).thinkingDepth = 2 ∧
        (TetrisAI.setDifficulty Difficulty.impossible ai).weights =
          TetrisAI.impossibleWeights)) := by
  refine ⟨?_, ?_, ?_, ?_, ?_⟩
  · simp only [TetrisAI.setDifficulty, sampleAI, TetrisAI.initialWeights]; norm_num
  · simp only [TetrisAI.setDifficulty, sampleAI, TetrisAI.initialWeights]; norm_num
  · simp only [TetrisAI.setDifficulty, sampleAI, TetrisAI.initialWeights]
  · simp only [TetrisAI.setDifficulty, sampleAI, TetrisAI.impossibleWeights]
  · intro ai
    exact ⟨⟨rfl, rfl, rfl⟩, ⟨rfl, rfl, rfl⟩, ⟨rfl, rfl, rfl⟩, ⟨rfl, rfl, rfl, rfl⟩⟩

/-! ## Theorems: the reset of the AI on restart -/

theorem aiUpdate_idle_queue (K : Constants) (env : TickEnv) (s : Game)
    (hq : s.ai.moveQueue = []) :
    ∃ ai : AIState, TetrisAI.update K env s = some { s with ai := ai } ∧ ai.moveQueue = [] := by
  unfold TetrisAI.update
  split
  · exact ⟨s.ai, rfl, hq⟩
  · simp only
    have hq2 : (TetrisAI.planNextMove s.ai).moveQueue = [] := by
      unfold TetrisAI.planNextMove
      split
      · exact hq
      · exact hq
    split
    · simp only [hq2, List.length_nil, gt_iff_lt, lt_self_iff_false, decide_False,
        Bool.false_and, Bool.false_eq_true, ↓reduceIte]
      exact ⟨_, rfl, rfl⟩

    · simp only [hq, List.length_nil, gt_iff_lt, lt_self_iff_false, decide_False,
        Bool.false_and, Bool.false_eq_true, ↓reduceIte]
      exact ⟨s.ai, rfl, hq⟩

theorem restart_fields (K : Constants) (env : TickEnv) (t0 t1 t2 t3 : PieceType) (perfNow : ℚ)
    (s : Game) (hperf : 0 ≤ perfNow) :
    ∃ t, Game.restart K env t0 t1 t2 t3 perfNow s = some t ∧
      t.grid = Board.createEmptyGrid ∧ t.score = 0 ∧ t.lines = 0 ∧ t.level = 1 ∧ t.combo = 0 ∧
      t.lastClearTime = 0 ∧ t.holdPiece = none ∧ t.canHold = true ∧
      t.nextPieces = [Piece.create K t1, Piece.create K t2, Piece.create K t3] ∧
      t.dropInterval = K.LEVEL_SPEEDS.getD 0 0 ∧ t.gameState = GameState.playing ∧
      (s.ai.enabled = true → t.ai.moveQueue = []) ∧
      (s.ai.enabled = false → t.ai = s.ai) := by
  unfold Game.restart Game.gameLoop
  have hplay : (Game.restartFields K t0 t1 t2 t3 perfNow s).gameState = GameState.playing := rfl
  rw [if_neg (by rw [hplay]; decide)]
  simp only
  have hdrop : (0 : ℚ) + (0 - perfNow) ≤ ((K.LEVEL_SPEEDS.getD 0 0 : Nat) : ℚ) := by
    have : (0 : ℚ) ≤ ((K.LEVEL_SPEEDS.getD 0 0 : Nat) : ℚ) := Nat.cast_nonneg _
    linarith
  cases he : s.ai.enabled
  · have h := update_without_ai K env (0 - perfNow)
      ({ Game.restartFields K t0 t1 t2 t3 perfNow s with lastTime := 0 } : Game) rfl
      (by simp [Game.restartFields, he]) hdrop
    refine ⟨_, h, rfl, rfl, rfl, rfl, rfl, rfl, rfl, rfl, rfl, rfl, rfl, ?_, ?_⟩
    · intro h2; cases h2
    · intro _
      simp [Game.restartFields, he]
  · have hq : ({ Game.restartFields K t0 t1 t2 t3 perfNow s with lastTime := 0 } :
        Game).ai.moveQueue = [] := by
      simp [Game.restartFields, he]
    obtain ⟨ai, hai, haiq⟩ := aiUpdate_idle_queue K env
      ({ Game.restartFields K t0 t1 t2 t3 perfNow s with lastTime := 0 } : Game) hq
    have h := update_after_ai K env (0 - perfNow)
      ({ Game.restartFields K t0 t1 t2 t3 perfNow s with lastTime := 0 } : Game) _ rfl
      (by simp [Game.restartFields, he]) hai hdrop
    refine ⟨_, h, rfl, rfl, rfl, rfl, rfl, rfl, rfl, rfl, rfl, rfl, rfl, ?_, ?_⟩
    · intro _
      exact haiq
    · intro h2; cases h2

theorem planNextMoveCallback_queue (s : Game)
    (h : TetrisAI.findBestPlacement s.ai s.currentPiece s.grid s.nextPieces ≠ none) :
    (TetrisAI.planNextMoveCallback s).ai.moveQueue ≠ [] ∧
    (TetrisAI.planNextMoveCallback s).ai.enabled = s.ai.enabled := by
  unfold TetrisAI.planNextMoveCallback
  split
  · exact ⟨by simp, by simp⟩
  · cases hb : TetrisAI.findBestPlacement s.ai s.currentPiece s.grid s.nextPieces with
    | none => exact absurd hb h
    | some m =>
      simp only [TetrisAI.generateMoveSequence, TetrisAI.moveSequence]
      exact ⟨by simp, by simp⟩

theorem gameLoop_thinking :
    Game.gameLoop sampleConstants resumeEnv 16 aiSwitchedOn = some thinkingGame := by
  decide!

set_option maxRecDepth 1000000 in
theorem staleQueue_search :
    TetrisAI.findBestPlacement (Game.aiSwitchedOff thinkingGame).ai
      (Game.aiSwitchedOff thinkingGame).currentPiece (Game.aiSwitchedOff thinkingGame).grid
      (Game.aiSwitchedOff thinkingGame).nextPieces ≠ none := by
  intro hnone
  have hb := findBestPlacement_best (Game.aiSwitchedOff thinkingGame).ai
    (Game.aiSwitchedOff thinkingGame).currentPiece (Game.aiSwitchedOff thinkingGame).grid
    (Game.aiSwitchedOff thinkingGame).nextPieces (by decide)
  rw [hnone] at hb
  have hc := hb (0, 3) (by decide)
  have hl : TetrisAI.findLandingY
      { (Game.aiSwitchedOff thinkingGame).currentPiece with rotation := 0, x := 3, y := 0 }
      (Game.aiSwitchedOff thinkingGame).grid = some 18 := by decide
  have hv : TetrisAI.isValidPlacement
      { (Game.aiSwitchedOff thinkingGame).currentPiece with
        rotation := 0, x := 3, y := ((18 : Nat) : Int) }
      (Game.aiSwitchedOff thinkingGame).grid = true := by decide
  unfold TetrisAI.candidate at hc
  simp only [hl, hv, ↓reduceIte, reduceCtorEq] at hc

/-- C28: from `aiSwitchedOn` one frame leaves `thinkingGame`, whose planning
callback is pending; when the AI is switched off and the callback then runs,
`Game.restart` returns a state whose AI is disabled and whose action queue is
not empty: the reset of the queue is skipped for a disabled AI. -/
theorem restart_keeps_stale_queue :
    Game.gameLoop sampleConstants resumeEnv 16 aiSwitchedOn = some thinkingGame ∧
    ∃ t, Game.restart sampleConstants resumeEnv PieceType.T PieceType.O PieceType.I
        PieceType.L 5000 staleQueueGame = some t ∧
      t.ai.enabled = false ∧ t.ai.moveQueue ≠ [] := by
  refine ⟨gameLoop_thinking, ?_⟩
  have hq := planNextMoveCallback_queue (Game.aiSwitchedOff thinkingGame) staleQueue_search
  obtain ⟨t, ht, hf⟩ := restart_fields sampleConstants resumeEnv PieceType.T PieceType.O
    PieceType.I PieceType.L 5000 staleQueueGame (by norm_num)
  have hoff : staleQueueGame.ai.enabled = false := hq.2.trans rfl
  refine ⟨t, ht, ?_, ?_⟩
  · rw [hf.2.2.2.2.2.2.2.2.2.2.2.2 hoff]; exact hoff
  · rw [hf.2.2.2.2.2.2.2.2.2.2.2.2 hoff]; exact hq.1

/-! ## Theorems: blockades and the T-spin test in a lock -/

/-- C29: on `floorHoleGrid`, the grid the S piece leaves on the floor of the
empty grid, the cell `(19, 2)` is a hole in the bottom row under the filled
cell `(18, 2)`; `countHoles` is 1 and the blockade count in the spec's sense is
1, but `TetrisAI.countBlockades` is 0. -/
theorem countBlockades_misses_floor_hole :
    TetrisAI.placePiece Board.createEmptyGrid
      { Piece.create sampleConstants PieceType.S with x := 0, y := 18 } = floorHoleGrid ∧
    WellFormed floorHoleGrid ∧
    isHole floorHoleGrid 19 2 = true ∧ floorHoleGrid.cell 18 2 ≠ 0 ∧
    TetrisAI.countHoles floorHoleGrid = 1 ∧
    blockadesBySpec floorHoleGrid = 1 ∧
    TetrisAI.countBlockades floorHoleGrid = 0 := by
  refine ⟨by decide, by decide, by decide, by decide, by decide, by decide, by decide⟩

set_option maxRecDepth 1000000 in
/-- C30: in `tSpinState` the T piece completes one row; on the grid with the
piece committed and no row removed 3 of the 4 corners are blocked, on the grid
after the row is removed only 2 are; `Game.lockPiece` adds 100 points, the
score of a clear without T-spin, where a T-spin clear scores 200. -/
theorem lockPiece_tspin_after_clear :
    tSpinState.currentPiece.type = PieceType.T ∧
    tSpinState.gameState = GameState.playing ∧ tSpinState.level = 1 ∧ tSpinState.combo = 0 ∧
    (Board.clearFullLines (Game.lockedGrid tSpinState)).1 = 1 ∧
    Game.isTSpin { tSpinState with grid := Game.lockedGrid tSpinState } = true ∧
    Game.isTSpin
      { tSpinState with grid := (Board.clearFullLines (Game.lockedGrid tSpinState)).2 } = false ∧
    Game.basePoints tSpinState 1 true = 200 ∧
    Option.map Game.score (Game.lockPiece sampleConstants 100000 PieceType.T tSpinState) =
      some (tSpinState.score + 100) := by
  refine ⟨by decide, by decide, by decide, by decide, by decide!, by decide, by decide!,
    by decide!, by decide!⟩

/-! ## Theorems: the placement found rests on the stack -/

theorem canPlace_eq_isValidPosition (shape : Shape) (x y : Int) (grid : Grid) :
    TetrisAI.canPlace shape x y grid = Board.isValidPosition grid shape x y := by
  unfold TetrisAI.canPlace Board.isValidPosition
  congr 1
  funext py
  congr 1
  funext px
  unfold Board.collides
  cases hocc : shape.occupied py px
  · simp
  · simp only [Bool.not_true, Bool.false_eq_true, ↓reduceIte, Bool.true_and]
    by_cases h1 : x + (px : Int) < 0
    · simp [h1]
    · by_cases h2 : x + (px : Int) ≥ BOARD_WIDTH
      · simp [h2]
      · by_cases h3 : y + (py : Int) ≥ BOARD_HEIGHT
        · simp [h3]
        · by_cases h4 : y + (py : Int) ≥ 0 ∧ grid.cell (y + py).toNat (x + px).toNat ≠ 0
          · simp [h1, h2, h3, h4]
          · have h5 : (decide (y + (py : Int) ≥ 0) &&
                decide (grid.cell (y + py).toNat (x + px).toNat ≠ 0)) = false := by
              rw [Bool.and_eq_false_iff]
              by_cases h6 : y + (py : Int) ≥ 0
              · right
                have : ¬ grid.cell (y + py).toNat (x + px).toNat ≠ 0 := fun h => h4 ⟨h6, h⟩
                simpa using this
              · left
                simpa using h6
            simp only [h1, h2, h3, h4, or_self, ↓reduceIte, decide_False, Bool.or_self, h5,
              Bool.not_false]

theorem findLandingYLoop_spec (shape : Shape) (x : Int) (grid : Grid) (remaining : Nat) :
    ∀ (y landingY : Nat), TetrisAI.findLandingYLoop shape x grid remaining y = some landingY →
      y ≤ landingY ∧ landingY < y + remaining ∧
      TetrisAI.canPlace shape x ((landingY : Int) + 1) grid = false ∧
      ∀ y2 : Nat, y ≤ y2 → y2 < landingY →
        TetrisAI.canPlace shape x ((y2 : Int) + 1) grid = true := by
  induction remaining with
  | zero => intro y landingY h; simp [TetrisAI.findLandingYLoop] at h
  | succ n ih =>
    intro y landingY h
    unfold TetrisAI.findLandingYLoop at h
    by_cases hc : TetrisAI.canPlace shape x ((y : Int) + 1) grid = true
    · simp only [hc, Bool.not_true, Bool.false_eq_true, ↓reduceIte] at h
      obtain ⟨h1, h2, h3, h4⟩ := ih (y + 1) landingY h
      refine ⟨by omega, by omega, h3, ?_⟩
      intro y2 hy2 hlt
      by_cases he : y2 = y
      · rw [he]; exact hc
      · exact h4 y2 (by omega) hlt
    · have hc2 : TetrisAI.canPlace shape x ((y : Int) + 1) grid = false := by simpa using hc
      simp only [hc2, Bool.not_false, ↓reduceIte, Option.some.injEq] at h
      subst h
      exact ⟨le_refl _, by omega, hc2, fun y2 h1 h2 => by omega⟩

theorem candidate_eq_some (ai : AIState) (piece : Piece) (grid : Grid) (nextPieces : List Piece)
    (rx : Nat × Int) (m : AIPlan)
    (h : TetrisAI.candidate ai piece grid nextPieces rx = some m) :
    ∃ landingY : Nat,
      TetrisAI.findLandingYLoop (piece.shapes.getD rx.1 []) rx.2 grid BOARD_HEIGHT 0 =
        some landingY ∧
      TetrisAI.canPlace (piece.shapes.getD rx.1 []) rx.2 (landingY : Int) grid = true ∧
      m = { rotation := rx.1, x := rx.2, y := (landingY : Int),
            score := TetrisAI.evaluatePlacement ai
              { piece with rotation := rx.1, x := rx.2, y := (landingY : Int) } grid
              nextPieces } := by
  unfold TetrisAI.candidate at h
  simp only at h
  split at h
  · cases h
  · rename_i landingY hl
    split at h
    · rename_i hv
      cases h
      exact ⟨landingY, hl, hv, rfl⟩
    · cases h

theorem tryPlacement_bestMove (ai : AIState) (piece : Piece) (grid : Grid)
    (nextPieces : List Piece) (rotation : Nat) (x : Int) (st : SearchState) :
    (TetrisAI.tryPlacement ai piece grid nextPieces rotation x st).bestMove = st.bestMove ∨
    ∃ m, TetrisAI.candidate ai piece grid nextPieces (rotation, x) = some m ∧
      (TetrisAI.tryPlacement ai piece grid nextPieces rotation x st).bestMove = some m := by
  rw [tryPlacement_candidate]
  cases hc : TetrisAI.candidate ai piece grid nextPieces (rotation, x) with
  | none => exact Or.inl rfl
  | some c =>
    simp only
    split
    · exact Or.inr ⟨c, rfl, rfl⟩
    · exact Or.inl rfl

theorem columnLoop_bestMove (ai : AIState) (piece : Piece) (grid : Grid)
    (nextPieces : List Piece) (rotation : Nat) (xs : List Int) :
    ∀ (st : SearchState) (m : AIPlan),
      (TetrisAI.columnLoop ai piece grid nextPieces rotation xs st).bestMove = some m →
      st.bestMove = some m ∨
        ∃ x ∈ xs, TetrisAI.candidate ai piece grid nextPieces (rotation, x) = some m := by
  induction xs with
  | nil => intro st m h; exact Or.inl h
  | cons x xs ih =>
    intro st m h
    unfold TetrisAI.columnLoop at h
    split at h
    · exact Or.inl h
    · rcases ih _ m h with h1 | ⟨x2, hx2, hc⟩
      · rcases tryPlacement_bestMove ai piece grid nextPieces rotation x st with h2 | ⟨c, hc, h2⟩
        · exact Or.inl (h2 ▸ h1)
        · rw [h2] at h1
          cases h1
          exact Or.inr ⟨x, List.mem_cons_self _ _, hc⟩
      · exact Or.inr ⟨x2, List.mem_cons_of_mem _ hx2, hc⟩

theorem rotationLoop_bestMove (ai : AIState) (piece : Piece) (grid : Grid)
    (nextPieces : List Piece) (rs : List Nat) :
    ∀ (st : SearchState) (m : AIPlan),
      (rs.foldl (fun st rotation =>
        TetrisAI.columnLoop ai piece grid nextPieces rotation TetrisAI.searchColumns st)
        st).bestMove = some m →
      st.bestMove = some m ∨
        ∃ r ∈ rs, ∃ x ∈ TetrisAI.searchColumns,
          TetrisAI.candidate ai piece grid nextPieces (r, x) = some m := by
  induction rs with
  | nil => intro st m h; exact Or.inl h
  | cons r rs ih =>
    intro st m h
    rw [List.foldl_cons] at h
    rcases ih _ m h with h1 | ⟨r2, hr2, x, hx, hc⟩
    · rcases columnLoop_bestMove ai piece grid nextPieces r _ st m h1 with h2 | ⟨x, hx, hc⟩
      · exact Or.inl h2
      · exact Or.inr ⟨r, List.mem_cons_self _ _, x, hx, hc⟩
    · exact Or.inr ⟨r2, List.mem_cons_of_mem _ hr2, x, hx, hc⟩

theorem findBestPlacement_candidate (ai : AIState) (piece : Piece) (grid : Grid)
    (nextPieces : List Piece) (m : AIPlan)
    (h : TetrisAI.findBestPlacement ai piece grid nextPieces = some m) :
    ∃ r x, r < piece.shapes.length ∧ x ∈ TetrisAI.searchColumns ∧
      TetrisAI.candidate ai piece grid nextPieces (r, x) = some m := by
  rcases rotationLoop_bestMove ai piece grid nextPieces _ _ m h with h1 | ⟨r, hr, x, hx, hc⟩
  · cases h1
  · exact ⟨r, x, List.mem_range.1 hr, hx, hc⟩

theorem searchColumns_eq :
    TetrisAI.searchColumns = [-2, -1, 0, 1, 2, 3, 4, 5, 6, 7, 8, 9, 10, 11] := by
  decide

theorem mem_searchColumns (x : Int) :
    x ∈ TetrisAI.searchColumns ↔ -2 ≤ x ∧ x ≤ (BOARD_WIDTH : Int) + 1 := by
  have hw : (BOARD_WIDTH : Int) = 10 := rfl
  rw [searchColumns_eq, hw]
  simp only [List.mem_cons, List.mem_singleton, List.not_mem_nil, or_false]
  omega

/-- C21: a move `(rotation, x, y)` returned by `TetrisAI.findBestPlacement`
has `rotation` among the rotation states, `x` in `-2..W+1` and `y` in `0..H-1`;
the shape of that rotation can be placed at `(x, y)` and at every row from 1
to `y`, and not at `(x, y + 1)`; in terms of `Board.isValidPosition` it is
valid at `(x, y)`, invalid at `(x, y + 1)`, and every occupied cell lies in a
column of `[0, W)`, at a row below `H`, on an empty grid cell. -/
theorem findBestPlacement_resting (ai : AIState) (piece : Piece) (grid : Grid)
    (nextPieces : List Piece) (m : AIPlan)
    (h : TetrisAI.findBestPlacement ai piece grid nextPieces = some m) :
    m.rotation < piece.shapes.length ∧
    (-2 ≤ m.x ∧ m.x ≤ (BOARD_WIDTH : Int) + 1) ∧
    (0 ≤ m.y ∧ m.y < BOARD_HEIGHT) ∧
    TetrisAI.canPlace (piece.shapes.getD m.rotation []) m.x m.y grid = true ∧
    TetrisAI.canPlace (piece.shapes.getD m.rotation []) m.x (m.y + 1) grid = false ∧
    (∀ y2 : Int, 0 < y2 → y2 ≤ m.y →
      TetrisAI.canPlace (piece.shapes.getD m.rotation []) m.x y2 grid = true) ∧
    Board.isValidPosition grid (piece.shapes.getD m.rotation []) m.x m.y = true ∧
    Board.isValidPosition grid (piece.shapes.getD m.rotation []) m.x (m.y + 1) = false ∧
    (∀ r c : Nat, (piece.shapes.getD m.rotation []).occupied r c = true →
      0 ≤ m.x + c ∧ m.x + c < BOARD_WIDTH ∧ m.y + r < BOARD_HEIGHT ∧
        grid.cell (m.y + r).toNat (m.x + c).toNat = 0) := by
  obtain ⟨r, x, hr, hx, hc⟩ := findBestPlacement_candidate ai piece grid nextPieces m h
  obtain ⟨landingY, hl, hv, hm⟩ := candidate_eq_some ai piece grid nextPieces (r, x) m hc
  obtain ⟨_, hlt, hstop, hdesc⟩ := findLandingYLoop_spec _ _ _ _ 0 landingY hl
  subst hm
  simp only at hl hv hstop hdesc ⊢
  have hvalid : Board.isValidPosition grid (piece.shapes.getD r []) x (landingY : Int) = true := by
    rw [← canPlace_eq_isValidPosition]; exact hv
  refine ⟨hr, (mem_searchColumns x).1 hx, ⟨by omega, by omega⟩, hv, hstop, ?_, hvalid, ?_, ?_⟩
  · intro y2 h0 hle
    by_cases he : y2 = (landingY : Int)
    · rw [he]; exact hv
    · have h2 := hdesc (y2 - 1).toNat (Nat.zero_le _) (by omega)
      have e : (((y2 - 1).toNat : Nat) : Int) + 1 = y2 := by omega
      rw [e] at h2
      exact h2
  · rw [← canPlace_eq_isValidPosition]; exact hstop
  · intro r2 c hocc
    have h1 := (Board.isValidPosition_eq_true grid _ x landingY).1 hvalid r2 c hocc
    obtain ⟨a1, a2, a3, a4⟩ := (Board.collides_eq_false grid x landingY r2 c).1 h1
    refine ⟨a1, a2, a3, ?_⟩
    rcases a4 with a4 | a4
    · omega
    · exact a4

/-! ## Theorems: the columns the search covers -/

theorem cell_createEmptyGrid (y x : Nat) : Board.createEmptyGrid.cell y x = 0 := by
  unfold Grid.cell Board.createEmptyGrid
  simp only [List.getD_eq_getElem?_getD, List.getElem?_replicate]
  split_ifs
  · simp only [Option.getD_some, List.getElem?_replicate]
    split_ifs <;> rfl
  · rfl

theorem canPlace_empty (shape : Shape) (x y : Int) :
    TetrisAI.canPlace shape x y Board.createEmptyGrid = true ↔
      ∀ r c : Nat, shape.occupied r c = true →
        0 ≤ x + c ∧ x + c < BOARD_WIDTH ∧ y + r < BOARD_HEIGHT := by
  rw [canPlace_eq_isValidPosition, Board.isValidPosition_eq_true]
  constructor
  · intro h r c hocc
    obtain ⟨a1, a2, a3, _⟩ := (Board.collides_eq_false _ x y r c).1 (h r c hocc)
    exact ⟨a1, a2, a3⟩
  · intro h r c hocc
    obtain ⟨a1, a2, a3⟩ := h r c hocc
    exact (Board.collides_eq_false _ x y r c).2 ⟨a1, a2, a3, Or.inr (cell_createEmptyGrid _ _)⟩

theorem findLandingYLoop_isSome (shape : Shape) (x : Int) (grid : Grid) (remaining : Nat) :
    ∀ y : Nat, 0 < remaining →
      TetrisAI.canPlace shape x ((y : Int) + remaining) grid = false →
      ∃ landingY, TetrisAI.findLandingYLoop shape x grid remaining y = some landingY := by
  induction remaining with
  | zero => intro y h; omega
  | succ n ih =>
    intro y _ hlast
    unfold TetrisAI.findLandingYLoop
    by_cases hc : TetrisAI.canPlace shape x ((y : Int) + 1) grid = true
    · simp only [hc, Bool.not_true, Bool.false_eq_true, ↓reduceIte]
      have hn : 0 < n := by
        rcases Nat.eq_zero_or_pos n with h0 | h0
        · subst h0
          simp only [zero_add, Nat.cast_one] at hlast
          rw [hlast] at hc
          cases hc
        · exact h0
      apply ih (y + 1) hn
      have e : (((y + 1 : Nat) : Int) + (n : Int)) = (y : Int) + ((n + 1 : Nat) : Int) := by
        push_cast; ring
      rw [e]
      exact hlast
    · have hc2 : TetrisAI.canPlace shape x ((y : Int) + 1) grid = false := by simpa using hc
      simp only [hc2, Bool.not_false, ↓reduceIte]
      exact ⟨y, rfl⟩

theorem candidate_of_landing (ai : AIState) (piece : Piece) (grid : Grid)
    (nextPieces : List Piece) (rotation : Nat) (x : Int) (landingY : Nat)
    (hl : TetrisAI.findLandingYLoop (piece.shapes.getD rotation []) x grid BOARD_HEIGHT 0 =
      some landingY)
    (hv : TetrisAI.canPlace (piece.shapes.getD rotation []) x (landingY : Int) grid = true) :
    ∃ m, TetrisAI.candidate ai piece grid nextPieces (rotation, x) = some m ∧
      m.rotation = rotation ∧ m.x = x ∧ m.y = (landingY : Int) := by
  have hl2 : TetrisAI.findLandingY { piece with rotation := rotation, x := x, y := 0 } grid =
      some landingY := hl
  have hv2 : TetrisAI.isValidPlacement
      { piece with rotation := rotation, x := x, y := (landingY : Int) } grid = true := hv
  unfold TetrisAI.candidate
  simp only [hl2, hv2, ↓reduceIte]
  exact ⟨_, rfl, rfl, rfl, rfl⟩

theorem empty_grid_candidate (ai : AIState) (piece : Piece) (nextPieces : List Piece)
    (rotation : Nat) (x : Int) (r0 c0 : Nat)
    (hocc : (piece.shapes.getD rotation []).occupied r0 c0 = true)
    (hfit : ∀ r c : Nat, (piece.shapes.getD rotation []).occupied r c = true →
      0 ≤ x + c ∧ x + c < BOARD_WIDTH ∧ r < BOARD_HEIGHT) :
    ∃ m, TetrisAI.candidate ai piece Board.createEmptyGrid nextPieces (rotation, x) = some m ∧
      m.rotation = rotation ∧ m.x = x := by
  have hlast : TetrisAI.canPlace (piece.shapes.getD rotation []) x
      (((0 : Nat) : Int) + (BOARD_HEIGHT : Nat)) Board.createEmptyGrid = false := by
    rw [← Bool.not_eq_true, canPlace_empty]
    intro h
    have := (h r0 c0 hocc).2.2
    omega
  obtain ⟨landingY, hl⟩ := findLandingYLoop_isSome _ x Board.createEmptyGrid BOARD_HEIGHT 0
    (by decide) hlast
  obtain ⟨_, _, _, hdesc⟩ := findLandingYLoop_spec _ _ _ _ 0 landingY hl
  have hv : TetrisAI.canPlace (piece.shapes.getD rotation []) x (landingY : Int)
      Board.createEmptyGrid = true := by
    rcases Nat.eq_zero_or_pos landingY with h0 | h0
    · subst h0
      rw [canPlace_empty]
      intro r c ho
      obtain ⟨a1, a2, a3⟩ := hfit r c ho
      exact ⟨a1, a2, by push_cast; omega⟩
    · have h2 := hdesc (landingY - 1) (Nat.zero_le _) (by omega)
      have e : (((landingY - 1 : Nat) : Int) + 1) = (landingY : Int) := by omega
      rw [e] at h2
      exact h2
  obtain ⟨m, hm, h1, h2, _⟩ := candidate_of_landing ai piece Board.createEmptyGrid nextPieces
    rotation x landingY hl hv
  exact ⟨m, hm, h1, h2⟩

theorem mem_searchPairs (piece : Piece) (rotation : Nat) (x : Int) :
    (rotation, x) ∈ TetrisAI.searchPairs piece ↔
      rotation < piece.shapes.length ∧ x ∈ TetrisAI.searchColumns := by
  unfold TetrisAI.searchPairs
  simp only [List.mem_flatMap, List.mem_range, List.mem_map, Prod.mk.injEq]
  constructor
  · rintro ⟨r, hr, x2, hx2, rfl, rfl⟩
    exact ⟨hr, hx2⟩
  · rintro ⟨hr, hx⟩
    exact ⟨rotation, hr, x, hx, rfl, rfl⟩

/-- C24: for a rotation state whose leftmost occupied cell is in matrix column
at most 2, every origin `x` that puts all occupied cells into the columns
`[0, W)` lies in `-2..W+1` and is tried by the search; and when the occupied
cells lie in matrix rows below `H` and matrix columns below 4, every board
column `col < W` of the empty grid is covered by a candidate of that rotation:
some tried `x` has a candidate and an occupied cell in column `col`. -/
theorem searchColumns_cover (ai : AIState) (piece : Piece) (nextPieces : List Piece)
    (rotation : Nat) (hrot : rotation < piece.shapes.length)
    (hleft : ∃ r c : Nat, (piece.shapes.getD rotation []).occupied r c = true ∧ c ≤ 2) :
    (∀ x : Int,
      (∀ r c : Nat, (piece.shapes.getD rotation []).occupied r c = true →
        0 ≤ x + c ∧ x + c < BOARD_WIDTH) →
      (-2 ≤ x ∧ x ≤ (BOARD_WIDTH : Int) + 1) ∧ (rotation, x) ∈ TetrisAI.searchPairs piece) ∧
    ((∀ r c : Nat, (piece.shapes.getD rotation []).occupied r c = true →
        r < BOARD_HEIGHT ∧ c < 4) →
      ∀ col : Nat, col < BOARD_WIDTH →
        ∃ x : Int, (rotation, x) ∈ TetrisAI.searchPairs piece ∧
          ∃ m, TetrisAI.candidate ai piece Board.createEmptyGrid nextPieces (rotation, x) =
              some m ∧ m.rotation = rotation ∧ m.x = x ∧
            ∃ r c : Nat, (piece.shapes.getD rotation []).occupied r c = true ∧
              x + (c : Int) = (col : Int)) := by
  have hw : BOARD_WIDTH = 10 := rfl
  constructor
  · intro x hx
    obtain ⟨r, c, hocc, hc⟩ := hleft
    obtain ⟨h1, h2⟩ := hx r c hocc
    have hb : -2 ≤ x ∧ x ≤ (BOARD_WIDTH : Int) + 1 := by
      rw [hw] at h2 ⊢
      push_cast at h2 ⊢
      omega
    exact ⟨hb, (mem_searchPairs piece rotation x).2 ⟨hrot, (mem_searchColumns x).2 hb⟩⟩
  · intro hbox col hcol
    classical
    have hex : ∃ c : Nat, ∃ r : Nat, (piece.shapes.getD rotation []).occupied r c = true := by
      obtain ⟨r, c, hocc, _⟩ := hleft
      exact ⟨c, r, hocc⟩
    obtain ⟨rmin, hmin⟩ := Nat.find_spec hex
    have hminle : Nat.find hex ≤ 2 := by
      obtain ⟨r, c, hocc, hc⟩ := hleft
      exact le_trans (Nat.find_min' hex ⟨r, hocc⟩) hc
    have hminall : ∀ r c : Nat, (piece.shapes.getD rotation []).occupied r c = true →
        Nat.find hex ≤ c := fun r c hocc => Nat.find_min' hex ⟨r, hocc⟩
    have hmax3 : ∃ c : Nat, c ≤ 3 ∧
        ∃ r : Nat, (piece.shapes.getD rotation []).occupied r c = true := by
      obtain ⟨r, c, hocc, hc⟩ := hleft
      exact ⟨c, by omega, r, hocc⟩
    obtain ⟨cw, hcw, rw0, hoccw⟩ := hmax3
    have hgs := Nat.findGreatest_spec
      (P := fun c => ∃ r : Nat, (piece.shapes.getD rotation []).occupied r c = true) hcw
      ⟨rw0, hoccw⟩
    obtain ⟨rmax, hmax⟩ := hgs
    have hmaxle : Nat.findGreatest
        (fun c => ∃ r : Nat, (piece.shapes.getD rotation []).occupied r c = true) 3 ≤ 3 :=
      Nat.findGreatest_le 3
    have hmaxall : ∀ r c : Nat, (piece.shapes.getD rotation []).occupied r c = true →
        c ≤ Nat.findGreatest
          (fun c => ∃ r : Nat, (piece.shapes.getD rotation []).occupied r c = true) 3 :=
      fun r c hocc => Nat.le_findGreatest (by have := (hbox r c hocc).2; omega) ⟨r, hocc⟩
    generalize Nat.find hex = cmin at hmin hminle hminall
    generalize Nat.findGreatest
      (fun c => ∃ r : Nat, (piece.shapes.getD rotation []).occupied r c = true) 3 = cmax
      at hmax hmaxle hmaxall
    rw [hw] at hcol
    by_cases hlow : col ≤ 6
    · have hfit : ∀ r c : Nat, (piece.shapes.getD rotation []).occupied r c = true →
          0 ≤ ((col : Int) - cmin) + c ∧ ((col : Int) - cmin) + c < BOARD_WIDTH ∧
            r < BOARD_HEIGHT := by
        intro r c hocc
        have h1 := hminall r c hocc
        have h2 := hbox r c hocc
        rw [hw]
        push_cast
        exact ⟨by omega, by omega, h2.1⟩
      obtain ⟨m, hm, e1, e2⟩ := empty_grid_candidate ai piece nextPieces rotation
        ((col : Int) - cmin) rmin cmin hmin hfit
      refine ⟨(col : Int) - cmin, ?_, m, hm, e1, e2, rmin, cmin, hmin, by ring⟩
      refine (mem_searchPairs piece rotation _).2 ⟨hrot, (mem_searchColumns _).2 ?_⟩
      rw [hw]
      push_cast
      omega
    · have hfit : ∀ r c : Nat, (piece.shapes.getD rotation []).occupied r c = true →
          0 ≤ ((col : Int) - cmax) + c ∧ ((col : Int) - cmax) + c < BOARD_WIDTH ∧
            r < BOARD_HEIGHT := by
        intro r c hocc
        have h1 := hmaxall r c hocc
        have h2 := hbox r c hocc
        rw [hw]
        push_cast
        exact ⟨by omega, by omega, h2.1⟩
      obtain ⟨m, hm, e1, e2⟩ := empty_grid_candidate ai piece nextPieces rotation
        ((col : Int) - cmax) rmax cmax hmax hfit
      refine ⟨(col : Int) - cmax, ?_, m, hm, e1, e2, rmax, cmax, hmax, by ring⟩
      refine (mem_searchPairs piece rotation _).2 ⟨hrot, (mem_searchColumns _).2 ?_⟩
      rw [hw]
      push_cast
      omega

theorem iPiece_flat_box (r c : Nat) (h : (iPiece.shapes.getD 0 []).occupied r c = true) :
    r < BOARD_HEIGHT ∧ c < 4 := by
  obtain ⟨hr, hc⟩ := Shape.occupied_lt h
  have hr4 : r < 4 := hr
  have hc4 : c < 4 := by
    interval_cases r <;> exact hc
  exact ⟨lt_trans hr4 (by decide), hc4⟩

theorem searchColumns_cover_witness :
    (0 < iPiece.shapes.length ∧
      (iPiece.shapes.getD 0 []).occupied 1 0 = true ∧ 0 ≤ 2) ∧
    ∀ col : Nat, col < BOARD_WIDTH →
      ∃ x : Int, (0, x) ∈ TetrisAI.searchPairs iPiece ∧
        ∃ m, TetrisAI.candidate sampleAI iPiece Board.createEmptyGrid [] (0, x) = some m ∧
          m.rotation = 0 ∧ m.x = x ∧
          ∃ r c : Nat, (iPiece.shapes.getD 0 []).occupied r c = true ∧
            x + (c : Int) = (col : Int) :=
  ⟨⟨by decide, by decide, by decide⟩,
    (searchColumns_cover sampleAI iPiece [] 0 (by decide) ⟨1, 0, by decide, by decide⟩).2
      iPiece_flat_box⟩

/-! ## Theorems: the I piece on the empty grid -/

theorem candidates_le (cand : Int → Option AIPlan) (cols : List Int)
    (table : List (Option AIPlan)) (s : ℚ) (h : cols.map cand = table)
    (hle : table.all (fun o => o.all fun c => decide (c.score ≤ s)) = true)
    (x : Int) (hx : x ∈ cols) (c : AIPlan) (hc : cand x = some c) : c.score ≤ s := by
  have hmem : cand x ∈ table := by rw [← h]; exact List.mem_map_of_mem _ hx
  rw [List.all_eq_true] at hle
  have h1 := hle _ hmem
  rw [hc] at h1
  simpa using h1

theorem searchPairs_mem (piece : Piece) (q : Nat × Int) (hq : q ∈ TetrisAI.searchPairs piece) :
    q.1 < piece.shapes.length ∧ q.2 ∈ TetrisAI.searchColumns := by
  obtain ⟨r, x⟩ := q
  unfold TetrisAI.searchPairs at hq
  simp only [List.mem_flatMap, List.mem_range, List.mem_map, Prod.mk.injEq] at hq
  obtain ⟨r0, hr0, x0, hx0, rfl, rfl⟩ := hq
  exact ⟨hr0, hx0⟩

set_option maxRecDepth 1000000 in
theorem candidates_I_zero :
    TetrisAI.searchColumns.map
        (fun x => TetrisAI.candidate sampleAI iPiece Board.createEmptyGrid [] (0, x)) =
      [none,
        none,
        some { rotation := 0, x := 0, y := 18, score := -277920932917219 / 140737488355328 },
        some { rotation := 0, x := 1, y := 18, score := -5890393060626693 / 2251799813685248 },
        some { rotation := 0, x := 2, y := 18, score := -2599961841878193 / 1125899906842624 },
        some { rotation := 0, x := 3, y := 18, score := -2599961841878193 / 1125899906842624 },
        some { rotation := 0, x := 4, y := 18, score := -2599961841878193 / 1125899906842624 },
        some { rotation := 0, x := 5, y := 18, score := -5890393060626693 / 2251799813685248 },
        some { rotation := 0, x := 6, y := 18, score := -277920932917219 / 140737488355328 },
        none,
        none,
        none,
        none,
        none] := by
  decide!

set_option maxRecDepth 1000000 in
theorem candidates_I_one :
    TetrisAI.searchColumns.map
        (fun x => TetrisAI.candidate sampleAI iPiece Board.createEmptyGrid [] (1, x)) =
      [some { rotation := 1, x := -2, y := 16, score := -7381841142023725 / 2251799813685248 },
        some { rotation := 1, x := -1, y := 16, score := -6353056857545719 / 1125899906842624 },
        some { rotation := 1, x := 0, y := 16, score := -4746938122436579 / 1125899906842624 },
        some { rotation := 1, x := 1, y := 16, score := -4746938122436579 / 1125899906842624 },
        some { rotation := 1, x := 2, y := 16, score := -310757381487819 / 70368744177664 },
        some { rotation := 1, x := 3, y := 16, score := -310757381487819 / 70368744177664 },
        some { rotation := 1, x := 4, y := 16, score := -4746938122436579 / 1125899906842624 },
        some { rotation := 1, x := 5, y := 16, score := -4746938122436579 / 1125899906842624 },
        some { rotation := 1, x := 6, y := 16, score := -6353056857545719 / 1125899906842624 },
        some { rotation := 1, x := 7, y := 16, score := -7381841142023725 / 2251799813685248 },
        none,
        none,
        none,
        none] := by
  decide!

set_option maxRecDepth 1000000 in
theorem candidates_I_two :
    TetrisAI.searchColumns.map
        (fun x => TetrisAI.candidate sampleAI iPiece Board.createEmptyGrid [] (2, x)) =
      [none,
        none,
        some { rotation := 2, x := 0, y := 17, score := -277920932917219 / 140737488355328 },
        some { rotation := 2, x := 1, y := 17, score := -5890393060626693 / 2251799813685248 },
        some { rotation := 2, x := 2, y := 17, score := -2599961841878193 / 1125899906842624 },
        some { rotation := 2, x := 3, y := 17, score := -2599961841878193 / 1125899906842624 },
        some { rotation := 2, x := 4, y := 17, score := -2599961841878193 / 1125899906842624 },
        some { rotation := 2, x := 5, y := 17, score := -5890393060626693 / 2251799813685248 },
        some { rotation := 2, x := 6, y := 17, score := -277920932917219 / 140737488355328 },
        none,
        none,
        none,
        none,
        none] := by
  decide!

set_option maxRecDepth 1000000 in
theorem candidates_I_three :
    TetrisAI.searchColumns.map
        (fun x => TetrisAI.candidate sampleAI iPiece Board.createEmptyGrid [] (3, x)) =
      [none,
        some { rotation := 3, x := -1, y := 16, score := -7381841142023725 / 2251799813685248 },
        some { rotation := 3, x := 0, y := 16, score := -6353056857545719 / 1125899906842624 },
        some { rotation := 3, x := 1, y := 16, score := -4746938122436579 / 1125899906842624 },
        some { rotation := 3, x := 2, y := 16, score := -4746938122436579 / 1125899906842624 },
        some { rotation := 3, x := 3, y := 16, score := -310757381487819 / 70368744177664 },
        some { rotation := 3, x := 4, y := 16, score := -310757381487819 / 70368744177664 },
        some { rotation := 3, x := 5, y := 16, score := -4746938122436579 / 1125899906842624 },
        some { rotation := 3, x := 6, y := 16, score := -4746938122436579 / 1125899906842624 },
        some { rotation := 3, x := 7, y := 16, score := -6353056857545719 / 1125899906842624 },
        some { rotation := 3, x := 8, y := 16, score := -7381841142023725 / 2251799813685248 },
        none,
        none,
        none] := by
  decide!

theorem bestOf_unique (cand : Nat × Int → Option AIPlan) (pre : List (Nat × Int))
    (b1 b2 : Option AIPlan) (h1 : TetrisAI.BestOf cand pre b1)
    (h2 : TetrisAI.BestOf cand pre b2) : b1 = b2 := by
  cases b1 with
  | none =>
    cases b2 with
    | none => rfl
    | some m2 =>
      obtain ⟨l1, rx, l2, hp, hc, _⟩ := h2
      have := h1 rx (by rw [hp]; simp)
      rw [this] at hc
      cases hc
  | some m1 =>
    cases b2 with
    | none =>
      obtain ⟨l1, rx, l2, hp, hc, _⟩ := h1
      have := h2 rx (by rw [hp]; simp)
      rw [this] at hc
      cases hc
    | some m2 =>
      obtain ⟨l1, rx, l2, hp, hc, ha, hb⟩ := h1
      obtain ⟨k1, ry, k2, hp2, hc2, ha2, hb2⟩ := h2
      rw [hp] at hp2
      rcases lt_trichotomy l1.length k1.length with hlt | heq | hgt
      · -- rx lies in k1, ry lies in l2
        have hrx : rx ∈ k1 := by
          have e := congrArg (fun l => l[l1.length]?) hp2
          simp only [List.getElem?_append_right (le_refl _), Nat.sub_self,
            List.getElem?_cons_zero, List.getElem?_append_left hlt] at e
          exact List.mem_iff_getElem?.2 ⟨_, e.symm⟩
        have hry : ry ∈ l2 := by
          have e := congrArg (fun l => l[k1.length]?) hp2
          simp only [List.getElem?_append_right (le_refl _), Nat.sub_self,
            List.getElem?_cons_zero, List.getElem?_append_right (le_of_lt hlt)] at e
          have hpos : k1.length - l1.length = (k1.length - l1.length - 1) + 1 := by omega
          rw [hpos, List.getElem?_cons_succ] at e
          exact List.mem_iff_getElem?.2 ⟨_, e⟩
        have s1 := ha2 rx hrx m1 hc
        have s2 := hb ry hry m2 hc2
        exact absurd s1 (not_lt.2 s2)
      · have e := List.append_inj hp2 heq
        have e2 := e.2
        simp only [List.cons.injEq] at e2
        rw [e2.1, hc2] at hc
        exact hc.symm
      · have hry : ry ∈ l1 := by
          have e := congrArg (fun l => l[k1.length]?) hp2
          simp only [List.getElem?_append_right (le_refl _), Nat.sub_self,
            List.getElem?_cons_zero, List.getElem?_append_left hgt] at e
          exact List.mem_iff_getElem?.2 ⟨_, e⟩
        have hrx : rx ∈ k2 := by
          have e := congrArg (fun l => l[l1.length]?) hp2
          simp only [List.getElem?_append_right (le_refl _), Nat.sub_self,
            List.getElem?_cons_zero, List.getElem?_append_right (le_of_lt hgt)] at e
          have hpos : l1.length - k1.length = (l1.length - k1.length - 1) + 1 := by omega
          rw [hpos, List.getElem?_cons_succ] at e
          exact List.mem_iff_getElem?.2 ⟨_, e.symm⟩
        have s1 := ha ry hry m2 hc2
        have s2 := hb2 rx hrx m1 hc
        exact absurd s1 (not_lt.2 s2)

set_option maxRecDepth 1000000 in
theorem candidate_I_empty_le (q : Nat × Int) (hq : q ∈ TetrisAI.searchPairs iPiece)
    (c : AIPlan) (hc : TetrisAI.candidate sampleAI iPiece Board.createEmptyGrid [] q = some c) :
    c.score ≤ -277920932917219 / 140737488355328 := by
  obtain ⟨hr, hx⟩ := searchPairs_mem iPiece q hq
  obtain ⟨r, x⟩ := q
  have hlen : iPiece.shapes.length = 4 := by decide
  rw [hlen] at hr
  simp only at hr hx
  have hcases : r = 0 ∨ r = 1 ∨ r = 2 ∨ r = 3 := by omega
  rcases hcases with rfl | rfl | rfl | rfl
  · exact candidates_le _ _ _ _ candidates_I_zero (by decide!) x hx c hc
  · exact candidates_le _ _ _ _ candidates_I_one (by decide!) x hx c hc
  · exact candidates_le _ _ _ _ candidates_I_two (by decide!) x hx c hc
  · exact candidates_le _ _ _ _ candidates_I_three (by decide!) x hx c hc

set_option maxRecDepth 1000000 in
theorem searchPairs_I_split :
    TetrisAI.searchPairs iPiece =
      [(0, -2), (0, -1)] ++ (0, 0) :: (TetrisAI.searchPairs iPiece).drop 3 ∧
    ((0, 0) : Nat × Int) ∉ ([(0, -2), (0, -1)] : List (Nat × Int)) ∧
    ((0, 0) : Nat × Int) ∉ (TetrisAI.searchPairs iPiece).drop 3 ∧
    TetrisAI.candidate sampleAI iPiece Board.createEmptyGrid [] (0, -2) = none ∧
    TetrisAI.candidate sampleAI iPiece Board.createEmptyGrid [] (0, -1) = none ∧
    TetrisAI.candidate sampleAI iPiece Board.createEmptyGrid [] (0, 0) =
      some { rotation := 0, x := 0, y := 18, score := -277920932917219 / 140737488355328 } := by
  refine ⟨by decide!, by decide!, by decide!, by decide!, by decide!, by decide!⟩

theorem findBest_I_empty :
    TetrisAI.findBestPlacement sampleAI iPiece Board.createEmptyGrid [] =
      some { rotation := 0, x := 0, y := 18, score := -277920932917219 / 140737488355328 } := by
  obtain ⟨hsplit, _, _, hc1, hc2, hc0⟩ := searchPairs_I_split
  have hbest : TetrisAI.BestOf (TetrisAI.candidate sampleAI iPiece Board.createEmptyGrid [])
      (TetrisAI.searchPairs iPiece)
      (some { rotation := 0, x := 0, y := 18, score := -277920932917219 / 140737488355328 }) := by
    refine ⟨_, _, _, hsplit, hc0, ?_, ?_⟩
    · intro q hq c hc
      simp only [List.mem_cons, List.mem_singleton, List.not_mem_nil, or_false] at hq
      rcases hq with rfl | rfl
      · rw [hc1] at hc; cases hc
      · rw [hc2] at hc; cases hc
    · intro q hq c hc
      exact candidate_I_empty_le q (List.mem_of_mem_drop hq) c hc
  exact bestOf_unique _ _ _ _
    (findBestPlacement_best sampleAI iPiece Board.createEmptyGrid [] (by decide)) hbest

theorem findBestPlacement_resting_witness :
    TetrisAI.findBestPlacement sampleAI iPiece Board.createEmptyGrid [] =
      some { rotation := 0, x := 0, y := 18, score := -277920932917219 / 140737488355328 } ∧
    Board.isValidPosition Board.createEmptyGrid (iPiece.shapes.getD 0 []) 0 18 = true ∧
    Board.isValidPosition Board.createEmptyGrid (iPiece.shapes.getD 0 []) 0 (18 + 1) = false :=
  ⟨findBest_I_empty,
    (findBestPlacement_resting sampleAI iPiece Board.createEmptyGrid []
      { rotation := 0, x := 0, y := 18, score := -277920932917219 / 140737488355328 }
      findBest_I_empty).2.2.2.2.2.2.1,
    (findBestPlacement_resting sampleAI iPiece Board.createEmptyGrid []
      { rotation := 0, x := 0, y := 18, score := -277920932917219 / 140737488355328 }
      findBest_I_empty).2.2.2.2.2.2.2.1⟩

set_option maxRecDepth 1000000 in
theorem iPlacementsHeightFour_zero : iPlacementsHeightFour 0 = true := by
  decide!

set_option maxRecDepth 1000000 in
theorem iPlacementsHeightFour_one : iPlacementsHeightFour 1 = true := by
  decide!

set_option maxRecDepth 1000000 in
theorem iPlacementsHeightFour_two : iPlacementsHeightFour 2 = true := by
  decide!

set_option maxRecDepth 1000000 in
theorem iPlacementsHeightFour_three : iPlacementsHeightFour 3 = true := by
  decide!

theorem candidate_queue (ai : AIState) (piece : Piece) (grid : Grid) (nextPieces : List Piece)
    (g : ℚ → ℚ) (rx : Nat × Int)
    (h : ∀ landingY : Nat,
      TetrisAI.findLandingY { piece with rotation := rx.1, x := rx.2, y := 0 } grid =
        some landingY →
      TetrisAI.isValidPlacement
        { piece with rotation := rx.1, x := rx.2, y := (landingY : Int) } grid = true →
      ∀ score : ℚ, TetrisAI.lookahead ai (TetrisAI.clearLines (TetrisAI.placePiece grid
        { piece with rotation := rx.1, x := rx.2, y := (landingY : Int) })).2 nextPieces score =
          g score) :
    TetrisAI.candidate ai piece grid nextPieces rx =
      (TetrisAI.candidate ai piece grid [] rx).map (AIPlan.mapScore g) := by
  unfold TetrisAI.candidate
  simp only
  cases hl : TetrisAI.findLandingY { piece with rotation := rx.1, x := rx.2, y := 0 } grid with
  | none => rfl
  | some landingY =>
    simp only
    cases hv : TetrisAI.isValidPlacement
        { piece with rotation := rx.1, x := rx.2, y := (landingY : Int) } grid with
    | false => rfl
    | true =>
      simp only [↓reduceIte, Option.map_some', AIPlan.mapScore, Option.some.injEq,
        AIPlan.mk.injEq, true_and]
      rw [evaluatePlacement_queue, h landingY hl hv]

theorem bestOf_map_first (cand cand2 : Nat × Int → Option AIPlan) (pre : List (Nat × Int))
    (g : ℚ → ℚ) (hg : ∀ a b : ℚ, a ≤ b → g a ≤ g b)
    (h : ∀ q ∈ pre, cand2 q = (cand q).map (AIPlan.mapScore g))
    (l1 : List (Nat × Int)) (rx : Nat × Int) (l2 : List (Nat × Int))
    (hp : pre = l1 ++ rx :: l2) (m : AIPlan) (hc : cand rx = some m)
    (hnone : ∀ q ∈ l1, cand q = none)
    (hle : ∀ q ∈ l2, ∀ c, cand q = some c → c.score ≤ m.score) :
    TetrisAI.BestOf cand2 pre (some (AIPlan.mapScore g m)) := by
  refine ⟨l1, rx, l2, hp, ?_, ?_, ?_⟩
  · rw [h rx (by rw [hp]; simp), hc]; rfl
  · intro q hq c hqc
    rw [h q (by rw [hp]; simp [hq]), hnone q hq] at hqc
    cases hqc
  · intro q hq c hqc
    rw [h q (by rw [hp]; simp [hq])] at hqc
    cases hcq : cand q with
    | none => rw [hcq] at hqc; cases hqc
    | some c0 =>
      rw [hcq] at hqc
      simp only [Option.map_some', Option.some.injEq] at hqc
      subst hqc
      exact hg _ _ (hle q hq c0 hcq)

theorem lookaheadAtHeightFour_mono (nextPieces : List Piece) (a b : ℚ) (h : a ≤ b) :
    lookaheadAtHeightFour nextPieces a ≤ lookaheadAtHeightFour nextPieces b := by
  unfold lookaheadAtHeightFour
  cases nextPieces with
  | nil => exact h
  | cons p rest => exact add_mono_left _ _ _ h

theorem lookahead_I_empty (nextPieces : List Piece) (rx : Nat × Int)
    (hrx : rx ∈ TetrisAI.searchPairs iPiece) (landingY : Nat)
    (hl : TetrisAI.findLandingY { iPiece with rotation := rx.1, x := rx.2, y := 0 }
      Board.createEmptyGrid = some landingY)
    (hv : TetrisAI.isValidPlacement
      { iPiece with rotation := rx.1, x := rx.2, y := (landingY : Int) }
      Board.createEmptyGrid = true) (score : ℚ) :
    TetrisAI.lookahead sampleAI (TetrisAI.clearLines (TetrisAI.placePiece Board.createEmptyGrid
      { iPiece with rotation := rx.1, x := rx.2, y := (landingY : Int) })).2 nextPieces score =
      lookaheadAtHeightFour nextPieces score := by
  obtain ⟨hr, hx⟩ := searchPairs_mem iPiece rx hrx
  obtain ⟨r, x⟩ := rx
  have hlen : iPiece.shapes.length = 4 := by decide
  rw [hlen] at hr
  simp only at hr hx hl hv ⊢
  have hall : iPlacementsHeightFour r = true := by
    have hcases : r = 0 ∨ r = 1 ∨ r = 2 ∨ r = 3 := by omega
    rcases hcases with rfl | rfl | rfl | rfl
    · exact iPlacementsHeightFour_zero
    · exact iPlacementsHeightFour_one
    · exact iPlacementsHeightFour_two
    · exact iPlacementsHeightFour_three
  unfold iPlacementsHeightFour at hall
  rw [List.all_eq_true] at hall
  have h1 := hall x hx
  simp only [hl, hv, Bool.not_true, Bool.false_or, decide_eq_true_eq] at h1
  unfold TetrisAI.lookahead lookaheadAtHeightFour
  cases nextPieces with
  | nil => rfl
  | cons p rest =>
    have hd : sampleAI.thinkingDepth > 1 := by decide
    simp only [hd, ↓reduceIte, quickEvaluateNextPiece_eq, h1]
    have h100 : ¬ (100 < 4) := by decide
    have h50 : 4 < 50 := by decide
    simp only [h100, and_false, ↓reduceIte, h50, and_true]

theorem findBest_I_queue (nextPieces : List Piece) :
    TetrisAI.findBestPlacement sampleAI iPiece Board.createEmptyGrid nextPieces =
      some (AIPlan.mapScore (lookaheadAtHeightFour nextPieces)
        { rotation := 0, x := 0, y := 18, score := -277920932917219 / 140737488355328 }) := by
  have hb0 := findBestPlacement_best sampleAI iPiece Board.createEmptyGrid [] (by decide)
  rw [findBest_I_empty] at hb0
  obtain ⟨l1, rx, l2, hp, hc, _, hle⟩ := hb0
  obtain ⟨hsplit, hn1, hn2, hc1, hc2, _⟩ := searchPairs_I_split
  have hpair := candidate_pair sampleAI iPiece Board.createEmptyGrid [] rx _ hc
  have hrx : rx = (0, 0) := by
    obtain ⟨r, x⟩ := rx
    simp only at hpair
    rw [← hpair.1, ← hpair.2]
  subst hrx
  have heq : [(0, -2), (0, -1)] ++ ((0, 0) : Nat × Int) ::
      (TetrisAI.searchPairs iPiece).drop 3 = l1 ++ (0, 0) :: l2 := by
    rw [← hsplit, hp]
  obtain ⟨e1, _, _⟩ := (List.append_cons_inj_of_not_mem hn1 hn2).1 heq
  have hnone : ∀ q ∈ l1,
      TetrisAI.candidate sampleAI iPiece Board.createEmptyGrid [] q = none := by
    intro q hq
    rw [← e1] at hq
    simp only [List.mem_cons, List.mem_singleton, List.not_mem_nil, or_false] at hq
    rcases hq with rfl | rfl
    · exact hc1
    · exact hc2
  have hmap := bestOf_map_first _
    (TetrisAI.candidate sampleAI iPiece Board.createEmptyGrid nextPieces) _
    (lookaheadAtHeightFour nextPieces) (lookaheadAtHeightFour_mono nextPieces)
    (fun rx hrx => candidate_queue sampleAI iPiece Board.createEmptyGrid nextPieces _ rx
      (fun landingY hl hv score => lookahead_I_empty nextPieces rx hrx landingY hl hv score))
    l1 (0, 0) l2 hp _ hc hnone hle
  have hbq := findBestPlacement_best sampleAI iPiece Board.createEmptyGrid nextPieces
    (by decide)
  exact bestOf_unique _ _ _ _ hbq hmap

set_option maxRecDepth 1000000 in
theorem resultGrid_I_empty :
    TetrisAI.countHoles (TetrisAI.resultGrid iPiece Board.createEmptyGrid
      { rotation := 0, x := 0, y := 18, score := 0 }) = 0 ∧
    TetrisAI.calculateBumpiness (TetrisAI.getColumnHeights
      (TetrisAI.resultGrid iPiece Board.createEmptyGrid
        { rotation := 0, x := 0, y := 18, score := 0 })) = 1 ∧
    TetrisAI.getColumnHeights (TetrisAI.resultGrid iPiece Board.createEmptyGrid
      { rotation := 0, x := 0, y := 18, score := 0 }) = [1, 1, 1, 1, 0, 0, 0, 0, 0, 0] := by
  refine ⟨by decide!, by decide!, by decide!⟩

/-- C23, counterexample: on the empty grid with the I piece, the default
weights and an empty queue, the placement that `TetrisAI.findBestPlacement`
returns leaves a grid with 0 holes and bumpiness 1, not 0. -/
theorem findBest_I_bumpiness :
    Option.map (fun m =>
        (TetrisAI.countHoles (TetrisAI.resultGrid iPiece Board.createEmptyGrid m),
          TetrisAI.calculateBumpiness (TetrisAI.getColumnHeights
            (TetrisAI.resultGrid iPiece Board.createEmptyGrid m))))
      (TetrisAI.findBestPlacement sampleAI iPiece Board.createEmptyGrid []) = some (0, 1) := by
  rw [findBest_I_empty]
  simp only [Option.map_some', Option.some.injEq, Prod.mk.injEq]
  exact ⟨resultGrid_I_empty.1, resultGrid_I_empty.2.1⟩

/-- C23, amended: on the empty grid with the I piece and the default weights,
for every queue `TetrisAI.findBestPlacement` returns rotation 0 at `x = 0`,
`y = 18`: the piece lies flat on the floor against the left wall, the column
heights are 1, 1, 1, 1, 0, ..., 0, the hole count is 0 and the bumpiness
is 1. -/
theorem findBest_I_flat (nextPieces : List Piece) :
    ∃ m, TetrisAI.findBestPlacement sampleAI iPiece Board.createEmptyGrid nextPieces = some m ∧
      m.rotation = 0 ∧ m.x = 0 ∧ m.y = 18 ∧
      TetrisAI.getColumnHeights (TetrisAI.resultGrid iPiece Board.createEmptyGrid m) =
        [1, 1, 1, 1, 0, 0, 0, 0, 0, 0] ∧
      TetrisAI.countHoles (TetrisAI.resultGrid iPiece Board.createEmptyGrid m) = 0 ∧
      TetrisAI.calculateBumpiness (TetrisAI.getColumnHeights
        (TetrisAI.resultGrid iPiece Board.createEmptyGrid m)) = 1 :=
  ⟨_, findBest_I_queue nextPieces, rfl, rfl, rfl, resultGrid_I_empty.2.2,
    resultGrid_I_empty.1, resultGrid_I_empty.2.1⟩

/-! ## Theorems: a board on which the numbers of the code break a tie -/

theorem placePiece_congr (grid : Grid) (p q : Piece)
    (hs : p.getCurrentShape = q.getCurrentShape) (hx : p.x = q.x) (hy : p.y = q.y)
    (hc : p.color = q.color) : TetrisAI.placePiece grid p = TetrisAI.placePiece grid q := by
  unfold TetrisAI.placePiece
  rw [hs, hx, hy, hc]

theorem evaluatePlacement_congr (ai : AIState) (grid : Grid) (nextPieces : List Piece)
    (p q : Piece) (hs : p.getCurrentShape = q.getCurrentShape) (hx : p.x = q.x)
    (hy : p.y = q.y) (hc : p.color = q.color) :
    TetrisAI.evaluatePlacement ai p grid nextPieces =
      TetrisAI.evaluatePlacement ai q grid nextPieces := by
  unfold TetrisAI.evaluatePlacement
  rw [placePiece_congr grid p q hs hx hy hc]

theorem candidate_rotation (ai : AIState) (piece : Piece) (grid : Grid)
    (nextPieces : List Piece) (r r2 : Nat) (x : Int)
    (h : piece.shapes.getD r [] = piece.shapes.getD r2 []) :
    TetrisAI.candidate ai piece grid nextPieces (r, x) =
      (TetrisAI.candidate ai piece grid nextPieces (r2, x)).map
        (fun m => { m with rotation := r }) := by
  unfold TetrisAI.candidate TetrisAI.findLandingY TetrisAI.isValidPlacement
  simp only [Piece.getCurrentShape, h]
  cases TetrisAI.findLandingYLoop (piece.shapes.getD r2 []) x grid BOARD_HEIGHT 0 with
  | none => rfl
  | some landingY =>
    simp only
    cases TetrisAI.canPlace (piece.shapes.getD r2 []) x (landingY : Int) grid with
    | false => rfl
    | true =>
      simp only [↓reduceIte, Option.map_some', Option.some.injEq, AIPlan.mk.injEq, true_and]
      exact evaluatePlacement_congr ai grid nextPieces _ _ h rfl rfl rfl

set_option maxRecDepth 1000000 in
theorem candidates_O_tie :
    ([-2, -1, 0, 1, 2, 3, 4, 5, 6, 7, 8, 9, 10, 11] : List Int).map
        (fun x => TetrisAI.candidate sampleAI oPiece tieGrid [] (0, x)) =
      [none, none,
        some { rotation := 0, x := 0, y := 17, score := -2618403237927345 / 281474976710656 },
        some { rotation := 0, x := 1, y := 16, score := -7361671208142593 / 562949953421312 },
        some { rotation := 0, x := 2, y := 16, score := -208885412558931 / 17592186044416 },
        some { rotation := 0, x := 3, y := 18, score := -5236806475854689 / 562949953421312 },
        some { rotation := 0, x := 4, y := 18, score := -1577703695472711 / 140737488355328 },
        some { rotation := 0, x := 5, y := 18, score := -5645280710257379 / 562949953421312 },
        some { rotation := 0, x := 6, y := 17, score := -2890503972013629 / 281474976710656 },
        some { rotation := 0, x := 7, y := 15, score := -7352928595365961 / 562949953421312 },
        some { rotation := 0, x := 8, y := 14, score := -1680138068997253 / 140737488355328 },
        none, none, none] := by
  decide!

theorem candidate_O_tie_le (q : Nat × Int) (hq : q ∈ TetrisAI.searchPairs oPiece) (c : AIPlan)
    (hc : TetrisAI.candidate sampleAI oPiece tieGrid [] q = some c) :
    c.score ≤ -5236806475854689 / 562949953421312 := by
  obtain ⟨r, x⟩ := q
  have hshapes : oPiece.shapes.length = 4 := by decide
  unfold TetrisAI.searchPairs at hq
  rw [hshapes] at hq
  simp only [List.mem_flatMap, List.mem_range, List.mem_map, Prod.mk.injEq] at hq
  obtain ⟨r0, hr0, x0, hx0, rfl, rfl⟩ := hq
  have hrot : oPiece.shapes.getD r0 [] = oPiece.shapes.getD 0 [] := by
    have : r0 = 0 ∨ r0 = 1 ∨ r0 = 2 ∨ r0 = 3 := by omega
    rcases this with rfl | rfl | rfl | rfl <;> decide
  rw [candidate_rotation sampleAI oPiece tieGrid [] r0 0 x0 hrot] at hc
  have ht := candidates_O_tie
  simp only [List.map_cons, List.map_nil, List.cons.injEq, and_true] at ht
  have hcols : x0 ∈ ([-2, -1, 0, 1, 2, 3, 4, 5, 6, 7, 8, 9, 10, 11] : List Int) := by
    have e : TetrisAI.searchColumns = [-2, -1, 0, 1, 2, 3, 4, 5, 6, 7, 8, 9, 10, 11] := by
      decide
    rw [← e]; exact hx0
  simp only [List.mem_cons, List.mem_singleton, List.not_mem_nil, or_false] at hcols
  obtain ⟨h0, h1, h2, h3, h4, h5, h6, h7, h8, h9, h10, h11, h12, h13⟩ := ht
  rcases hcols with rfl | rfl | rfl | rfl | rfl | rfl | rfl | rfl | rfl | rfl | rfl | rfl |
    rfl | rfl
  · rw [h0] at hc; cases hc
  · rw [h1] at hc; cases hc
  · rw [h2] at hc; cases hc; norm_num
  · rw [h3] at hc; cases hc; norm_num
  · rw [h4] at hc; cases hc; norm_num
  · rw [h5] at hc; cases hc; norm_num
  · rw [h6] at hc; cases hc; norm_num
  · rw [h7] at hc; cases hc; norm_num
  · rw [h8] at hc; cases hc; norm_num
  · rw [h9] at hc; cases hc; norm_num
  · rw [h10] at hc; cases hc; norm_num
  · rw [h11] at hc; cases hc
  · rw [h12] at hc; cases hc
  · rw [h13] at hc; cases hc

theorem findBest_O_tie :
    TetrisAI.findBestPlacement sampleAI oPiece tieGrid [] =
      some { rotation := 0, x := 3, y := 18, score := -5236806475854689 / 562949953421312 } := by
  have ht := candidates_O_tie
  simp only [List.map_cons, List.map_nil, List.cons.injEq, and_true] at ht
  obtain ⟨h0, h1, h2, h3, h4, h5, _⟩ := ht
  have hsplit : TetrisAI.searchPairs oPiece =
      [(0, -2), (0, -1), (0, 0), (0, 1), (0, 2)] ++
        (0, 3) :: (TetrisAI.searchPairs oPiece).drop 6 := by decide
  have hbest : TetrisAI.BestOf (TetrisAI.candidate sampleAI oPiece tieGrid [])
      (TetrisAI.searchPairs oPiece)
      (some { rotation := 0, x := 3, y := 18,
              score := -5236806475854689 / 562949953421312 }) := by
    refine ⟨_, _, _, hsplit, h5, ?_, ?_⟩
    · intro q hq c hc
      simp only [List.mem_cons, List.mem_singleton, List.not_mem_nil, or_false] at hq
      rcases hq with rfl | rfl | rfl | rfl | rfl
      · rw [h0] at hc; cases hc
      · rw [h1] at hc; cases hc
      · rw [h2] at hc; cases hc; norm_num
      · rw [h3] at hc; cases hc; norm_num
      · rw [h4] at hc; cases hc; norm_num
    · intro q hq c hc
      exact candidate_O_tie_le q (List.mem_of_mem_drop hq) c hc
  exact bestOf_unique _ _ _ _
    (findBestPlacement_best sampleAI oPiece tieGrid [] (by decide)) hbest

set_option maxRecDepth 1000000 in
/-- C20, counterexample: on the board `tieGrid` with the O piece, the default
weights and an empty queue, the pairs (rotation 0, x = 0) and (rotation 0,
x = 3) are both candidates, landing on rows 17 and 18, and in exact arithmetic
both score -9.302437; the search returns the later of the two, because the
number that `TetrisAI.evaluatePlacement` computes for the earlier one is
-9.302437000000001, below the number -9.302437 it computes for the later
one. -/
theorem findBestPlacement_double_tie :
    TetrisAI.findBestPlacement sampleAI oPiece tieGrid [] =
      some { rotation := 0, x := 3, y := 18, score := -5236806475854689 / 562949953421312 } ∧
    TetrisAI.candidate sampleAI oPiece tieGrid [] (0, 0) =
      some { rotation := 0, x := 0, y := 17, score := -2618403237927345 / 281474976710656 } ∧
    TetrisAI.scoreBySpec sampleAI { oPiece with rotation := 0, x := 0, y := 17 } tieGrid [] =
      -9302437 / 1000000 ∧
    TetrisAI.scoreBySpec sampleAI { oPiece with rotation := 0, x := 3, y := 18 } tieGrid [] =
      -9302437 / 1000000 := by
  have ht := candidates_O_tie
  simp only [List.map_cons, List.map_nil, List.cons.injEq, and_true] at ht
  exact ⟨findBest_O_tie, ht.2.2.1, by decide!, by decide!⟩

/-! ## Theorems: the search writes to its clones only -/

theorem Heap.ext_same (h : Heap) : Heap.Ext h h :=
  ⟨List.prefix_refl _, List.prefix_refl _, List.prefix_refl _⟩

theorem Heap.ext_chain {h1 h2 h3 : Heap} (a : Heap.Ext h1 h2) (b : Heap.Ext h2 h3) :
    Heap.Ext h1 h3 :=
  ⟨a.1.trans b.1, a.2.1.trans b.2.1, a.2.2.trans b.2.2⟩

theorem map_eraseIdx {α β : Type} (f : α → β) (l : List α) (i : Nat) :
    (l.eraseIdx i).map f = (l.map f).eraseIdx i := by
  induction l generalizing i with
  | nil => rfl
  | cons a rest ih =>
    cases i with
    | zero => rfl
    | succ j => simp only [List.eraseIdx_cons_succ, List.map_cons, ih]

theorem isPrefix_set_of_le {α : Type} (l0 l : List α) (a : Nat) (v : α) (h : l0 <+: l)
    (ha : l0.length ≤ a) : l0 <+: l.set a v := by
  obtain ⟨t, rfl⟩ := h
  rw [List.set_append_right _ _ ha]
  exact List.prefix_append _ _

theorem getElem?_of_isPrefix {α : Type} (l0 l : List α) (a : Nat) (h : l0 <+: l)
    (ha : a < l0.length) : l[a]? = l0[a]? := by
  obtain ⟨t, rfl⟩ := h
  exact List.getElem?_append_left ha

theorem getD_of_isPrefix {α : Type} (l0 l : List α) (a : Nat) (d : α) (h : l0 <+: l)
    (ha : a < l0.length) : l.getD a d = l0.getD a d := by
  rw [List.getD_eq_getElem?_getD, List.getD_eq_getElem?_getD, getElem?_of_isPrefix l0 l a h ha]

theorem Heap.grid_of_ext (h h2 : Heap) (g : Nat) (he : Heap.Ext h h2)
    (hv : Heap.ValidGrid h g) : h2.grid g = h.grid g ∧ Heap.ValidGrid h2 g := by
  have hgg : h2.grids.getD g [] = h.grids.getD g [] := getD_of_isPrefix _ _ g [] he.2.1 hv.1
  refine ⟨?_, ?_, ?_⟩
  · unfold Heap.grid
    rw [hgg]
    apply List.map_congr_left
    intro a ha
    exact getD_of_isPrefix _ _ a [] he.1 (hv.2 a ha)
  · exact lt_of_lt_of_le hv.1 he.2.1.length_le
  · intro a ha
    rw [hgg] at ha
    exact lt_of_lt_of_le (hv.2 a ha) he.1.length_le

theorem map_rangeFrom_getD {β : Type} (R C : List β) (d : β) :
    (List.range' R.length C.length).map (fun a => (R ++ C).getD a d) = C := by
  induction C generalizing R with
  | nil => rfl
  | cons c cs ih =>
    have e : R ++ c :: cs = (R ++ [c]) ++ cs := by simp
    have hl : (R ++ [c]).length = R.length + 1 := by simp
    simp only [List.length_cons, List.range'_succ, List.map_cons]
    rw [List.getD_eq_getElem _ _ (by simp)]
    simp only [List.getElem_append_right (le_refl _), Nat.sub_self, List.getElem_cons_zero,
      List.cons.injEq, true_and]
    rw [e, ← hl]
    exact ih (R ++ [c])

theorem Heap.cloneGrid_temp (h : Heap) (g : Nat) :
    Heap.Temp h (h.cloneGrid g).1 (h.cloneGrid g).2 ∧
    (h.cloneGrid g).1.grid (h.cloneGrid g).2 = h.grid g ∧
    (h.cloneGrid g).1.pieces = h.pieces := by
  have hget : (h.grids ++ [List.range' h.rows.length (h.grid g).length]).getD h.grids.length
      [] = List.range' h.rows.length (h.grid g).length := by
    rw [List.getD_eq_getElem _ _ (by simp)]
    simp
  refine ⟨⟨⟨List.prefix_append _ _, List.prefix_append _ _, List.prefix_refl _⟩, le_refl _,
    by simp [Heap.cloneGrid], ?_, ?_⟩, ?_, rfl⟩
  · simp only [Heap.cloneGrid, hget]
    exact List.nodup_range' _ _
  · intro a ha
    simp only [Heap.cloneGrid, hget, List.mem_range'_1] at ha
    simp only [Heap.cloneGrid, List.length_append]
    omega
  · have e := map_rangeFrom_getD h.rows (h.grid g) []
    show List.map (fun a => (h.rows ++ h.grid g).getD a [])
      ((h.grids ++ [List.range' h.rows.length (h.grid g).length]).getD h.grids.length []) = _
    rw [hget]
    exact e

theorem map_set_nodup {β : Type} (arr : List Nat) (f : Nat → β) (y a : Nat) (v : β)
    (hy : arr[y]? = some a) (hn : arr.Nodup) :
    (arr.map fun b => if b = a then v else f b) = (arr.map f).set y v := by
  induction arr generalizing y with
  | nil => simp at hy
  | cons b rest ih =>
    rw [List.nodup_cons] at hn
    cases y with
    | zero =>
      simp only [List.getElem?_cons_zero, Option.some.injEq] at hy
      subst hy
      simp only [List.map_cons, ↓reduceIte, List.set_cons_zero, List.cons.injEq, true_and]
      apply List.map_congr_left
      intro c hc
      have : c ≠ b := fun e => hn.1 (e ▸ hc)
      simp [this]
    | succ j =>
      simp only [List.getElem?_cons_succ] at hy
      have hne : b ≠ a := fun e => hn.1 (e ▸ List.mem_iff_getElem?.2 ⟨j, hy⟩)
      simp only [List.map_cons, hne, ↓reduceIte, List.set_cons_succ, List.cons.injEq, true_and]
      exact ih j hy hn.2

theorem getD_set {β : Type} (l : List β) (a b : Nat) (v d : β) (ha : a < l.length) :
    (l.set a v).getD b d = if b = a then v else l.getD b d := by
  rw [List.getD_eq_getElem?_getD, List.getD_eq_getElem?_getD, List.getElem?_set]
  by_cases hb : a = b
  · subst hb
    simp [ha]
  · have hb2 : ¬ b = a := fun e => hb e.symm
    simp [hb, hb2]

theorem Heap.writeCell_temp (h0 h : Heap) (t y : Nat) (x : Int) (v : Cell)
    (ht : Heap.Temp h0 h t) (hy : y < (h.grid t).length) :
    ∃ h2, h.writeCell t y x v = some h2 ∧ Heap.Temp h0 h2 t ∧
      h2.grid t = (h.grid t).setCell y x v ∧ h2.pieces = h.pieces := by
  obtain ⟨hext, hle, hlt, hnd, hfresh⟩ := ht
  have hy2 : y < (h.grids.getD t []).length := by simpa [Heap.grid] using hy
  have hay : (h.grids.getD t [])[y]? = some ((h.grids.getD t [])[y]) :=
    List.getElem?_eq_getElem hy2
  have hmem : (h.grids.getD t [])[y] ∈ h.grids.getD t [] := List.getElem_mem _
  obtain ⟨hlo, hhi⟩ := hfresh _ hmem
  have hrow : h.rows[(h.grids.getD t [])[y]]? = some (h.rows[(h.grids.getD t [])[y]]) :=
    List.getElem?_eq_getElem hhi
  unfold Heap.writeCell
  simp only [hay, hrow]
  refine ⟨_, rfl, ⟨⟨isPrefix_set_of_le _ _ _ _ hext.1 hlo, hext.2.1, hext.2.2⟩, hle, hlt, hnd, ?_⟩, ?_,
    rfl⟩
  · intro a ha
    simp only [List.length_set]
    exact hfresh a ha
  · have hgd : (h.grid t).getD y [] = h.rows[(h.grids.getD t [])[y]] := by
      unfold Heap.grid
      rw [List.getD_eq_getElem _ _ (by simpa using hy2)]
      simp only [List.getElem_map]
      exact List.getD_eq_getElem _ _ hhi
    unfold Grid.setCell
    by_cases hx : x < 0
    · simp only [hx, ↓reduceIte]
      unfold Heap.grid
      simp only
      apply List.map_congr_left
      intro a _
      rw [getD_set _ _ _ _ _ hhi]
      split_ifs with hab
      · rw [hab]
        exact (List.getD_eq_getElem _ _ hhi).symm
      · rfl
    · simp only [hx, ↓reduceIte]
      rw [hgd]
      show (h.grids.getD t []).map (fun a => (h.rows.set _ _).getD a []) = _
      have hfun : (fun a => (h.rows.set (h.grids.getD t [])[y]
            ((h.rows[(h.grids.getD t [])[y]]).set x.toNat v)).getD a []) =
          fun b => if b = (h.grids.getD t [])[y]
            then (h.rows[(h.grids.getD t [])[y]]).set x.toNat v else h.rows.getD b [] := by
        funext b
        exact getD_set _ _ _ _ _ hhi
      rw [hfun, map_set_nodup _ _ y _ _ hay hnd]
      rfl

theorem setCell_length (grid : Grid) (y : Nat) (x : Int) (v : Cell) :
    (grid.setCell y x v).length = grid.length := by
  unfold Grid.setCell
  split_ifs
  · rfl
  · exact List.length_set _ _ _

theorem foldl_option_sim {ι σ : Type} (I : Heap → Prop) (D : Heap → σ)
    (f : Option Heap → ι → Option Heap) (fp : σ → ι → σ)
    (hstep : ∀ (h : Heap) (i : ι), I h →
      ∃ h2, f (some h) i = some h2 ∧ I h2 ∧ D h2 = fp (D h) i) :
    ∀ (l : List ι) (h : Heap), I h →
      ∃ h2, l.foldl f (some h) = some h2 ∧ I h2 ∧ D h2 = l.foldl fp (D h) := by
  intro l
  induction l with
  | nil => intro h hi; exact ⟨h, rfl, hi, rfl⟩
  | cons i rest ih =>
    intro h hi
    obtain ⟨h2, e2, i2, d2⟩ := hstep h i hi
    obtain ⟨h3, e3, i3, d3⟩ := ih h2 i2
    refine ⟨h3, ?_, i3, ?_⟩
    · rw [List.foldl_cons, e2]; exact e3
    · rw [List.foldl_cons, ← d2]; exact d3

theorem Heap.placePiece_temp (h0 h : Heap) (t p : Nat) (piece : Piece)
    (ht : Heap.Temp h0 h t) (hlen : (h.grid t).length = BOARD_HEIGHT)
    (hp : h.pieces[p]? = some piece) :
    ∃ h2, h.placePiece t p = some h2 ∧ Heap.Temp h0 h2 t ∧
      h2.grid t = TetrisAI.placePiece (h.grid t) piece ∧ h2.pieces = h.pieces := by
  unfold Heap.placePiece TetrisAI.placePiece
  simp only [hp]
  have hinner : ∀ (y : Nat) (h1 : Heap) (x : Nat),
      (Heap.Temp h0 h1 t ∧ (h1.grid t).length = BOARD_HEIGHT ∧ h1.pieces = h.pieces) →
      ∃ h2,
        (match some h1 with
          | none => none
          | some h =>
            if piece.getCurrentShape.occupied y x = true then
              if piece.y + (y : Int) ≥ 0 ∧ piece.y + (y : Int) < BOARD_HEIGHT ∧
                  piece.x + (x : Int) ≥ 0 ∧ piece.x + (x : Int) < BOARD_WIDTH then
                h.writeCell t (piece.y + (y : Int)).toNat (piece.x + (x : Int)) piece.color
              else some h
            else some h) = some h2 ∧
        (Heap.Temp h0 h2 t ∧ (h2.grid t).length = BOARD_HEIGHT ∧ h2.pieces = h.pieces) ∧
        h2.grid t =
          (if piece.getCurrentShape.occupied y x = true then
              if piece.y + (y : Int) ≥ 0 ∧ piece.y + (y : Int) < BOARD_HEIGHT ∧
                  piece.x + (x : Int) ≥ 0 ∧ piece.x + (x : Int) < BOARD_WIDTH then
                (h1.grid t).setCell (piece.y + (y : Int)).toNat (piece.x + (x : Int))
                  piece.color
              else h1.grid t
            else h1.grid t) := by
    intro y h1 x hi
    simp only
    split_ifs with hocc hb
    · obtain ⟨h2, e, t2, g2, p2⟩ := Heap.writeCell_temp h0 h1 t (piece.y + (y : Int)).toNat
        (piece.x + (x : Int)) piece.color hi.1 (by rw [hi.2.1]; omega)
      exact ⟨h2, e, ⟨t2, by rw [g2, setCell_length]; exact hi.2.1, p2.trans hi.2.2⟩, g2⟩
    · exact ⟨h1, rfl, hi, rfl⟩
    · exact ⟨h1, rfl, hi, rfl⟩
  have houter : ∀ (h1 : Heap) (y : Nat),
      (Heap.Temp h0 h1 t ∧ (h1.grid t).length = BOARD_HEIGHT ∧ h1.pieces = h.pieces) →
      ∃ h2,
        (List.range (piece.getCurrentShape.getD y []).length).foldl (fun acc x =>
          match acc with
          | none => none
          | some h =>
            if piece.getCurrentShape.occupied y x = true then
              if piece.y + (y : Int) ≥ 0 ∧ piece.y + (y : Int) < BOARD_HEIGHT ∧
                  piece.x + (x : Int) ≥ 0 ∧ piece.x + (x : Int) < BOARD_WIDTH then
                h.writeCell t (piece.y + (y : Int)).toNat (piece.x + (x : Int)) piece.color
              else some h
            else some h) (some h1) = some h2 ∧
        (Heap.Temp h0 h2 t ∧ (h2.grid t).length = BOARD_HEIGHT ∧ h2.pieces = h.pieces) ∧
        h2.grid t =
          (List.range (piece.getCurrentShape.getD y []).length).foldl (fun g x =>
            if piece.getCurrentShape.occupied y x = true then
              if piece.y + (y : Int) ≥ 0 ∧ piece.y + (y : Int) < BOARD_HEIGHT ∧
                  piece.x + (x : Int) ≥ 0 ∧ piece.x + (x : Int) < BOARD_WIDTH then
                g.setCell (piece.y + (y : Int)).toNat (piece.x + (x : Int)) piece.color
              else g
            else g) (h1.grid t) := by
    intro h1 y hi
    exact foldl_option_sim
      (fun h1 => Heap.Temp h0 h1 t ∧ (h1.grid t).length = BOARD_HEIGHT ∧ h1.pieces = h.pieces)
      (fun h => h.grid t)
      (fun acc x =>
        match acc with
        | none => none
        | some h =>
          if piece.getCurrentShape.occupied y x = true then
            if piece.y + (y : Int) ≥ 0 ∧ piece.y + (y : Int) < BOARD_HEIGHT ∧
                piece.x + (x : Int) ≥ 0 ∧ piece.x + (x : Int) < BOARD_WIDTH then
              h.writeCell t (piece.y + (y : Int)).toNat (piece.x + (x : Int)) piece.color
            else some h
          else some h)
      (fun g x =>
        if piece.getCurrentShape.occupied y x = true then
          if piece.y + (y : Int) ≥ 0 ∧ piece.y + (y : Int) < BOARD_HEIGHT ∧
              piece.x + (x : Int) ≥ 0 ∧ piece.x + (x : Int) < BOARD_WIDTH then
            g.setCell (piece.y + (y : Int)).toNat (piece.x + (x : Int)) piece.color
          else g
        else g)
      (fun h x hh => hinner y h x hh) _ h1 hi
  obtain ⟨h2, e, i2, d2⟩ := foldl_option_sim
    (fun h1 => Heap.Temp h0 h1 t ∧ (h1.grid t).length = BOARD_HEIGHT ∧ h1.pieces = h.pieces)
    (fun h => h.grid t)
    (fun acc y =>
      (List.range (piece.getCurrentShape.getD y []).length).foldl (fun acc x =>
        match acc with
        | none => none
        | some h =>
          if piece.getCurrentShape.occupied y x = true then
            if piece.y + (y : Int) ≥ 0 ∧ piece.y + (y : Int) < BOARD_HEIGHT ∧
                piece.x + (x : Int) ≥ 0 ∧ piece.x + (x : Int) < BOARD_WIDTH then
              h.writeCell t (piece.y + (y : Int)).toNat (piece.x + (x : Int)) piece.color
            else some h
          else some h) acc)
    (fun g y =>
      (List.range (piece.getCurrentShape.getD y []).length).foldl (fun g x =>
        if piece.getCurrentShape.occupied y x = true then
          if piece.y + (y : Int) ≥ 0 ∧ piece.y + (y : Int) < BOARD_HEIGHT ∧
              piece.x + (x : Int) ≥ 0 ∧ piece.x + (x : Int) < BOARD_WIDTH then
            g.setCell (piece.y + (y : Int)).toNat (piece.x + (x : Int)) piece.color
          else g
        else g) g)
    houter (List.range piece.getCurrentShape.length) h ⟨ht, hlen, rfl⟩
  exact ⟨h2, e, i2.1, d2, i2.2.2⟩

theorem Heap.spliceUnshift_temp (h0 h : Heap) (t y : Nat) (ht : Heap.Temp h0 h t) :
    Heap.Temp h0 (h.spliceUnshift t y) t ∧
    (h.spliceUnshift t y).grid t = emptyRow :: (h.grid t).eraseIdx y ∧
    (h.spliceUnshift t y).pieces = h.pieces := by
  obtain ⟨hext, hle, hlt, hnd, hfresh⟩ := ht
  have hget : (h.grids.set t (h.rows.length :: (h.grids.getD t []).eraseIdx y)).getD t [] =
      h.rows.length :: (h.grids.getD t []).eraseIdx y := by
    rw [List.getD_eq_getElem _ _ (by simpa using hlt)]
    simp
  have hsub : ∀ a ∈ (h.grids.getD t []).eraseIdx y, a ∈ h.grids.getD t [] :=
    fun a ha => (List.eraseIdx_sublist _ _).subset ha
  refine ⟨⟨⟨hext.1.trans (List.prefix_append _ _), isPrefix_set_of_le _ _ _ _ hext.2.1 hle,
      hext.2.2⟩,
    hle, by simpa [Heap.spliceUnshift] using hlt, ?_, ?_⟩, ?_, rfl⟩
  · simp only [Heap.spliceUnshift, hget, List.nodup_cons]
    refine ⟨?_, hnd.sublist (List.eraseIdx_sublist _ _)⟩
    intro hm
    have := (hfresh _ (hsub _ hm)).2
    omega
  · intro a ha
    simp only [Heap.spliceUnshift, hget, List.mem_cons, List.length_append,
      List.length_singleton] at ha ⊢
    rcases ha with ha | ha
    · subst ha
      exact ⟨hext.1.length_le, by omega⟩
    · have := hfresh a (hsub a ha)
      exact ⟨this.1, by omega⟩
  · simp only [Heap.spliceUnshift, Heap.grid, hget, List.map_cons]
    congr 1
    · rw [List.getD_eq_getElem _ _ (by simp)]
      simp
    · rw [← map_eraseIdx]
      apply List.map_congr_left
      intro a ha
      have hlt2 := (hfresh a (hsub a ha)).2
      rw [List.getD_eq_getElem _ _ (by simp; omega), List.getElem_append_left hlt2,
        List.getD_eq_getElem _ _ hlt2]

theorem clearLinesLoop_full (y : Int) (grid : Grid) (n : Nat) (row : Row) (hy : y ≥ 0)
    (hrow : grid[y.toNat]? = some row) (hfull : isFullRow row = true) :
    TetrisAI.clearLinesLoop y grid n =
      TetrisAI.clearLinesLoop (y + 1 - 1) (emptyRow :: grid.eraseIdx y.toNat) (n + 1) := by
  rw [TetrisAI.clearLinesLoop]
  simp only [hy, ↓reduceDIte]
  split
  · rename_i hnone; rw [hrow] at hnone; cases hnone
  · rename_i row2 hrow2
    rw [hrow] at hrow2
    cases hrow2
    simp only [hfull, ↓reduceDIte]

theorem clearLinesLoop_step (y : Int) (grid : Grid) (n : Nat) (row : Row) (hy : y ≥ 0)
    (hrow : grid[y.toNat]? = some row) (hfull : ¬ isFullRow row = true) :
    TetrisAI.clearLinesLoop y grid n = TetrisAI.clearLinesLoop (y - 1) grid n := by
  rw [TetrisAI.clearLinesLoop]
  simp only [hy, ↓reduceDIte]
  split
  · rename_i hnone; rw [hrow] at hnone; cases hnone
  · rename_i row2 hrow2
    rw [hrow] at hrow2
    cases hrow2
    have hf2 : isFullRow row = false := by simpa using hfull
    simp only [hf2, Bool.false_eq_true, ↓reduceDIte]

theorem clearLinesLoop_done (y : Int) (grid : Grid) (n : Nat) (hy : ¬ y ≥ 0) :
    TetrisAI.clearLinesLoop y grid n = (n, grid) := by
  rw [TetrisAI.clearLinesLoop]
  simp only [hy, ↓reduceDIte]

theorem Heap.clearLinesLoop_temp (h0 : Heap) (y : Int) (h : Heap) (t : Nat) (n : Nat)
    (ht : Heap.Temp h0 h t) (hy : (y + 1).toNat ≤ (h.grid t).length) :
    ∃ h2 n2, Heap.clearLinesLoop y h t n = some (h2, n2) ∧ Heap.Temp h0 h2 t ∧
      (n2, h2.grid t) = TetrisAI.clearLinesLoop y (h.grid t) n ∧ h2.pieces = h.pieces := by
  induction y, h, t, n using Heap.clearLinesLoop.induct with
  | case1 y h t n hy0 hnone =>
    exfalso
    rw [List.getElem?_eq_none_iff] at hnone
    omega
  | case2 y h t n hy0 row hrow hfull ih =>
    have hi : y.toNat < (h.grid t).length := (List.getElem?_eq_some.1 hrow).1
    obtain ⟨t2, g2, p2⟩ := Heap.spliceUnshift_temp h0 h t y.toNat ht
    have hlen : ((h.spliceUnshift t y.toNat).grid t).length = (h.grid t).length := by
      rw [g2, List.length_cons, List.length_eraseIdx, if_pos hi]; omega
    obtain ⟨h3, n3, e3, t3, r3, p3⟩ := ih t2 (by rw [hlen]; omega)
    refine ⟨h3, n3, ?_, t3, ?_, p3.trans p2⟩
    · rw [Heap.clearLinesLoop]
      simp only [hy0, ↓reduceDIte]
      split
      · rename_i hnone; rw [hrow] at hnone; cases hnone
      · rename_i row2 hrow2
        rw [hrow] at hrow2
        cases hrow2
        simp only [hfull, ↓reduceDIte]
        exact e3
    · rw [r3, g2, clearLinesLoop_full y (h.grid t) n row hy0 hrow hfull]
  | case3 y h t n hy0 row hrow hfull ih =>
    obtain ⟨h3, n3, e3, t3, r3, p3⟩ := ih ht (by omega)
    refine ⟨h3, n3, ?_, t3, ?_, p3⟩
    · rw [Heap.clearLinesLoop]
      simp only [hy0, ↓reduceDIte]
      split
      · rename_i hnone; rw [hrow] at hnone; cases hnone
      · rename_i row2 hrow2
        rw [hrow] at hrow2
        cases hrow2
        simp only [hfull, ↓reduceDIte]
        exact e3
    · rw [r3, clearLinesLoop_step y (h.grid t) n row hy0 hrow hfull]
  | case4 y h t n hy0 =>
    refine ⟨h, n, ?_, ht, ?_, rfl⟩
    · rw [Heap.clearLinesLoop]
      simp only [hy0, ↓reduceDIte]
    · rw [clearLinesLoop_done y (h.grid t) n hy0]

theorem placePiece_length (grid : Grid) (piece : Piece) :
    (TetrisAI.placePiece grid piece).length = grid.length := by
  unfold TetrisAI.placePiece
  generalize List.range piece.getCurrentShape.length = ys
  induction ys generalizing grid with
  | nil => rfl
  | cons y rest ih =>
    rw [List.foldl_cons, ih]
    generalize List.range (piece.getCurrentShape.getD y []).length = xs
    induction xs generalizing grid with
    | nil => rfl
    | cons x rest2 ih2 =>
      rw [List.foldl_cons, ih2]
      simp only
      split_ifs
      · exact setCell_length _ _ _ _
      · rfl
      · rfl

theorem Heap.evaluatePlacement_frame (ai : AIState) (h : Heap) (p board : Nat) (piece : Piece)
    (nextPieces : List Piece) (hlen : (h.grid board).length = BOARD_HEIGHT)
    (hp : h.pieces[p]? = some piece) :
    ∃ h2, Heap.evaluatePlacement ai h p board nextPieces =
        some (h2, TetrisAI.evaluatePlacement ai piece (h.grid board) nextPieces) ∧
      Heap.Ext h h2 ∧ h2.pieces = h.pieces := by
  obtain ⟨t1, g1, p1⟩ := Heap.cloneGrid_temp h board
  obtain ⟨h2, e2, t2, g2, p2⟩ := Heap.placePiece_temp h (h.cloneGrid board).1
    (h.cloneGrid board).2 p piece t1 (by rw [g1]; exact hlen) (by rw [p1]; exact hp)
  have hl2 : (h2.grid (h.cloneGrid board).2).length = BOARD_HEIGHT := by
    rw [g2, placePiece_length, g1]; exact hlen
  obtain ⟨h3, n3, e3, t3, r3, p3⟩ := Heap.clearLinesLoop_temp h ((BOARD_HEIGHT : Int) - 1) h2
    (h.cloneGrid board).2 0 t2 (by rw [hl2]; simp)
  refine ⟨h3, ?_, t3.1, p3.trans (p2.trans p1)⟩
  unfold Heap.evaluatePlacement
  simp only [e2, Heap.clearLines, e3]
  rw [evaluatePlacement_placementScore]
  have r4 : (n3, h3.grid (h.cloneGrid board).2) =
      TetrisAI.clearLines (TetrisAI.placePiece (h.grid board) piece) := by
    rw [r3, g2, g1]; rfl
  rw [← r4]

theorem Heap.tryPlacement_frame (ai : AIState) (h : Heap) (piece board : Nat) (p : Piece)
    (nextPieces : List Piece) (rotation : Nat) (x : Int) (st : SearchState)
    (hvalid : Heap.ValidGrid h board) (hlen : (h.grid board).length = BOARD_HEIGHT)
    (hp : h.pieces[piece]? = some p) :
    ∃ h2, Heap.tryPlacement ai h piece board nextPieces rotation x st =
        some (h2, TetrisAI.tryPlacement ai p (h.grid board) nextPieces rotation x st) ∧
      Heap.Ext h h2 ∧ h2.grid board = h.grid board := by
  have hlast : ∀ q : Piece, (h.pieces ++ [q])[h.pieces.length]? = some q := by
    intro q
    rw [List.getElem?_append_right (le_refl _)]
    simp
  have hset : ∀ q r : Piece, (h.pieces ++ [q]).set h.pieces.length r = h.pieces ++ [r] := by
    intro q r
    rw [List.set_append_right _ _ (le_refl _)]
    simp
  unfold Heap.tryPlacement TetrisAI.tryPlacement Heap.clonePiece Heap.assignPiece
  simp only [hp, hlast, hset]
  have hg : ∀ P : List Piece, ({ h with pieces := P } : Heap).grid board = h.grid board :=
    fun _ => rfl
  simp only [hg]
  cases hl : TetrisAI.findLandingY { p with rotation := rotation, x := x, y := 0 }
      (h.grid board) with
  | none =>
    exact ⟨_, rfl, ⟨List.prefix_refl _, List.prefix_refl _, List.prefix_append _ _⟩, rfl⟩
  | some landingY =>
    simp only [hlast, hset, hg]
    cases hv : TetrisAI.isValidPlacement
        { p with rotation := rotation, x := x, y := (landingY : Int) } (h.grid board) with
    | false =>
      simp only [Bool.not_false, ↓reduceIte]
      exact ⟨_, rfl, ⟨List.prefix_refl _, List.prefix_refl _, List.prefix_append _ _⟩, rfl⟩
    | true =>
      simp only [Bool.not_true, Bool.false_eq_true, ↓reduceIte]
      obtain ⟨h2, e2, x2, p2⟩ := Heap.evaluatePlacement_frame ai
        ({ h with pieces := h.pieces ++
          [{ p with rotation := rotation, x := x, y := (landingY : Int) }] } : Heap)
        h.pieces.length board { p with rotation := rotation, x := x, y := (landingY : Int) }
        nextPieces hlen (hlast _)
      have hext : Heap.Ext h h2 :=
        ⟨x2.1, x2.2.1, by rw [p2]; exact List.prefix_append _ _⟩
      have hgrid := (Heap.grid_of_ext h h2 board hext hvalid).1
      simp only [e2]
      refine ⟨h2, ?_, hext, hgrid⟩
      simp only [hg]
      exact (apply_ite (fun s => some (h2, s)) _ _ _).symm

theorem Heap.columnLoop_frame (ai : AIState) (piece board : Nat) (p : Piece)
    (nextPieces : List Piece) (rotation : Nat) (grid : Grid) (xs : List Int) :
    ∀ (h : Heap) (st : SearchState), Heap.ValidGrid h board → h.grid board = grid →
      grid.length = BOARD_HEIGHT → h.pieces[piece]? = some p →
      ∃ h2, Heap.columnLoop ai piece board nextPieces rotation xs h st =
          some (h2, TetrisAI.columnLoop ai p grid nextPieces rotation xs st) ∧
        Heap.Ext h h2 := by
  induction xs with
  | nil => intro h st _ _ _ _; exact ⟨h, rfl, Heap.ext_same h⟩
  | cons x xs ih =>
    intro h st hvalid hgrid hlen hp
    unfold Heap.columnLoop TetrisAI.columnLoop
    split_ifs with hcap
    · exact ⟨h, rfl, Heap.ext_same h⟩
    · obtain ⟨h2, e2, x2, g2⟩ := Heap.tryPlacement_frame ai h piece board p nextPieces rotation
        x st hvalid (by rw [hgrid]; exact hlen) hp
      have hp2 : h2.pieces[piece]? = some p := by
        rw [getElem?_of_isPrefix _ _ piece x2.2.2 (List.getElem?_eq_some.1 hp).1]
        exact hp
      obtain ⟨h3, e3, x3⟩ := ih h2 (TetrisAI.tryPlacement ai p grid nextPieces rotation x st)
        (Heap.grid_of_ext h h2 board x2 hvalid).2 (g2.trans hgrid) hlen hp2
      refine ⟨h3, ?_, Heap.ext_chain x2 x3⟩
      simp only [e2]
      rw [hgrid]
      exact e3

theorem Heap.rotationLoop_frame (ai : AIState) (piece board : Nat) (p : Piece)
    (nextPieces : List Piece) (grid : Grid) (rs : List Nat) :
    ∀ (h : Heap) (st : SearchState), Heap.ValidGrid h board → h.grid board = grid →
      grid.length = BOARD_HEIGHT → h.pieces[piece]? = some p →
      ∃ h2, Heap.rotationLoop ai piece board nextPieces rs h st =
          some (h2, rs.foldl (fun st rotation =>
            TetrisAI.columnLoop ai p grid nextPieces rotation TetrisAI.searchColumns st) st) ∧
        Heap.Ext h h2 := by
  induction rs with
  | nil => intro h st _ _ _ _; exact ⟨h, rfl, Heap.ext_same h⟩
  | cons r rs ih =>
    intro h st hvalid hgrid hlen hp
    obtain ⟨h2, e2, x2⟩ := Heap.columnLoop_frame ai piece board p nextPieces r grid
      TetrisAI.searchColumns h st hvalid hgrid hlen hp
    have hp2 : h2.pieces[piece]? = some p := by
      rw [getElem?_of_isPrefix _ _ piece x2.2.2 (List.getElem?_eq_some.1 hp).1]
      exact hp
    obtain ⟨hg2, hv2⟩ := Heap.grid_of_ext h h2 board x2 hvalid
    obtain ⟨h3, e3, x3⟩ := ih h2 _ hv2 (hg2.trans hgrid) hlen hp2
    refine ⟨h3, ?_, Heap.ext_chain x2 x3⟩
    unfold Heap.rotationLoop
    simp only [e2, List.foldl_cons]
    exact e3

/-- C26: on a heap that holds the piece at address `piece` and a grid of
`BOARD_HEIGHT` rows at address `board`, `TetrisAI.findBestPlacement` returns
the move that the search on values returns, and every array and object of the
heap before the call is in the heap after it with its contents: the grid at
`board` is unchanged and the piece object is unchanged; the same holds for one
call of `TetrisAI.evaluatePlacement`.  All writes go to the clones. -/
theorem findBestPlacement_frame (ai : AIState) (h : Heap) (piece board : Nat) (p : Piece)
    (nextPieces : List Piece) (hp : h.pieces[piece]? = some p)
    (hvalid : Heap.ValidGrid h board) (hlen : (h.grid board).length = BOARD_HEIGHT) :
    (∃ h2, Heap.findBestPlacement ai h piece board nextPieces =
        some (h2, TetrisAI.findBestPlacement ai p (h.grid board) nextPieces) ∧
      Heap.Ext h h2 ∧ h2.grid board = h.grid board ∧ h2.pieces[piece]? = some p) ∧
    (∃ h2, Heap.evaluatePlacement ai h piece board nextPieces =
        some (h2, TetrisAI.evaluatePlacement ai p (h.grid board) nextPieces) ∧
      Heap.Ext h h2 ∧ h2.grid board = h.grid board ∧ h2.pieces[piece]? = some p) := by
  constructor
  · obtain ⟨h2, e2, x2⟩ := Heap.rotationLoop_frame ai piece board p nextPieces (h.grid board)
      (List.range p.shapes.length) h { bestScore := none, bestMove := none, evaluations := 0 }
      hvalid rfl hlen hp
    refine ⟨h2, ?_, x2, (Heap.grid_of_ext h h2 board x2 hvalid).1, ?_⟩
    · unfold Heap.findBestPlacement TetrisAI.findBestPlacement
      simp only [hp, e2]
    · rw [getElem?_of_isPrefix _ _ piece x2.2.2 (List.getElem?_eq_some.1 hp).1]
      exact hp
  · obtain ⟨h2, e2, x2, p2⟩ := Heap.evaluatePlacement_frame ai h piece board p nextPieces hlen hp
    refine ⟨h2, e2, x2, (Heap.grid_of_ext h h2 board x2 hvalid).1, ?_⟩
    rw [p2]
    exact hp

theorem findBestPlacement_frame_witness :
    (sampleHeap.pieces[0]? = some iPiece ∧ Heap.ValidGrid sampleHeap 0 ∧
      (sampleHeap.grid 0).length = BOARD_HEIGHT) ∧
    ∃ h2, Heap.findBestPlacement sampleAI sampleHeap 0 0 [] =
        some (h2, TetrisAI.findBestPlacement sampleAI iPiece (sampleHeap.grid 0) []) ∧
      Heap.Ext sampleHeap h2 ∧ h2.grid 0 = sampleHeap.grid 0 ∧ h2.pieces[0]? = some iPiece :=
  ⟨⟨rfl, ⟨by decide, by decide⟩, by decide⟩,
    (findBestPlacement_frame sampleAI sampleHeap 0 0 iPiece [] rfl ⟨by decide, by decide⟩
      (by decide)).1⟩

/-! ## Theorems: the move sequence reaches the plan -/

theorem moveSequence_eq (r0 rt : Nat) (x0 xt : Int) (hr0 : r0 < 4) (hrt : rt < 4) :
    TetrisAI.moveSequence (r0 : Int) (rt : Int) x0 xt =
      List.replicate (min (((rt : Int) - (r0 : Int)) % 4) 3).toNat AIMove.rotate ++
        List.replicate (min (abs (xt - x0)) 15).toNat
          (if xt > x0 then AIMove.right else AIMove.left) ++ [AIMove.drop] := by
  unfold TetrisAI.moveSequence
  simp only
  have hrot : (min (if (rt : Int) - (r0 : Int) < 0 then (rt : Int) - (r0 : Int) + 4
      else (rt : Int) - (r0 : Int)) 3).toNat = (min (((rt : Int) - (r0 : Int)) % 4) 3).toNat := by
    split_ifs <;> congr 1 <;> omega
  rw [hrot]
  congr 2
  by_cases h1 : xt - x0 > 0
  · have h2 : xt > x0 := by omega
    rw [if_pos h1, if_pos h2, abs_of_pos h1]
  · by_cases h3 : xt - x0 < 0
    · have h4 : ¬ xt > x0 := by omega
      rw [if_neg h1, if_pos h3, if_neg h4]
    · have h5 : xt - x0 = 0 := by omega
      rw [if_neg h1, if_neg h3, h5]
      simp

theorem executeMoves_add (K : Constants) (env : Env) (k j : Nat) (s : Game) :
    TetrisAI.executeMoves K env (k + j) s =
      (TetrisAI.executeMoves K env k s).bind (TetrisAI.executeMoves K env j) := by
  induction k generalizing s with
  | zero => simp [TetrisAI.executeMoves]
  | succ k ih =>
    rw [Nat.succ_add]
    simp only [TetrisAI.executeMoves]
    cases h : TetrisAI.executeNextMove K env s with
    | none => rfl
    | some t => exact ih t

theorem movesSucceed_add (K : Constants) (env : Env) (k j : Nat) (s : Game)
    (h : TetrisAI.movesSucceed K env (k + j) s = true) :
    TetrisAI.movesSucceed K env k s = true ∧
      ∃ t, TetrisAI.executeMoves K env k s = some t ∧
        TetrisAI.movesSucceed K env j t = true := by
  induction k generalizing s with
  | zero =>
    refine ⟨rfl, s, rfl, ?_⟩
    simpa using h
  | succ k ih =>
    rw [Nat.succ_add] at h
    simp only [TetrisAI.movesSucceed, Bool.and_eq_true] at h ⊢
    simp only [TetrisAI.executeMoves]
    obtain ⟨h1, h2⟩ := h
    cases he : TetrisAI.executeNextMove K env s with
    | none => rw [he] at h2; cases h2
    | some t =>
      rw [he] at h2
      simp only at h2 ⊢
      obtain ⟨h3, h4⟩ := ih t h2
      exact ⟨⟨h1, h3⟩, h4⟩

theorem kickLoop_first (grid : Grid) (piece : Piece) (kicks : List (Int × Int))
    (h : Board.isValidPosition grid piece.getCurrentShape piece.x piece.y = true) :
    Game.kickLoop grid piece ((0, 0) :: kicks) = (piece, true) := by
  simp only [Game.kickLoop, add_zero]
  rw [if_pos h]

theorem getWallKicks_first (pieceType : PieceType) (a b : Nat) :
    ∃ kicks, Game.getWallKicks pieceType a b = (0, 0) :: kicks := by
  unfold Game.getWallKicks
  split
  · exact ⟨_, rfl⟩
  · exact ⟨_, rfl⟩

theorem rotatePiece_first (s : Game)
    (h : Board.isValidPosition s.grid (s.currentPiece.rotate 1).getCurrentShape
      (s.currentPiece.rotate 1).x (s.currentPiece.rotate 1).y = true) :
    (s.rotatePiece 1).1 = { s with currentPiece := s.currentPiece.rotate 1 } := by
  unfold Game.rotatePiece
  simp only
  obtain ⟨kicks, hk⟩ := getWallKicks_first (s.currentPiece.rotate 1).type
    s.currentPiece.rotation (s.currentPiece.rotate 1).rotation
  rw [hk, kickLoop_first s.grid _ kicks h]
  simp

theorem rotate_quarter (p : Piece) (hlen : p.shapes.length = 4) :
    (p.rotate 1).rotation = (p.rotation + 1) % 4 ∧ (p.rotate 1).x = p.x ∧
      (p.rotate 1).y = p.y ∧ (p.rotate 1).shapes = p.shapes := by
  refine ⟨?_, rfl, rfl, rfl⟩
  unfold Piece.rotate
  simp only [hlen]
  have h : Int.tmod ((p.rotation : Int) + 1 + ((4 : Nat) : Int)) ((4 : Nat) : Int) =
      (((p.rotation + 1) % 4 : Nat) : Int) := by
    rw [Int.tmod_eq_emod (by omega) (by omega)]
    push_cast
    omega
  rw [h]
  exact Int.toNat_natCast _

theorem executeNextMove_rotate (K : Constants) (env : Env) (s : Game) (rest : List AIMove)
    (hq : s.ai.moveQueue = AIMove.rotate :: rest)
    (hok : TetrisAI.headMoveSucceeds s = true) :
    ∃ t, TetrisAI.executeNextMove K env s = some t ∧ t.ai.moveQueue = rest ∧
      t.currentPiece = s.currentPiece.rotate 1 ∧ t.grid = s.grid := by
  unfold TetrisAI.headMoveSucceeds at hok
  rw [hq] at hok
  simp only at hok
  unfold TetrisAI.executeNextMove
  rw [hq]
  simp only [Game.handleKeyPress]
  refine ⟨_, rfl, ?_, ?_, ?_⟩
  · rw [rotatePiece_frame]
    split <;> rfl
  · rw [rotatePiece_first]
    · split <;> rfl
    · split <;> exact hok
  · rw [rotatePiece_frame]
    split <;> rfl

theorem movePiece_moved (s : Game) (dx dy : Int) (h : (s.movePiece dx dy).2 = true) :
    (s.movePiece dx dy).1 = { s with currentPiece := s.currentPiece.move dx dy } := by
  unfold Game.movePiece at h ⊢
  simp only at h ⊢
  split at h
  · cases h
  · rename_i hv
    rw [if_neg hv]

theorem movePiece_flag (s t : Game) (dx dy : Int) (hg : t.grid = s.grid)
    (hp : t.currentPiece = s.currentPiece) :
    (t.movePiece dx dy).2 = (s.movePiece dx dy).2 := by
  unfold Game.movePiece
  simp only [hg, hp]
  split <;> rfl

theorem executeNextMove_left (K : Constants) (env : Env) (s : Game) (rest : List AIMove)
    (hq : s.ai.moveQueue = AIMove.left :: rest)
    (hok : TetrisAI.headMoveSucceeds s = true) :
    ∃ t, TetrisAI.executeNextMove K env s = some t ∧ t.ai.moveQueue = rest ∧
      t.currentPiece = s.currentPiece.move (-1) 0 ∧ t.grid = s.grid := by
  unfold TetrisAI.headMoveSucceeds at hok
  rw [hq] at hok
  simp only at hok
  unfold TetrisAI.executeNextMove
  rw [hq]
  simp only [Game.handleKeyPress]
  refine ⟨_, rfl, ?_, ?_, ?_⟩
  · rw [movePiece_frame]
    split <;> rfl
  · rw [movePiece_moved]
    · split <;> rfl
    · rw [← hok]
      apply movePiece_flag <;> split <;> rfl
  · rw [movePiece_frame]
    split <;> rfl

theorem executeNextMove_right (K : Constants) (env : Env) (s : Game) (rest : List AIMove)
    (hq : s.ai.moveQueue = AIMove.right :: rest)
    (hok : TetrisAI.headMoveSucceeds s = true) :
    ∃ t, TetrisAI.executeNextMove K env s = some t ∧ t.ai.moveQueue = rest ∧
      t.currentPiece = s.currentPiece.move 1 0 ∧ t.grid = s.grid := by
  unfold TetrisAI.headMoveSucceeds at hok
  rw [hq] at hok
  simp only at hok
  unfold TetrisAI.executeNextMove
  rw [hq]
  simp only [Game.handleKeyPress]
  refine ⟨_, rfl, ?_, ?_, ?_⟩
  · rw [movePiece_frame]
    split <;> rfl
  · rw [movePiece_moved]
    · split <;> rfl
    · rw [← hok]
      apply movePiece_flag <;> split <;> rfl
  · rw [movePiece_frame]
    split <;> rfl

theorem executeMoves_rotations (K : Constants) (env : Env) (k : Nat) (s : Game)
    (rest : List AIMove) (hlen : s.currentPiece.shapes.length = 4)
    (hr : s.currentPiece.rotation < 4)
    (hq : s.ai.moveQueue = List.replicate k AIMove.rotate ++ rest)
    (hok : TetrisAI.movesSucceed K env k s = true) :
    ∃ t, TetrisAI.executeMoves K env k s = some t ∧ t.ai.moveQueue = rest ∧
      t.currentPiece.rotation = (s.currentPiece.rotation + k) % 4 ∧
      t.currentPiece.x = s.currentPiece.x ∧ t.currentPiece.y = s.currentPiece.y ∧
      t.currentPiece.shapes = s.currentPiece.shapes ∧ t.grid = s.grid := by
  induction k generalizing s with
  | zero =>
    refine ⟨s, rfl, by simpa using hq, ?_, rfl, rfl, rfl, rfl⟩
    rw [Nat.add_zero, Nat.mod_eq_of_lt hr]
  | succ k ih =>
    rw [List.replicate_succ, List.cons_append] at hq
    simp only [TetrisAI.movesSucceed, Bool.and_eq_true] at hok
    obtain ⟨t1, h1, hq1, hp1, hg1⟩ := executeNextMove_rotate K env s _ hq hok.1
    have hok2 := hok.2
    rw [h1] at hok2
    simp only at hok2
    obtain ⟨hrot, hx, hy, hsh⟩ := rotate_quarter s.currentPiece hlen
    rw [← hp1] at hrot hx hy hsh
    obtain ⟨t, h2, hq2, hr2, hx2, hy2, hs2, hg2⟩ := ih t1 (by rw [hsh, hlen])
      (by rw [hrot]; omega) hq1 hok2
    refine ⟨t, ?_, hq2, ?_, by rw [hx2, hx], by rw [hy2, hy], by rw [hs2, hsh],
      by rw [hg2, hg1]⟩
    · simp only [TetrisAI.executeMoves, h1]
      exact h2
    · rw [hr2, hrot]
      omega

theorem executeMoves_lefts (K : Constants) (env : Env) (k : Nat) (s : Game)
    (rest : List AIMove)
    (hq : s.ai.moveQueue = List.replicate k AIMove.left ++ rest)
    (hok : TetrisAI.movesSucceed K env k s = true) :
    ∃ t, TetrisAI.executeMoves K env k s = some t ∧ t.ai.moveQueue = rest ∧
      t.currentPiece.rotation = s.currentPiece.rotation ∧
      t.currentPiece.x = s.currentPiece.x - (k : Int) := by
  induction k generalizing s with
  | zero => exact ⟨s, rfl, by simpa using hq, rfl, by simp⟩
  | succ k ih =>
    rw [List.replicate_succ, List.cons_append] at hq
    simp only [TetrisAI.movesSucceed, Bool.and_eq_true] at hok
    obtain ⟨t1, h1, hq1, hp1, _⟩ := executeNextMove_left K env s _ hq hok.1
    have hok2 := hok.2
    rw [h1] at hok2
    simp only at hok2
    obtain ⟨t, h2, hq2, hr2, hx2⟩ := ih t1 hq1 hok2
    refine ⟨t, ?_, hq2, ?_, ?_⟩
    · simp only [TetrisAI.executeMoves, h1]
      exact h2
    · rw [hr2, hp1]; rfl
    · rw [hx2, hp1]
      simp only [Piece.move]
      push_cast
      omega

theorem executeMoves_rights (K : Constants) (env : Env) (k : Nat) (s : Game)
    (rest : List AIMove)
    (hq : s.ai.moveQueue = List.replicate k AIMove.right ++ rest)
    (hok : TetrisAI.movesSucceed K env k s = true) :
    ∃ t, TetrisAI.executeMoves K env k s = some t ∧ t.ai.moveQueue = rest ∧
      t.currentPiece.rotation = s.currentPiece.rotation ∧
      t.currentPiece.x = s.currentPiece.x + (k : Int) := by
  induction k generalizing s with
  | zero => exact ⟨s, rfl, by simpa using hq, rfl, by simp⟩
  | succ k ih =>
    rw [List.replicate_succ, List.cons_append] at hq
    simp only [TetrisAI.movesSucceed, Bool.and_eq_true] at hok
    obtain ⟨t1, h1, hq1, hp1, _⟩ := executeNextMove_right K env s _ hq hok.1
    have hok2 := hok.2
    rw [h1] at hok2
    simp only at hok2
    obtain ⟨t, h2, hq2, hr2, hx2⟩ := ih t1 hq1 hok2
    refine ⟨t, ?_, hq2, ?_, ?_⟩
    · simp only [TetrisAI.executeMoves, h1]
      exact h2
    · rw [hr2, hp1]; rfl
    · rw [hx2, hp1]
      simp only [Piece.move]
      push_cast
      omega

/-- C31: for a current rotation and a target rotation in 0..3 and any current
and target column, the queue that `TetrisAI.generateMoveSequence` builds is
`min((rt - r0) mod 4, 3)` rotations, then `min(|xt - x0|, 15)` shifts, to the
right when `xt > x0` and to the left otherwise, then one drop.  When the piece
has four rotation states, `|xt - x0| ≤ 15` and every rotation and shift of the
queue succeeds (the rotations with the kick offset `(0, 0)`), dispatching
these actions through `TetrisAI.executeNextMove` leaves the piece in the target
rotation and the target column, with the drop as the only action left. -/
theorem generateMoveSequence_reaches (K : Constants) (env : Env) (s : Game) (m : AIPlan)
    (hr0 : s.currentPiece.rotation < 4) (hrt : m.rotation < 4) :
    (TetrisAI.generateMoveSequence s m).ai.moveQueue =
      List.replicate
          (min (((m.rotation : Int) - (s.currentPiece.rotation : Int)) % 4) 3).toNat
          AIMove.rotate ++
        List.replicate (min (abs (m.x - s.currentPiece.x)) 15).toNat
          (if m.x > s.currentPiece.x then AIMove.right else AIMove.left) ++ [AIMove.drop] ∧
    (s.currentPiece.shapes.length = 4 → abs (m.x - s.currentPiece.x) ≤ 15 →
      TetrisAI.movesSucceed K env
        ((((m.rotation : Int) - (s.currentPiece.rotation : Int)) % 4).toNat +
          (abs (m.x - s.currentPiece.x)).toNat)
        (TetrisAI.generateMoveSequence s m) = true →
      ∃ t, TetrisAI.executeMoves K env
          ((((m.rotation : Int) - (s.currentPiece.rotation : Int)) % 4).toNat +
            (abs (m.x - s.currentPiece.x)).toNat)
          (TetrisAI.generateMoveSequence s m) = some t ∧
        t.currentPiece.rotation = m.rotation ∧ t.currentPiece.x = m.x ∧
        t.ai.moveQueue = [AIMove.drop]) := by
  have hqueue : (TetrisAI.generateMoveSequence s m).ai.moveQueue =
      List.replicate
          (min (((m.rotation : Int) - (s.currentPiece.rotation : Int)) % 4) 3).toNat
          AIMove.rotate ++
        List.replicate (min (abs (m.x - s.currentPiece.x)) 15).toNat
          (if m.x > s.currentPiece.x then AIMove.right else AIMove.left) ++ [AIMove.drop] :=
    moveSequence_eq s.currentPiece.rotation m.rotation s.currentPiece.x m.x hr0 hrt
  refine ⟨hqueue, ?_⟩
  intro hlen hx hok
  have hmin1 : (min (((m.rotation : Int) - (s.currentPiece.rotation : Int)) % 4) 3).toNat =
      (((m.rotation : Int) - (s.currentPiece.rotation : Int)) % 4).toNat := by
    congr 1; omega
  have hmin2 : (min (abs (m.x - s.currentPiece.x)) 15).toNat =
      (abs (m.x - s.currentPiece.x)).toNat := by
    congr 1; omega
  rw [hmin1, hmin2, List.append_assoc] at hqueue
  obtain ⟨hok1, t1, ht1, hok2⟩ := movesSucceed_add K env _ _ _ hok
  obtain ⟨t1b, ht1b, hq1, hrot1, hx1, _, _, _⟩ :=
    executeMoves_rotations K env _ (TetrisAI.generateMoveSequence s m) _ hlen hr0 hqueue hok1
  rw [ht1] at ht1b
  cases ht1b
  have hrot : t1.currentPiece.rotation = m.rotation := by
    rw [hrot1]
    show (s.currentPiece.rotation +
      (((m.rotation : Int) - (s.currentPiece.rotation : Int)) % 4).toNat) % 4 = m.rotation
    omega
  have hx1b : t1.currentPiece.x = s.currentPiece.x := hx1
  rw [executeMoves_add, ht1]
  simp only [Option.some_bind]
  by_cases hdir : m.x > s.currentPiece.x
  · rw [if_pos hdir] at hq1
    obtain ⟨t, ht, hq2, hr2, hx2⟩ := executeMoves_rights K env _ t1 _ hq1 hok2
    refine ⟨t, ht, by rw [hr2, hrot], ?_, hq2⟩
    rw [hx2, hx1b, Int.toNat_of_nonneg (abs_nonneg _), abs_of_pos (by omega)]
    omega
  · rw [if_neg hdir] at hq1
    obtain ⟨t, ht, hq2, hr2, hx2⟩ := executeMoves_lefts K env _ t1 _ hq1 hok2
    refine ⟨t, ht, by rw [hr2, hrot], ?_, hq2⟩
    rw [hx2, hx1b, Int.toNat_of_nonneg (abs_nonneg _), abs_of_nonpos (by omega)]
    omega

set_option maxRecDepth 1000000 in
theorem generateMoveSequence_reaches_witness :
    rotateStart.currentPiece.rotation < 4 ∧ samplePlan.rotation < 4 ∧
    (TetrisAI.generateMoveSequence rotateStart samplePlan).ai.moveQueue =
      [AIMove.rotate, AIMove.rotate, AIMove.rotate, AIMove.left, AIMove.left, AIMove.left,
        AIMove.drop] ∧
    ∃ t, TetrisAI.executeMoves sampleConstants resumeEnv.aiEnv 6
        (TetrisAI.generateMoveSequence rotateStart samplePlan) = some t ∧
      t.currentPiece.rotation = 3 ∧ t.currentPiece.x = 0 ∧ t.ai.moveQueue = [AIMove.drop] :=
  ⟨by decide, by decide,
    (generateMoveSequence_reaches sampleConstants resumeEnv.aiEnv rotateStart samplePlan
      (by decide) (by decide)).1,
    (generateMoveSequence_reaches sampleConstants resumeEnv.aiEnv rotateStart samplePlan
      (by decide) (by decide)).2 (by decide) (by decide) (by decide)⟩

/-! ## Theorems: the rank of a new high score -/

theorem insertByScore_below (e : HighScore × Bool) (l : List (HighScore × Bool))
    (h : ∀ b ∈ l, b.1.score ≤ e.1.score) : Storage.insertByScore e l = e :: l := by
  cases l with
  | nil => rfl
  | cons b l =>
    simp only [Storage.insertByScore]
    rw [if_pos (h b (List.mem_cons_self _ _))]

theorem sortByScore_pushed (hs : List HighScore) (new : HighScore)
    (hsorted : hs.Pairwise fun a b => b.score ≤ a.score) :
    Storage.sortByScore (hs.map (fun e => (e, false)) ++ [(new, true)]) =
      (hs.filter fun e => decide (new.score ≤ e.score)).map (fun e => (e, false)) ++
        (new, true) :: (hs.filter fun e => decide (e.score < new.score)).map
          (fun e => (e, false)) := by
  induction hs with
  | nil => rfl
  | cons a l ih =>
    obtain ⟨ha, hl⟩ := List.pairwise_cons.1 hsorted
    show Storage.insertByScore (a, false)
      (Storage.sortByScore (l.map (fun e => (e, false)) ++ [(new, true)])) = _
    rw [ih hl]
    by_cases hc : new.score ≤ a.score
    · have h1 : ¬ a.score < new.score := by omega
      rw [List.filter_cons_of_pos (by simpa using hc), List.filter_cons_of_neg (by simpa using h1)]
      rw [insertByScore_below]
      · rfl
      · intro b hb
        rcases List.mem_append.1 hb with h | h
        · obtain ⟨c, hc1, rfl⟩ := List.mem_map.1 h
          exact ha c (List.mem_of_mem_filter hc1)
        · rcases List.mem_cons.1 h with h | h
          · rw [h]; exact hc
          · obtain ⟨c, hc1, rfl⟩ := List.mem_map.1 h
            exact ha c (List.mem_of_mem_filter hc1)
    · have h1 : a.score < new.score := by omega
      have hnone : (l.filter fun e => decide (new.score ≤ e.score)) = [] := by
        rw [List.filter_eq_nil_iff]
        intro c hc1
        have := ha c hc1
        simp only [decide_eq_true_eq]
        omega
      have hall : (l.filter fun e => decide (e.score < new.score)) = l := by
        rw [List.filter_eq_self]
        intro c hc1
        have := ha c hc1
        simp only [decide_eq_true_eq]
        omega
      rw [List.filter_cons_of_neg (by simpa using hc), List.filter_cons_of_pos (by simpa using h1),
        hnone, hall]
      simp only [List.map_nil, List.nil_append, List.map_cons, Storage.insertByScore]
      rw [if_neg (by simpa using h1), insertByScore_below]
      intro b hb
      obtain ⟨c, hc1, rfl⟩ := List.mem_map.1 hb
      exact ha c hc1

theorem rankOfNew_le (new : HighScore) (hnew : new.rank ≤ 10) (kept : List (HighScore × Bool))
    (hlen : kept.length ≤ 10) :
    Storage.rankOfNew new
      (kept.enum.map fun ie => (({ ie.2.1 with rank := ie.1 + 1 } : HighScore), ie.2.2)) ≤ 10 := by
  unfold Storage.rankOfNew
  split
  · rename_i e he
    have hmem := List.mem_of_find?_eq_some he
    obtain ⟨ie, hie, rfl⟩ := List.mem_map.1 hmem
    have := List.fst_lt_of_mem_enum hie
    simp only
    omega
  · exact hnew

theorem ranked_scores (n : Nat) (kept : List (HighScore × Bool)) :
    (((kept.enumFrom n).map fun ie =>
        (({ ie.2.1 with rank := ie.1 + 1 } : HighScore), ie.2.2)).map fun e => e.1.score) =
      kept.map fun e => e.1.score := by
  induction kept generalizing n with
  | nil => rfl
  | cons a l ih =>
    simp only [List.enumFrom_cons, List.map_cons]
    rw [ih]

theorem rankOfNew_skip (new : HighScore) (n : Nat) (stored : List HighScore)
    (rest : List (HighScore × Bool)) :
    Storage.rankOfNew new
        (((stored.map fun e => (e, false)) ++ rest).enumFrom n |>.map fun ie =>
          (({ ie.2.1 with rank := ie.1 + 1 } : HighScore), ie.2.2)) =
      Storage.rankOfNew new
        ((rest.enumFrom (n + stored.length)).map fun ie =>
          (({ ie.2.1 with rank := ie.1 + 1 } : HighScore), ie.2.2)) := by
  induction stored generalizing n with
  | nil => rfl
  | cons a l ih =>
    have h := ih (n + 1)
    simp only [List.map_cons, List.cons_append, List.enumFrom_cons, List.length_cons]
    rw [show n + (l.length + 1) = n + 1 + l.length by omega, ← h]
    unfold Storage.rankOfNew
    simp only [List.find?_cons_of_neg, Bool.false_eq_true, not_false_eq_true]

theorem sorted_pushed (hs : List HighScore) (new : HighScore)
    (hsorted : hs.Pairwise fun a b => b.score ≤ a.score) :
    (((hs.filter fun e => decide (new.score ≤ e.score)).map fun e => (e, false)) ++
        (new, true) :: (hs.filter fun e => decide (e.score < new.score)).map
          fun e => (e, false)).Pairwise
      fun a b => b.1.score ≤ a.1.score := by
  rw [List.pairwise_append]
  refine ⟨?_, ?_, ?_⟩
  · rw [List.pairwise_map]
    exact hsorted.sublist (List.filter_sublist _)
  · rw [List.pairwise_cons]
    refine ⟨?_, ?_⟩
    · intro b hb
      obtain ⟨c, hc, rfl⟩ := List.mem_map.1 hb
      have := (List.mem_filter.1 hc).2
      simp only [decide_eq_true_eq] at this
      simp only
      omega
    · rw [List.pairwise_map]
      exact hsorted.sublist (List.filter_sublist _)
  · intro a ha b hb
    obtain ⟨c, hc, rfl⟩ := List.mem_map.1 ha
    have h1 := (List.mem_filter.1 hc).2
    simp only [decide_eq_true_eq] at h1
    rcases List.mem_cons.1 hb with h | h
    · rw [h]; exact h1
    · obtain ⟨d, hd, rfl⟩ := List.mem_map.1 h
      have h2 := (List.mem_filter.1 hd).2
      simp only [decide_eq_true_eq] at h2
      simp only
      omega

theorem addHighScore_kept (hs : List HighScore) (score lines level time date : Nat)
    (hsorted : hs.Pairwise fun a b => b.score ≤ a.score) :
    ((Storage.addHighScore hs score lines level time date).2.length ≤ 10) ∧
    ((Storage.addHighScore hs score lines level time date).2.Pairwise
      fun a b => b.score ≤ a.score) ∧
    (∀ i e, (Storage.addHighScore hs score lines level time date).2[i]? = some e →
      e.rank = i + 1) ∧
    ((hs.filter fun e => decide (score ≤ e.score)).length < 10 →
      (Storage.addHighScore hs score lines level time date).1 =
        some ((hs.filter fun e => decide (score ≤ e.score)).length + 1)) ∧
    (10 ≤ (hs.filter fun e => decide (score ≤ e.score)).length →
      (Storage.addHighScore hs score lines level time date).1 = some 0) := by
  unfold Storage.addHighScore
  simp only
  generalize hN : ({ score := score, lines := lines, level := level, time := time,
                     date := date, rank := 0 } : HighScore) = new
  have hr : new.rank = 0 := by rw [← hN]
  have hs0 : new.score = score := by rw [← hN]
  have hsort := sortByScore_pushed hs new hsorted
  have hpair := sorted_pushed hs new hsorted
  rw [hs0] at hsort hpair
  rw [hsort]
  generalize hA : (hs.filter fun e => decide (score ≤ e.score)) = A at hpair ⊢
  generalize hB : ((hs.filter fun e => decide (e.score < score)).map
    fun e => ((e, false) : HighScore × Bool)) = B at hpair ⊢
  refine ⟨?_, ?_, ?_, ?_, ?_⟩
  · simp only [List.length_map, List.enum_length, List.length_take]
    omega
  · rw [← List.pairwise_map (f := fun e : HighScore => e.score)
      (R := fun a b => b ≤ a), List.map_map]
    have h := ranked_scores 0 (List.take 10 (List.map (fun e => (e, false)) A ++ (new, true) :: B))
    rw [List.map_map] at h
    rw [List.enum, List.map_map]
    simp only [Function.comp_def] at h ⊢
    rw [h, List.pairwise_map]
    exact hpair.sublist (List.take_sublist _ _)
  · intro i e he
    simp only [List.getElem?_map, List.enum, List.getElem?_enumFrom, Option.map_map,
      Option.map_eq_some', Function.comp] at he
    obtain ⟨a, _, rfl⟩ := he
    simp
  · intro hp
    rw [if_pos]
    · congr 1
      rw [List.take_append_eq_append_take, List.take_of_length_le (by simp; omega),
        List.enum, rankOfNew_skip]
      simp only [List.length_map, zero_add]
      rw [show 10 - A.length = (10 - A.length - 1) + 1 by omega, List.take_succ_cons,
        List.enumFrom_cons, List.map_cons]
      unfold Storage.rankOfNew
      simp
    · apply rankOfNew_le
      · omega
      · simp only [List.length_take]
        omega
  · intro hp
    rw [if_pos]
    · congr 1
      rw [List.take_append_eq_append_take, List.length_map,
        show 10 - A.length = 0 by omega, List.take_zero, List.append_nil]
      have h := rankOfNew_skip new 0 (A.take 10) []
      rw [List.append_nil] at h
      rw [← List.map_take, List.enum, h]
      unfold Storage.rankOfNew
      simp [hr]
    · apply rankOfNew_le
      · omega
      · simp only [List.length_take]
        omega

/-- C32: on the stored table `fullTable` (ten entries, scores 1000 down to 100,
ranks 1 to 10) a new score of 50 falls outside the ten entries kept and the
stored table is unchanged, but `Storage.addHighScore` returns the number 0, not
`null`; for no stored array and no score does it return `null`, since the rank
it tests is 0 or at most 10. -/
theorem addHighScore_never_null :
    (Storage.addHighScore fullTable 50 0 1 30 99).1 = some 0 ∧
    (Storage.addHighScore fullTable 50 0 1 30 99).2 = fullTable ∧
    (∀ (highScores : List HighScore) (score lines level time date : Nat),
      (Storage.addHighScore highScores score lines level time date).1 ≠ none) := by
  refine ⟨by decide, by decide, ?_⟩
  intro highScores score lines level time date
  unfold Storage.addHighScore
  simp only
  rw [if_pos]
  · simp
  · apply rankOfNew_le
    · simp
    · simp only [List.length_take]
      omega

/-! ## Theorems: the loop of the line clear ends -/

theorem countFull_eraseIdx (g : Grid) (i : Nat) (row : Row) (hrow : g[i]? = some row)
    (hfull : isFullRow row = true) : countFull (g.eraseIdx i) + 1 = countFull g := by
  induction g generalizing i with
  | nil => simp at hrow
  | cons r rest ih =>
    cases i with
    | zero =>
      simp only [List.getElem?_cons_zero, Option.some.injEq] at hrow
      subst hrow
      simp [countFull, List.countP_cons, hfull]
    | succ j =>
      simp only [List.getElem?_cons_succ] at hrow
      have h := ih j hrow
      simp only [countFull, List.eraseIdx_cons_succ, List.countP_cons] at h ⊢
      omega

theorem replicate_zero_not_full (W : Nat) (hW : 1 ≤ W) :
    isFullRow (List.replicate W 0) = false := by
  obtain ⟨k, rfl⟩ : ∃ k, W = k + 1 := ⟨W - 1, by omega⟩
  simp [isFullRow, List.replicate_succ]

theorem clearFullLinesStep_measure (W : Nat) (hW : 1 ≤ W) (st st2 : LoopState)
    (h : Board.clearFullLinesStep W st = some st2) :
    ((st2.grid = st.grid ∧ st2.y = st.y - 1) ∨
      (countFull st2.grid < countFull st.grid ∧ st2.y = st.y)) ∧
    st2.measure < st.measure := by
  unfold Board.clearFullLinesStep at h
  split at h
  · rename_i hy
    split at h
    · cases h
    · rename_i row hrow
      split at h
      · rename_i hfull
        cases h
        have h1 := countFull_eraseIdx st.grid st.y.toNat row hrow hfull
        have h2 : countFull (List.replicate W 0 :: st.grid.eraseIdx st.y.toNat) =
            countFull (st.grid.eraseIdx st.y.toNat) := by
          simp [countFull, List.countP_cons, replicate_zero_not_full W hW]
        refine ⟨Or.inr ⟨?_, by simp⟩, ?_⟩
        · simp only [h2]; omega
        · simp only [LoopState.measure, h2]
          omega
      · cases h
        refine ⟨Or.inl ⟨rfl, rfl⟩, ?_⟩
        simp only [LoopState.measure]
        omega
  · cases h

theorem runLoop_ends (step : LoopState → Option LoopState)
    (hstep : ∀ st st2, step st = some st2 → st2.measure < st.measure) (fuel : Nat)
    (st : LoopState) (hfuel : st.measure ≤ fuel) :
    ∃ final, runLoop step fuel st = some final := by
  induction fuel generalizing st with
  | zero =>
    cases h : step st with
    | none => exact ⟨st, by simp [runLoop, h]⟩
    | some st2 =>
      have := hstep st st2 h
      omega
  | succ fuel ih =>
    cases h : step st with
    | none => exact ⟨st, by simp [runLoop, h]⟩
    | some st2 =>
      have := hstep st st2 h
      obtain ⟨final, hfinal⟩ := ih st2 (by omega)
      exact ⟨final, by simp [runLoop, h, hfinal]⟩

theorem clearFullLinesLoop_full (y : Int) (grid : Grid) (n : Nat) (row : Row) (hy : y ≥ 0)
    (hrow : grid[y.toNat]? = some row) (hfull : isFullRow row = true) :
    Board.clearFullLinesLoop y grid n =
      Board.clearFullLinesLoop (y + 1 - 1) (emptyRow :: grid.eraseIdx y.toNat) (n + 1) := by
  rw [Board.clearFullLinesLoop]
  simp only [hy, ↓reduceDIte]
  split
  · rename_i hnone; rw [hrow] at hnone; cases hnone
  · rename_i row2 hrow2
    rw [hrow] at hrow2
    cases hrow2
    simp only [hfull, ↓reduceDIte]

theorem clearFullLinesLoop_next (y : Int) (grid : Grid) (n : Nat) (row : Row) (hy : y ≥ 0)
    (hrow : grid[y.toNat]? = some row) (hfull : ¬ isFullRow row = true) :
    Board.clearFullLinesLoop y grid n = Board.clearFullLinesLoop (y - 1) grid n := by
  rw [Board.clearFullLinesLoop]
  simp only [hy, ↓reduceDIte]
  split
  · rename_i hnone; rw [hrow] at hnone; cases hnone
  · rename_i row2 hrow2
    rw [hrow] at hrow2
    cases hrow2
    have hf2 : isFullRow row = false := by simpa using hfull
    simp only [hf2, Bool.false_eq_true, ↓reduceDIte]

theorem clearFullLinesLoop_done (y : Int) (grid : Grid) (n : Nat) (hy : ¬ y ≥ 0) :
    Board.clearFullLinesLoop y grid n = (n, grid) := by
  rw [Board.clearFullLinesLoop]
  simp only [hy, ↓reduceDIte]

theorem clearFullLinesLoop_outside (y : Int) (grid : Grid) (n : Nat) (hy : y ≥ 0)
    (hrow : grid[y.toNat]? = none) :
    Board.clearFullLinesLoop y grid n = (n, grid) := by
  rw [Board.clearFullLinesLoop]
  simp only [hy, ↓reduceDIte]
  split
  · rfl
  · rename_i row2 hrow2
    rw [hrow] at hrow2
    cases hrow2

theorem clearLinesLoop_outside (y : Int) (grid : Grid) (n : Nat) (hy : y ≥ 0)
    (hrow : grid[y.toNat]? = none) :
    TetrisAI.clearLinesLoop y grid n = (n, grid) := by
  rw [TetrisAI.clearLinesLoop]
  simp only [hy, ↓reduceDIte]
  split
  · rfl
  · rename_i row2 hrow2
    rw [hrow] at hrow2
    cases hrow2

theorem clearFullLinesStep_cases (W : Nat) (st : LoopState) :
    (¬ st.y ≥ 0 ∧ Board.clearFullLinesStep W st = none) ∨
    (st.y ≥ 0 ∧ st.grid[st.y.toNat]? = none ∧ Board.clearFullLinesStep W st = none) ∨
    (∃ row, st.y ≥ 0 ∧ st.grid[st.y.toNat]? = some row ∧ isFullRow row = true ∧
      Board.clearFullLinesStep W st =
        some ⟨st.y + 1 - 1, List.replicate W 0 :: st.grid.eraseIdx st.y.toNat,
          st.linesCleared + 1⟩) ∨
    (∃ row, st.y ≥ 0 ∧ st.grid[st.y.toNat]? = some row ∧ ¬ isFullRow row = true ∧
      Board.clearFullLinesStep W st = some ⟨st.y - 1, st.grid, st.linesCleared⟩) := by
  unfold Board.clearFullLinesStep
  by_cases hy : st.y ≥ 0
  · rw [if_pos hy]
    cases hrow : st.grid[st.y.toNat]? with
    | none => exact Or.inr (Or.inl ⟨hy, rfl, rfl⟩)
    | some row =>
      by_cases hfull : isFullRow row = true
      · exact Or.inr (Or.inr (Or.inl ⟨row, hy, rfl, hfull, by simp [hfull]⟩))
      · exact Or.inr (Or.inr (Or.inr ⟨row, hy, rfl, hfull, by simp [hfull]⟩))
  · rw [if_neg hy]
    exact Or.inl ⟨hy, rfl⟩

theorem runLoop_clearFullLines (fuel : Nat) (st final : LoopState)
    (h : runLoop (Board.clearFullLinesStep BOARD_WIDTH) fuel st = some final) :
    Board.clearFullLinesLoop st.y st.grid st.linesCleared =
      (final.linesCleared, final.grid) := by
  induction fuel generalizing st with
  | zero =>
    simp only [runLoop] at h
    rcases clearFullLinesStep_cases BOARD_WIDTH st with ⟨hy, hs⟩ | ⟨hy, hrow, hs⟩ |
      ⟨row, hy, hrow, hfull, hs⟩ | ⟨row, hy, hrow, hfull, hs⟩ <;> rw [hs] at h <;>
      simp only [Option.some.injEq] at h
    · subst h; exact clearFullLinesLoop_done _ _ _ hy
    · subst h; exact clearFullLinesLoop_outside _ _ _ hy hrow
    · cases h
    · cases h
  | succ fuel ih =>
    simp only [runLoop] at h
    rcases clearFullLinesStep_cases BOARD_WIDTH st with ⟨hy, hs⟩ | ⟨hy, hrow, hs⟩ |
      ⟨row, hy, hrow, hfull, hs⟩ | ⟨row, hy, hrow, hfull, hs⟩ <;> rw [hs] at h <;>
      simp only [Option.some.injEq] at h
    · subst h; exact clearFullLinesLoop_done _ _ _ hy
    · subst h; exact clearFullLinesLoop_outside _ _ _ hy hrow
    · rw [clearFullLinesLoop_full _ _ _ row hy hrow hfull]
      exact ih _ h
    · rw [clearFullLinesLoop_next _ _ _ row hy hrow hfull]
      exact ih _ h

theorem runLoop_clearLines (fuel : Nat) (st final : LoopState)
    (h : runLoop (Board.clearFullLinesStep BOARD_WIDTH) fuel st = some final) :
    TetrisAI.clearLinesLoop st.y st.grid st.linesCleared =
      (final.linesCleared, final.grid) := by
  induction fuel generalizing st with
  | zero =>
    simp only [runLoop] at h
    rcases clearFullLinesStep_cases BOARD_WIDTH st with ⟨hy, hs⟩ | ⟨hy, hrow, hs⟩ |
      ⟨row, hy, hrow, hfull, hs⟩ | ⟨row, hy, hrow, hfull, hs⟩ <;> rw [hs] at h <;>
      simp only [Option.some.injEq] at h
    · subst h; exact clearLinesLoop_done _ _ _ hy
    · subst h; exact clearLinesLoop_outside _ _ _ hy hrow
    · cases h
    · cases h
  | succ fuel ih =>
    simp only [runLoop] at h
    rcases clearFullLinesStep_cases BOARD_WIDTH st with ⟨hy, hs⟩ | ⟨hy, hrow, hs⟩ |
      ⟨row, hy, hrow, hfull, hs⟩ | ⟨row, hy, hrow, hfull, hs⟩ <;> rw [hs] at h <;>
      simp only [Option.some.injEq] at h
    · subst h; exact clearLinesLoop_done _ _ _ hy
    · subst h; exact clearLinesLoop_outside _ _ _ hy hrow
    · rw [clearLinesLoop_full _ _ _ row hy hrow hfull]
      exact ih _ h
    · rw [clearLinesLoop_step _ _ _ row hy hrow hfull]
      exact ih _ h

theorem clearLinesStep_eq (W : Nat) :
    TetrisAI.clearLinesStep W = Board.clearFullLinesStep W := rfl

theorem clearLinesLoop_eq_board (y : Int) (grid : Grid) (n : Nat) :
    TetrisAI.clearLinesLoop y grid n = Board.clearFullLinesLoop y grid n := by
  obtain ⟨final, hfinal⟩ := runLoop_ends (Board.clearFullLinesStep BOARD_WIDTH)
    (fun st st2 h => (clearFullLinesStep_measure BOARD_WIDTH (by decide) st st2 h).2)
    (LoopState.measure ⟨y, grid, n⟩) ⟨y, grid, n⟩ (le_refl _)
  have h1 := runLoop_clearFullLines _ _ _ hfinal
  have h2 := runLoop_clearLines _ _ _ hfinal
  exact h2.trans h1.symm

theorem runLoop_width_zero (fuel n : Nat) :
    runLoop (Board.clearFullLinesStep 0) fuel
      ⟨(BOARD_HEIGHT : Int) - 1, List.replicate BOARD_HEIGHT [], n⟩ = none := by
  have hstep : ∀ n, Board.clearFullLinesStep 0
      ⟨(BOARD_HEIGHT : Int) - 1, List.replicate BOARD_HEIGHT [], n⟩ =
      some ⟨(BOARD_HEIGHT : Int) - 1, List.replicate BOARD_HEIGHT [], n + 1⟩ := fun _ => rfl
  induction fuel generalizing n with
  | zero => simp only [runLoop, hstep]
  | succ fuel ih =>
    simp only [runLoop, hstep]
    exact ih (n + 1)

/-- C34: on a playfield of width `W ≥ 1`, each pass through the loop of
`Board.clearFullLines` either keeps the grid and moves to the row above, or
keeps the row index and lowers the number of full rows (the row put on top is
empty, hence not full); so on a grid of `BOARD_HEIGHT` rows the loop ends after
at most `BOARD_HEIGHT` plus the number of full rows passes, and so does its
copy in `TetrisAI.clearLines`; for the width of the program the variables at
the end are the results of `Board.clearFullLines` and of
`TetrisAI.clearLines`. -/
theorem clearFullLines_terminates (W : Nat) (hW : 1 ≤ W) (grid : Grid)
    (hlen : grid.length = BOARD_HEIGHT) :
    (∀ st st2, Board.clearFullLinesStep W st = some st2 →
      (st2.grid = st.grid ∧ st2.y = st.y - 1) ∨
        (countFull st2.grid < countFull st.grid ∧ st2.y = st.y)) ∧
    (∃ final, runLoop (Board.clearFullLinesStep W) (BOARD_HEIGHT + countFull grid)
      ⟨(BOARD_HEIGHT : Int) - 1, grid, 0⟩ = some final) ∧
    (∃ final, runLoop (TetrisAI.clearLinesStep W) (BOARD_HEIGHT + countFull grid)
      ⟨(BOARD_HEIGHT : Int) - 1, grid, 0⟩ = some final) ∧
    (∃ final, runLoop (Board.clearFullLinesStep BOARD_WIDTH) (BOARD_HEIGHT + countFull grid)
        ⟨(BOARD_HEIGHT : Int) - 1, grid, 0⟩ = some final ∧
      (final.linesCleared, final.grid) = Board.clearFullLines grid ∧
      (final.linesCleared, final.grid) = TetrisAI.clearLines grid ∧
      final.grid.length = grid.length) := by
  have hm : (LoopState.measure ⟨(BOARD_HEIGHT : Int) - 1, grid, 0⟩) =
      BOARD_HEIGHT + countFull grid := by
    simp [LoopState.measure, BOARD_HEIGHT]
  have hends : ∀ W, 1 ≤ W → ∃ final, runLoop (Board.clearFullLinesStep W)
      (BOARD_HEIGHT + countFull grid) ⟨(BOARD_HEIGHT : Int) - 1, grid, 0⟩ = some final :=
    fun W hW => runLoop_ends (Board.clearFullLinesStep W)
      (fun st st2 h => (clearFullLinesStep_measure W hW st st2 h).2) _ _ (le_of_eq hm)
  refine ⟨fun st st2 h => (clearFullLinesStep_measure W hW st st2 h).1, hends W hW, ?_, ?_⟩
  · rw [clearLinesStep_eq]; exact hends W hW
  · obtain ⟨final, hfinal⟩ := hends BOARD_WIDTH (by decide)
    have h1 := runLoop_clearFullLines _ _ _ hfinal
    have h2 : TetrisAI.clearLines grid = Board.clearFullLines grid :=
      clearLinesLoop_eq_board _ _ _
    refine ⟨final, hfinal, h1.symm, by rw [h2]; exact h1.symm, ?_⟩
    have h3 : Board.clearFullLines grid = (final.linesCleared, final.grid) := h1
    rw [clearFullLines_eq grid hlen] at h3
    have h4 := congrArg Prod.snd h3
    simp only at h4
    rw [← h4, List.length_append, List.length_replicate, countFull_add_nonFull]

set_option maxRecDepth 100000 in
theorem clearFullLines_terminates_witness :
    1 ≤ BOARD_WIDTH ∧ twoFullRowsGrid.length = BOARD_HEIGHT ∧
    (∃ final, runLoop (Board.clearFullLinesStep BOARD_WIDTH)
      (BOARD_HEIGHT + countFull twoFullRowsGrid)
      ⟨(BOARD_HEIGHT : Int) - 1, twoFullRowsGrid, 0⟩ = some final) :=
  ⟨by decide, by decide,
    (clearFullLines_terminates BOARD_WIDTH (by decide) twoFullRowsGrid (by decide)).2.1⟩

/-! ## Theorems: the simulation of the AI agrees with the board -/

theorem foldl_congr_mem {α β : Type} (f g : β → α → β) (l : List α)
    (h : ∀ b, ∀ a ∈ l, f b a = g b a) (b : β) : l.foldl f b = l.foldl g b := by
  induction l generalizing b with
  | nil => rfl
  | cons a l ih =>
    rw [List.foldl_cons, List.foldl_cons, h b a (List.mem_cons_self _ _)]
    exact ih (fun b a ha => h b a (List.mem_cons_of_mem _ ha)) _

theorem canPlace_cells (shape : Shape) (x y : Int) (grid : Grid)
    (h : TetrisAI.canPlace shape x y grid = true) (py px : Nat) (hpy : py < shape.length)
    (hpx : px < (shape.getD py []).length) (hocc : shape.occupied py px = true) :
    0 ≤ x + (px : Int) ∧ x + (px : Int) < BOARD_WIDTH ∧ y + (py : Int) < BOARD_HEIGHT := by
  unfold TetrisAI.canPlace at h
  rw [List.all_eq_true] at h
  have h1 := h py (List.mem_range.2 hpy)
  rw [List.all_eq_true] at h1
  have h2 := h1 px (List.mem_range.2 hpx)
  simp only [hocc, Bool.not_true, Bool.false_eq_true, ↓reduceIte] at h2
  by_cases hb : x + (px : Int) < 0 ∨ x + (px : Int) ≥ BOARD_WIDTH ∨ y + (py : Int) ≥ BOARD_HEIGHT
  · rw [if_pos hb] at h2
    cases h2
  · omega

theorem placePiece_eq_lockPiece (grid : Grid) (piece : Piece)
    (h : TetrisAI.canPlace piece.getCurrentShape piece.x piece.y grid = true) :
    TetrisAI.placePiece grid piece =
      Board.lockPiece grid piece.getCurrentShape piece.x piece.y piece.color := by
  unfold TetrisAI.placePiece Board.lockPiece
  apply foldl_congr_mem
  intro g py hpy
  apply foldl_congr_mem
  intro g2 px hpx
  cases hocc : piece.getCurrentShape.occupied py px
  · simp
  · obtain ⟨h1, h2, h3⟩ := canPlace_cells _ _ _ _ h py px (List.mem_range.1 hpy)
      (List.mem_range.1 hpx) hocc
    simp only [↓reduceIte]
    by_cases h4 : piece.y + (py : Int) ≥ 0
    · rw [if_pos ⟨h4, h3, h1, h2⟩, if_pos h4]
    · rw [if_neg (fun hc => h4 hc.1), if_neg h4]

/-- C35: `TetrisAI.canPlace` returns what `Board.isValidPosition` returns on
the same grid, for every shape, position and grid; `TetrisAI.clearLines`
returns what `Board.clearFullLines` returns on every grid; and for a piece
that `canPlace` accepts at its position, `TetrisAI.placePiece` followed by
`TetrisAI.clearLines` leaves the grid and the number of cleared lines that
`Board.lockPiece` followed by `Board.clearFullLines` leaves. -/
theorem simulation_agrees (grid : Grid) (piece : Piece)
    (h : TetrisAI.canPlace piece.getCurrentShape piece.x piece.y grid = true) :
    (∀ (shape : Shape) (x y : Int) (g : Grid),
      TetrisAI.canPlace shape x y g = Board.isValidPosition g shape x y) ∧
    (∀ g : Grid, TetrisAI.clearLines g = Board.clearFullLines g) ∧
    TetrisAI.placePiece grid piece =
      Board.lockPiece grid piece.getCurrentShape piece.x piece.y piece.color ∧
    TetrisAI.clearLines (TetrisAI.placePiece grid piece) =
      Board.clearFullLines
        (Board.lockPiece grid piece.getCurrentShape piece.x piece.y piece.color) := by
  have hclear : ∀ g : Grid, TetrisAI.clearLines g = Board.clearFullLines g :=
    fun g => clearLinesLoop_eq_board _ g 0
  refine ⟨canPlace_eq_isValidPosition, hclear, placePiece_eq_lockPiece grid piece h, ?_⟩
  rw [placePiece_eq_lockPiece grid piece h, hclear]

set_option maxRecDepth 100000 in
theorem simulation_agrees_witness :
    TetrisAI.canPlace comboStart.currentPiece.getCurrentShape comboStart.currentPiece.x
      comboStart.currentPiece.y (stackGrid 6) = true ∧
    TetrisAI.clearLines (TetrisAI.placePiece (stackGrid 6) comboStart.currentPiece) =
      Board.clearFullLines
        (Board.lockPiece (stackGrid 6) comboStart.currentPiece.getCurrentShape
          comboStart.currentPiece.x comboStart.currentPiece.y comboStart.currentPiece.color) :=
  ⟨by decide, (simulation_agrees (stackGrid 6) comboStart.currentPiece (by decide)).2.2.2⟩

/-! ## Theorems: heights, filled cells and holes -/

theorem holesScan_found (q : Nat → Prop) [DecidablePred q] (s n h : Nat) :
    ((List.range' s n).foldl (fun (st : Bool × Nat) y =>
        if q y then (true, st.2) else if st.1 then (st.1, st.2 + 1) else st) (true, h)).2 +
      (List.range' s n).countP (fun y => decide (q y)) = h + n := by
  induction n generalizing s h with
  | zero => simp
  | succ n ih =>
    rw [List.range'_succ, List.foldl_cons, List.countP_cons]
    by_cases hq : q s
    · have := ih (s + 1) h
      simp only [hq, ↓reduceIte, decide_True] at this ⊢
      omega
    · have := ih (s + 1) (h + 1)
      simp only [hq, ↓reduceIte, decide_False, Bool.false_eq_true] at this ⊢
      omega

theorem holesScan_column (q : Nat → Prop) [DecidablePred q] (s n h : Nat) :
    ((List.range' s n).foldl (fun (st : Bool × Nat) y =>
        if q y then (true, st.2) else if st.1 then (st.1, st.2 + 1) else st) (false, h)).2 +
      (List.range' s n).countP (fun y => decide (q y)) =
    h + (((List.range' s n).find? (fun y => decide (q y))).map fun y => s + n - y).getD 0 := by
  induction n generalizing s h with
  | zero => simp
  | succ n ih =>
    rw [List.range'_succ, List.foldl_cons, List.countP_cons]
    by_cases hq : q s
    · have := holesScan_found q (s + 1) n h
      simp only [hq, ↓reduceIte, decide_True, List.find?_cons_of_pos, Option.map_some',
        Option.getD_some] at this ⊢
      omega
    · have := ih (s + 1) h
      simp only [hq, ↓reduceIte, decide_False, Bool.false_eq_true, not_false_eq_true,
        List.find?_cons_of_neg] at this ⊢
      rw [show s + (n + 1) = s + 1 + n by omega]
      omega

theorem holesScan_columns (hgt cnt : Nat → Nat) (scan : Nat → Nat → Nat)
    (hcol : ∀ x h, scan h x + cnt x = h + hgt x) (xs : List Nat) (h0 a : Nat) :
    xs.foldl scan h0 + (xs.map cnt).sum + a = h0 + (xs.map hgt).foldl (fun a b => a + b) a := by
  induction xs generalizing h0 a with
  | nil => simp
  | cons x rest ih =>
    have h1 := ih (scan h0 x) (a + hgt x)
    have h2 := hcol x h0
    simp only [List.foldl_cons, List.map_cons, List.sum_cons] at h1 ⊢
    omega

theorem countP_range_succ (p : Nat → Bool) (n : Nat) :
    (List.range (n + 1)).countP p =
      (if p 0 then 1 else 0) + (List.range n).countP (fun y => p (y + 1)) := by
  rw [List.range_succ_eq_map, List.countP_cons, List.countP_map]
  simp only [Function.comp_def, Nat.succ_eq_add_one]
  omega

theorem sum_row_cells (r : Row) :
    ((List.range r.length).map fun x => if (decide (r.getD x 0 ≠ 0)) = true then 1 else 0).sum =
      r.countP fun cell => decide (cell ≠ 0) := by
  induction r with
  | nil => rfl
  | cons a r ih =>
    rw [List.length_cons, List.range_succ_eq_map, List.map_cons, List.sum_cons, List.map_map,
      List.countP_cons, ← ih]
    simp only [List.getD_cons_zero, Function.comp_def, Nat.succ_eq_add_one, List.getD_cons_succ]
    omega

theorem sum_column_counts (W : Nat) (g : Grid) (hrows : ∀ row ∈ g, row.length = W) :
    ((List.range W).map fun x =>
        (List.range g.length).countP fun y => decide (Grid.cell g y x ≠ 0)).sum =
      Grid.filledCells g := by
  induction g with
  | nil => simp [Grid.filledCells]
  | cons r g ih =>
    have hr : r.length = W := hrows r (List.mem_cons_self _ _)
    have ih2 := ih fun row hrow => hrows row (List.mem_cons_of_mem _ hrow)
    have hsplit : ∀ x, ((List.range (r :: g).length).countP fun y =>
        decide (Grid.cell (r :: g) y x ≠ 0)) =
        (if (decide (r.getD x 0 ≠ 0)) = true then 1 else 0) +
          (List.range g.length).countP fun y => decide (Grid.cell g y x ≠ 0) := by
      intro x
      rw [List.length_cons, countP_range_succ]
      simp [Grid.cell]
    simp only [hsplit]
    rw [List.sum_map_add, ih2, ← hr, sum_row_cells]
    simp [Grid.filledCells]

theorem foldl_max_le (l : List Nat) (b m : Nat) (hb : b ≤ m) (hl : ∀ a ∈ l, a ≤ m) :
    l.foldl max b ≤ m := by
  induction l generalizing b with
  | nil => exact hb
  | cons a l ih =>
    rw [List.foldl_cons]
    exact ih _ (max_le hb (hl a (List.mem_cons_self _ _)))
      fun c hc => hl c (List.mem_cons_of_mem _ hc)

theorem le_foldl_max (l : List Nat) (b : Nat) : b ≤ l.foldl max b := by
  induction l generalizing b with
  | nil => exact le_refl _
  | cons a l ih =>
    rw [List.foldl_cons]
    exact le_trans (le_max_left _ _) (ih _)

theorem mem_le_foldl_max (l : List Nat) (b a : Nat) (ha : a ∈ l) : a ≤ l.foldl max b := by
  induction l generalizing b with
  | nil => cases ha
  | cons c l ih =>
    rw [List.foldl_cons]
    rcases List.mem_cons.1 ha with h | h
    · rw [h]; exact le_trans (le_max_right _ _) (le_foldl_max l _)
    · exact ih _ h

theorem getColumnHeights_eq (grid : Grid) :
    TetrisAI.getColumnHeights grid =
      (List.range BOARD_WIDTH).map fun x =>
        (((List.range BOARD_HEIGHT).find? (fun y => decide (grid.cell y x ≠ 0))).map
          fun y => BOARD_HEIGHT - y).getD 0 := by
  unfold TetrisAI.getColumnHeights
  apply List.map_congr_left
  intro x _
  split
  · rename_i y hy
    rw [hy]; rfl
  · rename_i hy
    rw [hy]; rfl

theorem getMaxHeight_eq_max (grid : Grid) :
    TetrisAI.getMaxHeight grid = (TetrisAI.getColumnHeights grid).foldl max 0 := by
  unfold TetrisAI.getMaxHeight TetrisAI.getColumnHeights
  apply le_antisymm
  · split
    · rename_i y0 hy0
      rw [List.find?_range_eq_some] at hy0
      obtain ⟨hp, _, hbefore⟩ := hy0
      rw [List.any_eq_true] at hp
      obtain ⟨x0, hx0, hc⟩ := hp
      apply mem_le_foldl_max
      rw [List.mem_map]
      refine ⟨x0, hx0, ?_⟩
      have hfind : (List.range BOARD_HEIGHT).find? (fun y => decide (grid.cell y x0 ≠ 0)) =
          some y0 := by
        rw [List.find?_range_eq_some]
        refine ⟨hc, by assumption, ?_⟩
        intro j hj
        have := hbefore j hj
        simp only [Bool.not_eq_true', List.any_eq_false] at this
        have h2 := this x0 hx0
        simpa using h2
      rw [hfind]
    · exact Nat.zero_le _
  · apply foldl_max_le _ _ _ (Nat.zero_le _)
    intro a ha
    rw [List.mem_map] at ha
    obtain ⟨x, hx, rfl⟩ := ha
    split
    · rename_i y hy
      rw [List.find?_range_eq_some] at hy
      obtain ⟨hp, hmem, _⟩ := hy
      split
      · rename_i y0 hy0
        rw [List.find?_range_eq_some] at hy0
        obtain ⟨_, _, hbefore⟩ := hy0
        have hle : y0 ≤ y := by
          by_contra hlt
          have := hbefore y (by omega)
          simp only [Bool.not_eq_true', List.any_eq_false] at this
          have h2 := this x hx
          exact absurd hp h2
        omega
      · rename_i hnone
        rw [List.find?_range_eq_none] at hnone
        have := hnone y (List.mem_range.1 hmem)
        simp only [Bool.not_eq_true', List.any_eq_false] at this
        have h2 := this x hx
        exact absurd hp h2
    · exact Nat.zero_le _

/-- C36: on every grid of `BOARD_HEIGHT` rows of `BOARD_WIDTH` cells the sum of
`TetrisAI.getColumnHeights` (the aggregate height of `calculateMetrics`) is
the number of non-empty cells plus `TetrisAI.countHoles`, and
`TetrisAI.getMaxHeight` is the maximum of `getColumnHeights`, which is 0 on
the empty grid. -/
theorem heights_filled_holes (grid : Grid) (hg : WellFormed grid) :
    (TetrisAI.getColumnHeights grid).foldl (fun a b => a + b) 0 =
      grid.filledCells + TetrisAI.countHoles grid ∧
    (TetrisAI.calculateMetrics grid).aggregateHeight =
      grid.filledCells + (TetrisAI.calculateMetrics grid).holes ∧
    TetrisAI.getMaxHeight grid = (TetrisAI.getColumnHeights grid).foldl max 0 ∧
    (∀ h ∈ TetrisAI.getColumnHeights grid, h ≤ TetrisAI.getMaxHeight grid) ∧
    (TetrisAI.getMaxHeight grid = 0 ∨
      TetrisAI.getMaxHeight grid ∈ TetrisAI.getColumnHeights grid) ∧
    TetrisAI.getMaxHeight Board.createEmptyGrid = 0 := by
  have hsum : (TetrisAI.getColumnHeights grid).foldl (fun a b => a + b) 0 =
      grid.filledCells + TetrisAI.countHoles grid := by
    have hcols := holesScan_columns
      (fun x => (((List.range BOARD_HEIGHT).find? (fun y => decide (grid.cell y x ≠ 0))).map
          fun y => BOARD_HEIGHT - y).getD 0)
      (fun x => (List.range BOARD_HEIGHT).countP fun y => decide (grid.cell y x ≠ 0))
      (fun holes x => ((List.range BOARD_HEIGHT).foldl (fun (st : Bool × Nat) y =>
        if grid.cell y x ≠ 0 then (true, st.2)
        else if st.1 then (st.1, st.2 + 1)
        else st) (false, holes)).2)
      (by
        intro x h
        have := holesScan_column (fun y => grid.cell y x ≠ 0) 0 BOARD_HEIGHT h
        simp only [← List.range_eq_range', Nat.zero_add] at this
        exact this)
      (List.range BOARD_WIDTH) 0 0
    have hcount := sum_column_counts BOARD_WIDTH grid hg.2
    rw [hg.1] at hcount
    rw [hcount] at hcols
    rw [getColumnHeights_eq]
    unfold TetrisAI.countHoles
    omega
  have hmax := getMaxHeight_eq_max grid
  refine ⟨hsum, hsum, hmax, ?_, ?_, by decide⟩
  · intro h hh
    rw [hmax]
    exact mem_le_foldl_max _ _ _ hh
  · unfold TetrisAI.getMaxHeight
    split
    · rename_i y0 hy0
      right
      have h0 := hy0
      rw [List.find?_range_eq_some] at hy0
      obtain ⟨hp, _, hbefore⟩ := hy0
      rw [List.any_eq_true] at hp
      obtain ⟨x0, hx0, hc⟩ := hp
      unfold TetrisAI.getColumnHeights
      rw [List.mem_map]
      refine ⟨x0, hx0, ?_⟩
      have hfind : (List.range BOARD_HEIGHT).find? (fun y => decide (grid.cell y x0 ≠ 0)) =
          some y0 := by
        rw [List.find?_range_eq_some]
        refine ⟨hc, by assumption, ?_⟩
        intro j hj
        have := hbefore j hj
        simp only [Bool.not_eq_true', List.any_eq_false] at this
        have h2 := this x0 hx0
        simpa using h2
      rw [hfind]
    · left; rfl

theorem heights_filled_holes_witness :
    WellFormed twoFullRowsGrid ∧
    (TetrisAI.getColumnHeights twoFullRowsGrid).foldl (fun a b => a + b) 0 =
      twoFullRowsGrid.filledCells + TetrisAI.countHoles twoFullRowsGrid ∧
    TetrisAI.getMaxHeight twoFullRowsGrid =
      (TetrisAI.getColumnHeights twoFullRowsGrid).foldl max 0 :=
  ⟨by decide, (heights_filled_holes twoFullRowsGrid (by decide)).1,
    (heights_filled_holes twoFullRowsGrid (by decide)).2.2.1⟩

/-! ## Theorems: when the AI asks for a hold -/

theorem evaluatePiece_ge (grid : Grid) (piece : Piece) :
    -1 ≤ TetrisAI.evaluatePiece grid piece := by
  unfold TetrisAI.evaluatePiece
  simp only
  split_ifs <;> omega

/-- C37: `TetrisAI.shouldUseHold` returns `false` in every state in which no
piece is held, whatever the current piece, the queue, the grid and the hold
flag are, since `TetrisAI.evaluatePiece` is never below -1 while that branch
asks for a value below -2; and in every state in which a piece `held` is held
it returns `true` exactly when `canHold` is true and
`evaluatePiece(held) > evaluatePiece(current) + 2`. -/
theorem shouldUseHold_spec (s : Game) :
    (∀ grid piece, -1 ≤ TetrisAI.evaluatePiece grid piece) ∧
    (s.holdPiece = none → TetrisAI.shouldUseHold s = false) ∧
    (∀ held, s.holdPiece = some held →
      (TetrisAI.shouldUseHold s = true ↔
        (s.canHold = true ∧
          TetrisAI.evaluatePiece s.grid held >
            TetrisAI.evaluatePiece s.grid s.currentPiece + 2))) := by
  refine ⟨evaluatePiece_ge, ?_, ?_⟩
  · intro hh
    unfold TetrisAI.shouldUseHold
    rw [hh]
    have h := evaluatePiece_ge s.grid s.currentPiece
    cases hc : s.canHold
    · simp
    · cases hq : s.nextPieces with
      | nil => simp
      | cons next rest =>
        simp only [Bool.not_true, Bool.false_eq_true, ↓reduceIte, Bool.and_eq_false_imp,
          decide_eq_true_eq, decide_eq_false_iff_not]
        intro h2
        omega
  · intro held hh
    unfold TetrisAI.shouldUseHold
    rw [hh]
    cases hc : s.canHold
    · simp
    · simp

/-! ## Theorems: relations that hold across every operation -/

theorem Game.Frame.rfl_of (s : Game) : Game.Frame s s :=
  ⟨rfl, rfl, rfl, rfl, rfl, le_refl _, id⟩

theorem movePiece_keeps (s : Game) (dx dy : Int) : Game.Frame s (s.movePiece dx dy).1 := by
  rw [movePiece_frame]; exact ⟨rfl, rfl, rfl, rfl, rfl, le_refl _, id⟩

theorem rotatePiece_keeps (s : Game) (direction : Int) :
    Game.Frame s (s.rotatePiece direction).1 := by
  rw [rotatePiece_frame]; exact ⟨rfl, rfl, rfl, rfl, rfl, le_refl _, id⟩

theorem setAI_keeps (s : Game) (ai : AIState) : Game.Frame s { s with ai := ai } :=
  ⟨rfl, rfl, rfl, rfl, rfl, le_refl _, id⟩

theorem hardDrop_respects (K : Constants) (Q : Game → Game → Prop) (hQ : Game.Respects K Q)
    (env : Env) (s t : Game) (h : Game.hardDrop K env s = some t) : Q s t := by
  unfold Game.hardDrop at h
  split at h
  · cases h
  · have h2 := hQ.lock _ _ _ t h
    refine hQ.trans _ _ _ ?_ h2
    exact hQ.frame _ _ ⟨rfl, rfl, rfl, rfl, rfl, Nat.le_add_right _ _, id⟩

theorem handleKeyPress_respects (K : Constants) (Q : Game → Game → Prop)
    (hQ : Game.Respects K Q) (env : Env) (key : Key) (s t : Game)
    (h : Game.handleKeyPress K env key s = some t) : Q s t := by
  have hbump : Q s
      (if (!s.ai.enabled) = true then { s with actionCount := s.actionCount + 1 } else s) := by
    split
    · exact hQ.frame _ _ ⟨rfl, rfl, rfl, rfl, rfl, le_refl _, id⟩
    · exact hQ.frame _ _ (Game.Frame.rfl_of s)
  unfold Game.handleKeyPress at h
  simp only at h
  refine hQ.trans _ _ _ hbump ?_
  generalize (if (!s.ai.enabled) = true then
    ({ s with actionCount := s.actionCount + 1 } : Game) else s) = b at h ⊢
  cases key <;> simp only [Option.some.injEq] at h
  · subst h; exact hQ.frame _ _ (movePiece_keeps _ _ _)
  · subst h; exact hQ.frame _ _ (movePiece_keeps _ _ _)
  · split at h
    · cases h
      exact hQ.trans _ _ _ (hQ.frame _ _ (movePiece_keeps b 0 1))
        (hQ.frame _ _ ⟨rfl, rfl, rfl, rfl, rfl, Nat.le_add_right _ _, id⟩)
    · cases h; exact hQ.frame _ _ (movePiece_keeps _ _ _)
  · subst h; exact hQ.frame _ _ (rotatePiece_keeps _ _)
  · subst h; exact hQ.frame _ _ (rotatePiece_keeps _ _)
  · subst h; exact hQ.frame _ _ (rotatePiece_keeps _ _)
  · subst h; exact hQ.frame _ _ (rotatePiece_keeps _ _)
  · subst h; exact hQ.frame _ _ (rotatePiece_keeps _ _)
  · exact hardDrop_respects K Q hQ env _ t h
  · exact hQ.hold env.newType _ t h
  · exact hQ.hold env.newType _ t h
  · subst h; exact hQ.frame _ _ (Game.Frame.rfl_of _)

theorem executeNextMove_respects (K : Constants) (Q : Game → Game → Prop)
    (hQ : Game.Respects K Q) (env : Env) (s t : Game)
    (h : TetrisAI.executeNextMove K env s = some t) : Q s t := by
  unfold TetrisAI.executeNextMove at h
  cases hq : s.ai.moveQueue with
  | nil =>
    rw [hq] at h
    cases h
    exact hQ.frame _ _ (setAI_keeps s _)
  | cons move rest =>
    rw [hq] at h
    simp only at h
    have h0 : Q s { s with ai := { s.ai with moveQueue := rest } } :=
      hQ.frame _ _ (setAI_keeps s _)
    cases move <;> simp only [Option.map_eq_some'] at h
    · exact hQ.trans _ _ _ h0 (handleKeyPress_respects K Q hQ env _ _ t h)
    · exact hQ.trans _ _ _ h0 (handleKeyPress_respects K Q hQ env _ _ t h)
    · exact hQ.trans _ _ _ h0 (handleKeyPress_respects K Q hQ env _ _ t h)
    · obtain ⟨u, hu, rfl⟩ := h
      exact hQ.trans _ _ _ h0
        (hQ.trans _ _ _ (handleKeyPress_respects K Q hQ env _ _ u hu)
          (hQ.frame _ _ (setAI_keeps u _)))
    · obtain ⟨u, hu, rfl⟩ := h
      exact hQ.trans _ _ _ h0
        (hQ.trans _ _ _ (handleKeyPress_respects K Q hQ env _ _ u hu)
          (hQ.frame _ _ (setAI_keeps u _)))

theorem aiUpdate_respects (K : Constants) (Q : Game → Game → Prop) (hQ : Game.Respects K Q)
    (env : TickEnv) (s t : Game) (h : TetrisAI.update K env s = some t) : Q s t := by
  unfold TetrisAI.update at h
  split at h
  · cases h; exact hQ.frame _ _ (Game.Frame.rfl_of s)
  · simp only at h
    have h0 : Q s
        (if (!s.ai.isExecuting && decide (env.aiNow - s.ai.lastThinkTime ≥ s.ai.thinkDelay)) = true
          then ({ s with ai := { TetrisAI.planNextMove s.ai with lastThinkTime := env.aiNow } } : Game)
          else s) := by
      split
      · exact hQ.frame _ _ (setAI_keeps s _)
      · exact hQ.frame _ _ (Game.Frame.rfl_of s)
    generalize (if (!s.ai.isExecuting &&
        decide (env.aiNow - s.ai.lastThinkTime ≥ s.ai.thinkDelay)) = true
      then ({ s with ai := { TetrisAI.planNextMove s.ai with lastThinkTime := env.aiNow } } : Game)
      else s) = b at h h0
    split at h
    · simp only [Option.map_eq_some'] at h
      obtain ⟨u, hu, rfl⟩ := h
      exact hQ.trans _ _ _ h0
        (hQ.trans _ _ _ (executeNextMove_respects K Q hQ env.aiEnv b u hu)
          (hQ.frame _ _ (setAI_keeps u _)))
    · cases h; exact h0

theorem update_respects (K : Constants) (Q : Game → Game → Prop) (hQ : Game.Respects K Q)
    (env : TickEnv) (deltaTime : ℚ) (s t : Game)
    (h : Game.update K env deltaTime s = some t) : Q s t := by
  unfold Game.update at h
  split at h
  · cases h; exact hQ.frame _ _ (Game.Frame.rfl_of s)
  · have h0 : ∀ u, (if s.ai.enabled = true then TetrisAI.update K env s else some s) = some u →
        Q s u := by
      intro u hu
      split at hu
      · exact aiUpdate_respects K Q hQ env s u hu
      · cases hu; exact hQ.frame _ _ (Game.Frame.rfl_of s)
    generalize (if s.ai.enabled = true then TetrisAI.update K env s else some s) = r at h h0
    cases r with
    | none => cases h
    | some u =>
      simp only at h
      have h1 := h0 u rfl
      have h2 : Q u { u with dropCounter := u.dropCounter + deltaTime } :=
        hQ.frame _ _ ⟨rfl, rfl, rfl, rfl, rfl, le_refl _, id⟩
      generalize ({ u with dropCounter := u.dropCounter + deltaTime } : Game) = v at h h2
      split at h
      · split at h
        · simp only [Option.map_eq_some'] at h
          obtain ⟨w, hw, rfl⟩ := h
          have h3 := hQ.lock _ _ _ w hw
          exact hQ.trans _ _ _ h1 (hQ.trans _ _ _ h2
            (hQ.trans _ _ _ (hQ.frame _ _ (movePiece_keeps v 0 1))
              (hQ.trans _ _ _ h3 (hQ.frame _ _ ⟨rfl, rfl, rfl, rfl, rfl, le_refl _, id⟩))))
        · cases h
          exact hQ.trans _ _ _ h1 (hQ.trans _ _ _ h2
            (hQ.trans _ _ _ (hQ.frame _ _ (movePiece_keeps v 0 1))
              (hQ.frame _ _ ⟨rfl, rfl, rfl, rfl, rfl, le_refl _, id⟩)))
      · cases h
        exact hQ.trans _ _ _ h1 h2

theorem gameLoop_respects (K : Constants) (Q : Game → Game → Prop) (hQ : Game.Respects K Q)
    (env : TickEnv) (time : ℚ) (s t : Game) (h : Game.gameLoop K env time s = some t) :
    Q s t := by
  unfold Game.gameLoop at h
  split at h
  · cases h; exact hQ.frame _ _ (Game.Frame.rfl_of s)
  · simp only at h
    have h2 := update_respects K Q hQ env _ _ t h
    refine hQ.trans _ _ _ ?_ h2
    exact hQ.frame _ _ ⟨rfl, rfl, rfl, rfl, rfl, le_refl _, id⟩

theorem togglePause_respects (K : Constants) (Q : Game → Game → Prop)
    (hQ : Game.Respects K Q) (env : TickEnv) (perfNow : ℚ) (s t : Game)
    (h : Game.togglePause K env perfNow s = some t) : Q s t := by
  unfold Game.togglePause at h
  split at h
  · rename_i hplay
    cases h
    refine hQ.frame _ _ ⟨rfl, rfl, rfl, rfl, rfl, le_refl _, ?_⟩
    intro hover
    rw [hplay] at hover
    cases hover
  · split at h
    · rename_i hpaused
      have h2 := gameLoop_respects K Q hQ env 0 _ t h
      refine hQ.trans _ _ _ ?_ h2
      refine hQ.frame _ _ ⟨rfl, rfl, rfl, rfl, rfl, le_refl _, ?_⟩
      intro hover
      rw [hpaused] at hover
      cases hover
    · cases h; exact hQ.frame _ _ (Game.Frame.rfl_of s)

theorem next_respects (K : Constants) (Q : Game → Game → Prop) (hQ : Game.Respects K Q)
    (s t : Game) (h : Game.Next K s t) : Q s t := by
  rcases h with ⟨env, key, h⟩ | ⟨env, time, h⟩ | ⟨env, perfNow, h⟩ | ⟨ai, rfl⟩
  · exact handleKeyPress_respects K Q hQ env key s t h
  · exact gameLoop_respects K Q hQ env time s t h
  · exact togglePause_respects K Q hQ env perfNow s t h
  · exact hQ.frame _ _ (setAI_keeps s ai)

theorem reachable_invariant (K : Constants) (P : Game → Prop)
    (hinit : ∀ t0 t1 t2 t3, P (Game.initialFields K t0 t1 t2 t3))
    (hrestart : ∀ t0 t1 t2 t3 perfNow s, P (Game.restartFields K t0 t1 t2 t3 perfNow s))
    (hQ : Game.Respects K fun s t => P s → P t) (s : Game) (h : Reachable K s) : P s := by
  induction h with
  | init env t0 t1 t2 t3 s h =>
    exact gameLoop_respects K _ hQ env 0 _ s h (hinit t0 t1 t2 t3)
  | restart env t0 t1 t2 t3 perfNow s t h =>
    exact gameLoop_respects K _ hQ env 0 _ t h (hrestart t0 t1 t2 t3 perfNow s)
  | key env key s t _ h ih => exact handleKeyPress_respects K _ hQ env key s t h ih
  | tick env time s t _ h ih => exact gameLoop_respects K _ hQ env time s t h ih
  | pause env perfNow s t _ h ih => exact togglePause_respects K _ hQ env perfNow s t h ih
  | ai s ai _ ih => exact hQ.frame _ _ (setAI_keeps s ai) ih

/-! ## Theorems: the buffer rows -/

theorem lockedGrid_wellFormed (grid : Grid) (hg : WellFormed grid) (piece : Shape) (x y : Int)
    (tag : Cell) : WellFormed (Board.lockPiece grid piece x y tag) := by
  unfold Board.lockPiece
  apply foldl_invariant _ WellFormed _ _ _ hg
  intro g r hg2
  apply foldl_invariant _ WellFormed _ _ _ hg2
  intro g2 c hg3
  split
  · simp only
    split
    · exact setCell_wellFormed g2 hg3 _ _ _
    · exact hg3
  · exact hg3

theorem isGameOver_eq_false (g : Grid) :
    Board.isGameOver g = false ↔
      (∀ c ∈ g.getD 0 [], c = 0) ∧ (∀ c ∈ g.getD 1 [], c = 0) := by
  unfold Board.isGameOver
  simp only [Bool.or_eq_false_iff, List.any_eq_false, decide_eq_true_eq, not_not]

theorem buffer_cells (g : Grid) (h : Board.isGameOver g = false) (x : Nat) :
    g.cell 0 x = 0 ∧ g.cell 1 x = 0 := by
  rw [isGameOver_eq_false] at h
  have key : ∀ row : Row, (∀ c ∈ row, c = 0) → row.getD x 0 = 0 := by
    intro row hrow
    by_cases hx : x < row.length
    · rw [List.getD_eq_getElem _ _ hx]
      exact hrow _ (List.getElem_mem hx)
    · exact List.getD_eq_default _ _ (by omega)
  exact ⟨key _ h.1, key _ h.2⟩

theorem empty_cells_not_full (row : Row) (hlen : row.length = BOARD_WIDTH)
    (h : ∀ c ∈ row, c = 0) : isFullRow row = false := by
  cases row with
  | nil => simp [BOARD_WIDTH] at hlen
  | cons a rest =>
    have ha : a = 0 := h a (List.mem_cons_self _ _)
    simp [isFullRow, ha]

theorem clearFullLines_buffer (g : Grid) (hg : WellFormed g)
    (h : Board.isGameOver g = false) :
    WellFormed (Board.clearFullLines g).2 ∧ Board.isGameOver (Board.clearFullLines g).2 = false := by
  rw [clearFullLines_eq g hg.1]
  simp only
  refine ⟨⟨?_, wellFormed_emptyRow_append _ g hg.2⟩, ?_⟩
  · rw [List.length_append, List.length_replicate, countFull_add_nonFull, hg.1]
  · rw [isGameOver_eq_false] at h ⊢
    obtain ⟨h0, h1⟩ := h
    match g, hg with
    | [], hg => have := hg.1; simp [BOARD_HEIGHT] at this
    | [_], hg => have := hg.1; simp [BOARD_HEIGHT] at this
    | r0 :: r1 :: rest, hg =>
      simp only [List.getD_cons_zero, List.getD_cons_succ] at h0 h1
      have hn0 := empty_cells_not_full r0 (hg.2 r0 (by simp)) h0
      have hn1 := empty_cells_not_full r1 (hg.2 r1 (by simp)) h1
      have hnf : nonFullRows (r0 :: r1 :: rest) = r0 :: r1 :: nonFullRows rest := by
        simp [nonFullRows, List.filter_cons, hn0, hn1]
      have hempty : ∀ c ∈ emptyRow, c = 0 := by
        intro c hc
        exact List.eq_of_mem_replicate hc
      rw [hnf]
      rcases countFull (r0 :: r1 :: rest) with _ | _ | k
      · simp only [List.replicate_zero, List.nil_append, List.getD_cons_zero,
          List.getD_cons_succ]
        exact ⟨h0, h1⟩
      · simp only [List.replicate_succ, List.replicate_zero, List.cons_append, List.nil_append,
          List.getD_cons_zero, List.getD_cons_succ]
        exact ⟨hempty, h0⟩
      · simp only [List.replicate_succ, List.cons_append, List.getD_cons_zero,
          List.getD_cons_succ]
        exact ⟨hempty, hempty⟩

theorem spawnNext_grid (K : Constants) (newType : PieceType) (s t : Game)
    (h : Game.spawnNext K newType s = some t) :
    t.grid = s.grid ∧ (t.gameState = s.gameState ∨ t.gameState = GameState.gameover) ∧
      t.lines = s.lines ∧ t.level = s.level ∧ t.score = s.score ∧
      t.dropInterval = s.dropInterval := by
  cases hq : s.nextPieces with
  | nil =>
    unfold Game.spawnNext at h
    rw [hq] at h
    cases h
  | cons p rest =>
    rw [spawnNext_eq K newType s p rest hq] at h
    simp only [Option.some.injEq] at h
    split at h
    · subst h
      exact ⟨rfl, Or.inl rfl, rfl, rfl, rfl, rfl⟩
    · subst h
      obtain ⟨_, _, h3, h4, h5, h6, _⟩ := gameOver_fields
        { s with currentPiece := p, nextPieces := rest ++ [Piece.create K newType] }
      refine ⟨h6, Or.inr (gameOver_gameState _), h4, h5, h3, ?_⟩
      unfold Game.gameOver
      split <;> rfl

theorem holdCurrentPiece_keeps (K : Constants) (newType : PieceType) (s t : Game)
    (h : Game.holdCurrentPiece K newType s = some t) :
    t.grid = s.grid ∧ t.gameState = s.gameState ∧ t.lines = s.lines ∧ t.level = s.level ∧
      t.score = s.score ∧ t.dropInterval = s.dropInterval := by
  unfold Game.holdCurrentPiece at h
  split at h
  · cases h; exact ⟨rfl, rfl, rfl, rfl, rfl, rfl⟩
  · cases hh : s.holdPiece with
    | none =>
      cases hq : s.nextPieces with
      | nil => simp [hh, hq] at h
      | cons p rest =>
        simp only [hh, hq, Option.map_some', Option.some.injEq] at h
        subst h
        exact ⟨rfl, rfl, rfl, rfl, rfl, rfl⟩
    | some held =>
      simp only [hh, Option.map_some', Option.some.injEq] at h
      subst h
      exact ⟨rfl, rfl, rfl, rfl, rfl, rfl⟩

theorem gameOver_bufferInv (s : Game) (hg : WellFormed s.grid) :
    Game.BufferInv (Game.gameOver s) := by
  refine ⟨?_, fun hne => absurd (gameOver_gameState s) hne⟩
  rw [(gameOver_fields s).2.2.2.2.2.1]
  exact hg

theorem lockPiece_bufferInv (K : Constants) (now : Int) (newType : PieceType) (s t : Game)
    (h : Game.lockPiece K now newType s = some t) (hs : Game.BufferInv s) :
    Game.BufferInv t := by
  unfold Game.lockPiece at h
  split at h
  · cases h
    exact gameOver_bufferInv s hs.1
  · simp only at h
    have hwf : WellFormed (Game.lockedGrid s) := lockedGrid_wellFormed _ hs.1 _ _ _ _
    split at h
    · cases h
      exact gameOver_bufferInv _ hwf
    · rename_i hover
      have hover2 : Board.isGameOver (Game.lockedGrid s) = false := by simpa using hover
      obtain ⟨hgrid, _⟩ := spawnNext_grid K newType _ t h
      rw [clearAndScore_grid] at hgrid
      have hb := clearFullLines_buffer _ hwf hover2
      unfold Game.BufferInv
      rw [hgrid]
      exact ⟨hb.1, fun _ => hb.2⟩

theorem bufferInv_respects (K : Constants) :
    Game.Respects K fun s t => Game.BufferInv s → Game.BufferInv t where
  trans := fun _ _ _ h1 h2 h => h2 (h1 h)
  frame := by
    intro s t hf hs
    obtain ⟨hgrid, _, _, _, _, _, hphase⟩ := hf
    unfold Game.BufferInv
    rw [hgrid]
    exact ⟨hs.1, fun hne => hs.2 fun hover => hne (hphase hover)⟩
  lock := fun now newType s t h hs => lockPiece_bufferInv K now newType s t h hs
  hold := by
    intro newType s t h hs
    obtain ⟨hgrid, hphase, _⟩ := holdCurrentPiece_keeps K newType s t h
    unfold Game.BufferInv
    rw [hgrid, hphase]
    exact hs

theorem createEmptyGrid_wellFormed : WellFormed Board.createEmptyGrid := by decide

theorem createEmptyGrid_buffer : Board.isGameOver Board.createEmptyGrid = false := by decide

theorem reachable_bufferInv (K : Constants) (s : Game) (h : Reachable K s) :
    Game.BufferInv s := by
  apply reachable_invariant K Game.BufferInv _ _ (bufferInv_respects K) s h
  · intro t0 t1 t2 t3
    exact ⟨createEmptyGrid_wellFormed, fun _ => createEmptyGrid_buffer⟩
  · intro t0 t1 t2 t3 perfNow s
    exact ⟨createEmptyGrid_wellFormed, fun _ => createEmptyGrid_buffer⟩

theorem lockPiece_buffer_gameover (K : Constants) (now : Int) (newType : PieceType)
    (s t : Game) (h : Game.lockPiece K now newType s = some t)
    (hover : s.currentPiece.y < 0 ∨ Board.isGameOver (Game.lockedGrid s) = true) :
    t.gameState = GameState.gameover := by
  unfold Game.lockPiece at h
  split at h
  · cases h; exact gameOver_gameState s
  · rename_i hy
    simp only at h
    rcases hover with hneg | hover
    · exact absurd hneg hy
    · rw [if_pos hover] at h
      cases h
      exact gameOver_gameState _

/-- C33: in every state that a run reaches from `Game.init` or `Game.restart`
through key presses, frames, pause toggles and writes to the AI object, the
grid has its 20 rows of 10 cells and, unless the phase is `gameover` (so in
every playing state), every cell of the rows 0 and 1 is empty; a lock of the
current piece that leaves a filled cell in those rows, or whose origin row is
negative, returns a state whose phase is `gameover`; and the line clear of
`Board.clearFullLines` on a grid with empty buffer rows leaves the buffer rows
empty. -/
theorem buffer_rows_invariant (K : Constants) (s : Game) (h : Reachable K s) :
    WellFormed s.grid ∧
    (s.gameState ≠ GameState.gameover →
      Board.isGameOver s.grid = false ∧ ∀ x, s.grid.cell 0 x = 0 ∧ s.grid.cell 1 x = 0) ∧
    (∀ now newType t, Game.lockPiece K now newType s = some t →
      (s.currentPiece.y < 0 ∨ Board.isGameOver (Game.lockedGrid s) = true) →
      t.gameState = GameState.gameover) ∧
    (∀ g, WellFormed g → Board.isGameOver g = false →
      Board.isGameOver (Board.clearFullLines g).2 = false ∧
        ∀ x, (Board.clearFullLines g).2.cell 0 x = 0 ∧ (Board.clearFullLines g).2.cell 1 x = 0) := by
  have hinv := reachable_bufferInv K s h
  refine ⟨hinv.1, ?_, ?_, ?_⟩
  · intro hne
    exact ⟨hinv.2 hne, buffer_cells _ (hinv.2 hne)⟩
  · intro now newType t hlock hover
    exact lockPiece_buffer_gameover K now newType s t hlock hover
  · intro g hg hb
    have := (clearFullLines_buffer g hg hb).2
    exact ⟨this, buffer_cells _ this⟩

theorem buffer_rows_invariant_witness :
    Reachable sampleConstants freshGame ∧ WellFormed freshGame.grid ∧
    (freshGame.gameState ≠ GameState.gameover →
      Board.isGameOver freshGame.grid = false ∧
        ∀ x, freshGame.grid.cell 0 x = 0 ∧ freshGame.grid.cell 1 x = 0) :=
  ⟨reachable_fresh, (buffer_rows_invariant sampleConstants freshGame reachable_fresh).1,
    (buffer_rows_invariant sampleConstants freshGame reachable_fresh).2.1⟩

/-! ## Theorems: the level -/

theorem updateScore_levelInv (K : Constants) (s : Game) (linesCleared : Nat) (wasTSpin : Bool)
    (hs : Game.LevelInv K s) :
    Game.LevelInv K (Game.updateScore K s linesCleared wasTSpin) ∧
      s.lines ≤ (Game.updateScore K s linesCleared wasTSpin).lines ∧
      s.level ≤ (Game.updateScore K s linesCleared wasTSpin).level ∧
      s.score ≤ (Game.updateScore K s linesCleared wasTSpin).score := by
  obtain ⟨h1, h2, h3⟩ := hs
  unfold Game.updateScore
  simp only
  split
  · rename_i hcond
    refine ⟨⟨?_, ?_, ?_⟩, ?_, ?_, ?_⟩
    · show 1 ≤ (s.lines + linesCleared) / 10 + 1
      omega
    · show (s.lines + linesCleared) / 10 + 1 ≤ (s.lines + linesCleared) / 10 + 1
      exact le_refl _
    · show K.LEVEL_SPEEDS[(s.lines + linesCleared) / 10 + 1 - 1]? =
        some (K.LEVEL_SPEEDS.getD ((s.lines + linesCleared) / 10 + 1 - 1) 0)
      have hlt : (s.lines + linesCleared) / 10 + 1 - 1 < K.LEVEL_SPEEDS.length := by omega
      rw [List.getElem?_eq_getElem hlt, List.getD_eq_getElem _ _ hlt]
    · show s.lines ≤ s.lines + linesCleared
      omega
    · show s.level ≤ (s.lines + linesCleared) / 10 + 1
      omega
    · show s.score ≤ s.score + _
      omega
  · refine ⟨⟨h1, ?_, h3⟩, ?_, le_refl _, ?_⟩
    · show s.level ≤ (s.lines + linesCleared) / 10 + 1
      omega
    · show s.lines ≤ s.lines + linesCleared
      omega
    · show s.score ≤ s.score + _
      omega

theorem clearAndScore_levelInv (K : Constants) (now : Int) (s : Game)
    (hs : Game.LevelInv K s) :
    Game.LevelInv K (Game.clearAndScore K now s) ∧
      s.lines ≤ (Game.clearAndScore K now s).lines ∧
      s.level ≤ (Game.clearAndScore K now s).level ∧
      s.score ≤ (Game.clearAndScore K now s).score := by
  unfold Game.clearAndScore
  simp only
  split
  · have h := updateScore_levelInv K { s with grid := (Board.clearFullLines s.grid).2 }
      (Board.clearFullLines s.grid).1
      (Game.isTSpin { s with grid := (Board.clearFullLines s.grid).2 }) hs
    unfold Game.updateCombo
    split <;> exact h
  · exact ⟨hs, le_refl _, le_refl _, le_refl _⟩

theorem levelInv_of_fields (K : Constants) (s t : Game) (hs : Game.LevelInv K s)
    (hlines : t.lines = s.lines) (hlevel : t.level = s.level)
    (hdrop : t.dropInterval = s.dropInterval) : Game.LevelInv K t := by
  unfold Game.LevelInv at hs ⊢
  rw [hlines, hlevel, hdrop]
  exact hs

theorem lockPiece_levelInv (K : Constants) (now : Int) (newType : PieceType) (s t : Game)
    (h : Game.lockPiece K now newType s = some t) (hs : Game.LevelInv K s) :
    Game.LevelInv K t ∧ s.lines ≤ t.lines ∧ s.level ≤ t.level ∧ s.score ≤ t.score := by
  have hover : ∀ u : Game, u.lines = s.lines → u.level = s.level → u.score = s.score →
      u.dropInterval = s.dropInterval →
      Game.LevelInv K (Game.gameOver u) ∧ s.lines ≤ (Game.gameOver u).lines ∧
        s.level ≤ (Game.gameOver u).level ∧ s.score ≤ (Game.gameOver u).score := by
    intro u h1 h2 h3 h4
    obtain ⟨_, _, g3, g4, g5, _⟩ := gameOver_fields u
    have g6 : (Game.gameOver u).dropInterval = u.dropInterval := by
      unfold Game.gameOver
      split <;> rfl
    refine ⟨levelInv_of_fields K s _ hs (g4.trans h1) (g5.trans h2) (g6.trans h4), ?_, ?_, ?_⟩
    · rw [g4, h1]
    · rw [g5, h2]
    · rw [g3, h3]
  unfold Game.lockPiece at h
  split at h
  · cases h
    exact hover s rfl rfl rfl rfl
  · simp only at h
    split at h
    · cases h
      exact hover _ rfl rfl rfl rfl
    · obtain ⟨_, _, hl, hv, hsc, hd⟩ := spawnNext_grid K newType _ t h
      have hc := clearAndScore_levelInv K now
        { s with
          grid := Game.lockedGrid s
          pieceCount := s.pieceCount + 1
          canHold := true } hs
      refine ⟨levelInv_of_fields K _ t hc.1 hl hv hd, ?_, ?_, ?_⟩
      · rw [hl]; exact hc.2.1
      · rw [hv]; exact hc.2.2.1
      · rw [hsc]; exact hc.2.2.2

theorem levelInv_respects (K : Constants) :
    Game.Respects K fun s t =>
      Game.LevelInv K s →
        Game.LevelInv K t ∧ s.lines ≤ t.lines ∧ s.level ≤ t.level ∧ s.score ≤ t.score where
  trans := by
    intro s t u h1 h2 hs
    obtain ⟨a1, a2, a3, a4⟩ := h1 hs
    obtain ⟨b1, b2, b3, b4⟩ := h2 a1
    exact ⟨b1, le_trans a2 b2, le_trans a3 b3, le_trans a4 b4⟩
  frame := by
    intro s t hf hs
    obtain ⟨_, _, hl, hv, hd, hsc, _⟩ := hf
    exact ⟨levelInv_of_fields K s t hs hl hv hd, by rw [hl], by rw [hv], hsc⟩
  lock := fun now newType s t h hs => lockPiece_levelInv K now newType s t h hs
  hold := by
    intro newType s t h hs
    obtain ⟨_, _, hl, hv, hsc, hd⟩ := holdCurrentPiece_keeps K newType s t h
    exact ⟨levelInv_of_fields K s t hs hl hv hd, by rw [hl], by rw [hv], by rw [hsc]⟩

theorem reachable_levelInv (K : Constants) (hK : K.LEVEL_SPEEDS ≠ []) (s : Game)
    (h : Reachable K s) : Game.LevelInv K s := by
  have hfirst : K.LEVEL_SPEEDS[1 - 1]? = some (K.LEVEL_SPEEDS.getD 0 0) := by
    cases hl : K.LEVEL_SPEEDS with
    | nil => exact absurd hl hK
    | cons a rest => simp
  have hQ : Game.Respects K fun s t => Game.LevelInv K s → Game.LevelInv K t :=
    { trans := fun _ _ _ h1 h2 hs => h2 (h1 hs)
      frame := fun s t hf hs => ((levelInv_respects K).frame s t hf hs).1
      lock := fun now newType s t h hs => ((levelInv_respects K).lock now newType s t h hs).1
      hold := fun newType s t h hs => ((levelInv_respects K).hold newType s t h hs).1 }
  apply reachable_invariant K (Game.LevelInv K) _ _ hQ s h
  · intro t0 t1 t2 t3
    exact ⟨le_refl _, by show 1 ≤ 0 / 10 + 1; omega, hfirst⟩
  · intro t0 t1 t2 t3 perfNow s
    exact ⟨le_refl _, by show 1 ≤ 0 / 10 + 1; omega, hfirst⟩

/-- C38: with a speed table of at least one entry, every state that a run
reaches from `Game.init` or `Game.restart` has `1 ≤ level ≤ floor(lines / 10) + 1`,
`level - 1` is an index of the speed table and `dropInterval` is its entry
`level - 1`; and whatever comes next other than a restart (a key press, a
frame, a pause toggle or a write to the AI object) lowers neither `lines` nor
`level` nor `score`. -/
theorem level_invariant (K : Constants) (hK : K.LEVEL_SPEEDS ≠ []) (s : Game)
    (h : Reachable K s) :
    (1 ≤ s.level ∧ s.level ≤ s.lines / 10 + 1 ∧ s.level - 1 < K.LEVEL_SPEEDS.length ∧
      K.LEVEL_SPEEDS[s.level - 1]? = some s.dropInterval) ∧
    (∀ t, Game.Next K s t → s.lines ≤ t.lines ∧ s.level ≤ t.level ∧ s.score ≤ t.score) := by
  have hinv := reachable_levelInv K hK s h
  refine ⟨⟨hinv.1, hinv.2.1, ?_, hinv.2.2⟩, ?_⟩
  · by_contra hlt
    have := List.getElem?_eq_none (l := K.LEVEL_SPEEDS) (n := s.level - 1) (by omega)
    rw [hinv.2.2] at this
    cases this
  · intro t hnext
    exact (next_respects K _ (levelInv_respects K) s t hnext hinv).2

theorem level_invariant_witness :
    sampleConstants.LEVEL_SPEEDS ≠ [] ∧ Reachable sampleConstants freshGame ∧
    (1 ≤ freshGame.level ∧ freshGame.level ≤ freshGame.lines / 10 + 1 ∧
      freshGame.level - 1 < sampleConstants.LEVEL_SPEEDS.length ∧
      sampleConstants.LEVEL_SPEEDS[freshGame.level - 1]? = some freshGame.dropInterval) :=
  ⟨by decide, reachable_fresh,
    (level_invariant sampleConstants (by decide) freshGame reachable_fresh).1⟩

/-! ## Theorems: the spawn check of a lock -/

theorem spawnNext_queue (K : Constants) (newType : PieceType) (s t : Game) (p : Piece)
    (rest : List Piece) (hq : s.nextPieces = p :: rest)
    (h : Game.spawnNext K newType s = some t) :
    t.nextPieces = rest ++ [Piece.create K newType] ∧ t.currentPiece = p := by
  rw [spawnNext_eq K newType s p rest hq] at h
  simp only [Option.some.injEq] at h
  split at h
  · subst h
    exact ⟨rfl, rfl⟩
  · subst h
    obtain ⟨_, _, _, _, _, _, h7, h8, _⟩ := gameOver_fields
      { s with currentPiece := p, nextPieces := rest ++ [Piece.create K newType] }
    exact ⟨h8, h7⟩

theorem queueFresh_append (K : Constants) (p : Piece) (rest : List Piece)
    (newType : PieceType) (h : ∀ q ∈ p :: rest, ∃ type, q = Piece.create K type) :
    ∀ q ∈ rest ++ [Piece.create K newType], ∃ type, q = Piece.create K type := by
  intro q hq
  rcases List.mem_append.1 hq with h1 | h1
  · exact h q (List.mem_cons_of_mem _ h1)
  · rw [List.mem_singleton] at h1
    exact ⟨newType, h1⟩

theorem queueFresh_respects (K : Constants) :
    Game.Respects K fun s t => Game.QueueFresh K s → Game.QueueFresh K t where
  trans := fun _ _ _ h1 h2 h => h2 (h1 h)
  frame := by
    intro s t hf hs
    unfold Game.QueueFresh
    rw [hf.2.1]
    exact hs
  lock := by
    intro now newType s t h hs
    unfold Game.lockPiece at h
    split at h
    · cases h
      unfold Game.QueueFresh
      rw [(gameOver_fields s).2.2.2.2.2.2.2.1]
      exact hs
    · simp only at h
      split at h
      · cases h
        unfold Game.QueueFresh
        rw [(gameOver_fields _).2.2.2.2.2.2.2.1]
        exact hs
      · cases hq : s.nextPieces with
        | nil =>
          unfold Game.spawnNext at h
          rw [clearAndScore_nextPieces] at h
          simp only [hq] at h
          cases h
        | cons p rest =>
          have h2 := spawnNext_queue K newType _ t p rest
            (by rw [clearAndScore_nextPieces]; exact hq) h
          unfold Game.QueueFresh at hs ⊢
          rw [h2.1]
          rw [hq] at hs
          exact queueFresh_append K p rest newType hs
  hold := by
    intro newType s t h hs
    unfold Game.holdCurrentPiece at h
    split at h
    · cases h; exact hs
    · cases hh : s.holdPiece with
      | none =>
        cases hq : s.nextPieces with
        | nil => simp [hh, hq] at h
        | cons p rest =>
          simp only [hh, hq, Option.map_some', Option.some.injEq] at h
          subst h
          unfold Game.QueueFresh at hs ⊢
          rw [hq] at hs
          exact queueFresh_append K p rest newType hs
      | some held =>
        simp only [hh, Option.map_some', Option.some.injEq] at h
        subst h
        exact hs

theorem reachable_queueFresh (K : Constants) (s : Game) (h : Reachable K s) :
    Game.QueueFresh K s := by
  apply reachable_invariant K (Game.QueueFresh K) _ _ (queueFresh_respects K) s h
  · intro t0 t1 t2 t3 p hp
    simp only [Game.initialFields, List.mem_cons, List.mem_singleton, List.not_mem_nil,
      or_false] at hp
    rcases hp with rfl | rfl | rfl
    · exact ⟨t1, rfl⟩
    · exact ⟨t2, rfl⟩
    · exact ⟨t3, rfl⟩
  · intro t0 t1 t2 t3 perfNow s p hp
    simp only [Game.restartFields, List.mem_cons, List.mem_singleton, List.not_mem_nil,
      or_false] at hp
    rcases hp with rfl | rfl | rfl
    · exact ⟨t1, rfl⟩
    · exact ⟨t2, rfl⟩
    · exact ⟨t3, rfl⟩

theorem mem_allPieceTypes (type : PieceType) : type ∈ allPieceTypes := by
  cases type <;> simp [allPieceTypes]

theorem spawn_valid (K : Constants) (hK : K.spawnFits = true) (type : PieceType) (g : Grid)
    (hg : Board.isGameOver g = false) :
    Board.isValidPosition g (Piece.create K type).getCurrentShape (Piece.create K type).x
      (Piece.create K type).y = true := by
  unfold Constants.spawnFits at hK
  rw [List.all_eq_true] at hK
  have h1 := hK type (mem_allPieceTypes type)
  simp only [List.all_eq_true] at h1
  unfold Board.isValidPosition
  simp only [List.all_eq_true]
  intro r hr c hc
  have h2 := h1 r hr c hc
  cases hocc : (Piece.create K type).getCurrentShape.occupied r c
  · rfl
  · rw [hocc] at h2
    simp only [Bool.not_true, Bool.false_or, Bool.and_eq_true, decide_eq_true_eq] at h2
    obtain ⟨⟨hr2, hx0⟩, hx1⟩ := h2
    have hy0 : (Piece.create K type).y = 0 := rfl
    have hcells := buffer_cells g hg ((Piece.create K type).x + c).toNat
    have hcell : g.cell ((Piece.create K type).y + (r : Int)).toNat
        ((Piece.create K type).x + c).toNat = 0 := by
      rw [hy0]
      have : ((0 : Int) + (r : Int)).toNat = r := by omega
      rw [this]
      rcases (show r = 0 ∨ r = 1 by omega) with rfl | rfl
      · exact hcells.1
      · exact hcells.2
    simp only [Board.collides, Bool.true_and, Bool.not_eq_true', Bool.or_eq_false_iff,
      Bool.and_eq_false_imp, decide_eq_true_eq, decide_eq_false_iff_not, not_lt, not_le, ne_eq,
      not_not]
    refine ⟨⟨⟨hx0, hx1⟩, ?_⟩, fun _ => hcell⟩
    rw [hy0]
    simp only [BOARD_HEIGHT]
    omega

/-- C40: let every kind's rotation-0 shape have its occupied cells in the
matrix rows 0 and 1 and, at the spawn column, inside the columns
`0 .. BOARD_WIDTH - 1`.  Then in every state a run reaches, `Game.lockPiece`
returns a state, and when the origin row of the current piece is not negative
and no buffer row is occupied once the piece is committed, the state returned
has the phase it had, and its current piece is the dequeued piece as
`new Piece(type)` built it, at a valid position: the spawn check does not end
the game.  So a lock moves the phase to `gameover` only by the negative-origin
check or the buffer-row check. -/
theorem spawn_check_passes (K : Constants) (hK : K.spawnFits = true) (s : Game)
    (hs : Reachable K s) (now : Int) (newType : PieceType) :
    ∃ t, Game.lockPiece K now newType s = some t ∧
      (0 ≤ s.currentPiece.y → Board.isGameOver (Game.lockedGrid s) = false →
        t.gameState = s.gameState ∧ s.nextPieces.head? = some t.currentPiece ∧
          (∃ type, t.currentPiece = Piece.create K type) ∧
          Board.isValidPosition t.grid t.currentPiece.getCurrentShape t.currentPiece.x
            t.currentPiece.y = true) ∧
      (t.gameState = GameState.gameover →
        s.gameState = GameState.gameover ∨ s.currentPiece.y < 0 ∨
          Board.isGameOver (Game.lockedGrid s) = true) := by
  have hlen := reachable_queue K s hs
  have hfresh := reachable_queueFresh K s hs
  have hinv := reachable_bufferInv K s hs
  obtain ⟨p, rest, hq⟩ : ∃ p rest, s.nextPieces = p :: rest := by
    cases hq : s.nextPieces with
    | nil => rw [hq] at hlen; cases hlen
    | cons p rest => exact ⟨p, rest, rfl⟩
  obtain ⟨type, hp⟩ := hfresh p (by rw [hq]; exact List.mem_cons_self _ _)
  unfold Game.lockPiece
  by_cases hy : s.currentPiece.y < 0
  · rw [if_pos hy]
    exact ⟨_, rfl, fun h0 => absurd hy (by omega), fun _ => Or.inr (Or.inl hy)⟩
  · rw [if_neg hy]
    simp only
    by_cases hover : Board.isGameOver (Game.lockedGrid s) = true
    · rw [if_pos hover]
      refine ⟨_, rfl, fun _ h0 => ?_, fun _ => Or.inr (Or.inr hover)⟩
      rw [hover] at h0
      cases h0
    · rw [if_neg hover]
      have hover2 : Board.isGameOver (Game.lockedGrid s) = false := by simpa using hover
      have hwf : WellFormed (Game.lockedGrid s) := lockedGrid_wellFormed _ hinv.1 _ _ _ _
      have hbuf := (clearFullLines_buffer _ hwf hover2).2
      have hvalid := spawn_valid K hK type _ hbuf
      rw [spawnNext_eq K newType
        (Game.clearAndScore K now
          { s with
            grid := Game.lockedGrid s
            pieceCount := s.pieceCount + 1
            canHold := true }) p rest (by rw [clearAndScore_nextPieces]; exact hq)]
      rw [clearAndScore_grid, hp, if_pos hvalid]
      refine ⟨_, rfl, fun _ _ => ⟨?_, ?_, ⟨type, rfl⟩, ?_⟩, ?_⟩
      · simp only [clearAndScore_gameState]
      · rw [hq, hp]; rfl
      · simp only [clearAndScore_grid]
        exact hvalid
      · intro hgo
        simp only [clearAndScore_gameState] at hgo
        exact Or.inl hgo

theorem reachable_lowered : Reachable sampleConstants loweredGame :=
  Reachable.key ⟨0, 0, PieceType.T⟩ Key.ArrowDown _ _
    (Reachable.key ⟨0, 0, PieceType.T⟩ Key.ArrowDown _ _ reachable_fresh rfl) rfl

set_option maxRecDepth 100000 in
theorem spawn_check_passes_witness :
    sampleConstants.spawnFits = true ∧ Reachable sampleConstants loweredGame ∧
    ∃ t, Game.lockPiece sampleConstants 0 PieceType.T loweredGame = some t ∧
      t.gameState = GameState.playing ∧
      Board.isValidPosition t.grid t.currentPiece.getCurrentShape t.currentPiece.x
        t.currentPiece.y = true :=
  ⟨by decide, reachable_lowered,
    (spawn_check_passes sampleConstants (by decide) loweredGame reachable_lowered 0
      PieceType.T).imp fun _ h => ⟨h.1, (h.2.1 (by decide) (by decide)).1,
        (h.2.1 (by decide) (by decide)).2.2.2⟩⟩

/-! ## Theorems: the position of the current piece after an action -/

theorem movePiece_pieceValid (s : Game) (dx dy : Int) (h : s.pieceValid = true) :
    (s.movePiece dx dy).1.pieceValid = true := by
  unfold Game.movePiece
  simp only
  split
  · unfold Game.pieceValid at h ⊢
    simp only [Piece.move, Piece.getCurrentShape] at h ⊢
    rw [show s.currentPiece.x + dx + -dx = s.currentPiece.x by omega,
      show s.currentPiece.y + dy + -dy = s.currentPiece.y by omega]
    exact h
  · rename_i hv
    simpa [Game.pieceValid] using hv

theorem kickLoop_result (grid : Grid) (piece : Piece) (kicks : List (Int × Int)) :
    ((Game.kickLoop grid piece kicks).2 = true →
      Board.isValidPosition grid (Game.kickLoop grid piece kicks).1.getCurrentShape
        (Game.kickLoop grid piece kicks).1.x (Game.kickLoop grid piece kicks).1.y = true) ∧
    ((Game.kickLoop grid piece kicks).2 = false →
      (Game.kickLoop grid piece kicks).1 = piece) := by
  induction kicks generalizing piece with
  | nil => exact ⟨fun h => (by cases h), fun _ => rfl⟩
  | cons k kicks ih =>
    obtain ⟨dx, dy⟩ := k
    simp only [Game.kickLoop]
    split
    · rename_i hv
      refine ⟨fun _ => hv, fun h => ?_⟩
      cases h
    · have hback : ({ piece with x := piece.x + dx - dx, y := piece.y + dy - dy } : Piece) =
          piece := by
        rw [show piece.x + dx - dx = piece.x by omega, show piece.y + dy - dy = piece.y by omega]
      rw [hback]
      exact ih piece

theorem rotatePiece_pieceValid (s : Game) (direction : Int) (h : s.pieceValid = true) :
    (s.rotatePiece direction).1.pieceValid = true := by
  unfold Game.rotatePiece
  simp only
  have hk := kickLoop_result s.grid (s.currentPiece.rotate direction)
    (Game.getWallKicks (s.currentPiece.rotate direction).type s.currentPiece.rotation
      (s.currentPiece.rotate direction).rotation)
  split
  · rename_i hok
    exact hk.1 hok
  · rename_i hok
    have hno := hk.2 (by simpa using hok)
    unfold Game.pieceValid at h ⊢
    simp only [hno]
    exact h

theorem holdCurrentPiece_first (K : Constants) (hK : K.spawnFits = true)
    (newType type : PieceType) (s : Game) (rest : List Piece) (hcan : s.canHold = true)
    (hheld : s.holdPiece = none) (hq : s.nextPieces = Piece.create K type :: rest)
    (hbuf : Board.isGameOver s.grid = false) :
    ∃ t, Game.holdCurrentPiece K newType s = some t ∧
      t.currentPiece = Piece.create K type ∧ t.pieceValid = true := by
  unfold Game.holdCurrentPiece
  simp only [hcan, hheld, hq, Bool.not_true, Bool.false_eq_true, ↓reduceIte, Option.map_some']
  refine ⟨_, rfl, rfl, ?_⟩
  exact spawn_valid K hK type s.grid hbuf

/-- C39: in the playing state `holdSwapGame` the current piece (the square at
its spawn position) is at a valid position and the grid rows 0 and 1 are empty,
yet after `Game.holdCurrentPiece` the current piece, the held I piece that kept
its rotation state 1, overlaps filled cells: its position is not valid, and the
call neither tests it nor ends the game.  The other parts hold: `movePiece` and
`rotatePiece` leave the current piece at a valid position whenever it was at
one, and so does the first hold, which dequeues a piece as `new Piece(type)`
built it, when the buffer rows are empty and the rotation-0 shapes lie in the
matrix rows 0 and 1. -/
theorem hold_swap_invalid :
    (holdSwapGame.gameState = GameState.playing ∧ holdSwapGame.pieceValid = true ∧
      Board.isGameOver holdSwapGame.grid = false ∧
      ∃ t, Game.holdCurrentPiece sampleConstants PieceType.T holdSwapGame = some t ∧
        t.currentPiece.rotation = 1 ∧ t.gameState = GameState.playing ∧
        t.grid = holdSwapGame.grid ∧ t.pieceValid = false) ∧
    (∀ (s : Game) (dx dy : Int), s.pieceValid = true → (s.movePiece dx dy).1.pieceValid = true) ∧
    (∀ (s : Game) (direction : Int), s.pieceValid = true →
      (s.rotatePiece direction).1.pieceValid = true) ∧
    (∀ (K : Constants) (newType type : PieceType) (s : Game) (rest : List Piece),
      K.spawnFits = true → s.canHold = true → s.holdPiece = none →
      s.nextPieces = Piece.create K type :: rest → Board.isGameOver s.grid = false →
      ∃ t, Game.holdCurrentPiece K newType s = some t ∧ t.pieceValid = true) := by
  refine ⟨⟨rfl, by decide, by decide, _, rfl, rfl, rfl, rfl, by decide⟩,
    movePiece_pieceValid, rotatePiece_pieceValid, ?_⟩
  intro K newType type s rest hK hcan hheld hq hbuf
  obtain ⟨t, ht, _, hv⟩ := holdCurrentPiece_first K hK newType type s rest hcan hheld hq hbuf
  exact ⟨t, ht, hv⟩

end Tetris
